import Mathlib

/-!
# Sliding-window bookkeeping of the keypoint VIO estimator

A shallow embedding of the index and frame bookkeeping of
`KeypointVioEstimator::optimize` and `KeypointVioEstimator::marginalize`
(`src/vi_estimator/keypoint_vio.cpp`), of the constructor and `initialize`,
of the trial loop of the optimizer, of the processing thread `proc_func`, of
`measure` with its association step, keyframe rule and triangulation step,
of the checkpoints of the landmark store (`landmark_database.h`), and of
`triangulate` and `linearizeAbs` (`ba_base.h`).

Conventions of the embedding:

* `std::map<int64_t, V>` is a key-sorted association list `List (Int × V)`,
  `std::set<int64_t>` a sorted list `List Int`; the operations below keep an
  input sorted, and the theorems assume sortedness of the maps they start from.
* `std::set<int>` of matrix indices is a `Finset Nat`.
* A failed `BASALT_ASSERT`, an uncaught `std::out_of_range` of `.at()`, and
  undefined behaviour (dereferencing `end()`, reading a vector out of bounds,
  integer division by zero) end the run with a `Fault`.
* Floating-point quantities that stay finite are rationals; `norm` and
  `sqrt` of the linear-algebra and math libraries are parameters, and so are
  the numerical routines that are outside the sources at hand (linearization,
  solver, camera models, pose algebra). Where a test asks whether a value is
  finite, a double is an `Option ℚ`. The total errors and the Hessian
  diagonal of the optimizer, and the two sides of the baseline test of
  `measure`, are doubles `Flt` (finite, infinite or NaN) compared as IEEE 754
  compares them; the rounded products, differences and squared norms the code
  forms of them are parameters as well.
-/

namespace Basalt

/-- Modelled from the spec: the constant `POSE_SIZE` is declared outside the
sources at hand; pose-only frames use a 6-parameter block. -/
def POSE_SIZE : Nat := 6

/-- Modelled from the spec: the constant `POSE_VEL_BIAS_SIZE` is declared
outside the sources at hand; a full state (pose, velocity, two biases) uses a
15-parameter block. -/
def POSE_VEL_BIAS_SIZE : Nat := 15

/-- Ways in which a run ends without returning. -/
inductive Fault where
  | assertion (line : Nat)   -- the BASALT_ASSERT at this source line failed
  | out_of_range   -- a map `.at()` threw
  | undefined      -- undefined behaviour
  | fuel           -- the loop did not finish within the given number of steps
  deriving DecidableEq, Repr

deriving instance DecidableEq for Except

/-! ## Ordered maps and sets -/

/-- Lookup `m.find(k)` / `m.at(k)`: the value stored under `k`, if any. -/
def mapFind {V : Type} (k : Int) : List (Int × V) → Option V
  | [] => none
  | e :: t => if e.1 = k then some e.2 else mapFind k t

/-- Assignment `m[k] = v` on a key-sorted list: overwrite or insert at the sorted place. -/
def mapSet {V : Type} (k : Int) (v : V) : List (Int × V) → List (Int × V)
  | [] => [(k, v)]
  | e :: t =>
    if k < e.1 then (k, v) :: e :: t
    else if k = e.1 then (k, v) :: t
    else e :: mapSet k v t

/-- Removal `m.erase(k)`. -/
def mapErase {V : Type} (k : Int) (m : List (Int × V)) : List (Int × V) :=
  m.filter (fun e => decide (e.1 ≠ k))

/-- The keys of a map, in iteration order. -/
def mapKeys {V : Type} (m : List (Int × V)) : List Int := m.map Prod.fst

/-- Checked lookup `m.at(k)`, throwing `std::out_of_range` when the key is absent. -/
def mapAt {V : Type} (k : Int) (m : List (Int × V)) : Except Fault V :=
  match mapFind k m with
  | some v => .ok v
  | none => .error .out_of_range

/-- Insertion `s.emplace(k)` on a sorted list without duplicates. -/
def setEmplace (k : Int) : List Int → List Int
  | [] => [k]
  | x :: t =>
    if k < x then k :: x :: t
    else if k = x then x :: t
    else x :: setEmplace k t

/-- Removal `s.erase(k)`. -/
def setErase (k : Int) (s : List Int) : List Int := s.filter (fun x => decide (x ≠ k))

/-- Membership count `s.count(k)`. -/
def setCount (k : Int) (s : List Int) : Nat := if k ∈ s then 1 else 0

/-! ## AbsOrderMap -/

/-- Modelled from the spec: the struct `AbsOrderMap` is declared outside the
sources at hand: a map from frame timestamp to (offset, block size), the
number of entries pushed and the total dimension, all starting empty. -/
structure AbsOrderMap where
  abs_order_map : List (Int × (Nat × Nat)) := []
  items : Nat := 0
  total_size : Nat := 0
  deriving DecidableEq, Repr

/-- The three statements every order loop runs for a frame `k` with block
size `sz`: `aom.abs_order_map[k] = (aom.total_size, sz); aom.total_size += sz;
aom.items++` (the check against `marg_order` sits between them). -/
def aomPush (k : Int) (sz : Nat) (aom : AbsOrderMap) : AbsOrderMap :=
  { abs_order_map := mapSet k (aom.total_size, sz) aom.abs_order_map
    items := aom.items + 1
    total_size := aom.total_size + sz }

/-- The check `BASALT_ASSERT(marg_order.abs_order_map.at(k) == aom.abs_order_map.at(k))`,
evaluated right after `aom.abs_order_map[k]` was written and before the
counters are advanced. -/
def orderAssert (line : Nat) (marg_order : AbsOrderMap) (k : Int)
    (entries : List (Int × (Nat × Nat))) : Except Fault Unit :=
  match mapAt k marg_order.abs_order_map, mapAt k entries with
  | .ok a, .ok b => if a = b then .ok () else .error (.assertion line)
  | .error f, _ => .error f
  | _, .error f => .error f

/-- The pose loop of `optimize` (lines 842-851): every pose-only frame gets a
`POSE_SIZE` block and is checked against `marg_order`. -/
def optimizePoseLoop (marg_order : AbsOrderMap) : List Int → AbsOrderMap → Except Fault AbsOrderMap
  | [], aom => .ok aom
  | k :: rest, aom =>
    match orderAssert 846 marg_order k
        (mapSet k (aom.total_size, POSE_SIZE) aom.abs_order_map) with
    | .ok _ => optimizePoseLoop marg_order rest (aomPush k POSE_SIZE aom)
    | .error f => .error f

/-- The state loop of `optimize` (lines 858-869): every full state gets a
`POSE_VEL_BIAS_SIZE` block; it is checked against `marg_order` only while
`aom.items < marg_order.abs_order_map.size()`. -/
def optimizeStateLoop (marg_order : AbsOrderMap) : List Int → AbsOrderMap → Except Fault AbsOrderMap
  | [], aom => .ok aom
  | k :: rest, aom =>
    if aom.items < marg_order.abs_order_map.length then
      match orderAssert 864 marg_order k
          (mapSet k (aom.total_size, POSE_VEL_BIAS_SIZE) aom.abs_order_map) with
      | .ok _ => optimizeStateLoop marg_order rest (aomPush k POSE_VEL_BIAS_SIZE aom)
      | .error f => .error f
    else optimizeStateLoop marg_order rest (aomPush k POSE_VEL_BIAS_SIZE aom)

/-- The AbsOrderMap built at the top of an `optimize` round from the keys of
`frame_poses` and `frame_states`. -/
def optimizeOrder (marg_order : AbsOrderMap) (poseKeys stateKeys : List Int) :
    Except Fault AbsOrderMap :=
  match optimizePoseLoop marg_order poseKeys {} with
  | .ok aom => optimizeStateLoop marg_order stateKeys aom
  | .error f => .error f

/-! ## Estimator state -/

/-- Translation part of a pose. -/
abbrev Vec3 := ℚ × ℚ × ℚ

/-- Difference of two translations. -/
def vsub (a b : Vec3) : Vec3 := (a.1 - b.1, a.2.1 - b.2.1, a.2.2 - b.2.2)

/-- The library functions the scoring heuristic calls: the Euclidean norm of
the linear-algebra library and `std::sqrt`. -/
structure MathFns where
  norm : Vec3 → ℚ
  sqrt : ℚ → ℚ

/-- Modelled from the spec: the class `PoseStateWithLin` is declared outside
the sources at hand; a pose-only frame, of which the bookkeeping reads the
`isLinearized()` flag and the translation of `getPose()`. -/
structure PoseStateWithLin where
  linearized : Bool
  translation : Vec3
  deriving DecidableEq, Repr

/-- Modelled from the spec: the class `PoseVelBiasStateWithLin` is declared
outside the sources at hand; a full state, of which the bookkeeping reads the
`isLinearized()` flag and the translation of `getState().T_w_i`. -/
structure PoseVelBiasStateWithLin where
  linearized : Bool
  translation : Vec3
  deriving DecidableEq, Repr

/-- Modelled from the spec: the constructor `PoseStateWithLin pose(state)` is
declared outside the sources at hand; a keyframe state degrades to a
pose-only frame that keeps its pose and its linearization flag. -/
def PoseStateWithLin.ofState (st : PoseVelBiasStateWithLin) : PoseStateWithLin :=
  { linearized := st.linearized, translation := st.translation }

/-- The members of `KeypointVioEstimator` that `optimize` and `marginalize`
use for their bookkeeping. `frame_states` and `frame_poses` are the maps of
`ba_base.h`; the other members are declared in a header outside the sources
at hand and typed by their use: `max_states` and `max_kfs` are compared with
`size()`, `kf_ids` is a set of timestamps, `num_points_kf` stores the `int`
counter `num_points_added` per keyframe (line 424), `out_marg_queue` is
whether that queue is set. `imu_meas` and `prev_opt_flow_res` are kept as
key sets, `marg_H` as its number of columns. -/
structure Estimator where
  opt_started : Bool
  max_states : Nat
  max_kfs : Nat
  out_marg_queue : Bool
  last_state_t_ns : Int
  frame_states : List (Int × PoseVelBiasStateWithLin)
  frame_poses : List (Int × PoseStateWithLin)
  kf_ids : List Int
  num_points_kf : List (Int × Int)
  imu_meas : List Int
  prev_opt_flow_res : List Int
  marg_order : AbsOrderMap
  marg_H_cols : Nat
  deriving DecidableEq, Repr

/-- The order of the initial prior (lines 104-106 and 163-166): the first
full state, at offset 0. -/
def initMargOrder (t_ns : Int) : AbsOrderMap :=
  { abs_order_map := mapSet t_ns (0, POSE_VEL_BIAS_SIZE) []
    total_size := POSE_VEL_BIAS_SIZE
    items := 1 }

/-! ## marginalize: which states leave the window (lines 484-494) -/

/-- Conversion of a `size_t` value to `int`. -/
def toInt32 (x : Nat) : Int :=
  if x % 2 ^ 32 < 2 ^ 31 then ((x % 2 ^ 32 : Nat) : Int) else ((x % 2 ^ 32 : Nat) : Int) - 2 ^ 32

/-- The statement `const int states_to_remove = frame_states.size() - max_states + 1;`
in `size_t` arithmetic. -/
def statesToRemove (n max_states : Nat) : Int :=
  toInt32 ((n + 2 ^ 64 - max_states % 2 ^ 64 + 1) % 2 ^ 64)

/-- The iterator `it = frame_states.cbegin()` advanced `states_to_remove` times, then
`it->first`; stepping to or past `end()` is undefined. -/
def lastStateToMarg (stateKeys : List Int) (states_to_remove : Int) : Except Fault Int :=
  match stateKeys[states_to_remove.toNat]? with
  | some k => .ok k
  | none => .error .undefined

/-! ## marginalize: the order map of the round (lines 497-544) -/

/-- The pose loop (lines 503-514): block of `POSE_SIZE` per pose-only frame;
frames that are not keyframes go to `poses_to_marg`. The accumulator is
`(aom, poses_to_marg)`. -/
def margPoseLoop (marg_order : AbsOrderMap) (kf_ids : List Int) :
    List Int → AbsOrderMap × List Int → Except Fault (AbsOrderMap × List Int)
  | [], acc => .ok acc
  | k :: rest, acc =>
    match orderAssert 509 marg_order k
        (mapSet k (acc.1.total_size, POSE_SIZE) acc.1.abs_order_map) with
    | .ok _ =>
      margPoseLoop marg_order kf_ids rest
        (aomPush k POSE_SIZE acc.1,
         if setCount k kf_ids = 0 then setEmplace k acc.2 else acc.2)
    | .error f => .error f

/-- What the state loop accumulates. -/
structure StateSplit where
  aom : AbsOrderMap
  states_to_marg_vel_bias : List Int
  states_to_marg_all : List Int
  deriving DecidableEq, Repr

/-- The state loop (lines 522-544): it stops at the first state newer than
`last_state_to_marg`; older states are split by keyframe membership; every
visited state gets a `POSE_VEL_BIAS_SIZE` block. -/
def margStateLoop (marg_order : AbsOrderMap) (kf_ids : List Int) (last_state_to_marg : Int) :
    List Int → StateSplit → Except Fault StateSplit
  | [], acc => .ok acc
  | k :: rest, acc =>
    if k > last_state_to_marg then .ok acc
    else
      let vb := if k ≠ last_state_to_marg ∧ setCount k kf_ids > 0
        then setEmplace k acc.states_to_marg_vel_bias else acc.states_to_marg_vel_bias
      let all := if k ≠ last_state_to_marg ∧ ¬ setCount k kf_ids > 0
        then setEmplace k acc.states_to_marg_all else acc.states_to_marg_all
      let next : StateSplit :=
        { aom := aomPush k POSE_VEL_BIAS_SIZE acc.aom
          states_to_marg_vel_bias := vb
          states_to_marg_all := all }
      if acc.aom.items < marg_order.abs_order_map.length then
        match orderAssert 539 marg_order k
            (mapSet k (acc.aom.total_size, POSE_VEL_BIAS_SIZE) acc.aom.abs_order_map) with
        | .ok _ => margStateLoop marg_order kf_ids last_state_to_marg rest next
        | .error f => .error f
      else margStateLoop marg_order kf_ids last_state_to_marg rest next

/-! ## marginalize: keyframe selection (lines 546-617) -/

/-- The loop bound `ids.size() - 2` in `size_t` arithmetic. -/
def candBound (n : Nat) : Nat := (n + 2 ^ 64 - 2) % 2 ^ 64

/-- The test of the first stage (lines 564-566) for keyframe `id`:
`num_points_connected.count(id) == 0 ||
 (num_points_connected.at(id) / num_points_kf.at(id) < 0.05)`.
Both maps hold `int`, so the quotient is the truncating integer division. -/
def stage1Test (num_points_connected num_points_kf : List (Int × Int)) (id : Int) :
    Except Fault Bool :=
  match mapFind id num_points_connected with
  | none => .ok true
  | some c =>
    match mapFind id num_points_kf with
    | none => .error .out_of_range
    | some h =>
      if h = 0 then .error .undefined
      else .ok (decide (((Int.tdiv c h : Int) : ℚ) < 0.05))

/-- The first-stage loop (lines 563-570) over `ids[0 .. bound)`: the first id
passing the test, or the initial `-1`. Reading `ids` past its end is undefined. -/
def stage1Loop (num_points_connected num_points_kf : List (Int × Int)) :
    List Int → Nat → Except Fault Int
  | [], bound => if bound = 0 then .ok (-1) else .error .undefined
  | id :: rest, bound =>
    if bound = 0 then .ok (-1)
    else
      match stage1Test num_points_connected num_points_kf id with
      | .ok true => .ok id
      | .ok false => stage1Loop num_points_connected num_points_kf rest (bound - 1)
      | .error f => .error f

/-- The constant `std::numeric_limits<double>::max()`. -/
def DBL_MAX : ℚ := 2 ^ 1024 - 2 ^ 971

/-- The inner loop (lines 588-593): `denom += 1 / (norm(p_i - p_j) + 1e-5)`
for `j` in `[0, bound)`; `j = i` is not skipped. -/
def denomLoop (F : MathFns) (frame_poses : List (Int × PoseStateWithLin)) (id_i : Int) :
    List Int → Nat → ℚ → Except Fault ℚ
  | [], bound, denom => if bound = 0 then .ok denom else .error .undefined
  | id_j :: rest, bound, denom =>
    if bound = 0 then .ok denom
    else
      match mapAt id_i frame_poses, mapAt id_j frame_poses with
      | .ok pi, .ok pj =>
        denomLoop F frame_poses id_i rest (bound - 1)
          (denom + 1 / (F.norm (vsub pi.translation pj.translation) + 1e-5))
      | .error f, _ => .error f
      | _, .error f => .error f

/-- The outer loop of the second stage (lines 586-606); the accumulator is
`(min_score, min_score_id)`. -/
def scoreLoop (F : MathFns) (frame_poses : List (Int × PoseStateWithLin))
    (frame_states : List (Int × PoseVelBiasStateWithLin)) (last_kf : Int)
    (ids : List Int) (bound : Nat) : List Int → Nat → ℚ × Int → Except Fault (ℚ × Int)
  | [], n, acc => if n = 0 then .ok acc else .error .undefined
  | id_i :: rest, n, acc =>
    if n = 0 then .ok acc
    else
      match denomLoop F frame_poses id_i ids bound 0 with
      | .error f => .error f
      | .ok denom =>
        match mapAt id_i frame_poses, mapAt last_kf frame_states with
        | .ok pi, .ok sl =>
          let score := F.sqrt (F.norm (vsub pi.translation sl.translation)) * denom
          if score < acc.1 then
            scoreLoop F frame_poses frame_states last_kf ids bound rest (n - 1) (score, id_i)
          else scoreLoop F frame_poses frame_states last_kf ids bound rest (n - 1) acc
        | .error f, _ => .error f
        | _, .error f => .error f

/-- The second stage (lines 573-609): `min_score_id`, which stays `-1` when no
score is below `DBL_MAX`. -/
def stage2 (F : MathFns) (frame_poses : List (Int × PoseStateWithLin))
    (frame_states : List (Int × PoseVelBiasStateWithLin)) (kf_ids : List Int) :
    Except Fault Int :=
  match kf_ids.getLast? with
  | none => .error .undefined
  | some last_kf =>
    match scoreLoop F frame_poses frame_states last_kf kf_ids (candBound kf_ids.length)
        kf_ids (candBound kf_ids.length) (DBL_MAX, -1) with
    | .ok r => .ok r.2
    | .error f => .error f

/-- One pass of the body of the `while` loop up to `id_to_marg`
(lines 553-609). -/
def selectKf (F : MathFns) (num_points_connected : List (Int × Int)) (s : Estimator)
    (kf_ids : List Int) : Except Fault Int :=
  match stage1Loop num_points_connected s.num_points_kf kf_ids (candBound kf_ids.length) with
  | .error f => .error f
  | .ok id_to_marg =>
    if id_to_marg < 0 then stage2 F s.frame_poses s.frame_states kf_ids
    else .ok id_to_marg

/-- What the selection loop changes. -/
structure KfSelection where
  kf_ids : List Int
  kfs_to_marg : List Int
  poses_to_marg : List Int
  deriving DecidableEq, Repr

/-- The loop `while (kf_ids.size() > max_kfs && !states_to_marg_vel_bias.empty())`
(lines 552-617), run for at most `fuel` passes. -/
def selectLoop (F : MathFns) (num_points_connected : List (Int × Int)) (s : Estimator)
    (states_to_marg_vel_bias : List Int) : Nat → KfSelection → Except Fault KfSelection
  | 0, sel =>
    if sel.kf_ids.length > s.max_kfs ∧ states_to_marg_vel_bias ≠ [] then .error .fuel
    else .ok sel
  | fuel + 1, sel =>
    if sel.kf_ids.length > s.max_kfs ∧ states_to_marg_vel_bias ≠ [] then
      match selectKf F num_points_connected s sel.kf_ids with
      | .error f => .error f
      | .ok id_to_marg =>
        selectLoop F num_points_connected s states_to_marg_vel_bias fuel
          { kf_ids := setErase id_to_marg sel.kf_ids
            kfs_to_marg := setEmplace id_to_marg sel.kfs_to_marg
            poses_to_marg := setEmplace id_to_marg sel.poses_to_marg }
    else .ok sel

/-! ## marginalize: index sets (lines 714-743) -/

/-- The loop `for (size_t i = lo; i < hi; i++) s.emplace(start_idx + i);` -/
def emplaceRange (start_idx lo hi : Nat) (s : Finset Nat) : Finset Nat :=
  (List.range' lo (hi - lo)).foldl (fun acc i => insert (start_idx + i) acc) s

/-- The loop over `aom.abs_order_map` that fills `idx_to_keep` and
`idx_to_marg`; the accumulator is `(idx_to_keep, idx_to_marg)`. -/
def idxLoop (poses_to_marg states_to_marg_all states_to_marg_vel_bias : List Int)
    (last_state_to_marg : Int) :
    List (Int × (Nat × Nat)) → Finset Nat × Finset Nat → Except Fault (Finset Nat × Finset Nat)
  | [], acc => .ok acc
  | kv :: rest, acc =>
    if kv.2.2 = POSE_SIZE then
      if setCount kv.1 poses_to_marg = 0 then
        idxLoop poses_to_marg states_to_marg_all states_to_marg_vel_bias last_state_to_marg rest
          (emplaceRange kv.2.1 0 POSE_SIZE acc.1, acc.2)
      else
        idxLoop poses_to_marg states_to_marg_all states_to_marg_vel_bias last_state_to_marg rest
          (acc.1, emplaceRange kv.2.1 0 POSE_SIZE acc.2)
    else if kv.2.2 ≠ POSE_VEL_BIAS_SIZE then .error (.assertion 726)
    else if setCount kv.1 states_to_marg_all > 0 then
      idxLoop poses_to_marg states_to_marg_all states_to_marg_vel_bias last_state_to_marg rest
        (acc.1, emplaceRange kv.2.1 0 POSE_VEL_BIAS_SIZE acc.2)
    else if setCount kv.1 states_to_marg_vel_bias > 0 then
      idxLoop poses_to_marg states_to_marg_all states_to_marg_vel_bias last_state_to_marg rest
        (emplaceRange kv.2.1 0 POSE_SIZE acc.1,
         emplaceRange kv.2.1 POSE_SIZE POSE_VEL_BIAS_SIZE acc.2)
    else if kv.1 ≠ last_state_to_marg then .error (.assertion 738)
    else
      idxLoop poses_to_marg states_to_marg_all states_to_marg_vel_bias last_state_to_marg rest
        (emplaceRange kv.2.1 0 POSE_VEL_BIAS_SIZE acc.1, acc.2)

/-! ## marginalize: the decisions of a round -/

/-- Everything a marginalization round decides before it changes the frame
maps. -/
structure MargPlan where
  last_state_to_marg : Int
  aom : AbsOrderMap
  states_to_marg_vel_bias : List Int
  states_to_marg_all : List Int
  kf_ids_all : List Int
  kf_ids : List Int
  kfs_to_marg : List Int
  poses_to_marg : List Int
  idx_to_keep : Finset Nat
  idx_to_marg : Finset Nat
  deriving DecidableEq

/-- The block `if (out_marg_queue && !kfs_to_marg.empty())` (lines 692-712):
it reads `prev_opt_flow_res.at(t)` for every `t` of `kfs_all`. -/
def margPayload (s : Estimator) (kfs_all kfs_to_marg : List Int) : Except Fault Unit :=
  if s.out_marg_queue = true ∧ kfs_to_marg ≠ [] then
    if ∀ t ∈ kfs_all, t ∈ s.prev_opt_flow_res then .ok () else .error .out_of_range
  else .ok ()

/-- Lines 488-743 of `marginalize`, for a state that entered the round. -/
def margPlan (F : MathFns) (num_points_connected : List (Int × Int)) (fuel : Nat)
    (s : Estimator) : Except Fault MargPlan :=
  match lastStateToMarg (mapKeys s.frame_states)
      (statesToRemove s.frame_states.length s.max_states) with
  | .error f => .error f
  | .ok last =>
    match margPoseLoop s.marg_order s.kf_ids (mapKeys s.frame_poses) ({}, []) with
    | .error f => .error f
    | .ok pl =>
      match margStateLoop s.marg_order s.kf_ids last (mapKeys s.frame_states)
          { aom := pl.1, states_to_marg_vel_bias := [], states_to_marg_all := [] } with
      | .error f => .error f
      | .ok sp =>
        match selectLoop F num_points_connected s sp.states_to_marg_vel_bias fuel
            { kf_ids := s.kf_ids, kfs_to_marg := [], poses_to_marg := pl.2 } with
        | .error f => .error f
        | .ok sel =>
          match margPayload s s.kf_ids sel.kfs_to_marg with
          | .error f => .error f
          | .ok _ =>
            match idxLoop sel.poses_to_marg sp.states_to_marg_all sp.states_to_marg_vel_bias
                last sp.aom.abs_order_map (∅, ∅) with
            | .error f => .error f
            | .ok idx =>
              .ok { last_state_to_marg := last
                    aom := sp.aom
                    states_to_marg_vel_bias := sp.states_to_marg_vel_bias
                    states_to_marg_all := sp.states_to_marg_all
                    kf_ids_all := s.kf_ids
                    kf_ids := sel.kf_ids
                    kfs_to_marg := sel.kfs_to_marg
                    poses_to_marg := sel.poses_to_marg
                    idx_to_keep := idx.1
                    idx_to_marg := idx.2 }

/-! ## marginalize: bookkeeping (lines 753-807) -/

/-- Modelled from the spec: `marginalizeHelper` is only declared in the
sources at hand; it returns the reduced system over the kept indices, so the
new `marg_H` has one column per element of `idx_to_keep`. -/
def marginalizeHelperCols (idx_to_keep _idx_to_marg : Finset Nat) : Nat := idx_to_keep.card

/-- In-place update of the value stored under `k`. -/
def mapModify {V : Type} (k : Int) (f : V → V) (m : List (Int × V)) : List (Int × V) :=
  m.map (fun e => if e.1 = k then (e.1, f e.2) else e)

/-- Lines 759-761: `frame_states.at(last_state_to_marg)` must not be
linearized yet and becomes linearized. -/
def setLastLinearized (last : Int) (frame_states : List (Int × PoseVelBiasStateWithLin)) :
    Except Fault (List (Int × PoseVelBiasStateWithLin)) :=
  match mapAt last frame_states with
  | .error f => .error f
  | .ok st =>
    if st.linearized = false then
      .ok (mapModify last (fun x => { x with linearized := true }) frame_states)
    else .error (.assertion 759)

/-- Lines 764-768: states removed entirely. The accumulator is
`(frame_states, imu_meas, prev_opt_flow_res)`. -/
def eraseStates (ids : List Int)
    (acc : List (Int × PoseVelBiasStateWithLin) × List Int × List Int) :
    List (Int × PoseVelBiasStateWithLin) × List Int × List Int :=
  ids.foldl (fun a id => (mapErase id a.1, setErase id a.2.1, setErase id a.2.2)) acc

/-- Lines 770-777: keyframe states demoted to pose-only frames. The
accumulator is `(frame_states, frame_poses, imu_meas)`. -/
def demoteStates :
    List Int →
    List (Int × PoseVelBiasStateWithLin) × List (Int × PoseStateWithLin) × List Int →
    Except Fault (List (Int × PoseVelBiasStateWithLin) × List (Int × PoseStateWithLin) × List Int)
  | [], acc => .ok acc
  | id :: rest, acc =>
    match mapAt id acc.1 with
    | .error f => .error f
    | .ok state =>
      demoteStates rest
        (mapErase id acc.1, mapSet id (PoseStateWithLin.ofState state) acc.2.1,
         setErase id acc.2.2)

/-- Lines 779-782: pose-only frames removed. The accumulator is
`(frame_poses, prev_opt_flow_res)`. -/
def erasePoses (ids : List Int) (acc : List (Int × PoseStateWithLin) × List Int) :
    List (Int × PoseStateWithLin) × List Int :=
  ids.foldl (fun a id => (mapErase id a.1, setErase id a.2)) acc

/-- Lines 786-801: the order of the new prior. -/
def margOrderNew (poseKeys : List Int) (last_state_to_marg : Int) : AbsOrderMap :=
  aomPush last_state_to_marg POSE_VEL_BIAS_SIZE
    (poseKeys.foldl (fun aom k => aomPush k POSE_SIZE aom) {})

/-- Lines 753-807 of `marginalize`: apply the plan of the round. -/
def margCommit (s : Estimator) (p : MargPlan) : Except Fault Estimator :=
  match setLastLinearized p.last_state_to_marg s.frame_states with
  | .error f => .error f
  | .ok fs0 =>
    match demoteStates p.states_to_marg_vel_bias
        ((eraseStates p.states_to_marg_all (fs0, s.imu_meas, s.prev_opt_flow_res)).1,
         s.frame_poses,
         (eraseStates p.states_to_marg_all (fs0, s.imu_meas, s.prev_opt_flow_res)).2.1) with
    | .error f => .error f
    | .ok d =>
      let ep := erasePoses p.poses_to_marg
        (d.2.1, (eraseStates p.states_to_marg_all (fs0, s.imu_meas, s.prev_opt_flow_res)).2.2)
      let marg_order_new := margOrderNew (mapKeys ep.1) p.last_state_to_marg
      if marginalizeHelperCols p.idx_to_keep p.idx_to_marg = marg_order_new.total_size then
        .ok { s with
              frame_states := d.1
              frame_poses := ep.1
              imu_meas := d.2.2
              prev_opt_flow_res := ep.2
              kf_ids := p.kf_ids
              marg_order := marg_order_new
              marg_H_cols := marginalizeHelperCols p.idx_to_keep p.idx_to_marg }
      else .error (.assertion 807)

/-- The maps `frame_states` and `frame_poses` as the bookkeeping of lines
759-782 leaves them, before the new order is built and the assertion of line
807 is evaluated. -/
def margFrames (s : Estimator) (p : MargPlan) :
    Except Fault (List (Int × PoseVelBiasStateWithLin) × List (Int × PoseStateWithLin)) :=
  match setLastLinearized p.last_state_to_marg s.frame_states with
  | .error f => .error f
  | .ok fs0 =>
    match demoteStates p.states_to_marg_vel_bias
        ((eraseStates p.states_to_marg_all (fs0, s.imu_meas, s.prev_opt_flow_res)).1,
         s.frame_poses,
         (eraseStates p.states_to_marg_all (fs0, s.imu_meas, s.prev_opt_flow_res)).2.1) with
    | .error f => .error f
    | .ok d =>
      let ep := erasePoses p.poses_to_marg
        (d.2.1, (eraseStates p.states_to_marg_all (fs0, s.imu_meas, s.prev_opt_flow_res)).2.2)
      .ok (d.1, ep.1)

/-- The method `KeypointVioEstimator::marginalize(num_points_connected)`; `fuel` bounds
the passes of the keyframe-selection loop. -/
def marginalize (F : MathFns) (num_points_connected : List (Int × Int)) (fuel : Nat)
    (s : Estimator) : Except Fault Estimator :=
  if s.opt_started = false then .ok s
  else if s.frame_poses.length > s.max_kfs ∨ s.frame_states.length ≥ s.max_states then
    match margPlan F num_points_connected fuel s with
    | .error f => .error f
    | .ok p => margCommit s p
  else .ok s

/-- Lines 435-441 of `measure`: the state pushed to `out_state_queue` after
`marginalize` is `frame_states.at(last_state_t_ns)`. -/
def publishState (s : Estimator) : Except Fault PoseVelBiasStateWithLin :=
  mapAt s.last_state_t_ns s.frame_states

/-! ## Vocabulary of the statements -/

/-- Frames in the order the order loops visit them, each with its block size:
the pose-only frames with `POSE_SIZE`, then the full states with
`POSE_VEL_BIAS_SIZE`. -/
def visitBlocks (poseKeys stateKeys : List Int) : List (Int × Nat) :=
  poseKeys.map (fun k => (k, POSE_SIZE)) ++ stateKeys.map (fun k => (k, POSE_VEL_BIAS_SIZE))

/-- The entries a gap-free layout starting at offset `t` gives to the visited
blocks: each block starts where the previous one ends. -/
def layout : Nat → List (Int × Nat) → List (Int × (Nat × Nat))
  | _, [] => []
  | t, e :: rest => (e.1, (t, e.2)) :: layout (t + e.2) rest

/-- Sum of the sizes of the first `n` visited blocks. -/
def visitOffset (V : List (Int × Nat)) (n : Nat) : Nat := ((V.take n).map Prod.snd).sum

/-- Pushing the visited blocks one after the other. -/
def pushAll (V : List (Int × Nat)) (a : AbsOrderMap) : AbsOrderMap :=
  V.foldl (fun a e => aomPush e.1 e.2 a) a

/-- The map `aom` lays the visited blocks `V` out without gap or overlap: one entry
per visited frame, the offset of the `n`-th visited frame is the sum of the
sizes of the blocks visited before it, and `total_size` is the sum of all
block sizes (the end of the last block). -/
def Tiles (aom : AbsOrderMap) (V : List (Int × Nat)) : Prop :=
  aom.items = V.length ∧
  aom.abs_order_map.length = V.length ∧
  aom.total_size = visitOffset V V.length ∧
  ∀ n (h : n < V.length),
    mapFind (V[n]).1 aom.abs_order_map = some (visitOffset V n, (V[n]).2)

/-- The order `marg_order` of the prior is structurally consistent with the
order maps that `optimize` and `marginalize` (stopping after state `last`)
build from the pose-only frames `poseKeys` and the full states `stateKeys`:
both pairs of order loops run through without a failed check, and every
frame named by `marg_order` has the identical (offset, size) pair in the map
they build. -/
def OrderConsistent (marg_order : AbsOrderMap) (kf_ids : List Int) (last : Int)
    (poseKeys stateKeys : List Int) : Prop :=
  (∃ aom, optimizeOrder marg_order poseKeys stateKeys = .ok aom ∧
    ∀ k v, mapFind k marg_order.abs_order_map = some v →
      mapFind k aom.abs_order_map = some v) ∧
  (∃ pl sp, margPoseLoop marg_order kf_ids poseKeys ({}, []) = .ok pl ∧
    margStateLoop marg_order kf_ids last stateKeys
      { aom := pl.1, states_to_marg_vel_bias := [], states_to_marg_all := [] } = .ok sp ∧
    ∀ k v, mapFind k marg_order.abs_order_map = some v →
      mapFind k sp.aom.abs_order_map = some v)

/-- Translation of the pose-only frame `i` (the origin if there is none). -/
def posOf (frame_poses : List (Int × PoseStateWithLin)) (i : Int) : Vec3 :=
  match mapFind i frame_poses with
  | some p => p.translation
  | none => (0, 0, 0)

/-- Translation of the full state `i` (the origin if there is none). -/
def statePosOf (frame_states : List (Int × PoseVelBiasStateWithLin)) (i : Int) : Vec3 :=
  match mapFind i frame_states with
  | some st => st.translation
  | none => (0, 0, 0)

/-- The term `1 / (distance(i, j) + 1e-5)` for two pose-only frames. -/
def invDist (F : MathFns) (frame_poses : List (Int × PoseStateWithLin)) (i j : Int) : ℚ :=
  1 / (F.norm (vsub (posOf frame_poses i) (posOf frame_poses j)) + 1e-5)

/-- The score the second stage computes for candidate `i`: the square root of
its distance to the newest keyframe's state times the sum of `invDist i j`
over every candidate `j`, `i` itself included. -/
def codeScore (F : MathFns) (frame_poses : List (Int × PoseStateWithLin))
    (frame_states : List (Int × PoseVelBiasStateWithLin)) (last_kf : Int) (cands : List Int)
    (i : Int) : ℚ :=
  F.sqrt (F.norm (vsub (posOf frame_poses i) (statePosOf frame_states last_kf)))
    * (cands.map (invDist F frame_poses i)).sum

/-- The score as the specification words it: the same product, the sum
taken over every other candidate `j ≠ i`. -/
def claimedScore (F : MathFns) (frame_poses : List (Int × PoseStateWithLin))
    (frame_states : List (Int × PoseVelBiasStateWithLin)) (last_kf : Int) (cands : List Int)
    (i : Int) : ℚ :=
  F.sqrt (F.norm (vsub (posOf frame_poses i) (statePosOf frame_states last_kf)))
    * ((cands.filter (fun j => decide (j ≠ i))).map (invDist F frame_poses i)).sum

/-- One pass of the scoring loop on the pair `(min_score, min_score_id)`. -/
def scoreStep (score : Int → ℚ) (acc : ℚ × Int) (i : Int) : ℚ × Int :=
  if score i < acc.1 then (score i, i) else acc

/-- The index block `[offset, offset + size)` of an entry of an order map. -/
def block (e : Int × (Nat × Nat)) : Finset Nat := Finset.Ico e.2.1 (e.2.1 + e.2.2)

/-- The indices of an entry that the index loop keeps. -/
def keepPart (poses_to_marg states_to_marg_all states_to_marg_vel_bias : List Int)
    (e : Int × (Nat × Nat)) : Finset Nat :=
  if e.2.2 = POSE_SIZE then
    if e.1 ∈ poses_to_marg then ∅ else Finset.Ico e.2.1 (e.2.1 + POSE_SIZE)
  else if e.1 ∈ states_to_marg_all then ∅
  else if e.1 ∈ states_to_marg_vel_bias then Finset.Ico e.2.1 (e.2.1 + POSE_SIZE)
  else Finset.Ico e.2.1 (e.2.1 + POSE_VEL_BIAS_SIZE)

/-- The indices of an entry that the index loop marginalizes. -/
def margPart (poses_to_marg states_to_marg_all states_to_marg_vel_bias : List Int)
    (e : Int × (Nat × Nat)) : Finset Nat :=
  if e.2.2 = POSE_SIZE then
    if e.1 ∈ poses_to_marg then Finset.Ico e.2.1 (e.2.1 + POSE_SIZE) else ∅
  else if e.1 ∈ states_to_marg_all then Finset.Ico e.2.1 (e.2.1 + POSE_VEL_BIAS_SIZE)
  else if e.1 ∈ states_to_marg_vel_bias then
    Finset.Ico (e.2.1 + POSE_SIZE) (e.2.1 + POSE_VEL_BIAS_SIZE)
  else ∅

/-- How many indices of a block with key `a.1` and size `a.2` the index loop
keeps. -/
def keepCount (poses_to_marg states_to_marg_all states_to_marg_vel_bias : List Int)
    (a : Int × Nat) : Nat :=
  if a.2 = POSE_SIZE then
    if a.1 ∈ poses_to_marg then 0 else POSE_SIZE
  else if a.1 ∈ states_to_marg_all then 0
  else if a.1 ∈ states_to_marg_vel_bias then POSE_SIZE
  else POSE_VEL_BIAS_SIZE

/-- Union of a list of index sets. -/
def listUnion (l : List (Finset Nat)) : Finset Nat := l.foldr (fun t acc => t ∪ acc) ∅

/-! ## Example states -/

/-- Library functions for frames on the x axis: the norm of `(x, 0, 0)` is
`|x|`; `sqrt` is exact on the squares 1, 4, 9 and 441/100. -/
def lineMath : MathFns :=
  { norm := fun v => if 0 ≤ v.1 then v.1 else -v.1
    sqrt := fun x =>
      if x = 1 then 1 else if x = 4 then 2 else if x = 9 then 3
      else if x = 441 / 100 then 21 / 10 else 0 }

/-- A full state at the origin that has not been linearized. -/
def freshState : PoseVelBiasStateWithLin := { linearized := false, translation := (0, 0, 0) }

/-- A full state at the origin that has been linearized. -/
def linState : PoseVelBiasStateWithLin := { linearized := true, translation := (0, 0, 0) }

/-- A pose-only frame at the origin. -/
def linPose : PoseStateWithLin := { linearized := true, translation := (0, 0, 0) }

/-- A window in steady state: two keyframes kept as pose-only frames, three
full states of which the oldest (30) is a keyframe and was the last state of
the previous round's prior; caps `max_states = 3`, `max_kfs = 2`. -/
def exBefore : Estimator :=
  { opt_started := true, max_states := 3, max_kfs := 2, out_marg_queue := true
    last_state_t_ns := 32
    frame_states := [(30, linState), (31, freshState), (32, freshState)]
    frame_poses := [(10, linPose), (20, linPose)]
    kf_ids := [10, 20, 30]
    num_points_kf := [(10, 8), (20, 8), (30, 8)]
    imu_meas := [30, 31]
    prev_opt_flow_res := [10, 20, 30, 31, 32]
    marg_order :=
      { abs_order_map := [(10, (0, 6)), (20, (6, 6)), (30, (12, 15))], items := 3, total_size := 27 }
    marg_H_cols := 27 }

/-- The window `exBefore` after `marginalize` when no landmark hosted by
keyframe 10 is seen in the current frame: state 30 is demoted, keyframe 10
is removed. -/
def exAfter : Estimator :=
  { opt_started := true, max_states := 3, max_kfs := 2, out_marg_queue := true
    last_state_t_ns := 32
    frame_states := [(31, linState), (32, freshState)]
    frame_poses := [(20, linPose), (30, linPose)]
    kf_ids := [20, 30]
    num_points_kf := [(10, 8), (20, 8), (30, 8)]
    imu_meas := [31]
    prev_opt_flow_res := [20, 30, 31, 32]
    marg_order :=
      { abs_order_map := [(20, (0, 6)), (30, (6, 6)), (31, (12, 15))], items := 3, total_size := 27 }
    marg_H_cols := 27 }

/-- The plan of the round on `exBefore`: the order map has the blocks of the
poses 10 and 20 and of the states 30 and 31; keyframe 10 is removed (indices
0..5), pose 20 is kept (6..11), state 30 keeps its pose block (12..17) and
loses velocity and biases (18..26), state 31 is kept whole (27..41). -/
def exPlan : MargPlan :=
  { last_state_to_marg := 31
    aom :=
      { abs_order_map := [(10, (0, 6)), (20, (6, 6)), (30, (12, 15)), (31, (27, 15))]
        items := 4, total_size := 42 }
    states_to_marg_vel_bias := [30]
    states_to_marg_all := []
    kf_ids_all := [10, 20, 30]
    kf_ids := [20, 30]
    kfs_to_marg := [10]
    poses_to_marg := [10]
    idx_to_keep := emplaceRange 27 0 15 (emplaceRange 12 0 6 (emplaceRange 6 0 6 ∅))
    idx_to_marg := emplaceRange 12 6 15 (emplaceRange 0 0 6 ∅) }

/-- The window after five frames with `vio_max_states = 3`, `vio_max_kfs = 2`
and `vio_min_frames_after_kf = 0`, when frames 1, 3 and 5 became keyframes:
the optimizer has just started, all five frames are still full states (only
the initial one linearized), the prior is the initial one. -/
def exFiveStates : Estimator :=
  { opt_started := true, max_states := 3, max_kfs := 2, out_marg_queue := false
    last_state_t_ns := 5
    frame_states :=
      [(1, linState), (2, freshState), (3, freshState), (4, freshState), (5, freshState)]
    frame_poses := []
    kf_ids := [1, 3, 5]
    num_points_kf := [(1, 10), (3, 10), (5, 10)]
    imu_meas := [1, 2, 3, 4]
    prev_opt_flow_res := [1, 2, 3, 4, 5]
    marg_order := initMargOrder 1
    marg_H_cols := 15 }

/-- Five keyframes on the x axis: the candidates 1, 2, 3 at 4, 4.41 and -9
are pose-only frames, as is keyframe 4; the newest keyframe 5 is a full
state at the origin. -/
def exScorePoses : List (Int × PoseStateWithLin) :=
  [(1, { linearized := true, translation := (4, 0, 0) }),
   (2, { linearized := true, translation := (441 / 100, 0, 0) }),
   (3, { linearized := true, translation := (-9, 0, 0) }),
   (4, { linearized := true, translation := (1, 0, 0) })]

/-- The full states that go with `exScorePoses`. -/
def exScoreStates : List (Int × PoseVelBiasStateWithLin) := [(5, linState), (6, freshState)]


/-! ## The landmark store (`landmark_database.h`) -/

/-- A frame and one of its cameras, `TimeCamId`: compared by
`(frame_id, cam_id)`. -/
structure TimeCamId where
  frame_id : Int
  cam_id : Nat
  deriving DecidableEq, Repr

/-- A 2-vector of doubles (`Eigen::Vector2d`). -/
abbrev Vec2 := ℚ × ℚ

/-- The struct `KeypointPosition`: host view, bearing parameters `dir`,
inverse distance `id`, and the two private members written by `backup`. -/
structure KeypointPosition where
  kf_id : TimeCamId
  dir : Vec2
  id : ℚ
  backup_dir : Vec2 := (0, 0)
  backup_id : ℚ := 0
  deriving DecidableEq, Repr

/-- The method `KeypointPosition::backup`: `backup_dir = dir; backup_id = id`. -/
def KeypointPosition.backup (p : KeypointPosition) : KeypointPosition :=
  { p with backup_dir := p.dir, backup_id := p.id }

/-- The method `KeypointPosition::restore`: `dir = backup_dir; id = backup_id`. -/
def KeypointPosition.restore (p : KeypointPosition) : KeypointPosition :=
  { p with dir := p.backup_dir, id := p.backup_id }

/-- The struct `KeypointObservation`. -/
structure KeypointObservation where
  kpt_id : Int
  pos : Vec2
  deriving DecidableEq, Repr

/-- The private members of `LandmarkDatabase`. The unordered map `kpts` is an
association list with one entry per landmark id. -/
structure LandmarkDatabase where
  kpts : List (Int × KeypointPosition) := []
  obs : List (TimeCamId × List (TimeCamId × List KeypointObservation)) := []
  host_to_kpts : List (TimeCamId × List Int) := []
  num_observations : Int := 0
  kpts_num_obs : List (Int × Int) := []
  deriving DecidableEq, Repr

/-- The method `LandmarkDatabase::backup`:
`for (auto& kv : kpts) kv.second.backup()`. -/
def LandmarkDatabase.backup (db : LandmarkDatabase) : LandmarkDatabase :=
  { db with kpts := db.kpts.map (fun kv => (kv.1, kv.2.backup)) }

/-- The method `LandmarkDatabase::restore`:
`for (auto& kv : kpts) kv.second.restore()`. -/
def LandmarkDatabase.restore (db : LandmarkDatabase) : LandmarkDatabase :=
  { db with kpts := db.kpts.map (fun kv => (kv.1, kv.2.restore)) }

/-- A write to the public members `dir` and `id` of every stored landmark
through `getLandmark(lm_id)`: landmark `k` receives `g k p`, computed from
its current value `p`. No landmark is added or removed and no other member
is touched. -/
def LandmarkDatabase.setPositions (g : Int → KeypointPosition → Vec2 × ℚ)
    (db : LandmarkDatabase) : LandmarkDatabase :=
  { db with kpts := db.kpts.map (fun kv => (kv.1, { kv.2 with dir := (g kv.1 kv.2).1, id := (g kv.1 kv.2).2 })) }

/-- The parameters of the landmarks read from outside the class: per landmark
id the host view, `dir` and `id`. -/
def LandmarkDatabase.positions (db : LandmarkDatabase) : List (Int × TimeCamId × Vec2 × ℚ) :=
  db.kpts.map (fun kv => (kv.1, kv.2.kf_id, kv.2.dir, kv.2.id))

/-! ## The estimator around the window -/

/-- Modelled from the spec: the struct `VioConfig` is declared outside the
sources at hand; these are the fields the estimator reads, typed by their
use. -/
structure VioConfig where
  vio_max_states : Nat
  vio_max_kfs : Nat
  vio_min_frames_after_kf : Int
  vio_new_kf_keypoints_thresh : ℚ
  vio_min_triangulation_dist : ℚ
  vio_lm_lambda_min : ℚ
  vio_lm_lambda_max : ℚ
  vio_init_pose_weight : ℚ
  vio_init_ba_weight : ℚ
  vio_init_bg_weight : ℚ
  vio_use_lm : Bool
  vio_max_iterations : Int
  vio_filter_iteration : Int
  deriving DecidableEq, Repr

/-- The estimator: the bookkeeping members `est`, the landmark store, the
marginalization prior `marg_H` (a dense matrix, as its list of rows) and
`marg_b`, the damping members of the optimizer and the keyframe members of
`measure`. -/
structure VioState where
  est : Estimator
  lmdb : LandmarkDatabase
  marg_H : List (List ℚ)
  marg_b : List ℚ
  lambda : ℚ
  min_lambda : ℚ
  max_lambda : ℚ
  lambda_vee : ℚ
  take_kf : Bool
  frames_after_kf : Int
  initialized : Bool
  deriving DecidableEq, Repr

/-- The call `M.setZero(rows, cols)` of a dynamic matrix. -/
def setZero (rows cols : Nat) : List (List ℚ) := List.replicate rows (List.replicate cols 0)

/-- The coefficient `M(i, j)`. -/
def coeff (M : List (List ℚ)) (i j : Nat) : ℚ := (M.getD i []).getD j 0

/-- The assignment `M(i, j) = v`. -/
def setCoeff (i j : Nat) (v : ℚ) (M : List (List ℚ)) : List (List ℚ) :=
  M.set i ((M.getD i []).set j v)

/-- The assignment `M.diagonal().segment<3>(start) = v` (with `start = 0` it
is `M.diagonal().head<3>().setConstant(v)`). -/
def setDiagSegment3 (start : Nat) (v : ℚ) (M : List (List ℚ)) : List (List ℚ) :=
  setCoeff (start + 2) (start + 2) v (setCoeff (start + 1) (start + 1) v (setCoeff start start v M))

/-- Lines 65-76 of the constructor: the initial prior matrix. -/
def initMargH (config : VioConfig) : List (List ℚ) :=
  setDiagSegment3 12 config.vio_init_bg_weight
    (setDiagSegment3 9 config.vio_init_ba_weight
      (setCoeff 5 5 config.vio_init_pose_weight
        (setDiagSegment3 0 config.vio_init_pose_weight
          (setZero POSE_VEL_BIAS_SIZE POSE_VEL_BIAS_SIZE))))

/-- The constructor `KeypointVioEstimator::KeypointVioEstimator` (lines
48-90). The maps and sets start empty; `last_state_t_ns` is not written
before `initialize` and stands as 0; no output queue is set. -/
def construct (config : VioConfig) : VioState :=
  { est :=
      { opt_started := false
        max_states := config.vio_max_states
        max_kfs := config.vio_max_kfs
        out_marg_queue := false
        last_state_t_ns := 0
        frame_states := []
        frame_poses := []
        kf_ids := []
        num_points_kf := []
        imu_meas := []
        prev_opt_flow_res := []
        marg_order := {}
        marg_H_cols := POSE_VEL_BIAS_SIZE }
    lmdb := {}
    marg_H := initMargH config
    marg_b := List.replicate POSE_VEL_BIAS_SIZE 0
    lambda := config.vio_lm_lambda_min
    min_lambda := config.vio_lm_lambda_min
    max_lambda := config.vio_lm_lambda_max
    lambda_vee := 2
    take_kf := true
    frames_after_kf := 0
    initialized := false }

/-- The method `initialize(t_ns, T_w_i, vel_w_i, bg, ba)` (lines 92-109),
up to its last call, which starts the processing thread. The new state is
constructed with `linearized = true`; of the pose the window keeps the
translation. -/
def initState (t_ns : Int) (T_w_i_translation : Vec3) (s : VioState) : VioState :=
  { s with
    initialized := true
    est :=
      { s.est with
        last_state_t_ns := t_ns
        imu_meas := setEmplace t_ns s.est.imu_meas
        frame_states := mapSet t_ns { linearized := true, translation := T_w_i_translation } s.est.frame_states
        marg_order :=
          { abs_order_map := mapSet t_ns (0, POSE_VEL_BIAS_SIZE) s.est.marg_order.abs_order_map
            total_size := POSE_VEL_BIAS_SIZE
            items := 1 } } }

/-! ## The keyframe rule of `measure` -/

/-- The comparison `double(connected0) / (connected0 + unconnected_obs0.size())
< thresh` of line 313. Without any observation the quotient is `0.0 / 0`,
which is not a number and compares false. -/
def connectedBelow (connected0 unconnected0 : Nat) (thresh : ℚ) : Bool :=
  if connected0 + unconnected0 = 0 then false
  else decide ((connected0 : ℚ) / ((connected0 + unconnected0 : Nat) : ℚ) < thresh)

/-- Lines 313-316 of `measure`: the only statement that sets `take_kf`
outside the constructor. `unconnected_obs0` is the set of camera-0 ids
without a landmark, `connected0` the counter of the association loop. -/
def keyframeRule (config : VioConfig) (connected0 : Nat) (unconnected_obs0 : List Int)
    (s : VioState) : VioState :=
  if connectedBelow connected0 unconnected_obs0.length config.vio_new_kf_keypoints_thresh = true ∧
      s.frames_after_kf > config.vio_min_frames_after_kf then
    { s with take_kf := true }
  else s

/-- Lines 341-345 and 425-427 of `measure`, without the triangulation of new
landmarks in between: a keyframe clears `take_kf`, restarts the frame
counter and records `last_state_t_ns` in `kf_ids`; any other frame is
counted. The flag returned says whether the frame was taken as a keyframe. -/
def keyframeBranch (s : VioState) : VioState × Bool :=
  if s.take_kf = true then
    ({ s with
        take_kf := false
        frames_after_kf := 0
        est := { s.est with kf_ids := setEmplace s.est.last_state_t_ns s.est.kf_ids } }, true)
  else ({ s with frames_after_kf := s.frames_after_kf + 1 }, false)

/-! ## The iterations of `optimize` -/

/-- A value of type `double`: a finite number, an infinity, or a value that
is not a number (NaN). -/
inductive Flt where
  | num (q : ℚ)
  | posInf
  | negInf
  | nan
  deriving DecidableEq, Repr

/-- The comparison `a < b` of two doubles; it is false as soon as one of them
is not a number. -/
def Flt.lt : Flt → Flt → Bool
  | .num a, .num b => decide (a < b)
  | .num _, .posInf => true
  | .negInf, .num _ => true
  | .negInf, .posInf => true
  | _, _ => false

/-- The comparison `a <= b` of two doubles; it is false as soon as one of
them is not a number. -/
def Flt.le : Flt → Flt → Bool
  | .num a, .num b => decide (a ≤ b)
  | .num _, .posInf => true
  | .negInf, .num _ => true
  | .negInf, .posInf => true
  | .posInf, .posInf => true
  | .negInf, .negInf => true
  | _, _ => false

/-- The function `std::max(a, b)` on doubles: `(a < b) ? b : a`. A first
argument that is not a number fails the comparison and is returned. -/
def Flt.stdMax (a b : Flt) : Flt := if Flt.lt a b = true then b else a

/-- The function `std::max(a, b)`: `(a < b) ? b : a`. -/
def stdMax (a b : ℚ) : ℚ := if a < b then b else a

/-- The function `std::min(a, b)`: `(b < a) ? b : a`. -/
def stdMin (a b : ℚ) : ℚ := if b < a then b else a

/-- The expression `inc.array().abs().maxCoeff()`. -/
def maxAbsCoeff (inc : List ℚ) : ℚ := inc.foldl (fun m x => max m |x|) 0

/-- The members of `BundleAdjustmentBase` the iterations change. -/
structure Window where
  frame_states : List (Int × PoseVelBiasStateWithLin)
  frame_poses : List (Int × PoseStateWithLin)
  lmdb : LandmarkDatabase
  deriving DecidableEq, Repr

/-- The numerical routines `optimize` calls, which are outside the sources at
hand or are library code: the linearization with its total error (lines
883-912) and the diagonal of the accumulated Hessian (line 919), the solver
(`lopt.accum.solve`), the update `applyInc` of a frame at offset `idx`, the
new `dir` and `id` that `updatePoints` writes to each landmark, the total
error after the update (lines 960-973), and `filterOutliers`. The two total
errors and the diagonal are doubles as computed, which nothing keeps from
being infinite or not a number. `mul` and `sub` are the two operations of
double arithmetic the loop performs on them itself: the product
`Hdiag[i] * lambda` of line 928 (and `Hdiag[i] * min_lambda` of line 1006)
and the difference `error_total - after_error_total` of line 973. -/
structure OptNumerics where
  error_total : AbsOrderMap → Window → Flt
  Hdiag : AbsOrderMap → Window → List Flt
  mul : Flt → ℚ → Flt
  solve : AbsOrderMap → Window → List Flt → List ℚ
  poseInc : List ℚ → Nat → PoseStateWithLin → PoseStateWithLin
  stateInc : List ℚ → Nat → PoseVelBiasStateWithLin → PoseVelBiasStateWithLin
  updatePoints : AbsOrderMap → Window → List ℚ → Int → KeypointPosition → Vec2 × ℚ
  after_error_total : AbsOrderMap → Window → Flt
  sub : Flt → Flt → Flt
  filterOutliers : LandmarkDatabase → LandmarkDatabase

/-- The property of IEEE 754 subtraction behind the test of line 975: the
difference `a - b` compares below zero exactly when `a < b`. The rounded
difference of two finite doubles has the sign of the exact one, also where
it overflows; a NaN operand and two equal infinities give NaN, which
compares false like `a < b` does. -/
def SubSignExact (sub : Flt → Flt → Flt) : Prop :=
  ∀ a b : Flt, Flt.lt (sub a b) (.num 0) = Flt.lt a b

/-- Lines 928-930 (with `factor = lambda`) and 1006-1008 (with
`factor = min_lambda`): `Hdiag_lambda = Hdiag * factor`, then every
component is replaced by `std::max(Hdiag_lambda[i], min_lambda)`. -/
def dampingVector (N : OptNumerics) (factor min_lambda : ℚ) (Hdiag : List Flt) : List Flt :=
  (Hdiag.map (fun h => N.mul h factor)).map (fun x => Flt.stdMax x (.num min_lambda))

/-- The loop `for (auto& kv : frame_poses)` of lines 938-942 (and
1012-1016): `idx = aom.abs_order_map.at(kv.first).first`, then
`kv.second.applyInc(-inc.segment<POSE_SIZE>(idx))`. -/
def applyPoses (N : OptNumerics) (aom : AbsOrderMap) (inc : List ℚ) :
    List (Int × PoseStateWithLin) → Except Fault (List (Int × PoseStateWithLin))
  | [] => .ok []
  | kv :: rest =>
    match mapAt kv.1 aom.abs_order_map with
    | .error f => .error f
    | .ok e =>
      match applyPoses N aom inc rest with
      | .error f => .error f
      | .ok rest' => .ok ((kv.1, N.poseInc inc e.1 kv.2) :: rest')

/-- The loop `for (auto& kv : frame_states)` of lines 944-948 (and
1018-1022). -/
def applyStates (N : OptNumerics) (aom : AbsOrderMap) (inc : List ℚ) :
    List (Int × PoseVelBiasStateWithLin) → Except Fault (List (Int × PoseVelBiasStateWithLin))
  | [] => .ok []
  | kv :: rest =>
    match mapAt kv.1 aom.abs_order_map with
    | .error f => .error f
    | .ok e =>
      match applyStates N aom inc rest with
      | .error f => .error f
      | .ok rest' => .ok ((kv.1, N.stateInc inc e.1 kv.2) :: rest')

/-- Lines 938-958 (and 1012-1030): the increment is applied to the poses, to
the states and, by `updatePoints`, to the landmarks. `w0` is the window the
iteration was linearized at. -/
def applyIncrement (N : OptNumerics) (aom : AbsOrderMap) (w0 : Window) (inc : List ℚ)
    (w : Window) : Except Fault Window :=
  match applyPoses N aom inc w.frame_poses with
  | .error f => .error f
  | .ok poses =>
    match applyStates N aom inc w.frame_states with
    | .error f => .error f
    | .ok states =>
      .ok { frame_states := states
            frame_poses := poses
            lmdb := w.lmdb.setPositions (N.updatePoints aom w0 inc) }

/-- The variables of the loop `while (!step && max_iter > 0 && !converged)`. -/
structure LmLoop where
  w : Window
  lambda : ℚ
  lambda_vee : ℚ
  step : Bool
  max_iter : Int
  converged : Bool
  deriving DecidableEq, Repr

/-- The window after lines 936-958 of a trial: `backup()`, then the
increment. Of `backup()` (`ba_base.h`) only the landmark part writes to the
window; the values the frames keep aside are the ones of `w`. -/
def lmStepped (N : OptNumerics) (aom : AbsOrderMap) (w0 : Window) (min_lambda lambda : ℚ)
    (Hdiag : List Flt) (w : Window) : Except Fault Window :=
  applyIncrement N aom w0 (N.solve aom w0 (dampingVector N lambda min_lambda Hdiag))
    { w with lmdb := w.lmdb.backup }

/-- One pass of the loop body, lines 927-997. The frames' own `backup` and
`restore` are declared outside the sources at hand; modelled from the spec,
`restore()` returns every frame to the value it had at `backup()`, while the
landmarks go through `LandmarkDatabase::restore`. The test of line 975 is
the double comparison `f_diff < 0`, which is false for a difference that is
not a number. -/
def lmTrial (N : OptNumerics) (aom : AbsOrderMap) (w0 : Window) (min_lambda max_lambda : ℚ)
    (error_total : Flt) (Hdiag : List Flt) (st : LmLoop) : Except Fault LmLoop :=
  let inc := N.solve aom w0 (dampingVector N st.lambda min_lambda Hdiag)
  let converged := if maxAbsCoeff inc < 1 / 10000 then true else st.converged
  match lmStepped N aom w0 min_lambda st.lambda Hdiag st.w with
  | .error f => .error f
  | .ok stepped =>
    let after_error_total := N.after_error_total aom stepped
    let f_diff := N.sub error_total after_error_total
    if Flt.lt f_diff (.num 0) = true then
      .ok { w := { frame_states := st.w.frame_states
                   frame_poses := st.w.frame_poses
                   lmdb := stepped.lmdb.restore }
            lambda := stdMin max_lambda (st.lambda_vee * st.lambda)
            lambda_vee := st.lambda_vee * 2
            step := st.step
            max_iter := st.max_iter - 1
            converged := converged }
    else
      .ok { w := stepped
            lambda := stdMax min_lambda (st.lambda / 3)
            lambda_vee := 2
            step := true
            max_iter := st.max_iter - 1
            converged := converged }

/-- The loop `while (!step && max_iter > 0 && !converged)` of lines 925-998;
`fuel` bounds the passes and is at least `max_iter`. -/
def lmWhile (N : OptNumerics) (aom : AbsOrderMap) (w0 : Window) (min_lambda max_lambda : ℚ)
    (error_total : Flt) (Hdiag : List Flt) : Nat → LmLoop → Except Fault LmLoop
  | 0, st => if st.step = false ∧ st.max_iter > 0 ∧ st.converged = false then .error .fuel else .ok st
  | fuel + 1, st =>
    if st.step = false ∧ st.max_iter > 0 ∧ st.converged = false then
      match lmTrial N aom w0 min_lambda max_lambda error_total Hdiag st with
      | .error f => .error f
      | .ok st' => lmWhile N aom w0 min_lambda max_lambda error_total Hdiag fuel st'
    else .ok st

/-- What one iteration of the `for` loop hands to the next. -/
structure IterState where
  w : Window
  lambda : ℚ
  lambda_vee : ℚ
  converged : Bool
  deriving DecidableEq, Repr

/-- The Gauss-Newton branch, lines 1003-1031: no trial, no `backup`, the
increment is applied as solved. -/
def gaussNewton (N : OptNumerics) (aom : AbsOrderMap) (min_lambda : ℚ) (Hdiag : List Flt)
    (st : IterState) : Except Fault IterState :=
  let inc := N.solve aom st.w (dampingVector N min_lambda min_lambda Hdiag)
  match applyIncrement N aom st.w inc st.w with
  | .error f => .error f
  | .ok w' => .ok { st with w := w', converged := decide (maxAbsCoeff inc < 1 / 10000) }

/-- The Levenberg-Marquardt branch, lines 923-1002, with `max_iter = 10`. -/
def levenbergMarquardt (N : OptNumerics) (aom : AbsOrderMap) (min_lambda max_lambda : ℚ)
    (error_total : Flt) (Hdiag : List Flt) (st : IterState) : Except Fault IterState :=
  match lmWhile N aom st.w min_lambda max_lambda error_total Hdiag 10
      { w := st.w, lambda := st.lambda, lambda_vee := st.lambda_vee
        step := false, max_iter := 10, converged := false } with
  | .error f => .error f
  | .ok r => .ok { w := r.w, lambda := r.lambda, lambda_vee := r.lambda_vee, converged := r.converged }

/-- One iteration of `for (int iter = 0; iter < config.vio_max_iterations;
iter++)` (lines 879-1092), up to the test `if (converged) break`. -/
def optIteration (N : OptNumerics) (config : VioConfig) (aom : AbsOrderMap)
    (min_lambda max_lambda : ℚ) (iter : Int) (st : IterState) : Except Fault IterState :=
  let error_total := N.error_total aom st.w
  let Hdiag := N.Hdiag aom st.w
  let st0 : IterState := { st with converged := false }
  match (if config.vio_use_lm = true then
      levenbergMarquardt N aom min_lambda max_lambda error_total Hdiag st0
    else gaussNewton N aom min_lambda Hdiag st0) with
  | .error f => .error f
  | .ok st1 =>
    if iter = config.vio_filter_iteration then
      .ok { st1 with w := { st1.w with lmdb := N.filterOutliers st1.w.lmdb } }
    else .ok st1

/-- The loop over `iter`; `n` is the number of iterations still allowed. -/
def optIterations (N : OptNumerics) (config : VioConfig) (aom : AbsOrderMap)
    (min_lambda max_lambda : ℚ) : Nat → Int → IterState → Except Fault IterState
  | 0, _, st => .ok st
  | n + 1, iter, st =>
    match optIteration N config aom min_lambda max_lambda iter st with
    | .error f => .error f
    | .ok st1 =>
      if st1.converged = true then .ok st1
      else optIterations N config aom min_lambda max_lambda n (iter + 1) st1

/-- The block of `optimize` behind its test (lines 833-1094): `opt_started`
is set, the order loops build `aom` and check it against `marg_order`, then
the iterations run. -/
def optimizeRun (N : OptNumerics) (config : VioConfig) (s : VioState) : Except Fault VioState :=
  match optimizeOrder s.est.marg_order (mapKeys s.est.frame_poses) (mapKeys s.est.frame_states) with
  | .error f => .error f
  | .ok aom =>
    match optIterations N config aom s.min_lambda s.max_lambda config.vio_max_iterations.toNat 0
        { w := { frame_states := s.est.frame_states, frame_poses := s.est.frame_poses, lmdb := s.lmdb }
          lambda := s.lambda, lambda_vee := s.lambda_vee, converged := false } with
    | .error f => .error f
    | .ok r =>
      .ok { s with
            est := { s.est with
                     opt_started := true
                     frame_states := r.w.frame_states
                     frame_poses := r.w.frame_poses }
            lmdb := r.w.lmdb
            lambda := r.lambda
            lambda_vee := r.lambda_vee }

/-- The method `KeypointVioEstimator::optimize` (lines 826-1098). -/
def optimize (N : OptNumerics) (config : VioConfig) (s : VioState) : Except Fault VioState :=
  if s.est.opt_started = true ∨ s.est.frame_states.length > 4 then optimizeRun N config s
  else .ok s

/-- The numerical results of a marginalization round that are outside the
sources at hand: the new prior (`marginalizeHelper` on the linearized
system, lines 653-756 and 803-811) and `lmdb.removeKeyframes` (line 784). -/
structure MargNumerics where
  marg_H_new : VioState → MargPlan → List (List ℚ)
  marg_b_new : VioState → MargPlan → List ℚ
  removeKeyframes : List Int → List Int → List Int → LandmarkDatabase → LandmarkDatabase

/-- The method `marginalize` on the whole estimator: the bookkeeping is
`margPlan` followed by `margCommit`; the landmark store and the prior take
the results of the round. -/
def marginalizeAll (F : MathFns) (M : MargNumerics) (num_points_connected : List (Int × Int))
    (fuel : Nat) (s : VioState) : Except Fault VioState :=
  if s.est.opt_started = false then .ok s
  else if s.est.frame_poses.length > s.est.max_kfs ∨ s.est.frame_states.length ≥ s.est.max_states then
    match margPlan F num_points_connected fuel s.est with
    | .error f => .error f
    | .ok p =>
      match margCommit s.est p with
      | .error f => .error f
      | .ok est' =>
        .ok { s with
              est := est'
              lmdb := M.removeKeyframes p.kfs_to_marg p.poses_to_marg p.states_to_marg_all s.lmdb
              marg_H := M.marg_H_new s p
              marg_b := M.marg_b_new s p }
  else .ok s

/-! ## Triangulation (`ba_base.h`)

The vectors and matrices of `triangulate` over an ordered field `K`: the
function is a template over its scalar type. -/

/-- A 3-vector. -/
structure V3 (K : Type) where
  x : K
  y : K
  z : K
  deriving DecidableEq, Repr

/-- A 4-vector. -/
structure V4 (K : Type) where
  x : K
  y : K
  z : K
  w : K
  deriving DecidableEq, Repr

/-- A 3x3 matrix, by rows. -/
structure M33 (K : Type) where
  r0 : V3 K
  r1 : V3 K
  r2 : V3 K
  deriving DecidableEq, Repr

/-- A 3x4 matrix, by rows. -/
structure M34 (K : Type) where
  r0 : V4 K
  r1 : V4 K
  r2 : V4 K
  deriving DecidableEq, Repr

/-- A 4x4 matrix, by rows. -/
structure M44 (K : Type) where
  r0 : V4 K
  r1 : V4 K
  r2 : V4 K
  r3 : V4 K
  deriving DecidableEq, Repr

/-- The rigid transform `Sophus::SE3` of the Lie-group library: a rotation
matrix `R` and a translation `t`, acting as `p ↦ R p + t`. -/
structure SE3 (K : Type) where
  R : M33 K
  t : V3 K
  deriving DecidableEq, Repr

section Triangulate

variable {K : Type} [LinearOrderedField K]

/-- The product `f0.dot(g)` of 3-vectors. -/
def V3.dot (a b : V3 K) : K := a.x * b.x + a.y * b.y + a.z * b.z

/-- The product of 4-vectors. -/
def V4.dot (a b : V4 K) : K := a.x * b.x + a.y * b.y + a.z * b.z + a.w * b.w

/-- The scaling `c * v`. -/
def V3.smul (c : K) (v : V3 K) : V3 K := ⟨c * v.x, c * v.y, c * v.z⟩

/-- The difference `a - b`. -/
def V3.sub (a b : V3 K) : V3 K := ⟨a.x - b.x, a.y - b.y, a.z - b.z⟩

/-- The scaling `c * v` of a row. -/
def V4.smul (c : K) (v : V4 K) : V4 K := ⟨c * v.x, c * v.y, c * v.z, c * v.w⟩

/-- The difference `a - b` of rows. -/
def V4.sub (a b : V4 K) : V4 K := ⟨a.x - b.x, a.y - b.y, a.z - b.z, a.w - b.w⟩

/-- The statement `v /= c`. -/
def V4.div (v : V4 K) (c : K) : V4 K := ⟨v.x / c, v.y / c, v.z / c, v.w / c⟩

/-- The statement `v *= c`. -/
def V4.mulScalar (v : V4 K) (c : K) : V4 K := ⟨v.x * c, v.y * c, v.z * c, v.w * c⟩

/-- The block `v.head<3>()`. -/
def V4.head3 (v : V4 K) : V3 K := ⟨v.x, v.y, v.z⟩

/-- The product `A * u` of a 4x4 matrix and a 4-vector. -/
def M44.mulVec (A : M44 K) (u : V4 K) : V4 K :=
  ⟨V4.dot A.r0 u, V4.dot A.r1 u, V4.dot A.r2 u, V4.dot A.r3 u⟩

/-- The product `P * u` of a 3x4 matrix and a 4-vector. -/
def M34.mulVec (P : M34 K) (u : V4 K) : V3 K := ⟨V4.dot P.r0 u, V4.dot P.r1 u, V4.dot P.r2 u⟩

/-- The product `R * v` of a 3x3 matrix and a 3-vector. -/
def M33.mulVec (R : M33 K) (v : V3 K) : V3 K := ⟨V3.dot R.r0 v, V3.dot R.r1 v, V3.dot R.r2 v⟩

/-- The transpose of a 3x3 matrix. -/
def M33.transpose (R : M33 K) : M33 K :=
  ⟨⟨R.r0.x, R.r1.x, R.r2.x⟩, ⟨R.r0.y, R.r1.y, R.r2.y⟩, ⟨R.r0.z, R.r1.z, R.r2.z⟩⟩

/-- The library call `T.inverse()` of a rigid transform: the transposed
rotation and the translation `-(Rᵀ t)`. -/
def SE3.inverse (T : SE3 K) : SE3 K :=
  { R := T.R.transpose, t := V3.smul (-1) (T.R.transpose.mulVec T.t) }

/-- The library call `T.matrix3x4()`: the rotation next to the translation. -/
def SE3.matrix3x4 (T : SE3 K) : M34 K :=
  ⟨⟨T.R.r0.x, T.R.r0.y, T.R.r0.z, T.t.x⟩, ⟨T.R.r1.x, T.R.r1.y, T.R.r1.z, T.t.y⟩,
    ⟨T.R.r2.x, T.R.r2.y, T.R.r2.z, T.t.z⟩⟩

/-- The action `T * p` of a rigid transform on a point. -/
def SE3.act (T : SE3 K) (p : V3 K) : V3 K :=
  ⟨V3.dot T.R.r0 p + T.t.x, V3.dot T.R.r1 p + T.t.y, V3.dot T.R.r2 p + T.t.z⟩

/-- The matrix `P1` after `P1.setIdentity()`. -/
def P1 : M34 K := ⟨⟨1, 0, 0, 0⟩, ⟨0, 1, 0, 0⟩, ⟨0, 0, 1, 0⟩⟩

/-- The matrix `A` of `triangulate`, with `P2 = T_0_1.inverse().matrix3x4()`:
`A.row(0) = f0[0] * P1.row(2) - f0[2] * P1.row(0)`, and so on. -/
def triangulateA (f0 f1 : V3 K) (P2 : M34 K) : M44 K :=
  { r0 := V4.sub (V4.smul f0.x (P1 : M34 K).r2) (V4.smul f0.z (P1 : M34 K).r0)
    r1 := V4.sub (V4.smul f0.y (P1 : M34 K).r2) (V4.smul f0.z (P1 : M34 K).r1)
    r2 := V4.sub (V4.smul f1.x P2.r2) (V4.smul f1.z P2.r0)
    r3 := V4.sub (V4.smul f1.y P2.r2) (V4.smul f1.z P2.r1) }

/-- The function `BundleAdjustmentBase::triangulate(f0, f1, T_0_1)`. The two
library routines are parameters: `svdLastCol A` is
`JacobiSVD(A, ComputeFullV).matrixV().col(3)` and `norm` is `.norm()`. -/
def triangulate (svdLastCol : M44 K → V4 K) (norm : V3 K → K) (f0 f1 : V3 K) (T_0_1 : SE3 K) :
    V4 K :=
  let A := triangulateA f0 f1 T_0_1.inverse.matrix3x4
  let worldPoint := svdLastCol A
  let worldPoint := worldPoint.div (norm worldPoint.head3)
  if V3.dot f0 worldPoint.head3 < 0 then worldPoint.mulScalar (-1) else worldPoint

/-- What the library documents of `matrixV().col(3)`: singular values are
sorted in decreasing order, so the last column of `V` is a unit vector at
which `|A v|` is least among unit vectors; stated without square roots,
`|A v|² |u|² ≤ |A u|² |v|²` for every `u`. -/
def IsLastSingularVector (A : M44 K) (v : V4 K) : Prop :=
  V4.dot v v = 1 ∧
    ∀ u : V4 K, V4.dot (A.mulVec v) (A.mulVec v) * V4.dot u u ≤ V4.dot (A.mulVec u) (A.mulVec u)

/-- The homogeneous point `[p; 1]`. -/
def homogeneous (p : V3 K) : V4 K := ⟨p.x, p.y, p.z, 1⟩

/-- The vector `[p / n; 1 / n]`: with `n = |p|`, the bearing direction and
the inverse distance of `p`. -/
def bearingInvDist (p : V3 K) (n : K) : V4 K := ⟨p.x / n, p.y / n, p.z / n, 1 / n⟩

/-- The two vectors are linearly independent. -/
def Independent (a b : V3 K) : Prop :=
  ∀ α β : K, V3.sub (V3.smul α a) (V3.smul β b) = ⟨0, 0, 0⟩ → α = 0 ∧ β = 0

/-- The matrix is a rotation matrix as far as the statements need it: its
rows are orthonormal. -/
def RowsOrthonormal (R : M33 K) : Prop :=
  V3.dot R.r0 R.r0 = 1 ∧ V3.dot R.r1 R.r1 = 1 ∧ V3.dot R.r2 R.r2 = 1 ∧
    V3.dot R.r0 R.r1 = 0 ∧ V3.dot R.r0 R.r2 = 0 ∧ V3.dot R.r1 R.r2 = 0

/-- The two views determine the point `p`: the four rows of `A` leave only
the line through `[p; 1]`. A bearing whose third component is zero turns the
two rows of its view into one equation (the plane `z = 0` of that camera),
so the other bearing then has to have a non-zero third component and the
centre of the other camera has to lie off that plane: for the first view
the centre is `T_0_1.t`, for the second it is `T_0_1⁻¹.t`. -/
def ViewsDetermine (p : V3 K) (T_0_1 : SE3 K) : Prop :=
  (p.z = 0 → (T_0_1.inverse.act p).z ≠ 0 ∧ T_0_1.t.z ≠ 0) ∧
  ((T_0_1.inverse.act p).z = 0 → T_0_1.inverse.t.z ≠ 0)

end Triangulate

/-! ## New landmarks in `measure` -/

/-- A `double` as the tests of `measure` see it: a finite value, or `none`
for a value that is not finite (an infinity or not a number). -/
abbrev Dbl := Option ℚ

/-- A vector of four doubles (`Eigen::Vector4d`). -/
abbrev Dbl4 := Dbl × Dbl × Dbl × Dbl

/-- Modelled from the spec: the struct `OpticalFlowResult` is declared
outside the sources at hand; per camera, the map from keypoint id to the
translation of its tracked transform. -/
structure OpticalFlowResult where
  t_ns : Int
  observations : List (List (Int × Vec2))
  deriving DecidableEq, Repr

/-- The method `getPoseStateWithLin(t_ns)` of `ba_base.h` (lines 450-461);
the `std::abort()` of line 457 ends the run like a failed assertion. -/
def getPoseStateWithLin (frame_states : List (Int × PoseVelBiasStateWithLin))
    (frame_poses : List (Int × PoseStateWithLin)) (t_ns : Int) : Except Fault PoseStateWithLin :=
  match mapFind t_ns frame_poses with
  | some p => .ok p
  | none =>
    match mapFind t_ns frame_states with
    | none => .error (.assertion 457)
    | some st => .ok (PoseStateWithLin.ofState st)

/-- The numerical routines of the triangulation step that are outside the
sources at hand or are evaluated in double arithmetic: `unproject` of camera
`cam` with its validity flag, the relative pose
`T_0_1 = calib.T_i_c[0].inverse() * (pose_l.inverse() * pose_o) * calib.T_i_c[cam]`
of the two stored poses, the vector returned by `triangulate` (a component
of which may be not finite), and `StereographicParam::project`; `mul` is the
double product of two doubles (line 371 squares the configured distance with
it), `squaredNorm` is `Eigen::Vector3d::squaredNorm()` as evaluated in
double arithmetic (line 397). Both results are rounded, so they are doubles
that need not be the exact product and the exact sum of squares. -/
structure TriNumerics where
  unproject : Nat → Vec2 → Bool × V3 ℚ
  T_0_1 : PoseStateWithLin → PoseStateWithLin → Nat → SE3 ℚ
  mul : ℚ → ℚ → Flt
  squaredNorm : V3 ℚ → Flt
  triangulate : V3 ℚ → V3 ℚ → SE3 ℚ → Dbl4
  project : Dbl4 → Vec2

/-- Lines 354-368: the views of `prev_opt_flow_res` that observe `lm_id`, in
the order of the map `kp_obs`, which is the order of the search (by frame,
then by camera). -/
def findObservations (prev_opt_flow_res : List (Int × OpticalFlowResult)) (lm_id : Int) :
    List (TimeCamId × KeypointObservation) :=
  prev_opt_flow_res.flatMap (fun kv =>
    kv.2.observations.enum.filterMap (fun km =>
      match mapFind lm_id km.2 with
      | some pos => some ({ frame_id := kv.1, cam_id := km.1 }, { kpt_id := lm_id, pos := pos })
      | none => none))

/-- The test of lines 401-402:
`p.array().isFinite().all() && p[3] > 0 && p[3] < 3.0`. -/
def landmarkTest (p : Dbl4) : Bool :=
  match p with
  | (some _, some _, some _, some w) => decide (0 < w) && decide (w < 3)
  | _ => false

/-- The fourth component `p[3]` where it is finite. -/
def fourth (p : Dbl4) : ℚ := p.2.2.2.getD 0

/-- A call of `triangulate` made by the loop: the second view, the
translation of `T_0_1`, and the vector returned. -/
structure TriCall where
  view : TimeCamId
  translation : V3 ℚ
  result : Dbl4
  deriving DecidableEq, Repr

/-- What the loop over `kp_obs` did: its calls of `triangulate` in order,
and the landmark handed to `lmdb.addLandmark`, if any. -/
structure TriResult where
  calls : List TriCall
  created : Option KeypointPosition
  deriving DecidableEq, Repr

/-- The loop `for (const auto& kv_obs : kp_obs)` of lines 373-416 for the
keypoint `lm_id`; `tcidl` is camera 0 of the current frame. The loop is left
at the first landmark created (`valid_kp`). -/
def triangulateLoop (T : TriNumerics) (config : VioConfig)
    (frame_states : List (Int × PoseVelBiasStateWithLin))
    (frame_poses : List (Int × PoseStateWithLin))
    (opt_flow_meas : OpticalFlowResult) (prev_opt_flow_res : List (Int × OpticalFlowResult))
    (tcidl : TimeCamId) (lm_id : Int) :
    List (TimeCamId × KeypointObservation) → Except Fault TriResult
  | [] => .ok { calls := [], created := none }
  | kv_obs :: rest =>
    let tcido := kv_obs.1
    let min_triang_distance2 :=
      T.mul config.vio_min_triangulation_dist config.vio_min_triangulation_dist
    let continue_ := triangulateLoop T config frame_states frame_poses opt_flow_meas
      prev_opt_flow_res tcidl lm_id rest
    match opt_flow_meas.observations[0]? with
    | none => .error .out_of_range
    | some obs0 =>
      match mapFind lm_id obs0 with
      | none => .error .out_of_range
      | some p0 =>
        match mapFind tcido.frame_id prev_opt_flow_res with
        | none => .error .undefined
        | some res =>
          match res.observations[tcido.cam_id]? with
          | none => .error .undefined
          | some obs1 =>
            match mapFind lm_id obs1 with
            | none => .error .out_of_range
            | some p1 =>
              let u0 := T.unproject 0 p0
              let u1 := T.unproject tcido.cam_id p1
              if u0.1 = false ∨ u1.1 = false then continue_
              else
                match getPoseStateWithLin frame_states frame_poses tcidl.frame_id with
                | .error f => .error f
                | .ok pose_l =>
                  match getPoseStateWithLin frame_states frame_poses tcido.frame_id with
                  | .error f => .error f
                  | .ok pose_o =>
                    let T_0_1 := T.T_0_1 pose_l pose_o tcido.cam_id
                    if Flt.lt (T.squaredNorm T_0_1.t) min_triang_distance2 = true then continue_
                    else
                      let p0_triangulated := T.triangulate u0.2 u1.2 T_0_1
                      let call : TriCall :=
                        { view := tcido, translation := T_0_1.t, result := p0_triangulated }
                      if landmarkTest p0_triangulated = true then
                        .ok { calls := [call]
                              created := some { kf_id := tcidl
                                                dir := T.project p0_triangulated
                                                id := fourth p0_triangulated } }
                      else
                        match continue_ with
                        | .error f => .error f
                        | .ok r => .ok { r with calls := call :: r.calls }

/-- Lines 351-416 for one id of `unconnected_obs0`: the search for its views
and the loop over them. -/
def newLandmark (T : TriNumerics) (config : VioConfig)
    (frame_states : List (Int × PoseVelBiasStateWithLin))
    (frame_poses : List (Int × PoseStateWithLin))
    (opt_flow_meas : OpticalFlowResult) (prev_opt_flow_res : List (Int × OpticalFlowResult))
    (lm_id : Int) : Except Fault TriResult :=
  triangulateLoop T config frame_states frame_poses opt_flow_meas prev_opt_flow_res
    { frame_id := opt_flow_meas.t_ns, cam_id := 0 } lm_id
    (findObservations prev_opt_flow_res lm_id)

/-! ## Examples for the optimizer and for `measure` -/

/-- The double product for the examples: the exact product of finite
values (the values of the examples are small integers, whose products are
doubles), the infinities and NaN as in IEEE 754: a NaN factor gives NaN, an
infinity times zero is NaN. -/
def exMul : Flt → ℚ → Flt
  | .num a, b => .num (a * b)
  | .posInf, b => if 0 < b then .posInf else if b < 0 then .negInf else .nan
  | .negInf, b => if 0 < b then .negInf else if b < 0 then .posInf else .nan
  | .nan, _ => .nan

/-- The double difference for the examples: the exact difference of finite
values, the infinities and NaN as in IEEE 754: a NaN operand gives NaN, and
so does the difference of two equal infinities. -/
def exSub : Flt → Flt → Flt
  | .num a, .num b => .num (a - b)
  | .num _, .posInf => .negInf
  | .num _, .negInf => .posInf
  | .posInf, .num _ => .posInf
  | .posInf, .negInf => .posInf
  | .negInf, .num _ => .negInf
  | .negInf, .posInf => .negInf
  | _, _ => .nan

/-- The value of a finite double, 0 for the others. -/
def exValue : Flt → ℚ
  | .num q => q
  | _ => 0

/-- Numerical routines for the examples: the linearization reports the total
error 2 and the Hessian diagonal `Hdiag`, the solver returns its damping
vector (0 for a component that is not finite), frames stay in place, every
landmark moves to `dir = (1, 1)` and halves its inverse distance, and the
total error after the update is `after`. -/
def exNumericsAt (Hdiag : List Flt) (after : Flt) : OptNumerics :=
  { error_total := fun _ _ => .num 2
    Hdiag := fun _ _ => Hdiag
    mul := exMul
    solve := fun _ _ d => d.map exValue
    poseInc := fun _ _ p => p
    stateInc := fun _ _ st => st
    updatePoints := fun _ _ _ _ p => ((1, 1), p.id / 2)
    after_error_total := fun _ _ => after
    sub := exSub
    filterOutliers := fun db => db }

/-- The routines `exNumericsAt` with the Hessian diagonal `[4]` and the
finite total error `after` after the update. -/
def exNumerics (after : ℚ) : OptNumerics := exNumericsAt [.num 4] (.num after)

/-- A window of one full state and one landmark hosted by it. -/
def exWindow : Window :=
  { frame_states := [(1, freshState)]
    frame_poses := []
    lmdb := { kpts := [(7, { kf_id := { frame_id := 1, cam_id := 0 }, dir := (0, 0), id := 1 })] } }

/-- The order of `exWindow`. -/
def exAom : AbsOrderMap := { abs_order_map := [(1, (0, 15))], items := 1, total_size := 15 }

/-- The variables of the trial loop at its start, with `lambda = 1`. -/
def exLoop : LmLoop :=
  { w := exWindow, lambda := 1, lambda_vee := 2, step := false, max_iter := 10, converged := false }

/-- A configuration: at most 3 full states and 2 pose-only keyframes, a
keyframe at the earliest 5 frames after the last one, when fewer than 7/10
of the camera-0 observations are connected. -/
def exConfig : VioConfig :=
  { vio_max_states := 3, vio_max_kfs := 2, vio_min_frames_after_kf := 5
    vio_new_kf_keypoints_thresh := 7 / 10, vio_min_triangulation_dist := 1 / 20
    vio_lm_lambda_min := 1, vio_lm_lambda_max := 100
    vio_init_pose_weight := 1000, vio_init_ba_weight := 10, vio_init_bg_weight := 100
    vio_use_lm := true, vio_max_iterations := 2, vio_filter_iteration := 1 }

/-- An estimator right after `initialize` at time 1, with the landmark of
`exWindow` in its store. -/
def exStarted : VioState :=
  { initState 1 (0, 0, 0) (construct exConfig) with lmdb := exWindow.lmdb }

/-- The estimator `exStarted` once `opt_started` is set. -/
def exRunning : VioState :=
  { exStarted with est := { exStarted.est with opt_started := true } }

/-- No numerical result of a marginalization round is needed below a full
window: the prior and the store are returned as they are. -/
def exMargNumerics : MargNumerics :=
  { marg_H_new := fun s _ => s.marg_H
    marg_b_new := fun s _ => s.marg_b
    removeKeyframes := fun _ _ _ db => db }

/-- Five full states, the first of them the state of the initial prior;
`opt_started` is still clear. -/
def exFiveFull : VioState :=
  { exStarted with
    est := { exStarted.est with
             last_state_t_ns := 5
             frame_states := [(1, linState), (2, freshState), (3, freshState), (4, freshState),
               (5, freshState)] } }

/-- The estimator `exFiveFull` after `optimize` with the routines
`exNumerics 1`: two iterations, each accepted at its first trial, so the
landmark was moved and checkpointed twice. -/
def exFiveOptimized : VioState :=
  { exFiveFull with
    est := { exFiveFull.est with opt_started := true }
    lmdb := { kpts := [(7, { kf_id := { frame_id := 1, cam_id := 0 }, dir := (1, 1), id := 1 / 4,
                             backup_dir := (1, 1), backup_id := 1 / 2 })] }
    lambda := 1
    lambda_vee := 2 }

/-- The double product of two doubles for the examples: the exact product,
except that a product of magnitude at most 2^-1075, half the least positive
double, is zero, as binary64 rounds it. -/
def exProduct (a b : ℚ) : Flt :=
  if -(1 / 2 ^ 1075) ≤ a * b ∧ a * b ≤ 1 / 2 ^ 1075 then .num 0 else .num (a * b)

/-- Numerical routines for the examples of the triangulation step: every
point unprojects, the relative translation is the difference of the stored
translations plus one unit along x for a camera other than camera 0, the
product is `exProduct`, the squared norm is the exact one (the translations
of the examples have small integer components), and `triangulate` returns `degenerate` for a zero baseline, a point at inverse
distance 1/2 for the baseline `(1, 0, 0)` and at inverse distance 5 for any
other. -/
def exTri (degenerate : Dbl4) : TriNumerics :=
  { unproject := fun _ p => (true, ⟨p.1, p.2, 1⟩)
    T_0_1 := fun pose_l pose_o cam =>
      { R := ⟨⟨1, 0, 0⟩, ⟨0, 1, 0⟩, ⟨0, 0, 1⟩⟩
        t := ⟨pose_o.translation.1 - pose_l.translation.1 + (if cam = 0 then 0 else 1),
              pose_o.translation.2.1 - pose_l.translation.2.1,
              pose_o.translation.2.2 - pose_l.translation.2.2⟩ }
    mul := exProduct
    squaredNorm := fun t => .num (V3.dot t t)
    triangulate := fun _ _ T =>
      if T.t = ⟨0, 0, 0⟩ then degenerate
      else if T.t.x = 1 then (some 0, some 0, some 1, some (1 / 2))
      else (some 0, some 0, some 1, some 5)
    project := fun p => (p.1.getD 0, p.2.1.getD 0) }

/-- The frame at time 4: keypoint 7 seen by camera 0 only. -/
def exFlow4 : OpticalFlowResult := { t_ns := 4, observations := [[(7, (0, 0))], []] }

/-- The current frame, at time 5: keypoint 7 seen by both cameras. -/
def exFlow5 : OpticalFlowResult :=
  { t_ns := 5, observations := [[(7, (0, 0))], [(7, (1 / 10, 0))]] }

/-- The map `prev_opt_flow_res` once the current frame is saved (line 259). -/
def exPrev : List (Int × OpticalFlowResult) := [(4, exFlow4), (5, exFlow5)]

/-- The full states of the two frames: frame 4 stands two units along x from
frame 5. -/
def exTriStates : List (Int × PoseVelBiasStateWithLin) :=
  [(4, { linearized := false, translation := (2, 0, 0) }), (5, freshState)]

/-- The configuration `exConfig` with the minimal triangulation distance 0. -/
def exConfigZeroDist : VioConfig := { exConfig with vio_min_triangulation_dist := 0 }

/-- The configuration `exConfig` with the minimal triangulation distance
2^-600, a double whose square, 2^-1200, is below half the least positive
double. -/
def exConfigTinyDist : VioConfig := { exConfig with vio_min_triangulation_dist := 1 / 2 ^ 600 }

/-- What the triangulation loop does for keypoint 7 in the scene of
`exPrev`: the view of frame 4 gives a point at inverse distance 5, which is
dropped; the current camera-0 view is skipped for its zero baseline; the
view of camera 1 gives the landmark. -/
def exTriResult : TriResult :=
  { calls := [{ view := { frame_id := 4, cam_id := 0 }, translation := ⟨2, 0, 0⟩
                result := (some 0, some 0, some 1, some 5) },
              { view := { frame_id := 5, cam_id := 1 }, translation := ⟨1, 0, 0⟩
                result := (some 0, some 0, some 1, some (1 / 2)) }]
    created := some { kf_id := { frame_id := 5, cam_id := 0 }, dir := (0, 0), id := 1 / 2 } }

/-- The identity rotation. -/
def exIdentity : M33 ℚ := ⟨⟨1, 0, 0⟩, ⟨0, 1, 0⟩, ⟨0, 0, 1⟩⟩

/-- A norm for the examples, the sum of the absolute values: on a vector
along one axis it is the Euclidean norm. -/
def exNorm (u : V3 ℚ) : ℚ := |u.x| + |u.y| + |u.z|

/-- A point on the optical axis of the first camera at distance 3/4, seen
from a second camera one unit to the side. -/
def exAxisPoint : V3 ℚ := ⟨0, 0, 3 / 4⟩

/-- The relative pose of the second camera for `exAxisPoint`. -/
def exSidePose : SE3 ℚ := { R := exIdentity, t := ⟨1, 0, 0⟩ }

/-- The last right singular vector for `exAxisPoint`: the homogeneous point
`(0, 0, 3/4, 1)`, of length 5/4, scaled to unit length. -/
def exAxisSvd (_ : M44 ℚ) : V4 ℚ := ⟨0, 0, 3 / 5, 4 / 5⟩

/-- A point at distance 3/4 along the x axis of the first camera: its
bearing there has a zero third component. -/
def exPlanePoint : V3 ℚ := ⟨3 / 4, 0, 0⟩

/-- The relative pose of a second camera one unit ahead along the optical
axis, looking the same way: the bearing of `exPlanePoint` in it is
`(3/4, 0, -1)`. -/
def exAheadPose : SE3 ℚ := { R := exIdentity, t := ⟨0, 0, 1⟩ }

/-- The last right singular vector for `exPlanePoint`: the homogeneous point
`(3/4, 0, 0, 1)`, of length 5/4, scaled to unit length. -/
def exPlaneSvd (_ : M44 ℚ) : V4 ℚ := ⟨3 / 5, 0, 0, 4 / 5⟩

/-- A point at distance 1 along the x axis of the first camera, so that its
bearing has a zero third component. -/
def exFlatPoint : V3 ℚ := ⟨1, 0, 0⟩

/-- The relative pose of a second camera one unit along y, looking the same
way: the bearing of `exFlatPoint` in it is `(1, -1, 0)`. -/
def exFlatPose : SE3 ℚ := { R := exIdentity, t := ⟨0, 1, 0⟩ }

/-- A last right singular vector for `exFlatPoint`: the matrix `A` has rank
1 there and `(1, 0, 0, 0)` is a unit vector of its null space. -/
def exFlatSvd (_ : M44 ℚ) : V4 ℚ := ⟨1, 0, 0, 0⟩

/-- The window `exWindow` after the checkpoint and one update: the landmark
moved to `dir = (1, 1)`, `id = 1/2` and keeps its old values aside. -/
def exStepped : Window :=
  { frame_states := [(1, freshState)]
    frame_poses := []
    lmdb := { kpts := [(7, { kf_id := { frame_id := 1, cam_id := 0 }, dir := (1, 1), id := 1 / 2,
                             backup_dir := (0, 0), backup_id := 1 })] } }

/-- The window `exStepped` after `restore`: the landmark is back at
`dir = (0, 0)`, `id = 1`. -/
def exReverted : Window :=
  { frame_states := [(1, freshState)]
    frame_poses := []
    lmdb := { kpts := [(7, { kf_id := { frame_id := 1, cam_id := 0 }, dir := (0, 0), id := 1,
                             backup_dir := (0, 0), backup_id := 1 })] } }

/-- A landmark store for the round of `exBefore` (plan `exPlan`: keyframe 10
is removed for good, state 30 is demoted, `last_state_to_marg = 31`).
Landmark 8 is hosted by keyframe 10 and seen from frames 10, 30 and 32;
landmark 7 is hosted by the kept keyframe 20 and seen from frames 20 and 30. -/
def exObsStore : LandmarkDatabase :=
  { kpts := [(7, { kf_id := { frame_id := 20, cam_id := 0 }, dir := (0, 0), id := 1 }),
             (8, { kf_id := { frame_id := 10, cam_id := 0 }, dir := (0, 0), id := 1 })]
    obs :=
      [({ frame_id := 10, cam_id := 0 },
          [({ frame_id := 10, cam_id := 0 }, [{ kpt_id := 8, pos := (0, 0) }]),
           ({ frame_id := 30, cam_id := 0 }, [{ kpt_id := 8, pos := (1, 0) }]),
           ({ frame_id := 32, cam_id := 0 }, [{ kpt_id := 8, pos := (2, 0) }])]),
       ({ frame_id := 20, cam_id := 0 },
          [({ frame_id := 20, cam_id := 0 }, [{ kpt_id := 7, pos := (0, 0) }]),
           ({ frame_id := 30, cam_id := 0 }, [{ kpt_id := 7, pos := (1, 1) }])])]
    host_to_kpts := [({ frame_id := 10, cam_id := 0 }, [8]), ({ frame_id := 20, cam_id := 0 }, [7])]
    num_observations := 5
    kpts_num_obs := [(7, 2), (8, 3)] }

/-! ## The damping members across trials -/

/-- The damping members `(lambda, lambda_vee)` before and after one
Levenberg-Marquardt trial of `optimize` that returned; `accepted` is the
value of `step` after it. -/
def TrialUpdate (min_lambda max_lambda : ℚ) (accepted : Bool) (a b : ℚ × ℚ) : Prop :=
  ∃ (N : OptNumerics) (aom : AbsOrderMap) (w0 : Window) (error_total : Flt) (Hdiag : List Flt)
    (st st' : LmLoop),
    st.step = false ∧ (st.lambda, st.lambda_vee) = a ∧
    lmTrial N aom w0 min_lambda max_lambda error_total Hdiag st = .ok st' ∧
    (st'.lambda, st'.lambda_vee) = b ∧ st'.step = accepted

/-- The conditions on the damping members: `0 < min_lambda <= max_lambda`,
`min_lambda <= lambda <= max_lambda` and `lambda_vee >= 2`. -/
def DampingInBounds (min_lambda max_lambda : ℚ) (a : ℚ × ℚ) : Prop :=
  0 < min_lambda ∧ min_lambda ≤ max_lambda ∧ min_lambda ≤ a.1 ∧ a.1 ≤ max_lambda ∧ 2 ≤ a.2

/-! ## Maps keyed by `TimeCamId` -/

/-- The order of `TimeCamId`: by frame, then by camera. -/
def tcLt (a b : TimeCamId) : Prop :=
  a.frame_id < b.frame_id ∨ (a.frame_id = b.frame_id ∧ a.cam_id < b.cam_id)

instance (a b : TimeCamId) : Decidable (tcLt a b) := by
  unfold tcLt
  exact inferInstance

/-- Lookup `m.find(k)` in a map keyed by `TimeCamId`. -/
def tcFind {V : Type} (k : TimeCamId) : List (TimeCamId × V) → Option V
  | [] => none
  | e :: t => if e.1 = k then some e.2 else tcFind k t

/-- The call `m.emplace(k, v)` on a map keyed by `TimeCamId`: nothing changes
when `k` is present. -/
def tcEmplace {V : Type} (k : TimeCamId) (v : V) : List (TimeCamId × V) → List (TimeCamId × V)
  | [] => [(k, v)]
  | e :: t =>
    if e.1 = k then e :: t
    else if tcLt k e.1 then (k, v) :: e :: t
    else e :: tcEmplace k v t

/-- An update `f(m[k])` through `operator[]` on a map keyed by `TimeCamId`: a
missing entry is first created with the value `dflt`. -/
def tcUpdate {V : Type} (k : TimeCamId) (dflt : V) (f : V → V) :
    List (TimeCamId × V) → List (TimeCamId × V)
  | [] => [(k, f dflt)]
  | e :: t =>
    if e.1 = k then (e.1, f e.2) :: t
    else if tcLt k e.1 then (k, f dflt) :: e :: t
    else e :: tcUpdate k dflt f t

/-- The graph of observations `obs` of the landmark store: by host, then by
target, the observations in the order they were added. -/
abbrev ObsGraph := List (TimeCamId × List (TimeCamId × List KeypointObservation))

/-- The buckets of a graph of observations, in the order of the maps: host,
target and the observations of the pair. -/
def buckets (g : ObsGraph) : List (TimeCamId × TimeCamId × List KeypointObservation) :=
  g.flatMap (fun hv => hv.2.map (fun tv => (hv.1, tv.1, tv.2)))

/-! ## The observations linearized in a marginalization round -/

/-- The inner loop of lines 667-671 for the host `host`:
`if (it2->first.frame_id <= last_state_to_marg) obs_to_lin[host].emplace(*it2)`. -/
def obsToLinInner (last_state_to_marg : Int) (host : TimeCamId) :
    List (TimeCamId × List KeypointObservation) → ObsGraph → ObsGraph
  | [], acc => acc
  | it2 :: rest, acc =>
    if it2.1.frame_id ≤ last_state_to_marg then
      obsToLinInner last_state_to_marg host rest (tcUpdate host [] (tcEmplace it2.1 it2.2) acc)
    else obsToLinInner last_state_to_marg host rest acc

/-- The loop of lines 663-674 over `lmdb.getObservations()`; the accumulator
is `obs_to_lin`. -/
def obsToLinLoop (kfs_to_marg : List Int) (last_state_to_marg : Int) :
    ObsGraph → ObsGraph → ObsGraph
  | [], acc => acc
  | it :: rest, acc =>
    if setCount it.1.frame_id kfs_to_marg > 0 then
      obsToLinLoop kfs_to_marg last_state_to_marg rest
        (obsToLinInner last_state_to_marg it.1 it.2 acc)
    else obsToLinLoop kfs_to_marg last_state_to_marg rest acc

/-- The map `obs_to_lin` of a marginalization round with the plan `p`. -/
def obsToLin (p : MargPlan) (db : LandmarkDatabase) : ObsGraph :=
  obsToLinLoop p.kfs_to_marg p.last_state_to_marg db.obs []

/-- The maps of a graph of observations have strictly increasing keys, as
every `std::map` has. -/
def GraphSorted (g : ObsGraph) : Prop :=
  (g.map Prod.fst).Pairwise tcLt ∧ ∀ hv ∈ g, (hv.2.map Prod.fst).Pairwise tcLt

/-- The frames a marginalization round removes or demotes: the keyframes
removed for good, the pose-only frames removed, the full states removed and
the full states demoted. -/
def marginalizedFrames (p : MargPlan) : List Int :=
  p.kfs_to_marg ++ p.poses_to_marg ++ p.states_to_marg_all ++ p.states_to_marg_vel_bias

/-! ## The processing thread (`proc_func`, lines 114-216)

The two input queues are sequences of optional items, `none` being the null
pointer; nothing is pushed while the thread runs, so a `pop` on an empty
queue never returns. Of the estimator the thread only needs `initialized`;
the calls of `measure` are recorded in order. -/

/-- An IMU sample, `ImuData`: of its members the thread compares the time
stamp; the calibration of `accel` and `gyro` in place is left out. -/
structure ImuData where
  t_ns : Int
  deriving DecidableEq, Repr

/-- The preintegrated measurement `IntegratedImuMeasurement` of the IMU
library, as far as the thread reads it: `get_start_t_ns()` and `get_dt_ns()`. -/
structure IntegratedImuMeasurement where
  start_t_ns : Int
  dt_ns : Int
  deriving DecidableEq, Repr

/-- How a run of the thread ends without finishing: with a fault, or blocked
for ever in a `pop` on an empty queue. -/
inductive Stop where
  | fault (f : Fault)
  | blocked
  deriving DecidableEq, Repr

/-- The loop `while (!vision_data_queue.empty()) vision_data_queue.pop(curr_frame)`
of line 131. -/
def drainFrames (curr_frame : Option OpticalFlowResult) :
    List (Option OpticalFlowResult) → Option OpticalFlowResult × List (Option OpticalFlowResult)
  | [] => (curr_frame, [])
  | next :: rest => drainFrames next rest

/-- Lines 127-132: the blocking `pop` of a frame, followed in real-time mode
by the loop that drains the queue. The result is `curr_frame` and the queue
left, or `none` when the `pop` blocks. -/
def popFrame (vio_enforce_realtime : Bool) :
    List (Option OpticalFlowResult) →
      Option (Option OpticalFlowResult × List (Option OpticalFlowResult))
  | [] => none
  | first :: rest =>
    if vio_enforce_realtime = true then some (drainFrames first rest) else some (first, rest)

/-- The loops `while (data->t_ns < t) { imu_data_queue.pop(data); if (!data.get()) break; ... }`
of lines 141-147 (`orEqual = false`) and lines 177-182 (`orEqual = true`, the
test being `<=`), entered with `data` not null. The result is `data` and the
queue left; the `break` leaves only this loop, with `data` null. -/
def skipSamples (orEqual : Bool) (t : Int) :
    List (Option ImuData) → ImuData → Except Stop (Option ImuData × List (Option ImuData))
  | [], data => if data.t_ns < t ∨ (orEqual = true ∧ data.t_ns = t) then .error .blocked
      else .ok (some data, [])
  | next :: rest, data =>
    if data.t_ns < t ∨ (orEqual = true ∧ data.t_ns = t) then
      match next with
      | none => .ok (none, rest)
      | some data' => skipSamples orEqual t rest data'
    else .ok (some data, next :: rest)

/-- The loop of lines 184-190:
`while (data->t_ns <= t) { meas->integrate(*data, ...); imu_data_queue.pop(data); if (!data.get()) break; ... }`,
entered with `data` not null; `integrate` is the library routine. -/
def integrateSamples
    (integrate : IntegratedImuMeasurement → ImuData → IntegratedImuMeasurement) (t : Int) :
    List (Option ImuData) → ImuData → IntegratedImuMeasurement →
      Except Stop (Option ImuData × List (Option ImuData) × IntegratedImuMeasurement)
  | [], data, meas => if data.t_ns ≤ t then .error .blocked else .ok (some data, [], meas)
  | next :: rest, data, meas =>
    if data.t_ns ≤ t then
      match next with
      | none => .ok (none, rest, integrate meas data)
      | some data' => integrateSamples integrate t rest data' (integrate meas data)
    else .ok (some data, next :: rest, meas)

/-- The variables of the thread. -/
structure ProcVars where
  imu_data_queue : List (Option ImuData)
  vision_data_queue : List (Option OpticalFlowResult)
  data : Option ImuData
  prev_frame : Option OpticalFlowResult
  meas : Option IntegratedImuMeasurement
  initialized : Bool
  measured : List (OpticalFlowResult × Option IntegratedImuMeasurement)
  deriving DecidableEq, Repr

/-- Lines 140-172, the block `if (!initialized)`: samples older than the
frame are skipped, then `data->accel` is read for the initial attitude. -/
def procInit (curr_frame : OpticalFlowResult) (v : ProcVars) : Except Stop ProcVars :=
  if v.initialized = true then .ok v
  else
    match v.data with
    | none => .error (.fault .undefined)
    | some data =>
      match skipSamples false curr_frame.t_ns v.imu_data_queue data with
      | .error e => .error e
      | .ok (none, _) => .error (.fault .undefined)
      | .ok (some data', queue) =>
        .ok { v with data := some data', imu_data_queue := queue, initialized := true }

/-- Lines 174-199, the block `if (prev_frame)`. The flag returned is false
when the `break` of line 194 leaves the outer loop. -/
def procIntegrate
    (integrate : IntegratedImuMeasurement → ImuData → IntegratedImuMeasurement)
    (curr_frame : OpticalFlowResult) (v : ProcVars) : Except Stop (ProcVars × Bool) :=
  match v.prev_frame with
  | none => .ok (v, true)
  | some prev_frame =>
    let meas0 : IntegratedImuMeasurement := { start_t_ns := prev_frame.t_ns, dt_ns := 0 }
    match v.data with
    | none => .error (.fault .undefined)
    | some data =>
      match skipSamples true prev_frame.t_ns v.imu_data_queue data with
      | .error e => .error e
      | .ok (none, _) => .error (.fault .undefined)
      | .ok (some data1, queue1) =>
        match integrateSamples integrate curr_frame.t_ns queue1 data1 meas0 with
        | .error e => .error e
        | .ok (data2, queue2, meas) =>
          if meas.start_t_ns + meas.dt_ns < curr_frame.t_ns then
            match data2 with
            | none => .ok ({ v with data := none, imu_data_queue := queue2, meas := some meas }, false)
            | some d =>
              .ok ({ v with data := some d, imu_data_queue := queue2
                            meas := some (integrate meas { d with t_ns := curr_frame.t_ns }) }, true)
          else .ok ({ v with data := data2, imu_data_queue := queue2, meas := some meas }, true)

/-- One pass of the loop `while (true)` (lines 126-204); the flag returned is
false when a `break` left the loop. -/
def procStep (vio_enforce_realtime : Bool)
    (integrate : IntegratedImuMeasurement → ImuData → IntegratedImuMeasurement)
    (v : ProcVars) : Except Stop (ProcVars × Bool) :=
  match popFrame vio_enforce_realtime v.vision_data_queue with
  | none => .error .blocked
  | some (none, queue) => .ok ({ v with vision_data_queue := queue }, false)
  | some (some curr_frame, queue) =>
    match procInit curr_frame { v with vision_data_queue := queue } with
    | .error e => .error e
    | .ok v1 =>
      match procIntegrate integrate curr_frame v1 with
      | .error e => .error e
      | .ok (v2, false) => .ok (v2, false)
      | .ok (v2, true) =>
        .ok ({ v2 with measured := v2.measured ++ [(curr_frame, v2.meas)]
                       prev_frame := some curr_frame }, true)

/-- The loop `while (true)`; every pass takes a frame from the queue, so
`fuel` above the length of the queue is never used up. -/
def procLoop (vio_enforce_realtime : Bool)
    (integrate : IntegratedImuMeasurement → ImuData → IntegratedImuMeasurement) :
    Nat → ProcVars → Except Stop ProcVars
  | 0, _ => .error (.fault .fuel)
  | fuel + 1, v =>
    match procStep vio_enforce_realtime integrate v with
    | .error e => .error e
    | .ok (v', false) => .ok v'
    | .ok (v', true) => procLoop vio_enforce_realtime integrate fuel v'

/-- The output queues that are set. -/
structure OutputQueues where
  out_vis_queue : Bool
  out_marg_queue : Bool
  out_state_queue : Bool
  deriving DecidableEq, Repr

/-- What a finished run of the thread leaves: the calls of `measure`, the
queues that received a null pointer (lines 206-208), and `finished`. -/
structure ProcResult where
  measured : List (OpticalFlowResult × Option IntegratedImuMeasurement)
  null_pushed : OutputQueues
  finished : Bool
  deriving DecidableEq, Repr

/-- The thread `proc_func`: the first `pop` of a sample (lines 122-124, which
read the sample without a test), the loop, the null pointers for the output
queues and `finished = true`. -/
def procFunc (vio_enforce_realtime : Bool)
    (integrate : IntegratedImuMeasurement → ImuData → IntegratedImuMeasurement)
    (outputs : OutputQueues) (initialized : Bool)
    (imu_data_queue : List (Option ImuData)) (vision_data_queue : List (Option OpticalFlowResult)) :
    Except Stop ProcResult :=
  match imu_data_queue with
  | [] => .error .blocked
  | none :: _ => .error (.fault .undefined)
  | some data :: queue =>
    match procLoop vio_enforce_realtime integrate (vision_data_queue.length + 1)
        { imu_data_queue := queue, vision_data_queue := vision_data_queue, data := some data
          prev_frame := none, meas := none, initialized := initialized, measured := [] } with
    | .error e => .error e
    | .ok v => .ok { measured := v.measured, null_pushed := outputs, finished := true }

/-- The library routine `integrate` as the examples use it: afterwards the
measurement ends at the time stamp of the sample. -/
def exIntegrate (meas : IntegratedImuMeasurement) (data : ImuData) : IntegratedImuMeasurement :=
  { meas with dt_ns := data.t_ns - meas.start_t_ns }

/-- A frame without observations at time `t`. -/
def exFrame (t : Int) : OpticalFlowResult := { t_ns := t, observations := [] }

/-! ## `linearizeAbs` (`ba_base.h`, lines 329-401) -/

/-- A 6x6 matrix of doubles (`Sophus::Matrix6d`). -/
abbrev Mat6 := Matrix (Fin 6) (Fin 6) ℚ

/-- The struct `RelLinDataBase`: the (host, target) pairs of a relative
system and the Jacobians of each relative pose with respect to the host and
to the target pose. -/
structure RelLinDataBase where
  order : List (TimeCamId × TimeCamId)
  d_rel_d_h : List Mat6
  d_rel_d_t : List Mat6

/-- The block `M.block<POSE_SIZE, POSE_SIZE>(POSE_SIZE * i, POSE_SIZE * j)` of a
dense matrix given by its coefficients. -/
def block6 (M : Nat → Nat → ℚ) (i j : Nat) : Mat6 :=
  fun a b => M (6 * i + a.val) (6 * j + b.val)

/-- The segment `v.segment<POSE_SIZE>(i * POSE_SIZE)` of a dense vector given
by its coefficients. -/
def segment6 (v : Nat → ℚ) (i : Nat) : Fin 6 → ℚ := fun a => v (i * 6 + a.val)

/-- A call of the accumulator, which is a template parameter of
`linearizeAbs`: `addB<POSE_SIZE>(i, data)` or
`addH<POSE_SIZE, POSE_SIZE>(i, j, data)`. -/
inductive AccumCall where
  | addB (i : Nat) (data : Fin 6 → ℚ)
  | addH (i j : Nat) (data : Mat6)

/-- The lookup `aom.abs_order_map.at(frame_id).first`. -/
def absIdx (aom : AbsOrderMap) (frame_id : Int) : Except Fault Nat :=
  match mapAt frame_id aom.abs_order_map with
  | .error f => .error f
  | .ok e => .ok e.1

/-- The body of the inner loop (lines 362-399) for the entries `i` and `j`:
the calls of `addH` it makes. -/
def linearizeAbsPair (rel_H : Nat → Nat → ℚ) (rld : RelLinDataBase) (aom : AbsOrderMap)
    (i j : Nat) : Except Fault (List AccumCall) :=
  match rld.order[i]?, rld.order[j]? with
  | some oi, some oj =>
    if oi.1 = oj.1 then
      match absIdx aom oi.1.frame_id, absIdx aom oi.2.frame_id, absIdx aom oj.2.frame_id with
      | .ok abs_h_idx, .ok abs_ti_idx, .ok abs_tj_idx =>
        if oi.1.frame_id = oi.2.frame_id ∨ oi.1.frame_id = oj.2.frame_id then .ok []
        else
          match rld.d_rel_d_h[i]?, rld.d_rel_d_t[i]?, rld.d_rel_d_h[j]?, rld.d_rel_d_t[j]? with
          | some dhi, some dti, some dhj, some dtj =>
            .ok [.addH abs_h_idx abs_h_idx (Matrix.transpose dhi * block6 rel_H i j * dhj),
                 .addH abs_ti_idx abs_h_idx (Matrix.transpose dti * block6 rel_H i j * dhj),
                 .addH abs_h_idx abs_tj_idx (Matrix.transpose dhi * block6 rel_H i j * dtj),
                 .addH abs_ti_idx abs_tj_idx (Matrix.transpose dti * block6 rel_H i j * dtj)]
          | _, _, _, _ => .error .undefined
      | .error f, _, _ => .error f
      | _, .error f, _ => .error f
      | _, _, .error f => .error f
    else .error (.assertion 362)
  | _, _ => .error .undefined

/-- The inner loop `for (size_t j = 0; j < rld.order.size(); j++)` from `j` on,
with `n` passes left. -/
def linearizeAbsInner (rel_H : Nat → Nat → ℚ) (rld : RelLinDataBase) (aom : AbsOrderMap)
    (i : Nat) : Nat → Nat → Except Fault (List AccumCall)
  | 0, _ => .ok []
  | n + 1, j =>
    match linearizeAbsPair rel_H rld aom i j with
    | .error f => .error f
    | .ok calls =>
      match linearizeAbsInner rel_H rld aom i n (j + 1) with
      | .error f => .error f
      | .ok rest => .ok (calls ++ rest)

/-- The body of the outer loop (lines 341-400) for the entry `i`: the two
calls of `addB`, then the inner loop. -/
def linearizeAbsRow (rel_H : Nat → Nat → ℚ) (rel_b : Nat → ℚ) (rld : RelLinDataBase)
    (aom : AbsOrderMap) (i : Nat) : Except Fault (List AccumCall) :=
  match rld.order[i]? with
  | none => .error .undefined
  | some oi =>
    match absIdx aom oi.1.frame_id, absIdx aom oi.2.frame_id with
    | .ok abs_h_idx, .ok abs_ti_idx =>
      match rld.d_rel_d_h[i]?, rld.d_rel_d_t[i]? with
      | some dhi, some dti =>
        match linearizeAbsInner rel_H rld aom i rld.order.length 0 with
        | .error f => .error f
        | .ok calls =>
          .ok (.addB abs_h_idx (Matrix.mulVec (Matrix.transpose dhi) (segment6 rel_b i)) ::
               .addB abs_ti_idx (Matrix.mulVec (Matrix.transpose dti) (segment6 rel_b i)) ::
               calls)
      | _, _ => .error .undefined
    | .error f, _ => .error f
    | _, .error f => .error f

/-- The outer loop `for (size_t i = 0; i < rld.order.size(); i++)` from `i` on,
with `n` passes left. -/
def linearizeAbsOuter (rel_H : Nat → Nat → ℚ) (rel_b : Nat → ℚ) (rld : RelLinDataBase)
    (aom : AbsOrderMap) : Nat → Nat → Except Fault (List AccumCall)
  | 0, _ => .ok []
  | n + 1, i =>
    match linearizeAbsRow rel_H rel_b rld aom i with
    | .error f => .error f
    | .ok calls =>
      match linearizeAbsOuter rel_H rel_b rld aom n (i + 1) with
      | .error f => .error f
      | .ok rest => .ok (calls ++ rest)

/-- The function `BundleAdjustmentBase::linearizeAbs(rel_H, rel_b, rld, aom, accum)`:
the calls it makes on the accumulator, in order. The dense inputs are given
by their coefficients and are large enough for the blocks read. -/
def linearizeAbs (rel_H : Nat → Nat → ℚ) (rel_b : Nat → ℚ) (rld : RelLinDataBase)
    (aom : AbsOrderMap) : Except Fault (List AccumCall) :=
  linearizeAbsOuter rel_H rel_b rld aom rld.order.length 0

/-- The coefficient `(r, c)` of a 6x6 block placed at `(i, j)` in a dense
matrix that is zero elsewhere. -/
def blockEntry (i j : Nat) (data : Mat6) (r c : Nat) : ℚ :=
  if h : (i ≤ r ∧ r < i + 6) ∧ (j ≤ c ∧ c < j + 6) then
    data ⟨r - i, by omega⟩ ⟨c - j, by omega⟩
  else 0

/-- The coefficient `(r, c)` that one call adds to the Hessian of a dense
accumulator: `addH` adds its block at `(i, j)`, `addB` adds nothing. -/
def hessianEntry (r c : Nat) : AccumCall → ℚ
  | .addB _ _ => 0
  | .addH i j data => blockEntry i j data r c

/-- The coefficient `(r, c)` of the Hessian that the calls add up to in an
accumulator that starts at zero. -/
def hessianOf (calls : List AccumCall) (r c : Nat) : ℚ :=
  (calls.map (hessianEntry r c)).sum

/-- The calls of `addH` among the calls, as (row offset, column offset,
block). -/
def hessianCalls : List AccumCall → List (Nat × Nat × Mat6)
  | [] => []
  | .addB _ _ :: rest => hessianCalls rest
  | .addH i j data :: rest => (i, j, data) :: hessianCalls rest

/-- The offset of a frame in the order map, 0 when it is missing. -/
def offsetOf (aom : AbsOrderMap) (frame_id : Int) : Nat :=
  ((mapFind frame_id aom.abs_order_map).getD (0, 0)).1

/-- The four chain-rule blocks, as the specification words them, for the entries `i` and `j` of
`rld.order`: nothing when a target frame is the host frame. -/
def claimedBlocks (rel_H : Nat → Nat → ℚ) (rld : RelLinDataBase) (aom : AbsOrderMap)
    (i j : Nat) : List (Nat × Nat × Mat6) :=
  let oi := rld.order.getD i (⟨0, 0⟩, ⟨0, 0⟩)
  let oj := rld.order.getD j (⟨0, 0⟩, ⟨0, 0⟩)
  let dhi := rld.d_rel_d_h.getD i 0
  let dti := rld.d_rel_d_t.getD i 0
  let dhj := rld.d_rel_d_h.getD j 0
  let dtj := rld.d_rel_d_t.getD j 0
  if oi.2.frame_id = oi.1.frame_id ∨ oj.2.frame_id = oi.1.frame_id then []
  else
    [(offsetOf aom oi.1.frame_id, offsetOf aom oi.1.frame_id,
        Matrix.transpose dhi * block6 rel_H i j * dhj),
     (offsetOf aom oi.2.frame_id, offsetOf aom oi.1.frame_id,
        Matrix.transpose dti * block6 rel_H i j * dhj),
     (offsetOf aom oi.1.frame_id, offsetOf aom oj.2.frame_id,
        Matrix.transpose dhi * block6 rel_H i j * dtj),
     (offsetOf aom oi.2.frame_id, offsetOf aom oj.2.frame_id,
        Matrix.transpose dti * block6 rel_H i j * dtj)]

/-- The blocks `claimedBlocks` for every ordered pair of entries of `rld.order`,
in the order of the two loops. -/
def claimedHessian (rel_H : Nat → Nat → ℚ) (rld : RelLinDataBase) (aom : AbsOrderMap) :
    List (Nat × Nat × Mat6) :=
  (List.range rld.order.length).flatMap (fun i =>
    (List.range rld.order.length).flatMap (fun j => claimedBlocks rel_H rld aom i j))

/-- The inputs on which `linearizeAbs` makes no failing lookup: one host for
all entries, every frame of an entry in the order map, and a pair of
Jacobians for every entry. -/
def RelWellFormed (rld : RelLinDataBase) (aom : AbsOrderMap) : Prop :=
  (∀ oi ∈ rld.order, ∀ oj ∈ rld.order, oi.1 = oj.1) ∧
  (∀ o ∈ rld.order, mapFind o.1.frame_id aom.abs_order_map ≠ none ∧
    mapFind o.2.frame_id aom.abs_order_map ≠ none) ∧
  rld.order.length ≤ rld.d_rel_d_h.length ∧ rld.order.length ≤ rld.d_rel_d_t.length

/-- An example relative system: three entries hosted by frame 10 camera 0,
with targets frame 20 camera 0, frame 10 camera 1 and frame 30 camera 1. -/
def exRld : RelLinDataBase :=
  { order := [(⟨10, 0⟩, ⟨20, 0⟩), (⟨10, 0⟩, ⟨10, 1⟩), (⟨10, 0⟩, ⟨30, 1⟩)]
    d_rel_d_h := [fun a b => (a.val : ℚ) + 2 * b.val, 1, fun a b => if a = b then 3 else 1]
    d_rel_d_t := [fun a b => if a.val + b.val = 5 then 1 else 0, 1, fun a b => (a.val : ℚ) - b.val] }

/-- An example order map for the frames 10, 20 and 30, six coefficients
each. -/
def exAomRel : AbsOrderMap :=
  { abs_order_map := [(10, (0, 6)), (20, (6, 6)), (30, (12, 6))], items := 3, total_size := 18 }

/-- An example symmetric `rel_H`, by its coefficients. -/
def exRelH (r c : Nat) : ℚ := ((r : ℚ) + 1) * ((c : ℚ) + 1)

/-- An example `rel_b`, by its coefficients. -/
def exRelB (r : Nat) : ℚ := (r : ℚ) - 4

/-- Modelled from the spec: `landmarkExists(lm_id)`, whether the store holds
a landmark with this id. -/
def LandmarkDatabase.landmarkExists (db : LandmarkDatabase) (lm_id : Int) : Bool :=
  (mapFind lm_id db.kpts).isSome

/-- Modelled from the spec: `getLandmark(lm_id)`, the landmark stored under
the id, if any. -/
def LandmarkDatabase.getLandmark (db : LandmarkDatabase) (lm_id : Int) : Option KeypointPosition :=
  mapFind lm_id db.kpts

/-- Modelled from the spec: `addLandmark(id, position)` fails if the id
already exists; otherwise the landmark is stored under the id and the id
joins the landmarks of its host view. -/
def LandmarkDatabase.addLandmark (db : LandmarkDatabase) (lm_id : Int) (pos : KeypointPosition) :
    Option LandmarkDatabase :=
  if db.landmarkExists lm_id = true then none
  else some { db with
              kpts := mapSet lm_id pos db.kpts
              host_to_kpts := tcUpdate pos.kf_id [] (setEmplace lm_id) db.host_to_kpts }

/-- Modelled from the spec: `addObservation(targetFrame, observation)`
requires the landmark of the observation to exist and appends the
observation to the (host, target) bucket given by the host view of the
landmark; the two counters of observations go up by one. -/
def LandmarkDatabase.addObservation (db : LandmarkDatabase) (tcid_target : TimeCamId)
    (o : KeypointObservation) : Option LandmarkDatabase :=
  match mapFind o.kpt_id db.kpts with
  | none => none
  | some lm =>
    some { db with
           obs := tcUpdate lm.kf_id [] (tcUpdate tcid_target [] (fun v => v ++ [o])) db.obs
           num_observations := db.num_observations + 1
           kpts_num_obs :=
             mapSet o.kpt_id ((mapFind o.kpt_id db.kpts_num_obs).getD 0 + 1) db.kpts_num_obs }

/-- A call of a store method that changes the store: a call that fails ends
the run. What the failure is is not said; it is recorded as
`Fault.assertion 0`, a line at which no assertion of the sources stands. -/
def storeCall (r : Option LandmarkDatabase) : Except Fault LandmarkDatabase :=
  match r with
  | some db => .ok db
  | none => .error (.assertion 0)

/-! ## The association step of `measure` (lines 261-307) -/

/-- The call `s.emplace(k)` on a `std::unordered_set<int>`, kept as the list
of its elements in the order they were first inserted. -/
def unorderedEmplace (k : Int) (s : List Int) : List Int := if k ∈ s then s else s ++ [k]

/-- The variables of the association step: the store, `connected0`,
`num_points_connected` and `unconnected_obs0`. -/
structure Assoc where
  lmdb : LandmarkDatabase
  connected0 : Nat
  num_points_connected : List (Int × Int)
  unconnected_obs0 : List Int
  deriving DecidableEq, Repr

/-- The body of the inner loop (lines 280-306) for one observation `kv_obs`
of camera `i` of the frame `t_ns`. -/
def assocStep (t_ns : Int) (i : Nat) (kv_obs : Int × Vec2) (a : Assoc) : Except Fault Assoc :=
  if a.lmdb.landmarkExists kv_obs.1 = true then
    match a.lmdb.getLandmark kv_obs.1 with
    | none => .error .undefined
    | some lm =>
      match storeCall (a.lmdb.addObservation { frame_id := t_ns, cam_id := i }
          { kpt_id := kv_obs.1, pos := kv_obs.2 }) with
      | .error f => .error f
      | .ok db =>
        .ok { lmdb := db
              connected0 := if i = 0 then a.connected0 + 1 else a.connected0
              num_points_connected :=
                mapSet lm.kf_id.frame_id
                  ((mapFind lm.kf_id.frame_id a.num_points_connected).getD 0 + 1)
                  a.num_points_connected
              unconnected_obs0 := a.unconnected_obs0 }
  else if i = 0 then
    .ok { a with unconnected_obs0 := unorderedEmplace kv_obs.1 a.unconnected_obs0 }
  else .ok a

/-- The inner loop `for (const auto& kv_obs : opt_flow_meas->observations[i])`. -/
def assocInner (t_ns : Int) (i : Nat) : List (Int × Vec2) → Assoc → Except Fault Assoc
  | [], a => .ok a
  | kv_obs :: rest, a =>
    match assocStep t_ns i kv_obs a with
    | .error f => .error f
    | .ok a' => assocInner t_ns i rest a'

/-- The outer loop `for (size_t i = 0; i < opt_flow_meas->observations.size(); i++)`
from camera `i` on. -/
def assocLoop (t_ns : Int) : Nat → List (List (Int × Vec2)) → Assoc → Except Fault Assoc
  | _, [], a => .ok a
  | i, obs_i :: rest, a =>
    match assocInner t_ns i obs_i a with
    | .error f => .error f
    | .ok a' => assocLoop t_ns (i + 1) rest a'

/-- Lines 261-307: the association step on the store `db`, from the counters
at zero and the two collections empty. -/
def associate (opt_flow_meas : OpticalFlowResult) (db : LandmarkDatabase) : Except Fault Assoc :=
  assocLoop opt_flow_meas.t_ns 0 opt_flow_meas.observations
    { lmdb := db, connected0 := 0, num_points_connected := [], unconnected_obs0 := [] }

/-! ## New landmarks of a keyframe (lines 341-424) -/

/-- The loop of lines 418-420:
`for (const auto& kv_obs : kp_obs) lmdb.addObservation(kv_obs.first, kv_obs.second)`. -/
def addObservations : List (TimeCamId × KeypointObservation) → LandmarkDatabase →
    Except Fault LandmarkDatabase
  | [], db => .ok db
  | kv_obs :: rest, db =>
    match storeCall (db.addObservation kv_obs.1 kv_obs.2) with
    | .error f => .error f
    | .ok db' => addObservations rest db'

/-- The body of the loop over `unconnected_obs0` (lines 350-421) for the id
`lm_id`; the accumulator is the store and `num_points_added`. The landmark
that the loop over `kp_obs` creates is handed to `lmdb.addLandmark` where the
loop is left, and then the views found are added as observations. -/
def createLandmark (T : TriNumerics) (config : VioConfig)
    (frame_states : List (Int × PoseVelBiasStateWithLin))
    (frame_poses : List (Int × PoseStateWithLin))
    (opt_flow_meas : OpticalFlowResult) (prev_opt_flow_res : List (Int × OpticalFlowResult))
    (lm_id : Int) (acc : LandmarkDatabase × Int) : Except Fault (LandmarkDatabase × Int) :=
  match newLandmark T config frame_states frame_poses opt_flow_meas prev_opt_flow_res lm_id with
  | .error f => .error f
  | .ok r =>
    match r.created with
    | none => .ok acc
    | some kpt_pos =>
      match storeCall (acc.1.addLandmark lm_id kpt_pos) with
      | .error f => .error f
      | .ok db =>
        match addObservations (findObservations prev_opt_flow_res lm_id) db with
        | .error f => .error f
        | .ok db' => .ok (db', acc.2 + 1)

/-- The loop `for (int lm_id : unconnected_obs0)` of lines 350-421. -/
def createLoop (T : TriNumerics) (config : VioConfig)
    (frame_states : List (Int × PoseVelBiasStateWithLin))
    (frame_poses : List (Int × PoseStateWithLin))
    (opt_flow_meas : OpticalFlowResult) (prev_opt_flow_res : List (Int × OpticalFlowResult)) :
    List Int → LandmarkDatabase × Int → Except Fault (LandmarkDatabase × Int)
  | [], acc => .ok acc
  | lm_id :: rest, acc =>
    match createLandmark T config frame_states frame_poses opt_flow_meas prev_opt_flow_res
        lm_id acc with
    | .error f => .error f
    | .ok acc' =>
      createLoop T config frame_states frame_poses opt_flow_meas prev_opt_flow_res rest acc'

/-! ## The method `measure` (lines 233-470) -/

/-- The estimator together with the frames kept in `prev_opt_flow_res`, of
which `est.prev_opt_flow_res` holds the keys. -/
structure MeasureState where
  estimator : VioState
  flow : List (Int × OpticalFlowResult)
  deriving DecidableEq, Repr

/-- The routines `measure` calls that are outside the sources at hand or are
library code: those of the scoring heuristic, of the optimizer, of a
marginalization round and of the triangulation step, and the translation of
the state that `meas->predictState` predicts. -/
structure MeasureNumerics where
  F : MathFns
  N : OptNumerics
  M : MargNumerics
  T : TriNumerics
  predictState : PoseVelBiasStateWithLin → IntegratedImuMeasurement → Vec3

/-- Lines 237-256: with an IMU measurement, the two assertions, then the
predicted state becomes the newest full state (stored as not linearized) and
the measurement is kept under its start time. The time stamp of a stored
state is its key; `frame_states[last_state_t_ns]` on a missing key reads a
state that was never written. -/
def measureImu (X : MeasureNumerics) (opt_flow_meas : OpticalFlowResult)
    (meas : Option IntegratedImuMeasurement) (s : VioState) : Except Fault VioState :=
  match meas with
  | none => .ok s
  | some m =>
    match mapFind s.est.last_state_t_ns s.est.frame_states with
    | none => .error .undefined
    | some st =>
      if s.est.last_state_t_ns ≠ m.start_t_ns then .error (.assertion 239)
      else if opt_flow_meas.t_ns ≠ m.dt_ns + m.start_t_ns then .error (.assertion 241)
      else
        .ok { s with
              est := { s.est with
                       last_state_t_ns := opt_flow_meas.t_ns
                       frame_states :=
                         mapSet opt_flow_meas.t_ns
                           { linearized := false, translation := X.predictState st m }
                           s.est.frame_states
                       imu_meas := setEmplace m.start_t_ns s.est.imu_meas } }

/-- Lines 341-427: a keyframe records `last_state_t_ns` in `kf_ids`, creates
the new landmarks and writes their number to `num_points_kf`; any other
frame is counted. -/
def keyframeStep (X : MeasureNumerics) (config : VioConfig) (opt_flow_meas : OpticalFlowResult)
    (prev_opt_flow_res : List (Int × OpticalFlowResult)) (unconnected_obs0 : List Int)
    (s : VioState) : Except Fault VioState :=
  if (keyframeBranch s).2 = true then
    match createLoop X.T config (keyframeBranch s).1.est.frame_states
        (keyframeBranch s).1.est.frame_poses opt_flow_meas prev_opt_flow_res unconnected_obs0
        ((keyframeBranch s).1.lmdb, 0) with
    | .error f => .error f
    | .ok r =>
      .ok { (keyframeBranch s).1 with
            lmdb := r.1
            est := { (keyframeBranch s).1.est with
                     num_points_kf :=
                       mapSet opt_flow_meas.t_ns r.2 (keyframeBranch s).1.est.num_points_kf } }
  else .ok (keyframeBranch s).1

/-- The method `KeypointVioEstimator::measure(opt_flow_meas, meas)` up to the
state it publishes (lines 233-441); `out_state_queue` says whether that
queue is set, `fuel` bounds the passes of the keyframe-selection loop. The
block that fills the visualization queue is left out. -/
def measure (X : MeasureNumerics) (config : VioConfig) (out_state_queue : Bool) (fuel : Nat)
    (opt_flow_meas : OpticalFlowResult) (meas : Option IntegratedImuMeasurement)
    (s : MeasureState) : Except Fault MeasureState :=
  match measureImu X opt_flow_meas meas s.estimator with
  | .error f => .error f
  | .ok s1 =>
    match associate opt_flow_meas s1.lmdb with
    | .error f => .error f
    | .ok a =>
      match keyframeStep X config opt_flow_meas (mapSet opt_flow_meas.t_ns opt_flow_meas s.flow)
          a.unconnected_obs0
          (keyframeRule config a.connected0 a.unconnected_obs0
            { s1 with
              lmdb := a.lmdb
              est := { s1.est with
                       prev_opt_flow_res :=
                         setEmplace opt_flow_meas.t_ns s1.est.prev_opt_flow_res } }) with
      | .error f => .error f
      | .ok s4 =>
        match optimize X.N config s4 with
        | .error f => .error f
        | .ok s5 =>
          match marginalizeAll X.F X.M a.num_points_connected fuel s5 with
          | .error f => .error f
          | .ok s6 =>
            if out_state_queue = true ∧ mapFind s6.est.last_state_t_ns s6.est.frame_states = none
            then .error .out_of_range
            else
              .ok { estimator := s6
                    flow := (mapSet opt_flow_meas.t_ns opt_flow_meas s.flow).filter
                      (fun kv => decide (kv.1 ∈ s6.est.prev_opt_flow_res)) }

/-- The observation `o` stands in a bucket of the graph for the host view
`host` and the target view `target`. -/
def Observed (g : ObsGraph) (host target : TimeCamId) (o : KeypointObservation) : Prop :=
  ∃ b ∈ buckets g, b.1 = host ∧ b.2.1 = target ∧ o ∈ b.2.2

/-- The observations of camera 0 of a frame (none when the frame has no
camera). -/
def camera0 (opt_flow_meas : OpticalFlowResult) : List (Int × Vec2) :=
  opt_flow_meas.observations.headD []

/-! ## Examples for `measure` -/

/-- Routines for the examples of `measure`: those of the earlier examples,
with a predicted state that stays where the last state is. -/
def exMeasure : MeasureNumerics :=
  { F := lineMath
    N := exNumerics 1
    M := exMargNumerics
    T := exTri (none, none, none, none)
    predictState := fun st _ => st.translation }

/-- A stereo frame at time 6: camera 0 sees the keypoints 7 and 8, camera 1
the keypoints 7 and 9. -/
def exStereo : OpticalFlowResult :=
  { t_ns := 6, observations := [[(7, (0, 0)), (8, (1, 0))], [(7, (2, 0)), (9, (3, 0))]] }

/-- The association step of `exStereo` on the store of `exWindow`, which
holds the landmark 7 hosted by frame 1: both views of keypoint 7 are
attached, keypoint 8 is left unconnected, keypoint 9 is passed over. -/
def exAssoc : Assoc :=
  { lmdb :=
      { exWindow.lmdb with
        obs := [({ frame_id := 1, cam_id := 0 },
                 [({ frame_id := 6, cam_id := 0 }, [{ kpt_id := 7, pos := (0, 0) }]),
                  ({ frame_id := 6, cam_id := 1 }, [{ kpt_id := 7, pos := (2, 0) }])])]
        num_observations := 2
        kpts_num_obs := [(7, 2)] }
    connected0 := 1
    num_points_connected := [(1, 2)]
    unconnected_obs0 := [8] }

/-- An estimator about to take frame 5 as a keyframe, with the full states
of `exTriStates` and an empty store. -/
def exKfState : VioState :=
  { construct exConfig with
    est := { (construct exConfig).est with last_state_t_ns := 5, frame_states := exTriStates } }

/-- The configuration `exConfig` with `vio_min_frames_after_kf = 0`: every
second frame can become a keyframe. -/
def exConfigKf : VioConfig := { exConfig with vio_min_frames_after_kf := 0 }

/-- A frame with one camera that sees the keypoint 7. -/
def exKfFrame (t : Int) : OpticalFlowResult := { t_ns := t, observations := [[(7, (0, 0))]] }

/-- The estimator with the configuration `exConfigKf` after `initialize` at
time 1, before the first frame. -/
def exRun0 : MeasureState :=
  { estimator := initState 1 (0, 0, 0) (construct exConfigKf), flow := [] }

/-- The estimator after the frame at time 1, taken as a keyframe: no
landmark was made. -/
def exRun1 : MeasureState :=
  { estimator := { exRun0.estimator with
             take_kf := false
             est := { exRun0.estimator.est with
                      kf_ids := [1], num_points_kf := [(1, 0)], prev_opt_flow_res := [1] } }
    flow := [(1, exKfFrame 1)] }

/-- The estimator after the frame at time 2. -/
def exRun2 : MeasureState :=
  { estimator := { exRun1.estimator with
             frames_after_kf := 1
             est := { exRun1.estimator.est with
                      last_state_t_ns := 2
                      frame_states := [(1, linState), (2, freshState)]
                      imu_meas := [1]
                      prev_opt_flow_res := [1, 2] } }
    flow := [(1, exKfFrame 1), (2, exKfFrame 2)] }

/-- The estimator after the frame at time 3, the second keyframe. -/
def exRun3 : MeasureState :=
  { estimator := { exRun2.estimator with
             frames_after_kf := 0
             est := { exRun2.estimator.est with
                      last_state_t_ns := 3
                      frame_states := [(1, linState), (2, freshState), (3, freshState)]
                      imu_meas := [1, 2]
                      kf_ids := [1, 3]
                      num_points_kf := [(1, 0), (3, 0)]
                      prev_opt_flow_res := [1, 2, 3] } }
    flow := [(1, exKfFrame 1), (2, exKfFrame 2), (3, exKfFrame 3)] }

/-- The estimator after the frame at time 4. -/
def exRun4 : MeasureState :=
  { estimator := { exRun3.estimator with
             frames_after_kf := 1
             est := { exRun3.estimator.est with
                      last_state_t_ns := 4
                      frame_states :=
                        [(1, linState), (2, freshState), (3, freshState), (4, freshState)]
                      imu_meas := [1, 2, 3]
                      prev_opt_flow_res := [1, 2, 3, 4] } }
    flow := [(1, exKfFrame 1), (2, exKfFrame 2), (3, exKfFrame 3), (4, exKfFrame 4)] }

/-- The estimator inside the call for the frame at time 5, the third
keyframe, when `optimize` is entered. -/
def exRun5Pre : VioState :=
  { exRun4.estimator with
    frames_after_kf := 0
    est := { exRun4.estimator.est with
             last_state_t_ns := 5
             frame_states :=
               [(1, linState), (2, freshState), (3, freshState), (4, freshState), (5, freshState)]
             imu_meas := [1, 2, 3, 4]
             kf_ids := [1, 3, 5]
             num_points_kf := [(1, 0), (3, 0), (5, 0)]
             prev_opt_flow_res := [1, 2, 3, 4, 5] } }

/-- The estimator inside the call for the frame at time 5 when `optimize`
has returned and `marginalize` is entered: five full states, no pose-only
frame. -/
def exRun5 : VioState :=
  { exRun5Pre with est := { exRun5Pre.est with opt_started := true } }

/-- The estimator `exKfState` after the keyframe step for the frame
`exFlow5` with the earlier frame `exFlow4`: the landmark 7 was made from the
view of camera 1, and its three views were added as observations. -/
def exKfAfter : VioState :=
  { exKfState with
    take_kf := false
    lmdb :=
      { kpts := [(7, { kf_id := { frame_id := 5, cam_id := 0 }, dir := (0, 0), id := 1 / 2 })]
        obs := [({ frame_id := 5, cam_id := 0 },
                 [({ frame_id := 4, cam_id := 0 }, [{ kpt_id := 7, pos := (0, 0) }]),
                  ({ frame_id := 5, cam_id := 0 }, [{ kpt_id := 7, pos := (0, 0) }]),
                  ({ frame_id := 5, cam_id := 1 }, [{ kpt_id := 7, pos := (1 / 10, 0) }])])]
        host_to_kpts := [({ frame_id := 5, cam_id := 0 }, [7])]
        num_observations := 3
        kpts_num_obs := [(7, 3)] }
    est := { exKfState.est with kf_ids := [5], num_points_kf := [(5, 1)] } }
/-! ## Facts about the ordered maps and sets -/

theorem mapFind_mapSet_self {V : Type} (k : Int) (v : V) (m : List (Int × V)) :
    mapFind k (mapSet k v m) = some v := by
  induction m with
  | nil => simp [mapSet, mapFind]
  | cons e t ih =>
    unfold mapSet
    by_cases h1 : k < e.1
    · simp [h1, mapFind]
    · by_cases h2 : k = e.1
      · simp [h1, h2, mapFind]
      · have h3 : ¬ e.1 = k := fun h => h2 h.symm
        simp [h1, h2, mapFind, h3, ih]

theorem mapFind_mapSet_ne {V : Type} (k k' : Int) (v : V) (m : List (Int × V)) (h : k' ≠ k) :
    mapFind k' (mapSet k v m) = mapFind k' m := by
  induction m with
  | nil => simp [mapSet, mapFind, h.symm]
  | cons e t ih =>
    unfold mapSet
    by_cases h1 : k < e.1
    · simp [h1, mapFind, h.symm]
    · by_cases h2 : k = e.1
      · have h3 : ¬ e.1 = k' := fun h4 => h (h4.symm.trans h2.symm)
        simp [h1, h2, mapFind, h3]
      · simp only [h1, h2, if_false, mapFind, ih]

theorem mapFind_eq_none_iff {V : Type} (k : Int) (m : List (Int × V)) :
    mapFind k m = none ↔ k ∉ mapKeys m := by
  induction m with
  | nil => simp [mapFind, mapKeys]
  | cons e t ih =>
    unfold mapFind
    by_cases h : e.1 = k
    · simp [h, mapKeys]
    · have h' : ¬ k = e.1 := fun h2 => h h2.symm
      simp [h, mapKeys, h']
      simpa [mapKeys] using ih

theorem mapFind_isSome_iff {V : Type} (k : Int) (m : List (Int × V)) :
    (∃ v, mapFind k m = some v) ↔ k ∈ mapKeys m := by
  rw [← not_iff_not, ← mapFind_eq_none_iff]
  cases mapFind k m <;> simp

theorem mem_mapKeys_mapSet {V : Type} (k x : Int) (v : V) (m : List (Int × V)) :
    x ∈ mapKeys (mapSet k v m) ↔ x = k ∨ x ∈ mapKeys m := by
  induction m with
  | nil => simp [mapSet, mapKeys]
  | cons e t ih =>
    unfold mapSet
    by_cases h1 : k < e.1
    · simp [h1, mapKeys]
    · by_cases h2 : k = e.1
      · simp [h1, h2, mapKeys]
      · simp only [h1, h2, if_false]
        simp only [mapKeys, List.map_cons, List.mem_cons] at ih ⊢
        rw [ih]
        tauto

theorem perm_mapSet {V : Type} (k : Int) (v : V) (m : List (Int × V)) (h : k ∉ mapKeys m) :
    (mapSet k v m).Perm ((k, v) :: m) := by
  induction m with
  | nil => simp [mapSet]
  | cons e t ih =>
    have hk : k ≠ e.1 := by
      intro h2
      apply h
      simp [mapKeys, h2]
    have ht : k ∉ mapKeys t := by
      intro h2
      apply h
      simp only [mapKeys, List.map_cons, List.mem_cons] at h2 ⊢
      exact Or.inr h2
    unfold mapSet
    by_cases h1 : k < e.1
    · simp [h1]
    · simp only [h1, hk, if_false]
      exact ((ih ht).cons e).trans (List.Perm.swap _ _ _)

theorem length_mapSet {V : Type} (k : Int) (v : V) (m : List (Int × V)) (h : k ∉ mapKeys m) :
    (mapSet k v m).length = m.length + 1 := by
  simpa using (perm_mapSet k v m h).length_eq

theorem sorted_mapSet {V : Type} (k : Int) (v : V) (m : List (Int × V))
    (h : (mapKeys m).Sorted (· < ·)) : (mapKeys (mapSet k v m)).Sorted (· < ·) := by
  induction m with
  | nil => simp [mapSet, mapKeys]
  | cons e t ih =>
    have hs := h
    simp only [mapKeys, List.map_cons, List.sorted_cons] at hs
    unfold mapSet
    by_cases h1 : k < e.1
    · simp only [h1, if_true, mapKeys, List.map_cons, List.sorted_cons]
      refine ⟨?_, ?_, hs.2⟩
      · intro b hb
        rcases List.mem_cons.1 hb with hb | hb
        · exact hb ▸ h1
        · exact lt_trans h1 (hs.1 b hb)
      · exact hs.1
    · by_cases h2 : k = e.1
      · subst h2
        simp only [lt_self_iff_false, if_false, if_true, mapKeys, List.map_cons,
          List.sorted_cons]
        exact ⟨hs.1, hs.2⟩
      · simp only [h1, h2, if_false]
        have ih' := ih hs.2
        simp only [mapKeys, List.map_cons, List.sorted_cons]
        refine ⟨?_, ih'⟩
        intro b hb
        have hb' : b ∈ mapKeys (mapSet k v t) := hb
        rw [mem_mapKeys_mapSet] at hb'
        rcases hb' with hb' | hb'
        · rw [hb']
          omega
        · exact hs.1 b hb'

theorem mem_mapKeys_mapErase {V : Type} (k x : Int) (m : List (Int × V)) :
    x ∈ mapKeys (mapErase k m) ↔ x ≠ k ∧ x ∈ mapKeys m := by
  simp only [mapKeys, mapErase, List.mem_map, List.mem_filter, decide_eq_true_eq]
  constructor
  · rintro ⟨a, ⟨ha, hne⟩, rfl⟩
    exact ⟨hne, a, ha, rfl⟩
  · rintro ⟨hne, a, ha, rfl⟩
    exact ⟨a, ⟨ha, hne⟩, rfl⟩

theorem sorted_mapErase {V : Type} (k : Int) (m : List (Int × V))
    (h : (mapKeys m).Sorted (· < ·)) : (mapKeys (mapErase k m)).Sorted (· < ·) := by
  unfold mapKeys mapErase at *
  exact (List.pairwise_map.2 ((List.pairwise_map.1 h).sublist (List.filter_sublist _)))

theorem mapKeys_mapModify {V : Type} (k : Int) (f : V → V) (m : List (Int × V)) :
    mapKeys (mapModify k f m) = mapKeys m := by
  induction m with
  | nil => rfl
  | cons e t ih =>
    simp only [mapKeys, mapModify, List.map_cons] at ih ⊢
    rw [ih]
    by_cases h : e.1 = k <;> simp [h]

theorem mem_setEmplace (k x : Int) (s : List Int) : x ∈ setEmplace k s ↔ x = k ∨ x ∈ s := by
  induction s with
  | nil => simp [setEmplace]
  | cons y t ih =>
    unfold setEmplace
    by_cases h1 : k < y
    · simp [h1]
    · by_cases h2 : k = y
      · simp [h1, h2]
      · simp only [h1, h2, if_false, List.mem_cons, ih]
        tauto

theorem sorted_setEmplace (k : Int) (s : List Int) (h : s.Sorted (· < ·)) :
    (setEmplace k s).Sorted (· < ·) := by
  induction s with
  | nil => simp [setEmplace]
  | cons y t ih =>
    have hs := List.sorted_cons.1 h
    unfold setEmplace
    by_cases h1 : k < y
    · simp only [h1, if_true, List.sorted_cons]
      refine ⟨?_, hs⟩
      intro b hb
      rcases List.mem_cons.1 hb with hb | hb
      · exact hb ▸ h1
      · exact lt_trans h1 (hs.1 b hb)
    · by_cases h2 : k = y
      · simpa [h1, h2] using h
      · simp only [h1, h2, if_false, List.sorted_cons]
        refine ⟨?_, ih hs.2⟩
        intro b hb
        rcases (mem_setEmplace k b t).1 hb with hb | hb
        · rw [hb]
          omega
        · exact hs.1 b hb

theorem mem_setErase (k x : Int) (s : List Int) : x ∈ setErase k s ↔ x ≠ k ∧ x ∈ s := by
  simp [setErase, and_comm]

theorem sorted_setErase (k : Int) (s : List Int) (h : s.Sorted (· < ·)) :
    (setErase k s).Sorted (· < ·) :=
  h.sublist (List.filter_sublist _)

theorem setCount_eq_zero (k : Int) (s : List Int) : setCount k s = 0 ↔ k ∉ s := by
  unfold setCount
  by_cases h : k ∈ s <;> simp [h]

theorem setCount_pos (k : Int) (s : List Int) : setCount k s > 0 ↔ k ∈ s := by
  unfold setCount
  by_cases h : k ∈ s <;> simp [h]

/-! ## Facts about the order loops -/

theorem pushAll_nil (a : AbsOrderMap) : pushAll [] a = a := rfl

theorem pushAll_cons (e : Int × Nat) (V : List (Int × Nat)) (a : AbsOrderMap) :
    pushAll (e :: V) a = pushAll V (aomPush e.1 e.2 a) := rfl

theorem pushAll_append (V W : List (Int × Nat)) (a : AbsOrderMap) :
    pushAll (V ++ W) a = pushAll W (pushAll V a) := by
  simp [pushAll, List.foldl_append]

theorem pushAll_items (V : List (Int × Nat)) (a : AbsOrderMap) :
    (pushAll V a).items = a.items + V.length := by
  induction V generalizing a with
  | nil => simp [pushAll]
  | cons e V ih =>
    rw [pushAll_cons, ih]
    simp [aomPush]
    omega

theorem pushAll_total (V : List (Int × Nat)) (a : AbsOrderMap) :
    (pushAll V a).total_size = a.total_size + (V.map Prod.snd).sum := by
  induction V generalizing a with
  | nil => simp [pushAll]
  | cons e V ih =>
    rw [pushAll_cons, ih]
    simp [aomPush]
    omega

theorem mem_keys_pushAll (V : List (Int × Nat)) (a : AbsOrderMap) (x : Int) :
    x ∈ mapKeys (pushAll V a).abs_order_map ↔ x ∈ V.map Prod.fst ∨ x ∈ mapKeys a.abs_order_map := by
  induction V generalizing a with
  | nil => simp [pushAll]
  | cons e V ih =>
    rw [pushAll_cons, ih]
    simp only [aomPush, mem_mapKeys_mapSet, List.map_cons, List.mem_cons]
    tauto

theorem pushAll_find_notin (V : List (Int × Nat)) (a : AbsOrderMap) (k : Int)
    (h : k ∉ V.map Prod.fst) :
    mapFind k (pushAll V a).abs_order_map = mapFind k a.abs_order_map := by
  induction V generalizing a with
  | nil => rfl
  | cons e V ih =>
    simp only [List.map_cons, List.mem_cons, not_or] at h
    rw [pushAll_cons, ih _ h.2]
    simp only [aomPush]
    exact mapFind_mapSet_ne _ _ _ _ h.1

theorem pushAll_find (V : List (Int × Nat)) (a : AbsOrderMap) (hn : (V.map Prod.fst).Nodup)
    (n : Nat) (h : n < V.length) :
    mapFind (V[n]).1 (pushAll V a).abs_order_map
      = some (a.total_size + ((V.take n).map Prod.snd).sum, (V[n]).2) := by
  induction V generalizing a n with
  | nil => simp at h
  | cons e V ih =>
    simp only [List.map_cons, List.nodup_cons] at hn
    rw [pushAll_cons]
    cases n with
    | zero =>
      simp only [List.getElem_cons_zero, List.take_zero, List.map_nil, List.sum_nil, add_zero]
      rw [pushAll_find_notin _ _ _ hn.1]
      simp only [aomPush]
      exact mapFind_mapSet_self _ _ _
    | succ n =>
      have h' : n < V.length := by simpa using h
      simp only [List.getElem_cons_succ, List.take_succ_cons, List.map_cons, List.sum_cons]
      rw [ih _ hn.2 n h']
      simp [aomPush, add_assoc]

theorem pushAll_perm (V : List (Int × Nat)) (a : AbsOrderMap) (hn : (V.map Prod.fst).Nodup)
    (hd : ∀ x ∈ V.map Prod.fst, x ∉ mapKeys a.abs_order_map) :
    (pushAll V a).abs_order_map.Perm (layout a.total_size V ++ a.abs_order_map) := by
  induction V generalizing a with
  | nil => simp [pushAll, layout]
  | cons e V ih =>
    simp only [List.map_cons, List.nodup_cons] at hn
    rw [pushAll_cons]
    have hfresh : e.1 ∉ mapKeys a.abs_order_map := hd e.1 (by simp)
    have hd' : ∀ x ∈ V.map Prod.fst, x ∉ mapKeys (aomPush e.1 e.2 a).abs_order_map := by
      intro x hx
      simp only [aomPush, mem_mapKeys_mapSet, not_or]
      refine ⟨?_, hd x (by simp [hx])⟩
      rintro rfl
      exact hn.1 hx
    refine (ih _ hn.2 hd').trans ?_
    simp only [layout, aomPush]
    refine ((perm_mapSet e.1 (a.total_size, e.2) a.abs_order_map hfresh).append_left _).trans ?_
    exact List.perm_middle

theorem tiles_pushAll (V : List (Int × Nat)) (hn : (V.map Prod.fst).Nodup) :
    Tiles (pushAll V {}) V := by
  refine ⟨?_, ?_, ?_, ?_⟩
  · simp [pushAll_items]
  · have h := (pushAll_perm V {} hn (by simp [mapKeys])).length_eq
    have hl : ∀ (t : Nat) (W : List (Int × Nat)), (layout t W).length = W.length := by
      intro t W
      induction W generalizing t with
      | nil => rfl
      | cons e W ih => simp [layout, ih]
    simpa [hl] using h
  · simp [pushAll_total, visitOffset]
  · intro n h
    simpa [visitOffset] using pushAll_find V {} hn n h

theorem optimizePoseLoop_ok (mo : AbsOrderMap) (P : List Int) (a a' : AbsOrderMap)
    (h : optimizePoseLoop mo P a = .ok a') :
    a' = pushAll (P.map (fun k => (k, POSE_SIZE))) a := by
  induction P generalizing a with
  | nil =>
    simp only [optimizePoseLoop, Except.ok.injEq] at h
    simp [pushAll, h]
  | cons k P ih =>
    unfold optimizePoseLoop at h
    split at h
    · simpa [pushAll_cons] using ih _ h
    · simp at h

theorem optimizeStateLoop_ok (mo : AbsOrderMap) (S : List Int) (a a' : AbsOrderMap)
    (h : optimizeStateLoop mo S a = .ok a') :
    a' = pushAll (S.map (fun k => (k, POSE_VEL_BIAS_SIZE))) a := by
  induction S generalizing a with
  | nil =>
    simp only [optimizeStateLoop, Except.ok.injEq] at h
    simp [pushAll, h]
  | cons k S ih =>
    unfold optimizeStateLoop at h
    split at h
    · split at h
      · simpa [pushAll_cons] using ih _ h
      · simp at h
    · simpa [pushAll_cons] using ih _ h

theorem optimizeOrder_ok (mo : AbsOrderMap) (P S : List Int) (aom : AbsOrderMap)
    (h : optimizeOrder mo P S = .ok aom) : aom = pushAll (visitBlocks P S) {} := by
  unfold optimizeOrder at h
  split at h
  · rename_i a ha
    rw [visitBlocks, pushAll_append, ← optimizePoseLoop_ok _ _ _ _ ha]
    exact optimizeStateLoop_ok _ _ _ _ h
  · simp at h

theorem margPoseLoop_ok (mo : AbsOrderMap) (kf : List Int) (P : List Int)
    (acc r : AbsOrderMap × List Int) (h : margPoseLoop mo kf P acc = .ok r) :
    r.1 = pushAll (P.map (fun k => (k, POSE_SIZE))) acc.1 ∧
    ∀ x, x ∈ r.2 ↔ x ∈ acc.2 ∨ (x ∈ P ∧ x ∉ kf) := by
  induction P generalizing acc with
  | nil =>
    simp only [margPoseLoop, Except.ok.injEq] at h
    subst h
    simp [pushAll]
  | cons k P ih =>
    unfold margPoseLoop at h
    split at h
    · obtain ⟨h1, h2⟩ := ih _ h
      refine ⟨by simpa [pushAll_cons] using h1, ?_⟩
      intro x
      rw [h2]
      by_cases hk : k ∈ kf
      · have : setCount k kf ≠ 0 := by
          rw [Ne, setCount_eq_zero]
          simpa using hk
        simp only [this, if_false, List.mem_cons]
        constructor
        · rintro (h3 | ⟨h3, h4⟩)
          · exact Or.inl h3
          · exact Or.inr ⟨Or.inr h3, h4⟩
        · rintro (h3 | ⟨h3 | h3, h4⟩)
          · exact Or.inl h3
          · exact absurd (h3 ▸ hk) h4
          · exact Or.inr ⟨h3, h4⟩
      · have : setCount k kf = 0 := (setCount_eq_zero k kf).2 hk
        simp only [this, if_true, List.mem_cons, mem_setEmplace]
        constructor
        · rintro ((h3 | h3) | ⟨h3, h4⟩)
          · exact Or.inr ⟨Or.inl h3, h3 ▸ hk⟩
          · exact Or.inl h3
          · exact Or.inr ⟨Or.inr h3, h4⟩
        · rintro (h3 | ⟨h3 | h3, h4⟩)
          · exact Or.inl (Or.inr h3)
          · exact Or.inl (Or.inl h3)
          · exact Or.inr ⟨h3, h4⟩
    · simp at h

theorem margStateLoop_ok (mo : AbsOrderMap) (kf : List Int) (last : Int) (S : List Int)
    (acc r : StateSplit) (h : margStateLoop mo kf last S acc = .ok r) :
    r.aom = pushAll ((S.takeWhile (fun k => decide (k ≤ last))).map
        (fun k => (k, POSE_VEL_BIAS_SIZE))) acc.aom ∧
    (∀ x, x ∈ r.states_to_marg_vel_bias ↔ x ∈ acc.states_to_marg_vel_bias ∨
        (x ∈ S.takeWhile (fun k => decide (k ≤ last)) ∧ x ≠ last ∧ x ∈ kf)) ∧
    (∀ x, x ∈ r.states_to_marg_all ↔ x ∈ acc.states_to_marg_all ∨
        (x ∈ S.takeWhile (fun k => decide (k ≤ last)) ∧ x ≠ last ∧ x ∉ kf)) := by
  induction S generalizing acc with
  | nil =>
    simp only [margStateLoop, Except.ok.injEq] at h
    subst h
    simp [pushAll]
  | cons k S ih =>
    unfold margStateLoop at h
    by_cases hk : k > last
    · simp only [hk, if_true, Except.ok.injEq] at h
      subst h
      have : ¬ k ≤ last := by omega
      simp [List.takeWhile, this, pushAll]
    · have hle : k ≤ last := by omega
      simp only [hk, if_false] at h
      have key : ∀ next : StateSplit,
          margStateLoop mo kf last S next = .ok r →
          next.aom = aomPush k POSE_VEL_BIAS_SIZE acc.aom →
          (∀ x, x ∈ next.states_to_marg_vel_bias ↔
            x ∈ acc.states_to_marg_vel_bias ∨ (x = k ∧ x ≠ last ∧ x ∈ kf)) →
          (∀ x, x ∈ next.states_to_marg_all ↔
            x ∈ acc.states_to_marg_all ∨ (x = k ∧ x ≠ last ∧ x ∉ kf)) →
          r.aom = pushAll (((k :: S).takeWhile (fun k => decide (k ≤ last))).map
              (fun k => (k, POSE_VEL_BIAS_SIZE))) acc.aom ∧
          (∀ x, x ∈ r.states_to_marg_vel_bias ↔ x ∈ acc.states_to_marg_vel_bias ∨
              (x ∈ (k :: S).takeWhile (fun k => decide (k ≤ last)) ∧ x ≠ last ∧ x ∈ kf)) ∧
          (∀ x, x ∈ r.states_to_marg_all ↔ x ∈ acc.states_to_marg_all ∨
              (x ∈ (k :: S).takeWhile (fun k => decide (k ≤ last)) ∧ x ≠ last ∧ x ∉ kf)) := by
        intro next hn ha hvb hall
        obtain ⟨h1, h2, h3⟩ := ih _ hn
        simp only [List.takeWhile, hle, decide_True, List.map_cons, pushAll_cons, List.mem_cons]
        refine ⟨by rw [h1, ha], ?_, ?_⟩
        · intro x
          rw [h2, hvb]
          tauto
        · intro x
          rw [h3, hall]
          tauto
      have hvb : ∀ x, x ∈ (if k ≠ last ∧ setCount k kf > 0
            then setEmplace k acc.states_to_marg_vel_bias else acc.states_to_marg_vel_bias) ↔
            x ∈ acc.states_to_marg_vel_bias ∨ (x = k ∧ x ≠ last ∧ x ∈ kf) := by
        intro x
        have hsc := setCount_pos k kf
        by_cases hc' : k ≠ last ∧ setCount k kf > 0
        · have hc : k ≠ last ∧ k ∈ kf := ⟨hc'.1, hsc.1 hc'.2⟩
          rw [if_pos hc', mem_setEmplace]
          constructor
          · rintro (h | h)
            · subst h
              exact Or.inr ⟨rfl, hc.1, hc.2⟩
            · exact Or.inl h
          · rintro (h | ⟨h, -, -⟩)
            · exact Or.inr h
            · exact Or.inl h
        · rw [if_neg hc']
          constructor
          · exact Or.inl
          · rintro (h | ⟨h, h1, h2⟩)
            · exact h
            · subst h
              exact absurd ⟨h1, hsc.2 h2⟩ hc'
      have hall : ∀ x, x ∈ (if k ≠ last ∧ ¬ setCount k kf > 0
            then setEmplace k acc.states_to_marg_all else acc.states_to_marg_all) ↔
            x ∈ acc.states_to_marg_all ∨ (x = k ∧ x ≠ last ∧ x ∉ kf) := by
        intro x
        have hsc := setCount_pos k kf
        by_cases hc' : k ≠ last ∧ ¬ setCount k kf > 0
        · have hc : k ≠ last ∧ k ∉ kf := ⟨hc'.1, fun h => hc'.2 (hsc.2 h)⟩
          rw [if_pos hc', mem_setEmplace]
          constructor
          · rintro (h | h)
            · subst h
              exact Or.inr ⟨rfl, hc.1, hc.2⟩
            · exact Or.inl h
          · rintro (h | ⟨h, -, -⟩)
            · exact Or.inr h
            · exact Or.inl h
        · rw [if_neg hc']
          constructor
          · exact Or.inl
          · rintro (h | ⟨h, h1, h2⟩)
            · exact h
            · subst h
              exact absurd ⟨h1, fun h3 => h2 (hsc.1 h3)⟩ hc'
      split at h
      · split at h
        · exact key _ h rfl hvb hall
        · simp at h
      · exact key _ h rfl hvb hall


theorem visitBlocks_keys (P S : List Int) : (visitBlocks P S).map Prod.fst = P ++ S := by
  simp [visitBlocks, Function.comp_def]

theorem visitBlocks_length (P S : List Int) : (visitBlocks P S).length = P.length + S.length := by
  simp [visitBlocks]

theorem visitBlocks_size_pos (P S : List Int) (e : Int × Nat) (h : e ∈ visitBlocks P S) :
    0 < e.2 := by
  simp only [visitBlocks, List.mem_append, List.mem_map] at h
  rcases h with ⟨k, -, rfl⟩ | ⟨k, -, rfl⟩ <;> simp [POSE_SIZE, POSE_VEL_BIAS_SIZE]

theorem visitOffset_succ (V : List (Int × Nat)) (n : Nat) (h : n < V.length) :
    visitOffset V (n + 1) = visitOffset V n + (V[n]).2 := by
  induction V generalizing n with
  | nil => simp at h
  | cons e V ih =>
    cases n with
    | zero => simp [visitOffset]
    | succ n =>
      have h' : n < V.length := by simpa using h
      have := ih n h'
      simp only [visitOffset, List.take_succ_cons, List.map_cons, List.sum_cons,
        List.getElem_cons_succ] at this ⊢
      omega

theorem visitOffset_lt (V : List (Int × Nat)) (hpos : ∀ e ∈ V, 0 < e.2) (m n : Nat)
    (hmn : m < n) (hn : n ≤ V.length) : visitOffset V m < visitOffset V n := by
  induction n with
  | zero => omega
  | succ n ih =>
    have hn' : n < V.length := by omega
    rw [visitOffset_succ V n hn']
    have hp := hpos _ (List.getElem_mem hn')
    rcases Nat.lt_succ_iff_lt_or_eq.1 hmn with h | h
    · have := ih h (by omega)
      omega
    · subst h
      omega

theorem visitOffset_total (P S : List Int) :
    visitOffset (visitBlocks P S) (visitBlocks P S).length
      = POSE_SIZE * P.length + POSE_VEL_BIAS_SIZE * S.length := by
  have hP : ∀ l : List Int, (l.map (fun _ => POSE_SIZE)).sum = POSE_SIZE * l.length := by
    intro l
    induction l with
    | nil => rfl
    | cons a l ih =>
      simp only [List.map_cons, List.sum_cons, List.length_cons, ih, Nat.mul_succ]
      omega
  have hS : ∀ l : List Int,
      (l.map (fun _ => POSE_VEL_BIAS_SIZE)).sum = POSE_VEL_BIAS_SIZE * l.length := by
    intro l
    induction l with
    | nil => rfl
    | cons a l ih =>
      simp only [List.map_cons, List.sum_cons, List.length_cons, ih, Nat.mul_succ]
      omega
  rw [visitOffset, List.take_length]
  simp only [visitBlocks, List.map_append, List.map_map, Function.comp_def, List.sum_append]
  rw [hP, hS]

theorem nodup_of_sorted_disjoint (P S : List Int) (hP : P.Sorted (· < ·)) (hS : S.Sorted (· < ·))
    (hd : ∀ k ∈ P, k ∉ S) : (P ++ S).Nodup :=
  List.nodup_append.2 ⟨hP.nodup, hS.nodup, fun _ h1 h2 => hd _ h1 h2⟩

theorem sorted_takeWhile (S : List Int) (p : Int → Bool) (hS : S.Sorted (· < ·)) :
    (S.takeWhile p).Sorted (· < ·) :=
  hS.sublist (List.takeWhile_sublist p)

/-! ## Facts about a marginalization round -/

theorem mapKeys_mapErase {V : Type} (k : Int) (m : List (Int × V)) :
    mapKeys (mapErase k m) = (mapKeys m).filter (fun x => decide (x ≠ k)) := by
  simp only [mapKeys, mapErase, List.filter_map]
  rfl

theorem eraseStates_keys (ids : List Int)
    (acc : List (Int × PoseVelBiasStateWithLin) × List Int × List Int) :
    mapKeys (eraseStates ids acc).1 = (mapKeys acc.1).filter (fun k => decide (k ∉ ids)) := by
  induction ids generalizing acc with
  | nil => simp [eraseStates]
  | cons id ids ih =>
    have := ih (mapErase id acc.1, setErase id acc.2.1, setErase id acc.2.2)
    simp only [eraseStates, List.foldl_cons] at this ⊢
    rw [this, mapKeys_mapErase, List.filter_filter]
    congr 1
    funext k
    simp only [List.mem_cons, not_or, ne_eq, Bool.decide_and, Bool.and_comm]

theorem erasePoses_keys (ids : List Int) (acc : List (Int × PoseStateWithLin) × List Int) :
    mapKeys (erasePoses ids acc).1 = (mapKeys acc.1).filter (fun k => decide (k ∉ ids)) := by
  induction ids generalizing acc with
  | nil => simp [erasePoses]
  | cons id ids ih =>
    have := ih (mapErase id acc.1, setErase id acc.2)
    simp only [erasePoses, List.foldl_cons] at this ⊢
    rw [this, mapKeys_mapErase, List.filter_filter]
    congr 1
    funext k
    simp only [List.mem_cons, not_or, ne_eq, Bool.decide_and, Bool.and_comm]

theorem demoteStates_ok (ids : List Int)
    (acc d : List (Int × PoseVelBiasStateWithLin) × List (Int × PoseStateWithLin) × List Int)
    (h : demoteStates ids acc = .ok d) :
    mapKeys d.1 = (mapKeys acc.1).filter (fun k => decide (k ∉ ids)) ∧
    (∀ x, x ∈ mapKeys d.2.1 ↔ x ∈ mapKeys acc.2.1 ∨ x ∈ ids) ∧
    ((mapKeys acc.2.1).Sorted (· < ·) → (mapKeys d.2.1).Sorted (· < ·)) := by
  induction ids generalizing acc with
  | nil =>
    simp only [demoteStates, Except.ok.injEq] at h
    subst h
    simp
  | cons id ids ih =>
    unfold demoteStates at h
    split at h
    · simp at h
    · obtain ⟨h1, h2, h3⟩ := ih _ h
      refine ⟨?_, ?_, ?_⟩
      · rw [h1, mapKeys_mapErase, List.filter_filter]
        congr 1
        funext k
        simp only [List.mem_cons, not_or, ne_eq, Bool.decide_and, Bool.and_comm]
      · intro x
        rw [h2, mem_mapKeys_mapSet, List.mem_cons]
        tauto
      · intro hs
        exact h3 (sorted_mapSet _ _ _ hs)

theorem setLastLinearized_keys (last : Int) (fs fs0 : List (Int × PoseVelBiasStateWithLin))
    (h : setLastLinearized last fs = .ok fs0) : mapKeys fs0 = mapKeys fs := by
  unfold setLastLinearized at h
  split at h
  · simp at h
  · split at h
    · simp only [Except.ok.injEq] at h
      rw [← h, mapKeys_mapModify]
    · simp at h

theorem margOrderNew_eq (P : List Int) (last : Int) :
    margOrderNew P last = pushAll (visitBlocks P [last]) {} := by
  simp only [margOrderNew, visitBlocks, pushAll, List.foldl_append, List.foldl_map,
    List.map_cons, List.map_nil, List.foldl_cons, List.foldl_nil]

/-- What a successful `margCommit` leaves behind. -/
theorem margCommit_ok (s s' : Estimator) (p : MargPlan) (h : margCommit s p = .ok s') :
    mapKeys s'.frame_states = (mapKeys s.frame_states).filter
      (fun k => decide (k ∉ p.states_to_marg_all) && decide (k ∉ p.states_to_marg_vel_bias)) ∧
    (∀ x, x ∈ mapKeys s'.frame_poses ↔
      (x ∈ mapKeys s.frame_poses ∨ x ∈ p.states_to_marg_vel_bias) ∧ x ∉ p.poses_to_marg) ∧
    ((mapKeys s.frame_poses).Sorted (· < ·) → (mapKeys s'.frame_poses).Sorted (· < ·)) ∧
    s'.marg_order = margOrderNew (mapKeys s'.frame_poses) p.last_state_to_marg ∧
    p.idx_to_keep.card = s'.marg_order.total_size ∧
    s'.marg_H_cols = s'.marg_order.total_size ∧
    s'.kf_ids = p.kf_ids ∧ s'.max_kfs = s.max_kfs ∧ s'.max_states = s.max_states ∧
    s'.last_state_t_ns = s.last_state_t_ns := by
  unfold margCommit at h
  split at h
  · simp at h
  · rename_i fs0 hfs0
    split at h
    · simp at h
    · rename_i d hd
      simp only at h
      split at h
      · rename_i hcols
        simp only [Except.ok.injEq] at h
        subst h
        obtain ⟨h1, h2, h3⟩ := demoteStates_ok _ _ _ hd
        simp only at h1 h2 h3
        refine ⟨?_, ?_, ?_, rfl, ?_, ?_, rfl, rfl, rfl, rfl⟩
        · simp only
          rw [h1, eraseStates_keys, List.filter_filter, setLastLinearized_keys _ _ _ hfs0]
          congr 1
          funext k
          rw [Bool.and_comm]
        · intro x
          simp only
          rw [erasePoses_keys, List.mem_filter, h2]
          simp
        · intro hs
          simp only
          rw [erasePoses_keys]
          exact (h3 hs).sublist (List.filter_sublist _)
        · simpa [marginalizeHelperCols] using hcols
        · simpa [marginalizeHelperCols] using hcols
      · simp at h

/-- What a finished keyframe-selection loop guarantees, whatever ids the two
stages picked. -/
theorem selectLoop_ok (F : MathFns) (npc : List (Int × Int)) (s : Estimator) (smvb : List Int)
    (fuel : Nat) (sel0 sel : KfSelection)
    (h : selectLoop F npc s smvb fuel sel0 = .ok sel) :
    (sel.kf_ids.length ≤ s.max_kfs ∨ smvb = []) ∧
    sel.kf_ids.Sublist sel0.kf_ids ∧
    (∀ x, x ∈ sel0.kf_ids → x ∉ sel.kf_ids → x ∈ sel.poses_to_marg) ∧
    (∀ x, x ∈ sel0.poses_to_marg → x ∈ sel.poses_to_marg) ∧
    (∀ x, x ∈ sel.poses_to_marg → x ∈ sel0.poses_to_marg ∨ x ∈ sel.kfs_to_marg) ∧
    (∀ x, x ∈ sel0.kfs_to_marg → x ∈ sel.kfs_to_marg) ∧
    (smvb = [] → sel = sel0) := by
  induction fuel generalizing sel0 with
  | zero =>
    unfold selectLoop at h
    split at h
    · simp at h
    · rename_i hc
      simp only [Except.ok.injEq] at h
      subst h
      refine ⟨?_, List.Sublist.refl _, ?_, ?_, ?_, ?_, ?_⟩
      · by_cases hl : sel0.kf_ids.length ≤ s.max_kfs
        · exact Or.inl hl
        · right
          by_contra hne
          exact hc ⟨by omega, hne⟩
      · intro x hx hnx
        exact absurd hx hnx
      · intro x hx
        exact hx
      · intro x hx
        exact Or.inl hx
      · intro x hx
        exact hx
      · intro _
        rfl
  | succ fuel ih =>
    unfold selectLoop at h
    split at h
    · rename_i hc
      split at h
      · simp at h
      · rename_i id hid
        obtain ⟨h1, h2, h3, h4, h5, h6, h7⟩ := ih _ h
        simp only at h2 h3 h4 h5 h6 h7
        refine ⟨h1, h2.trans (List.filter_sublist _), ?_, ?_, ?_, ?_, ?_⟩
        · intro x hx hnx
          by_cases hxid : x = id
          · apply h4
            rw [mem_setEmplace]
            exact Or.inl hxid
          · exact h3 x ((mem_setErase _ _ _).2 ⟨hxid, hx⟩) hnx
        · intro x hx
          apply h4
          rw [mem_setEmplace]
          exact Or.inr hx
        · intro x hx
          rcases h5 x hx with h8 | h8
          · rcases (mem_setEmplace _ _ _).1 h8 with h9 | h9
            · right
              apply h6
              rw [mem_setEmplace]
              exact Or.inl h9
            · exact Or.inl h9
          · exact Or.inr h8
        · intro x hx
          apply h6
          rw [mem_setEmplace]
          exact Or.inr hx
        · intro he
          exact absurd he hc.2
    · rename_i hc
      simp only [Except.ok.injEq] at h
      subst h
      refine ⟨?_, List.Sublist.refl _, ?_, ?_, ?_, ?_, ?_⟩
      · by_cases hl : sel0.kf_ids.length ≤ s.max_kfs
        · exact Or.inl hl
        · right
          by_contra hne
          exact hc ⟨by omega, hne⟩
      · intro x hx hnx
        exact absurd hx hnx
      · intro x hx
        exact hx
      · intro x hx
        exact Or.inl hx
      · intro x hx
        exact hx
      · intro _
        rfl

/-- What a successful `margPlan` has computed. -/
theorem margPlan_ok (F : MathFns) (npc : List (Int × Int)) (fuel : Nat) (s : Estimator)
    (p : MargPlan) (h : margPlan F npc fuel s = .ok p) :
    lastStateToMarg (mapKeys s.frame_states)
      (statesToRemove s.frame_states.length s.max_states) = .ok p.last_state_to_marg ∧
    p.aom = pushAll (visitBlocks (mapKeys s.frame_poses)
      ((mapKeys s.frame_states).takeWhile (fun k => decide (k ≤ p.last_state_to_marg)))) {} ∧
    (∀ x, x ∈ p.states_to_marg_vel_bias ↔
      x ∈ (mapKeys s.frame_states).takeWhile (fun k => decide (k ≤ p.last_state_to_marg)) ∧
      x ≠ p.last_state_to_marg ∧ x ∈ s.kf_ids) ∧
    (∀ x, x ∈ p.states_to_marg_all ↔
      x ∈ (mapKeys s.frame_states).takeWhile (fun k => decide (k ≤ p.last_state_to_marg)) ∧
      x ≠ p.last_state_to_marg ∧ x ∉ s.kf_ids) ∧
    (∃ ptm0 : List Int, (∀ x, x ∈ ptm0 ↔ x ∈ mapKeys s.frame_poses ∧ x ∉ s.kf_ids) ∧
      selectLoop F npc s p.states_to_marg_vel_bias fuel
        { kf_ids := s.kf_ids, kfs_to_marg := [], poses_to_marg := ptm0 }
        = .ok { kf_ids := p.kf_ids, kfs_to_marg := p.kfs_to_marg,
                poses_to_marg := p.poses_to_marg }) ∧
    idxLoop p.poses_to_marg p.states_to_marg_all p.states_to_marg_vel_bias p.last_state_to_marg
      p.aom.abs_order_map (∅, ∅) = .ok (p.idx_to_keep, p.idx_to_marg) ∧
    p.kf_ids_all = s.kf_ids := by
  unfold margPlan at h
  split at h
  · simp at h
  · rename_i last hlast
    split at h
    · simp at h
    · rename_i pl hpl
      split at h
      · simp at h
      · rename_i sp hsp
        split at h
        · simp at h
        · rename_i sel hsel
          split at h
          · simp at h
          · split at h
            · simp at h
            · rename_i idx hidx
              simp only [Except.ok.injEq] at h
              subst h
              obtain ⟨a1, a2⟩ := margPoseLoop_ok _ _ _ _ _ hpl
              obtain ⟨b1, b2, b3⟩ := margStateLoop_ok _ _ _ _ _ _ hsp
              simp only at a1 a2 b1 b2 b3
              refine ⟨hlast, ?_, ?_, ?_, ⟨pl.2, ?_, hsel⟩, hidx, rfl⟩
              · simp only
                rw [b1, a1, ← pushAll_append]
                rfl
              · intro x
                simpa using b2 x
              · intro x
                simpa using b3 x
              · intro x
                simpa using a2 x

theorem marginalize_cases (F : MathFns) (npc : List (Int × Int)) (fuel : Nat) (s s' : Estimator)
    (h : marginalize F npc fuel s = .ok s') :
    s' = s ∨ ∃ p, margPlan F npc fuel s = .ok p ∧ margCommit s p = .ok s' := by
  unfold marginalize at h
  split at h
  · simp only [Except.ok.injEq] at h
    exact Or.inl h.symm
  · split at h
    · split at h
      · simp at h
      · rename_i p hp
        exact Or.inr ⟨p, hp, h⟩
    · simp only [Except.ok.injEq] at h
      exact Or.inl h.symm

theorem marginalize_round (F : MathFns) (npc : List (Int × Int)) (fuel : Nat) (s s' : Estimator)
    (hopt : s.opt_started = true)
    (hround : s.frame_poses.length > s.max_kfs ∨ s.frame_states.length ≥ s.max_states)
    (h : marginalize F npc fuel s = .ok s') :
    ∃ p, margPlan F npc fuel s = .ok p ∧ margCommit s p = .ok s' := by
  unfold marginalize at h
  simp only [hopt, Bool.true_eq_false, if_false, hround, if_true] at h
  split at h
  · simp at h
  · rename_i p hp
    exact ⟨p, hp, h⟩

theorem takeWhile_eq_filter_of_sorted (l : List Int) (a : Int) (hs : l.Sorted (· < ·)) :
    l.takeWhile (fun k => decide (k ≤ a)) = l.filter (fun k => decide (k ≤ a)) := by
  induction l with
  | nil => rfl
  | cons x l ih =>
    have hs' := List.sorted_cons.1 hs
    by_cases hx : x ≤ a
    · simp [List.takeWhile, List.filter, hx, ih hs'.2]
    · have : l.filter (fun k => decide (k ≤ a)) = [] := by
        rw [List.filter_eq_nil_iff]
        intro y hy
        have := hs'.1 y hy
        simp only [decide_eq_true_eq]
        omega
      simp [List.takeWhile, List.filter, hx, this]

theorem filter_ge_eq_drop (l : List Int) (hs : l.Sorted (· < ·)) (r : Nat) (hr : r < l.length) :
    l.filter (fun k => decide (l[r] ≤ k)) = l.drop r := by
  induction l generalizing r with
  | nil => simp at hr
  | cons x l ih =>
    have hs' := List.sorted_cons.1 hs
    cases r with
    | zero =>
      simp only [List.getElem_cons_zero, List.drop_zero]
      rw [List.filter_eq_self]
      intro y hy
      rcases List.mem_cons.1 hy with h | h
      · simp [h]
      · have := hs'.1 y h
        simp only [decide_eq_true_eq]
        omega
    | succ r =>
      have hr' : r < l.length := by simpa using hr
      have hlt : x < l[r] := hs'.1 _ (List.getElem_mem hr')
      have : ¬ l[r] ≤ x := by omega
      simp only [List.getElem_cons_succ, List.drop_succ_cons, List.filter, this, decide_False]
      exact ih hs'.2 r hr'

theorem statesToRemove_eq (n ms : Nat) (h1 : ms ≤ n) (h2 : n < 2 ^ 31) (h3 : 1 ≤ ms) :
    statesToRemove n ms = ((n - ms + 1 : Nat) : Int) := by
  unfold statesToRemove toInt32
  have e1 : ms % 2 ^ 64 = ms := Nat.mod_eq_of_lt (by omega)
  have e2 : (n + 2 ^ 64 - ms + 1) % 2 ^ 64 = n - ms + 1 := by
    have : n + 2 ^ 64 - ms + 1 = (n - ms + 1) + 2 ^ 64 := by omega
    rw [this, Nat.add_mod_right]
    exact Nat.mod_eq_of_lt (by omega)
  rw [e1, e2]
  have e3 : (n - ms + 1) % 2 ^ 32 = n - ms + 1 := Nat.mod_eq_of_lt (by omega)
  rw [e3]
  have : n - ms + 1 < 2 ^ 31 := by omega
  rw [if_pos this]

/-! ## Facts about the index sets -/

theorem mem_listUnion (l : List (Finset Nat)) (x : Nat) : x ∈ listUnion l ↔ ∃ t ∈ l, x ∈ t := by
  induction l with
  | nil => simp [listUnion]
  | cons a l ih =>
    have : listUnion (a :: l) = a ∪ listUnion l := rfl
    rw [this, Finset.mem_union, ih]
    simp

theorem card_listUnion (l : List (Finset Nat)) (h : l.Pairwise Disjoint) :
    (listUnion l).card = (l.map Finset.card).sum := by
  induction l with
  | nil => simp [listUnion]
  | cons a l ih =>
    have hp := List.pairwise_cons.1 h
    have e : listUnion (a :: l) = a ∪ listUnion l := rfl
    have hd : Disjoint a (listUnion l) := by
      rw [Finset.disjoint_left]
      intro x hx hx'
      obtain ⟨t, ht, hxt⟩ := (mem_listUnion l x).1 hx'
      exact (Finset.disjoint_left.1 (hp.1 t ht)) hx hxt
    rw [e, Finset.card_union_of_disjoint hd, ih hp.2]
    simp

theorem mem_foldl_insert (st : Nat) (l : List Nat) (s : Finset Nat) (x : Nat) :
    x ∈ l.foldl (fun acc i => insert (st + i) acc) s ↔ x ∈ s ∨ ∃ i ∈ l, x = st + i := by
  induction l generalizing s with
  | nil => simp
  | cons a l ih =>
    simp only [List.foldl_cons, ih, Finset.mem_insert, List.mem_cons]
    constructor
    · rintro ((h | h) | ⟨i, hi, h⟩)
      · exact Or.inr ⟨a, Or.inl rfl, h⟩
      · exact Or.inl h
      · exact Or.inr ⟨i, Or.inr hi, h⟩
    · rintro (h | ⟨i, hi | hi, h⟩)
      · exact Or.inl (Or.inr h)
      · exact Or.inl (Or.inl (hi ▸ h))
      · exact Or.inr ⟨i, hi, h⟩

theorem emplaceRange_eq (st lo hi : Nat) (s : Finset Nat) :
    emplaceRange st lo hi s = s ∪ Finset.Ico (st + lo) (st + hi) := by
  ext x
  simp only [emplaceRange, mem_foldl_insert, Finset.mem_union, Finset.mem_Ico,
    List.mem_range'_1]
  constructor
  · rintro (h | ⟨i, ⟨h1, h2⟩, rfl⟩)
    · exact Or.inl h
    · right
      omega
  · rintro (h | ⟨h1, h2⟩)
    · exact Or.inl h
    · right
      exact ⟨x - st, by omega, by omega⟩

/-- A finished index loop has collected the kept and the marginalized part
of every entry; every entry has one of the two block sizes, and a full-state
entry kept whole is `last_state_to_marg`. -/
theorem idxLoop_ok (ptm sma smvb : List Int) (last : Int) (E : List (Int × (Nat × Nat)))
    (acc r : Finset Nat × Finset Nat) (h : idxLoop ptm sma smvb last E acc = .ok r) :
    r.1 = acc.1 ∪ listUnion (E.map (keepPart ptm sma smvb)) ∧
    r.2 = acc.2 ∪ listUnion (E.map (margPart ptm sma smvb)) := by
  induction E generalizing acc with
  | nil =>
    simp only [idxLoop, Except.ok.injEq] at h
    subst h
    simp [listUnion]
  | cons e E ih =>
    have lu : ∀ (f : Int × (Nat × Nat) → Finset Nat),
        listUnion ((e :: E).map f) = f e ∪ listUnion (E.map f) := fun _ => rfl
    rw [lu, lu]
    unfold idxLoop at h
    by_cases h6 : e.2.2 = POSE_SIZE
    · simp only [h6, if_true] at h
      by_cases hp : e.1 ∈ ptm
      · have hc : ¬ setCount e.1 ptm = 0 := by
          rw [setCount_eq_zero]
          simpa using hp
        simp only [hc, if_false] at h
        obtain ⟨h1, h2⟩ := ih _ h
        simp only [h1, h2, keepPart, margPart, h6, hp, if_true, emplaceRange_eq, Nat.add_zero]
        exact ⟨by simp, by rw [Finset.union_assoc]⟩
      · have hc : setCount e.1 ptm = 0 := (setCount_eq_zero _ _).2 hp
        simp only [hc, if_true] at h
        obtain ⟨h1, h2⟩ := ih _ h
        simp only [h1, h2, keepPart, margPart, h6, hp, if_true, if_false, emplaceRange_eq,
          Nat.add_zero]
        exact ⟨by rw [Finset.union_assoc], by simp⟩
    · simp only [h6, if_false] at h
      by_cases h15 : e.2.2 = POSE_VEL_BIAS_SIZE
      · simp only [h15, ne_eq, not_true_eq_false, if_false] at h
        by_cases ha : e.1 ∈ sma
        · have hc : setCount e.1 sma > 0 := (setCount_pos _ _).2 ha
          simp only [hc, if_true] at h
          obtain ⟨h1, h2⟩ := ih _ h
          simp only [h1, h2, keepPart, margPart, h6, ha, if_true, if_false, emplaceRange_eq,
            Nat.add_zero]
          exact ⟨by simp, by rw [Finset.union_assoc]⟩
        · have hc : ¬ setCount e.1 sma > 0 := fun hh => ha ((setCount_pos _ _).1 hh)
          simp only [hc, if_false] at h
          by_cases hb : e.1 ∈ smvb
          · have hc2 : setCount e.1 smvb > 0 := (setCount_pos _ _).2 hb
            simp only [hc2, if_true] at h
            obtain ⟨h1, h2⟩ := ih _ h
            simp only [h1, h2, keepPart, margPart, h6, ha, hb, if_true, if_false,
              emplaceRange_eq, Nat.add_zero]
            exact ⟨by rw [Finset.union_assoc], by rw [Finset.union_assoc]⟩
          · have hc2 : ¬ setCount e.1 smvb > 0 := fun hh => hb ((setCount_pos _ _).1 hh)
            simp only [hc2, if_false] at h
            split at h
            · simp at h
            · obtain ⟨h1, h2⟩ := ih _ h
              simp only [h1, h2, keepPart, margPart, h6, ha, hb, if_false, emplaceRange_eq,
                Nat.add_zero]
              exact ⟨by rw [Finset.union_assoc], by simp⟩
      · simp [h15] at h

theorem keepPart_union_margPart (ptm sma smvb : List Int) (e : Int × (Nat × Nat))
    (hsz : e.2.2 = POSE_SIZE ∨ e.2.2 = POSE_VEL_BIAS_SIZE) :
    keepPart ptm sma smvb e ∪ margPart ptm sma smvb e = block e := by
  have h615 : POSE_SIZE ≠ POSE_VEL_BIAS_SIZE := by decide
  unfold keepPart margPart block
  rcases hsz with h | h
  · rw [h]
    by_cases hp : e.1 ∈ ptm <;> simp [hp]
  · have h6 : ¬ e.2.2 = POSE_SIZE := by rw [h]; exact fun hh => h615 hh.symm
    rw [if_neg h6, if_neg h6, h]
    by_cases ha : e.1 ∈ sma
    · simp [ha]
    · by_cases hb : e.1 ∈ smvb
      · simp only [ha, hb, if_true, if_false]
        ext x
        simp only [Finset.mem_union, Finset.mem_Ico, POSE_SIZE, POSE_VEL_BIAS_SIZE]
        omega
      · simp [ha, hb]

theorem keepPart_disjoint_margPart (ptm sma smvb : List Int) (e : Int × (Nat × Nat)) :
    Disjoint (keepPart ptm sma smvb e) (margPart ptm sma smvb e) := by
  unfold keepPart margPart
  by_cases h6 : e.2.2 = POSE_SIZE
  · by_cases hp : e.1 ∈ ptm <;> simp [h6, hp]
  · by_cases ha : e.1 ∈ sma
    · simp [h6, ha]
    · by_cases hb : e.1 ∈ smvb
      · simp only [h6, ha, hb, if_true, if_false]
        rw [Finset.disjoint_left]
        intro x
        simp only [Finset.mem_Ico]
        omega
      · simp [h6, ha, hb]

theorem keepPart_subset_block (ptm sma smvb : List Int) (e : Int × (Nat × Nat))
    (hsz : e.2.2 = POSE_SIZE ∨ e.2.2 = POSE_VEL_BIAS_SIZE) :
    keepPart ptm sma smvb e ⊆ block e := by
  rw [← keepPart_union_margPart ptm sma smvb e hsz]
  exact Finset.subset_union_left

theorem margPart_subset_block (ptm sma smvb : List Int) (e : Int × (Nat × Nat))
    (hsz : e.2.2 = POSE_SIZE ∨ e.2.2 = POSE_VEL_BIAS_SIZE) :
    margPart ptm sma smvb e ⊆ block e := by
  rw [← keepPart_union_margPart ptm sma smvb e hsz]
  exact Finset.subset_union_right

theorem layout_offset_ge (t : Nat) (V : List (Int × Nat)) (e : Int × (Nat × Nat))
    (h : e ∈ layout t V) : t ≤ e.2.1 := by
  induction V generalizing t with
  | nil => simp [layout] at h
  | cons a V ih =>
    simp only [layout, List.mem_cons] at h
    rcases h with rfl | h
    · exact le_refl _
    · exact le_trans (Nat.le_add_right _ _) (ih _ h)

theorem layout_blocks_pairwise (t : Nat) (V : List (Int × Nat)) :
    (layout t V).Pairwise (fun a b => Disjoint (block a) (block b)) := by
  induction V generalizing t with
  | nil => simp [layout]
  | cons a V ih =>
    simp only [layout, List.pairwise_cons]
    refine ⟨?_, ih _⟩
    intro e he
    have := layout_offset_ge _ _ _ he
    rw [Finset.disjoint_left]
    intro x
    simp only [block, Finset.mem_Ico]
    omega

theorem layout_cover (t : Nat) (V : List (Int × Nat)) (x : Nat) :
    (∃ e ∈ layout t V, x ∈ block e) ↔ t ≤ x ∧ x < t + (V.map Prod.snd).sum := by
  induction V generalizing t with
  | nil =>
    simp only [layout, List.not_mem_nil, false_and, exists_false, List.map_nil, List.sum_nil,
      Nat.add_zero, false_iff]
    omega
  | cons a V ih =>
    have ih' := ih (t + a.2)
    simp only [layout, List.mem_cons, exists_eq_or_imp, List.map_cons, List.sum_cons]
    rw [ih']
    simp only [block, Finset.mem_Ico]
    omega

theorem layout_mem (t : Nat) (V : List (Int × Nat)) (e : Int × (Nat × Nat))
    (h : e ∈ layout t V) : (e.1, e.2.2) ∈ V := by
  induction V generalizing t with
  | nil => simp [layout] at h
  | cons a V ih =>
    simp only [layout, List.mem_cons] at h
    rcases h with rfl | h
    · simp
    · exact List.mem_cons_of_mem _ (ih _ h)

theorem layout_size (t : Nat) (P S : List Int) (e : Int × (Nat × Nat))
    (h : e ∈ layout t (visitBlocks P S)) : e.2.2 = POSE_SIZE ∨ e.2.2 = POSE_VEL_BIAS_SIZE := by
  have := layout_mem _ _ _ h
  simp only [visitBlocks, List.mem_append, List.mem_map, Prod.mk.injEq] at this
  rcases this with ⟨k, -, -, h2⟩ | ⟨k, -, -, h2⟩
  · exact Or.inl h2.symm
  · exact Or.inr h2.symm

/-- The entries and index sets of the round's plan, under the invariants of
the frame maps. -/
theorem margPlan_idx (F : MathFns) (npc : List (Int × Int)) (fuel : Nat) (s : Estimator)
    (p : MargPlan)
    (hFS : (mapKeys s.frame_states).Sorted (· < ·)) (hFP : (mapKeys s.frame_poses).Sorted (· < ·))
    (hdisj : ∀ k ∈ mapKeys s.frame_poses, k ∉ mapKeys s.frame_states)
    (h : margPlan F npc fuel s = .ok p) :
    p.aom.abs_order_map.Perm (layout 0 (visitBlocks (mapKeys s.frame_poses)
      ((mapKeys s.frame_states).takeWhile (fun k => decide (k ≤ p.last_state_to_marg))))) ∧
    p.idx_to_keep = listUnion (p.aom.abs_order_map.map
      (keepPart p.poses_to_marg p.states_to_marg_all p.states_to_marg_vel_bias)) ∧
    p.idx_to_marg = listUnion (p.aom.abs_order_map.map
      (margPart p.poses_to_marg p.states_to_marg_all p.states_to_marg_vel_bias)) ∧
    p.aom.total_size = POSE_SIZE * (mapKeys s.frame_poses).length + POSE_VEL_BIAS_SIZE *
      ((mapKeys s.frame_states).takeWhile (fun k => decide (k ≤ p.last_state_to_marg))).length := by
  obtain ⟨-, p2, -, -, -, p6, -⟩ := margPlan_ok F npc fuel s p h
  have hnd : ((visitBlocks (mapKeys s.frame_poses)
      ((mapKeys s.frame_states).takeWhile
        (fun k => decide (k ≤ p.last_state_to_marg)))).map Prod.fst).Nodup := by
    rw [visitBlocks_keys]
    refine nodup_of_sorted_disjoint _ _ hFP (sorted_takeWhile _ _ hFS) ?_
    intro k hk hk2
    exact hdisj k hk ((List.takeWhile_sublist _).subset hk2)
  obtain ⟨i1, i2⟩ := idxLoop_ok _ _ _ _ _ _ _ p6
  refine ⟨?_, by simpa using i1, by simpa using i2, ?_⟩
  · rw [p2]
    simpa using pushAll_perm _ {} hnd (by simp [mapKeys])
  · rw [p2, pushAll_total]
    have := visitOffset_total (mapKeys s.frame_poses)
      ((mapKeys s.frame_states).takeWhile (fun k => decide (k ≤ p.last_state_to_marg)))
    rw [visitOffset, List.take_length] at this
    simpa using this

theorem layout_map_key_size (t : Nat) (V : List (Int × Nat)) :
    (layout t V).map (fun e => (e.1, e.2.2)) = V := by
  induction V generalizing t with
  | nil => rfl
  | cons a V ih => simp [layout, ih]

theorem card_keepPart (ptm sma smvb : List Int) (e : Int × (Nat × Nat)) :
    (keepPart ptm sma smvb e).card = keepCount ptm sma smvb (e.1, e.2.2) := by
  unfold keepPart keepCount
  by_cases h6 : e.2.2 = POSE_SIZE
  · by_cases hp : e.1 ∈ ptm <;> simp [h6, hp]
  · by_cases ha : e.1 ∈ sma
    · simp [h6, ha]
    · by_cases hb : e.1 ∈ smvb <;> simp [h6, ha, hb]

theorem sum_map_ite_zero (l : List Int) (q : Int → Prop) [DecidablePred q] (c : Nat) :
    (l.map (fun k => if q k then 0 else c)).sum = c * (l.filter (fun k => decide (¬ q k))).length := by
  induction l with
  | nil => simp
  | cons a l ih =>
    by_cases h : q a
    · simp [List.filter, h, ih]
    · simp [List.filter, h, ih, Nat.mul_succ]
      omega

theorem sum_map_ite_two (l : List Int) (A B : Int → Prop) [DecidablePred A] [DecidablePred B]
    (hAB : ∀ k, A k → ¬ B k) (c d : Nat) :
    (l.map (fun k => if A k then c else if B k then d else 0)).sum
      = c * (l.filter (fun k => decide (A k))).length
        + d * (l.filter (fun k => decide (B k))).length := by
  induction l with
  | nil => simp
  | cons a l ih =>
    by_cases hA : A a
    · have hB := hAB a hA
      simp [List.filter, hA, hB, ih, Nat.mul_succ]
      omega
    · by_cases hB : B a
      · simp [List.filter, hA, hB, ih, Nat.mul_succ]
        omega
      · simp [List.filter, hA, hB, ih]

theorem length_eq_of_nodup_of_mem_iff (l1 l2 : List Int) (h1 : l1.Nodup) (h2 : l2.Nodup)
    (h : ∀ x, x ∈ l1 ↔ x ∈ l2) : l1.length = l2.length :=
  ((List.perm_ext_iff_of_nodup h1 h2).2 h).length_eq

theorem forall_of_length_filter_eq (l : List Int) (q : Int → Bool)
    (h : (l.filter q).length = l.length) : ∀ x ∈ l, q x = true := by
  have := (List.filter_sublist (p := q) (l := l)).eq_of_length h
  exact List.filter_eq_self.1 this

/-! ## Counting the kept indices -/

theorem mem_takeWhile_le_of_sorted (l : List Int) (a x : Int) (hs : l.Sorted (· < ·)) :
    x ∈ l.takeWhile (fun k => decide (k ≤ a)) ↔ x ∈ l ∧ x ≤ a := by
  rw [takeWhile_eq_filter_of_sorted l a hs, List.mem_filter]
  simp

theorem lastStateToMarg_mem (K : List Int) (r : Int) (L : Int)
    (h : lastStateToMarg K r = .ok L) : L ∈ K := by
  unfold lastStateToMarg at h
  split at h
  · rename_i k hk
    simp only [Except.ok.injEq] at h
    subst h
    exact List.getElem?_mem hk
  · simp at h

/-- The number of kept indices of a planned round: six per pose-only frame
that stays, six per demoted state, fifteen for `last_state_to_marg`. -/
theorem card_idx_to_keep (F : MathFns) (npc : List (Int × Int)) (fuel : Nat) (s : Estimator)
    (p : MargPlan)
    (hFS : (mapKeys s.frame_states).Sorted (· < ·)) (hFP : (mapKeys s.frame_poses).Sorted (· < ·))
    (hdisj : ∀ k ∈ mapKeys s.frame_poses, k ∉ mapKeys s.frame_states)
    (h : margPlan F npc fuel s = .ok p) :
    p.idx_to_keep.card
      = POSE_SIZE * ((mapKeys s.frame_poses).filter
          (fun k => decide (k ∉ p.poses_to_marg))).length
        + POSE_SIZE * (((mapKeys s.frame_states).takeWhile
            (fun k => decide (k ≤ p.last_state_to_marg))).filter
            (fun k => decide (k ∈ p.states_to_marg_vel_bias))).length
        + POSE_VEL_BIAS_SIZE := by
  obtain ⟨hperm, hk, -, -⟩ := margPlan_idx F npc fuel s p hFS hFP hdisj h
  obtain ⟨p1, -, p3, p4, -, -, -⟩ := margPlan_ok F npc fuel s p h
  have hL : p.last_state_to_marg ∈ mapKeys s.frame_states := lastStateToMarg_mem _ _ _ p1
  have hsz : ∀ e ∈ p.aom.abs_order_map,
      e.2.2 = POSE_SIZE ∨ e.2.2 = POSE_VEL_BIAS_SIZE :=
    fun e he => layout_size _ _ _ e (hperm.subset he)
  have hpw : p.aom.abs_order_map.Pairwise (fun a b => Disjoint (block a) (block b)) :=
    (hperm.pairwise_iff (fun {a b} (hab : Disjoint (block a) (block b)) => hab.symm)).2
      (layout_blocks_pairwise _ _)
  have hpw2 : (p.aom.abs_order_map.map
      (keepPart p.poses_to_marg p.states_to_marg_all p.states_to_marg_vel_bias)).Pairwise
      Disjoint := by
    rw [List.pairwise_map]
    refine hpw.imp_of_mem ?_
    intro a b ha hb hab
    exact Finset.disjoint_of_subset_left (keepPart_subset_block _ _ _ a (hsz a ha))
      (Finset.disjoint_of_subset_right (keepPart_subset_block _ _ _ b (hsz b hb)) hab)
  rw [hk, card_listUnion _ hpw2, List.map_map]
  have e1 : (Finset.card ∘ keepPart p.poses_to_marg p.states_to_marg_all
      p.states_to_marg_vel_bias)
      = (keepCount p.poses_to_marg p.states_to_marg_all p.states_to_marg_vel_bias)
        ∘ (fun e : Int × (Nat × Nat) => (e.1, e.2.2)) := by
    funext e
    exact card_keepPart _ _ _ e
  rw [e1, (hperm.map _).sum_eq, ← List.map_map, layout_map_key_size]
  simp only [visitBlocks, List.map_append, List.map_map, List.sum_append]
  have h615 : ¬ POSE_VEL_BIAS_SIZE = POSE_SIZE := by decide
  have e2 : (keepCount p.poses_to_marg p.states_to_marg_all p.states_to_marg_vel_bias
      ∘ fun k => (k, POSE_SIZE))
      = fun k => if k ∈ p.poses_to_marg then 0 else POSE_SIZE := by
    funext k
    simp [keepCount]
  have e3 : (keepCount p.poses_to_marg p.states_to_marg_all p.states_to_marg_vel_bias
      ∘ fun k => (k, POSE_VEL_BIAS_SIZE))
      = fun k => if (k ∉ p.states_to_marg_all ∧ k ∉ p.states_to_marg_vel_bias)
          then POSE_VEL_BIAS_SIZE
          else if (k ∉ p.states_to_marg_all ∧ k ∈ p.states_to_marg_vel_bias) then POSE_SIZE
          else 0 := by
    funext k
    simp only [keepCount, Function.comp, h615, if_false]
    by_cases ha : k ∈ p.states_to_marg_all
    · simp [ha]
    · by_cases hb : k ∈ p.states_to_marg_vel_bias <;> simp [ha, hb]
  rw [e2, e3, sum_map_ite_zero,
    sum_map_ite_two _ _ _ (fun k h1 h2 => h1.2 h2.2)]
  have hS := sorted_takeWhile (mapKeys s.frame_states)
    (fun k => decide (k ≤ p.last_state_to_marg)) hFS
  have c1 : (((mapKeys s.frame_states).takeWhile
      (fun k => decide (k ≤ p.last_state_to_marg))).filter
      (fun k => decide (k ∉ p.states_to_marg_all ∧ k ∉ p.states_to_marg_vel_bias))).length = 1 := by
    rw [length_eq_of_nodup_of_mem_iff _ [p.last_state_to_marg]
      (hS.nodup.sublist (List.filter_sublist _)) (by simp)]
    · rfl
    · intro x
      simp only [List.mem_filter, decide_eq_true_eq, List.mem_singleton]
      rw [p3, p4]
      constructor
      · rintro ⟨hx, h1, h2⟩
        by_contra hne
        by_cases hkf : x ∈ s.kf_ids
        · exact h2 ⟨hx, hne, hkf⟩
        · exact h1 ⟨hx, hne, hkf⟩
      · rintro rfl
        refine ⟨?_, fun hh => hh.2.1 rfl, fun hh => hh.2.1 rfl⟩
        exact (mem_takeWhile_le_of_sorted _ _ _ hFS).2 ⟨hL, le_refl _⟩
  have c2 : (((mapKeys s.frame_states).takeWhile
      (fun k => decide (k ≤ p.last_state_to_marg))).filter
      (fun k => decide (k ∉ p.states_to_marg_all ∧ k ∈ p.states_to_marg_vel_bias)))
      = (((mapKeys s.frame_states).takeWhile
      (fun k => decide (k ≤ p.last_state_to_marg))).filter
      (fun k => decide (k ∈ p.states_to_marg_vel_bias))) := by
    apply List.filter_congr
    intro k _
    have : k ∈ p.states_to_marg_vel_bias → k ∉ p.states_to_marg_all := by
      intro h1 h2
      exact ((p4 k).1 h2).2.2 ((p3 k).1 h1).2.2
    by_cases hb : k ∈ p.states_to_marg_vel_bias
    · simp [hb, this hb]
    · simp [hb]
  rw [c1, c2]
  omega

theorem margOrderNew_total (P : List Int) (last : Int) :
    (margOrderNew P last).total_size = POSE_SIZE * P.length + POSE_VEL_BIAS_SIZE := by
  rw [margOrderNew_eq, pushAll_total]
  have := visitOffset_total P [last]
  rw [visitOffset, List.take_length] at this
  simpa using this

/-- A round that passes the assertion on the size of the new prior has not
removed any keyframe it demoted in the same round. -/
theorem round_keeps_demoted (F : MathFns) (npc : List (Int × Int)) (fuel : Nat)
    (s s' : Estimator) (p : MargPlan)
    (hFS : (mapKeys s.frame_states).Sorted (· < ·)) (hFP : (mapKeys s.frame_poses).Sorted (· < ·))
    (hdisj : ∀ k ∈ mapKeys s.frame_poses, k ∉ mapKeys s.frame_states)
    (hp : margPlan F npc fuel s = .ok p) (hc : margCommit s p = .ok s') :
    ∀ k ∈ p.states_to_marg_vel_bias, k ∉ p.poses_to_marg := by
  have hcard := card_idx_to_keep F npc fuel s p hFS hFP hdisj hp
  obtain ⟨-, c2, c3, c4, c5, -⟩ := margCommit_ok s s' p hc
  obtain ⟨-, -, p3, -, -, -, -⟩ := margPlan_ok F npc fuel s p hp
  have hS := sorted_takeWhile (mapKeys s.frame_states)
    (fun k => decide (k ≤ p.last_state_to_marg)) hFS
  have hB : ∀ x, x ∈ ((mapKeys s.frame_states).takeWhile
      (fun k => decide (k ≤ p.last_state_to_marg))).filter
      (fun k => decide (k ∈ p.states_to_marg_vel_bias)) ↔ x ∈ p.states_to_marg_vel_bias := by
    intro x
    simp only [List.mem_filter, decide_eq_true_eq]
    constructor
    · exact fun hx => hx.2
    · exact fun hx => ⟨((p3 x).1 hx).1, hx⟩
  have hlen : (mapKeys s'.frame_poses).length
      = ((mapKeys s.frame_poses).filter (fun k => decide (k ∉ p.poses_to_marg))).length
        + ((((mapKeys s.frame_states).takeWhile
            (fun k => decide (k ≤ p.last_state_to_marg))).filter
            (fun k => decide (k ∈ p.states_to_marg_vel_bias))).filter
            (fun k => decide (k ∉ p.poses_to_marg))).length := by
    rw [← List.length_append]
    apply length_eq_of_nodup_of_mem_iff _ _ (c3 hFP).nodup
    · refine List.nodup_append.2 ⟨hFP.nodup.sublist (List.filter_sublist _),
        (hS.nodup.sublist (List.filter_sublist _)).sublist (List.filter_sublist _), ?_⟩
      intro x hx1 hx2
      have h1 : x ∈ mapKeys s.frame_poses := (List.mem_filter.1 hx1).1
      have h2 : x ∈ mapKeys s.frame_states :=
        (List.takeWhile_sublist _).subset (List.mem_filter.1 (List.mem_filter.1 hx2).1).1
      exact hdisj x h1 h2
    · intro x
      rw [c2, List.mem_append, List.mem_filter, List.mem_filter, hB]
      simp only [decide_eq_true_eq]
      tauto
  rw [c4, margOrderNew_total, hlen] at c5
  rw [hcard] at c5
  have hfl : ((((mapKeys s.frame_states).takeWhile
      (fun k => decide (k ≤ p.last_state_to_marg))).filter
      (fun k => decide (k ∈ p.states_to_marg_vel_bias))).filter
      (fun k => decide (k ∉ p.poses_to_marg))).length
      = (((mapKeys s.frame_states).takeWhile
      (fun k => decide (k ≤ p.last_state_to_marg))).filter
      (fun k => decide (k ∈ p.states_to_marg_vel_bias))).length := by
    simp only [POSE_SIZE, POSE_VEL_BIAS_SIZE] at c5
    omega
  intro k hk
  have := forall_of_length_filter_eq _ _ hfl k ((hB k).2 hk)
  simpa using this

theorem mapFind_mem {V : Type} (k : Int) (v : V) (m : List (Int × V))
    (h : mapFind k m = some v) : (k, v) ∈ m := by
  induction m with
  | nil => simp [mapFind] at h
  | cons e t ih =>
    unfold mapFind at h
    by_cases he : e.1 = k
    · simp only [he, if_true, Option.some.injEq] at h
      rw [← he, ← h]
      simp
    · simp only [he, if_false] at h
      exact List.mem_cons_of_mem _ (ih h)

/-- Every visited full state has an entry of size `POSE_VEL_BIAS_SIZE` in
the round's order map. -/
theorem margPlan_state_entry (F : MathFns) (npc : List (Int × Int)) (fuel : Nat) (s : Estimator)
    (p : MargPlan)
    (hFS : (mapKeys s.frame_states).Sorted (· < ·)) (hFP : (mapKeys s.frame_poses).Sorted (· < ·))
    (hdisj : ∀ k ∈ mapKeys s.frame_poses, k ∉ mapKeys s.frame_states)
    (h : margPlan F npc fuel s = .ok p) (k : Int)
    (hk : k ∈ (mapKeys s.frame_states).takeWhile (fun k => decide (k ≤ p.last_state_to_marg))) :
    ∃ off, mapFind k p.aom.abs_order_map = some (off, POSE_VEL_BIAS_SIZE) := by
  obtain ⟨-, p2, -⟩ := margPlan_ok F npc fuel s p h
  have hnd : ((visitBlocks (mapKeys s.frame_poses)
      ((mapKeys s.frame_states).takeWhile
        (fun k => decide (k ≤ p.last_state_to_marg)))).map Prod.fst).Nodup := by
    rw [visitBlocks_keys]
    refine nodup_of_sorted_disjoint _ _ hFP (sorted_takeWhile _ _ hFS) ?_
    intro k hk hk2
    exact hdisj k hk ((List.takeWhile_sublist _).subset hk2)
  have hmem : (k, POSE_VEL_BIAS_SIZE) ∈ visitBlocks (mapKeys s.frame_poses)
      ((mapKeys s.frame_states).takeWhile (fun k => decide (k ≤ p.last_state_to_marg))) := by
    simp only [visitBlocks, List.mem_append, List.mem_map]
    exact Or.inr ⟨k, hk, rfl⟩
  obtain ⟨n, hn, hV⟩ := List.getElem_of_mem hmem
  have := pushAll_find _ {} hnd n hn
  rw [hV] at this
  rw [p2]
  exact ⟨_, this⟩

/-- The two index sets of a planned round split `range total_size`. -/
theorem idx_partition (F : MathFns) (npc : List (Int × Int)) (fuel : Nat)
    (s : Estimator) (p : MargPlan)
    (hFS : (mapKeys s.frame_states).Sorted (· < ·)) (hFP : (mapKeys s.frame_poses).Sorted (· < ·))
    (hdisj : ∀ k ∈ mapKeys s.frame_poses, k ∉ mapKeys s.frame_states)
    (h : margPlan F npc fuel s = .ok p) :
    Disjoint p.idx_to_keep p.idx_to_marg ∧
    p.idx_to_keep ∪ p.idx_to_marg = Finset.range p.aom.total_size := by
  obtain ⟨hperm, hk, hm, htot⟩ := margPlan_idx F npc fuel s p hFS hFP hdisj h
  have hsz : ∀ e ∈ p.aom.abs_order_map,
      e.2.2 = POSE_SIZE ∨ e.2.2 = POSE_VEL_BIAS_SIZE :=
    fun e he => layout_size _ _ _ e (hperm.subset he)
  have hpw : p.aom.abs_order_map.Pairwise (fun a b => Disjoint (block a) (block b)) :=
    (hperm.pairwise_iff (fun {a b} (hab : Disjoint (block a) (block b)) => hab.symm)).2
      (layout_blocks_pairwise _ _)
  have hd : Disjoint p.idx_to_keep p.idx_to_marg := by
    rw [Finset.disjoint_left, hk, hm]
    intro x hx hx'
    obtain ⟨t1, ht1, hxt1⟩ := (mem_listUnion _ _).1 hx
    obtain ⟨t2, ht2, hxt2⟩ := (mem_listUnion _ _).1 hx'
    obtain ⟨e1, he1, rfl⟩ := List.mem_map.1 ht1
    obtain ⟨e2, he2, rfl⟩ := List.mem_map.1 ht2
    have hb1 := keepPart_subset_block _ _ _ e1 (hsz e1 he1) hxt1
    have hb2 := margPart_subset_block _ _ _ e2 (hsz e2 he2) hxt2
    by_cases he : e1 = e2
    · subst he
      exact Finset.disjoint_left.1 (keepPart_disjoint_margPart _ _ _ e1) hxt1 hxt2
    · exact Finset.disjoint_left.1 (hpw.forall (fun {a b} hab => hab.symm) he1 he2 he) hb1 hb2
  have hu : p.idx_to_keep ∪ p.idx_to_marg = Finset.range p.aom.total_size := by
    ext x
    rw [Finset.mem_union, Finset.mem_range, hk, hm, mem_listUnion, mem_listUnion]
    have hc := layout_cover 0 (visitBlocks (mapKeys s.frame_poses)
      ((mapKeys s.frame_states).takeWhile (fun k => decide (k ≤ p.last_state_to_marg)))) x
    have hsum : ((visitBlocks (mapKeys s.frame_poses)
        ((mapKeys s.frame_states).takeWhile
          (fun k => decide (k ≤ p.last_state_to_marg)))).map Prod.snd).sum
        = p.aom.total_size := by
      have := visitOffset_total (mapKeys s.frame_poses)
        ((mapKeys s.frame_states).takeWhile (fun k => decide (k ≤ p.last_state_to_marg)))
      rw [visitOffset, List.take_length] at this
      rw [this, htot]
    rw [hsum] at hc
    constructor
    · rintro (⟨t, ht, hxt⟩ | ⟨t, ht, hxt⟩)
      · obtain ⟨e, he, rfl⟩ := List.mem_map.1 ht
        have := hc.1 ⟨e, hperm.subset he, keepPart_subset_block _ _ _ e (hsz e he) hxt⟩
        omega
      · obtain ⟨e, he, rfl⟩ := List.mem_map.1 ht
        have := hc.1 ⟨e, hperm.subset he, margPart_subset_block _ _ _ e (hsz e he) hxt⟩
        omega
    · intro hx
      obtain ⟨e, he, hxe⟩ := hc.2 ⟨Nat.zero_le _, by omega⟩
      have he' : e ∈ p.aom.abs_order_map := hperm.symm.subset he
      rw [← keepPart_union_margPart p.poses_to_marg p.states_to_marg_all
        p.states_to_marg_vel_bias e (hsz e he'), Finset.mem_union] at hxe
      rcases hxe with hxe | hxe
      · exact Or.inl ⟨_, List.mem_map.2 ⟨e, he', rfl⟩, hxe⟩
      · exact Or.inr ⟨_, List.mem_map.2 ⟨e, he', rfl⟩, hxe⟩
  exact ⟨hd, hu⟩

/-! ## The order checks against the previous prior -/

theorem orderAssert_pass (line : Nat) (mo : AbsOrderMap) (k : Int) (v : Nat × Nat)
    (m : List (Int × (Nat × Nat))) (h : mapFind k mo.abs_order_map = some v) :
    orderAssert line mo k (mapSet k v m) = .ok () := by
  simp [orderAssert, mapAt, h, mapFind_mapSet_self]

theorem optimizePoseLoop_pass (mo : AbsOrderMap) (P : List Int) (a : AbsOrderMap)
    (h : ∀ i (hi : i < P.length),
      mapFind P[i] mo.abs_order_map = some (a.total_size + POSE_SIZE * i, POSE_SIZE)) :
    optimizePoseLoop mo P a = .ok (pushAll (P.map (fun k => (k, POSE_SIZE))) a) := by
  induction P generalizing a with
  | nil => rfl
  | cons k P ih =>
    have h0 := h 0 (by simp)
    simp only [List.getElem_cons_zero, Nat.mul_zero, Nat.add_zero] at h0
    unfold optimizePoseLoop
    rw [orderAssert_pass _ _ _ _ _ h0]
    simp only [List.map_cons, pushAll_cons]
    apply ih
    intro i hi
    have := h (i + 1) (by simpa using hi)
    simp only [List.getElem_cons_succ] at this
    rw [this]
    simp only [aomPush, Nat.mul_succ]
    congr 2
    omega

theorem optimizeStateLoop_pass (mo : AbsOrderMap) (S : List Int) (a : AbsOrderMap)
    (h : ∀ i (hi : i < S.length), a.items + i < mo.abs_order_map.length →
      mapFind S[i] mo.abs_order_map
        = some (a.total_size + POSE_VEL_BIAS_SIZE * i, POSE_VEL_BIAS_SIZE)) :
    optimizeStateLoop mo S a = .ok (pushAll (S.map (fun k => (k, POSE_VEL_BIAS_SIZE))) a) := by
  induction S generalizing a with
  | nil => rfl
  | cons k S ih =>
    have hrest : optimizeStateLoop mo S (aomPush k POSE_VEL_BIAS_SIZE a)
        = .ok (pushAll (S.map (fun k => (k, POSE_VEL_BIAS_SIZE)))
            (aomPush k POSE_VEL_BIAS_SIZE a)) := by
      apply ih
      intro i hi hlt
      have := h (i + 1) (by simpa using hi) (by simp only [aomPush] at hlt; omega)
      simp only [List.getElem_cons_succ] at this
      rw [this]
      simp only [aomPush, Nat.mul_succ]
      congr 2
      omega
    unfold optimizeStateLoop
    simp only [List.map_cons, pushAll_cons]
    by_cases hc : a.items < mo.abs_order_map.length
    · have h0 := h 0 (by simp) (by simpa using hc)
      simp only [List.getElem_cons_zero, Nat.mul_zero, Nat.add_zero] at h0
      rw [if_pos hc, orderAssert_pass _ _ _ _ _ h0]
      exact hrest
    · rw [if_neg hc]
      exact hrest

theorem margPoseLoop_pass (mo : AbsOrderMap) (kf : List Int) (P : List Int)
    (acc : AbsOrderMap × List Int)
    (h : ∀ i (hi : i < P.length),
      mapFind P[i] mo.abs_order_map = some (acc.1.total_size + POSE_SIZE * i, POSE_SIZE)) :
    ∃ r, margPoseLoop mo kf P acc = .ok r := by
  induction P generalizing acc with
  | nil => exact ⟨acc, rfl⟩
  | cons k P ih =>
    have h0 := h 0 (by simp)
    simp only [List.getElem_cons_zero, Nat.mul_zero, Nat.add_zero] at h0
    unfold margPoseLoop
    rw [orderAssert_pass _ _ _ _ _ h0]
    apply ih
    intro i hi
    have := h (i + 1) (by simpa using hi)
    simp only [List.getElem_cons_succ] at this
    rw [this]
    simp only [aomPush, Nat.mul_succ]
    congr 2
    omega

theorem margStateLoop_pass (mo : AbsOrderMap) (kf : List Int) (last : Int) (S : List Int)
    (acc : StateSplit)
    (h : ∀ i (hi : i < S.length), acc.aom.items + i < mo.abs_order_map.length →
      mapFind S[i] mo.abs_order_map
        = some (acc.aom.total_size + POSE_VEL_BIAS_SIZE * i, POSE_VEL_BIAS_SIZE)) :
    ∃ r, margStateLoop mo kf last S acc = .ok r := by
  induction S generalizing acc with
  | nil => exact ⟨acc, rfl⟩
  | cons k S ih =>
    unfold margStateLoop
    by_cases hk : k > last
    · exact ⟨acc, by simp [hk]⟩
    · simp only [hk, if_false]
      have hrest : ∀ next : StateSplit, next.aom = aomPush k POSE_VEL_BIAS_SIZE acc.aom →
          ∃ r, margStateLoop mo kf last S next = .ok r := by
        intro next hnext
        apply ih
        intro i hi hlt
        have := h (i + 1) (by simpa using hi) (by
          rw [hnext] at hlt
          simp only [aomPush] at hlt
          omega)
        simp only [List.getElem_cons_succ] at this
        rw [this, hnext]
        simp only [aomPush, Nat.mul_succ]
        congr 2
        omega
      by_cases hc : acc.aom.items < mo.abs_order_map.length
      · have h0 := h 0 (by simp) (by simpa using hc)
        simp only [List.getElem_cons_zero, Nat.mul_zero, Nat.add_zero] at h0
        rw [if_pos hc, orderAssert_pass _ _ _ _ _ h0]
        exact hrest _ rfl
      · rw [if_neg hc]
        exact hrest _ rfl

theorem visitOffset_pose (P S : List Int) (i : Nat) (hi : i ≤ P.length) :
    visitOffset (visitBlocks P S) i = POSE_SIZE * i := by
  induction P generalizing i with
  | nil =>
    have : i = 0 := by simpa using hi
    subst this
    simp [visitOffset]
  | cons k P ih =>
    cases i with
    | zero => simp [visitOffset]
    | succ i =>
      have := ih i (by simpa using hi)
      simp only [visitOffset, visitBlocks, List.map_cons, List.cons_append,
        List.take_succ_cons, List.sum_cons] at this ⊢
      rw [this, Nat.mul_succ]
      omega

theorem pushAll_find_prefix (V W : List (Int × Nat)) (hn : ((V ++ W).map Prod.fst).Nodup)
    (k : Int) (v : Nat × Nat) (h : mapFind k (pushAll V {}).abs_order_map = some v) :
    mapFind k (pushAll (V ++ W) {}).abs_order_map = some v := by
  rw [pushAll_append, pushAll_find_notin, h]
  have hk : k ∈ mapKeys (pushAll V {}).abs_order_map := (mapFind_isSome_iff _ _).1 ⟨v, h⟩
  rw [mem_keys_pushAll] at hk
  simp only [mapKeys, List.map_nil, List.not_mem_nil, or_false] at hk
  rw [List.map_append, List.nodup_append] at hn
  intro hW
  exact hn.2.2 hk hW

theorem pushAll_poses_total (P : List Int) :
    (pushAll (P.map (fun k => (k, POSE_SIZE))) {}).total_size = POSE_SIZE * P.length := by
  have := visitOffset_total P []
  rw [visitOffset, List.take_length] at this
  rw [pushAll_total]
  simpa [visitBlocks] using this

theorem pushAll_poses_items (P : List Int) :
    (pushAll (P.map (fun k => (k, POSE_SIZE))) {}).items = P.length := by
  rw [pushAll_items]
  simp

/-- The entries of the order written at the end of a round (and at
initialization, with no pose-only frame). -/
theorem prior_order_find (P : List Int) (L : Int) (hn : (P ++ [L]).Nodup) :
    (∀ i (hi : i < P.length),
      mapFind P[i] (pushAll (visitBlocks P [L]) {}).abs_order_map
        = some (POSE_SIZE * i, POSE_SIZE)) ∧
    mapFind L (pushAll (visitBlocks P [L]) {}).abs_order_map
      = some (POSE_SIZE * P.length, POSE_VEL_BIAS_SIZE) ∧
    (pushAll (visitBlocks P [L]) {}).abs_order_map.length = P.length + 1 := by
  have hV : ((visitBlocks P [L]).map Prod.fst).Nodup := by
    rw [visitBlocks_keys]
    exact hn
  refine ⟨?_, ?_, ?_⟩
  · intro i hi
    have hi' : i < (visitBlocks P [L]).length := by
      rw [visitBlocks_length]
      omega
    have := pushAll_find _ {} hV i hi'
    have e : (visitBlocks P [L])[i] = (P[i], POSE_SIZE) := by
      simp only [visitBlocks]
      rw [List.getElem_append_left (by simpa using hi)]
      simp
    rw [e] at this
    rw [this]
    have h2 := visitOffset_pose P [L] i (le_of_lt hi)
    simp only [visitOffset] at h2
    rw [h2]
    simp
  · simp only [visitBlocks, List.map_cons, List.map_nil, pushAll_append, pushAll_cons,
      pushAll_nil, aomPush]
    rw [mapFind_mapSet_self, pushAll_poses_total]
  · have := (tiles_pushAll _ hV).2.1
    rw [this, visitBlocks_length]
    rfl

/-- The order written at the end of a round passes every check of the order
loops of the next `optimize` and `marginalize`, and each of its entries is
found unchanged in the order map they build. -/
theorem next_round_consistent (P : List Int) (L : Int) (rest : List Int) (kf : List Int)
    (last' : Int) (hn : (P ++ L :: rest).Nodup) :
    optimizeOrder (pushAll (visitBlocks P [L]) {}) P (L :: rest)
      = .ok (pushAll (visitBlocks P (L :: rest)) {}) ∧
    (∃ pl sp, margPoseLoop (pushAll (visitBlocks P [L]) {}) kf P ({}, []) = .ok pl ∧
      margStateLoop (pushAll (visitBlocks P [L]) {}) kf last' (L :: rest)
        { aom := pl.1, states_to_marg_vel_bias := [], states_to_marg_all := [] } = .ok sp ∧
      sp.aom = pushAll (visitBlocks P
        ((L :: rest).takeWhile (fun k => decide (k ≤ last')))) {}) := by
  have hn1 : (P ++ [L]).Nodup := by
    rw [List.nodup_append] at hn ⊢
    refine ⟨hn.1, by simp, ?_⟩
    intro x hx hx'
    exact hn.2.2 hx (by
      rw [List.mem_singleton] at hx'
      simp [hx'])
  obtain ⟨f1, f2, f3⟩ := prior_order_find P L hn1
  have hposes : ∀ i (hi : i < P.length),
      mapFind P[i] (pushAll (visitBlocks P [L]) {}).abs_order_map
        = some ((({} : AbsOrderMap)).total_size + POSE_SIZE * i, POSE_SIZE) := by
    intro i hi
    rw [f1 i hi]
    simp
  have hstates : ∀ (a : AbsOrderMap), a = pushAll (P.map (fun k => (k, POSE_SIZE))) {} →
      ∀ i (hi : i < (L :: rest).length),
      a.items + i < (pushAll (visitBlocks P [L]) {}).abs_order_map.length →
      mapFind (L :: rest)[i] (pushAll (visitBlocks P [L]) {}).abs_order_map
        = some (a.total_size + POSE_VEL_BIAS_SIZE * i, POSE_VEL_BIAS_SIZE) := by
    intro a ha i hi hlt
    rw [f3, ha, pushAll_poses_items] at hlt
    have hi0 : i = 0 := by omega
    subst hi0
    simp only [List.getElem_cons_zero, Nat.mul_zero, Nat.add_zero]
    rw [f2, ha, pushAll_poses_total]
  constructor
  · unfold optimizeOrder
    rw [optimizePoseLoop_pass _ _ _ hposes]
    simp only
    rw [optimizeStateLoop_pass _ _ _ (hstates _ rfl), visitBlocks, pushAll_append]
  · obtain ⟨pl, hpl⟩ := margPoseLoop_pass (pushAll (visitBlocks P [L]) {}) kf P ({}, []) hposes
    have e1 := (margPoseLoop_ok _ _ _ _ _ hpl).1
    simp only at e1
    obtain ⟨sp, hsp⟩ := margStateLoop_pass (pushAll (visitBlocks P [L]) {}) kf last' (L :: rest)
      { aom := pl.1, states_to_marg_vel_bias := [], states_to_marg_all := [] }
      (hstates _ e1)
    refine ⟨pl, sp, hpl, hsp, ?_⟩
    have e2 := (margStateLoop_ok _ _ _ _ _ _ hsp).1
    simp only at e2
    rw [e2, e1, ← pushAll_append]
    rfl

theorem orderConsistent_of_prior (P : List Int) (L : Int) (rest : List Int) (kf : List Int)
    (last' : Int) (hn : (P ++ L :: rest).Nodup) (hL : L ≤ last') :
    OrderConsistent (pushAll (visitBlocks P [L]) {}) kf last' P (L :: rest) := by
  obtain ⟨h1, pl, sp, h2, h3, h4⟩ := next_round_consistent P L rest kf last' hn
  have hsplit : ∀ S2 : List Int, visitBlocks P (L :: S2)
      = visitBlocks P [L] ++ S2.map (fun k => (k, POSE_VEL_BIAS_SIZE)) := by
    intro S2
    simp [visitBlocks]
  have hkeys : ∀ S2 : List Int, (P ++ L :: S2).Nodup →
      ((visitBlocks P [L] ++ S2.map (fun k => (k, POSE_VEL_BIAS_SIZE))).map Prod.fst).Nodup := by
    intro S2 h
    rw [← hsplit, visitBlocks_keys]
    exact h
  refine ⟨⟨_, h1, ?_⟩, ⟨pl, sp, h2, h3, ?_⟩⟩
  · intro k v hk
    rw [hsplit]
    exact pushAll_find_prefix _ _ (hkeys rest hn) k v hk
  · intro k v hk
    have htw : (L :: rest).takeWhile (fun k => decide (k ≤ last'))
        = L :: rest.takeWhile (fun k => decide (k ≤ last')) := by
      simp [List.takeWhile, hL]
    rw [h4, htw, hsplit]
    refine pushAll_find_prefix _ _ (hkeys _ ?_) k v hk
    have hsub : (P ++ L :: rest.takeWhile (fun k => decide (k ≤ last'))).Sublist
        (P ++ L :: rest) :=
      (List.Sublist.refl P).append ((List.takeWhile_sublist _).cons₂ L)
    exact hn.sublist hsub

theorem round_states_filter (F : MathFns) (npc : List (Int × Int)) (fuel : Nat)
    (s s' : Estimator) (p : MargPlan)
    (hFS : (mapKeys s.frame_states).Sorted (· < ·))
    (hp : margPlan F npc fuel s = .ok p) (hc : margCommit s p = .ok s') :
    mapKeys s'.frame_states
      = (mapKeys s.frame_states).filter (fun k => decide (p.last_state_to_marg ≤ k)) := by
  obtain ⟨c1, -⟩ := margCommit_ok s s' p hc
  obtain ⟨-, -, p3, p4, -⟩ := margPlan_ok F npc fuel s p hp
  rw [c1]
  apply List.filter_congr
  intro k hk
  have e3 := p3 k
  have e4 := p4 k
  rw [takeWhile_eq_filter_of_sorted _ _ hFS, List.mem_filter] at e3 e4
  simp only [decide_eq_true_eq] at e3 e4
  by_cases hlt : p.last_state_to_marg ≤ k
  · have h3 : k ∉ p.states_to_marg_vel_bias := by
      intro hm
      have := e3.1 hm
      omega
    have h4 : k ∉ p.states_to_marg_all := by
      intro hm
      have := e4.1 hm
      omega
    simp [h3, h4, hlt]
  · have hne : k ≠ p.last_state_to_marg := by omega
    have hle : k ≤ p.last_state_to_marg := by omega
    by_cases hkf : k ∈ s.kf_ids
    · have : k ∈ p.states_to_marg_vel_bias := e3.2 ⟨⟨hk, hle⟩, hne, hkf⟩
      simp [this, hlt]
    · have : k ∈ p.states_to_marg_all := e4.2 ⟨⟨hk, hle⟩, hne, hkf⟩
      simp [this, hlt]

/-- After a round `last_state_to_marg` is the oldest full state. -/
theorem round_states_head (F : MathFns) (npc : List (Int × Int)) (fuel : Nat)
    (s s' : Estimator) (p : MargPlan)
    (hFS : (mapKeys s.frame_states).Sorted (· < ·))
    (hp : margPlan F npc fuel s = .ok p) (hc : margCommit s p = .ok s') :
    ∃ rest, mapKeys s'.frame_states = p.last_state_to_marg :: rest := by
  obtain ⟨p1, -⟩ := margPlan_ok F npc fuel s p hp
  rw [round_states_filter F npc fuel s s' p hFS hp hc]
  unfold lastStateToMarg at p1
  split at p1
  · rename_i k hk
    simp only [Except.ok.injEq] at p1
    obtain ⟨hr, hk'⟩ := List.getElem?_eq_some.1 hk
    rw [← p1, ← hk', filter_ge_eq_drop _ hFS _ hr]
    exact ⟨_, List.drop_eq_getElem_cons hr⟩
  · simp at p1

theorem round_disjoint (s s' : Estimator) (p : MargPlan)
    (hdisj : ∀ k ∈ mapKeys s.frame_poses, k ∉ mapKeys s.frame_states)
    (hc : margCommit s p = .ok s') :
    ∀ k ∈ mapKeys s'.frame_poses, k ∉ mapKeys s'.frame_states := by
  obtain ⟨c1, c2, -⟩ := margCommit_ok s s' p hc
  intro k hk hk'
  rw [c1, List.mem_filter] at hk'
  rw [c2] at hk
  simp only [Bool.and_eq_true, decide_eq_true_eq] at hk'
  rcases hk.1 with h1 | h1
  · exact hdisj k h1 hk'.1
  · exact hk'.2.2 h1

/-! ## Facts about keyframe selection -/

/-- The comparison of the first stage is made on the truncated integer
quotient: for a non-negative count and a positive number of hosted landmarks
it holds exactly when fewer landmarks are connected than were hosted. -/
theorem stage1_quotient_lt (c h : Int) (hc : 0 ≤ c) (hh : 0 < h) :
    (((Int.tdiv c h : Int) : ℚ) < 0.05) ↔ c < h := by
  have hq : 0 ≤ Int.tdiv c h := Int.tdiv_nonneg hc (le_of_lt hh)
  constructor
  · intro hlt
    by_contra hge
    have h1 : 1 ≤ Int.tdiv c h := by
      rw [Int.tdiv_eq_ediv hc (le_of_lt hh)]
      exact Int.le_ediv_of_mul_le hh (by omega)
    have : (1 : ℚ) ≤ ((Int.tdiv c h : Int) : ℚ) := by exact_mod_cast h1
    norm_num at hlt
    linarith
  · intro hlt
    have h0 : Int.tdiv c h = 0 := by
      rw [Int.tdiv_eq_ediv hc (le_of_lt hh)]
      exact Int.ediv_eq_zero_of_lt hc hlt
    rw [h0]
    norm_num

theorem candBound_eq (n : Nat) (h2 : 2 ≤ n) (h64 : n < 2 ^ 64) : candBound n = n - 2 := by
  unfold candBound
  have : n + 2 ^ 64 - 2 = (n - 2) + 2 ^ 64 := by omega
  rw [this, Nat.add_mod_right]
  exact Nat.mod_eq_of_lt (by omega)

theorem mapAt_of_find {V : Type} (k : Int) (m : List (Int × V)) (v : V)
    (h : mapFind k m = some v) : mapAt k m = .ok v := by
  simp [mapAt, h]

theorem denomLoop_eq (F : MathFns) (fp : List (Int × PoseStateWithLin)) (i : Int)
    (l1 l2 : List Int) (d : ℚ)
    (hi : ∃ p, mapFind i fp = some p) (hl : ∀ j ∈ l1, ∃ p, mapFind j fp = some p) :
    denomLoop F fp i (l1 ++ l2) l1.length d = .ok (d + (l1.map (invDist F fp i)).sum) := by
  induction l1 generalizing d with
  | nil =>
    cases l2 with
    | nil => simp [denomLoop]
    | cons a l2 => simp [denomLoop]
  | cons j l1 ih =>
    obtain ⟨pi, hpi⟩ := hi
    obtain ⟨pj, hpj⟩ := hl j (by simp)
    have hrest : ∀ j' ∈ l1, ∃ p, mapFind j' fp = some p :=
      fun j' hj' => hl j' (List.mem_cons_of_mem _ hj')
    simp only [List.cons_append, List.length_cons]
    unfold denomLoop
    rw [mapAt_of_find _ _ _ hpi, mapAt_of_find _ _ _ hpj]
    simp only [Nat.add_one_ne_zero, if_false, Nat.add_sub_cancel]
    rw [ih _ hrest]
    simp only [List.map_cons, List.sum_cons, invDist, posOf, hpi, hpj]
    congr 1
    ring

theorem scoreLoop_eq (F : MathFns) (fp : List (Int × PoseStateWithLin))
    (fs : List (Int × PoseVelBiasStateWithLin)) (last_kf : Int) (ids : List Int) (bound : Nat)
    (cands : List Int) (l1 l2 : List Int) (acc : ℚ × Int)
    (hden : ∀ i ∈ l1, denomLoop F fp i ids bound 0 = .ok ((cands.map (invDist F fp i)).sum))
    (hl : ∀ i ∈ l1, ∃ p, mapFind i fp = some p) (hs : ∃ st, mapFind last_kf fs = some st) :
    scoreLoop F fp fs last_kf ids bound (l1 ++ l2) l1.length acc
      = .ok (l1.foldl (scoreStep (codeScore F fp fs last_kf cands)) acc) := by
  induction l1 generalizing acc with
  | nil =>
    cases l2 with
    | nil => simp [scoreLoop]
    | cons a l2 => simp [scoreLoop]
  | cons i l1 ih =>
    obtain ⟨pi, hpi⟩ := hl i (by simp)
    obtain ⟨st, hst⟩ := hs
    have hrest : ∀ j ∈ l1, ∃ p, mapFind j fp = some p :=
      fun j hj => hl j (List.mem_cons_of_mem _ hj)
    have hden' : ∀ j ∈ l1,
        denomLoop F fp j ids bound 0 = .ok ((cands.map (invDist F fp j)).sum) :=
      fun j hj => hden j (List.mem_cons_of_mem _ hj)
    have hsc : F.sqrt (F.norm (vsub pi.translation st.translation))
        * (cands.map (invDist F fp i)).sum = codeScore F fp fs last_kf cands i := by
      simp [codeScore, posOf, statePosOf, hpi, hst]
    simp only [List.cons_append, List.length_cons, List.foldl_cons]
    unfold scoreLoop
    rw [hden i (by simp), mapAt_of_find _ _ _ hpi, mapAt_of_find _ _ _ hst]
    simp only [Nat.add_one_ne_zero, if_false, Nat.add_sub_cancel, hsc]
    by_cases hlt : codeScore F fp fs last_kf cands i < acc.1
    · rw [if_pos hlt, ih _ hden' hrest]
      simp [scoreStep, hlt]
    · rw [if_neg hlt, ih _ hden' hrest]
      simp [scoreStep, hlt]

/-- A left-to-right scan that only replaces the running minimum by a
strictly smaller score ends on the earliest minimizer. -/
theorem scoreStep_foldl (score : Int → ℚ) (l : List Int) (acc : ℚ × Int) :
    ((l.foldl (scoreStep score) acc = acc ∧ ∀ j ∈ l, acc.1 ≤ score j) ∨
     (∃ n, ∃ hn : n < l.length,
        l.foldl (scoreStep score) acc = (score l[n], l[n]) ∧ score l[n] < acc.1 ∧
        (∀ j ∈ l, score l[n] ≤ score j) ∧
        ∀ m (hm : m < l.length), m < n → score l[n] < score l[m])) := by
  induction l generalizing acc with
  | nil => exact Or.inl ⟨rfl, by simp⟩
  | cons i l ih =>
    simp only [List.foldl_cons]
    by_cases hlt : score i < acc.1
    · have hstep : scoreStep score acc i = (score i, i) := by simp [scoreStep, hlt]
      rw [hstep]
      rcases ih (score i, i) with ⟨h1, h2⟩ | ⟨n, hn, h1, h2, h3, h4⟩
      · right
        refine ⟨0, by simp, by simpa using h1, by simpa using hlt, ?_, ?_⟩
        · intro j hj
          rcases List.mem_cons.1 hj with rfl | hj
          · simp
          · simpa using h2 j hj
        · intro m hm hm0
          omega
      · right
        refine ⟨n + 1, by simpa using hn, by simpa using h1, ?_, ?_, ?_⟩
        · simp only [List.getElem_cons_succ]
          exact lt_trans h2 hlt
        · intro j hj
          simp only [List.getElem_cons_succ]
          rcases List.mem_cons.1 hj with rfl | hj
          · exact le_of_lt h2
          · exact h3 j hj
        · intro m hm hmn
          simp only [List.getElem_cons_succ]
          cases m with
          | zero => simpa using h2
          | succ m =>
            simp only [List.getElem_cons_succ]
            exact h4 m (by simpa using hm) (by omega)
    · have hstep : scoreStep score acc i = acc := by simp [scoreStep, hlt]
      rw [hstep]
      rcases ih acc with ⟨h1, h2⟩ | ⟨n, hn, h1, h2, h3, h4⟩
      · left
        refine ⟨h1, ?_⟩
        intro j hj
        rcases List.mem_cons.1 hj with rfl | hj
        · exact not_lt.1 hlt
        · exact h2 j hj
      · right
        refine ⟨n + 1, by simpa using hn, by simpa using h1, by simpa using h2, ?_, ?_⟩
        · intro j hj
          simp only [List.getElem_cons_succ]
          rcases List.mem_cons.1 hj with rfl | hj
          · exact le_of_lt (lt_of_lt_of_le h2 (not_lt.1 hlt))
          · exact h3 j hj
        · intro m hm hmn
          simp only [List.getElem_cons_succ]
          cases m with
          | zero => simpa using lt_of_lt_of_le h2 (not_lt.1 hlt)
          | succ m =>
            simp only [List.getElem_cons_succ]
            exact h4 m (by simpa using hm) (by omega)

/-- With successful lookups the second stage is the scan of the candidates
(all keyframes but the two newest) from `(DBL_MAX, -1)`. -/
theorem stage2_scan (F : MathFns) (fp : List (Int × PoseStateWithLin))
    (fs : List (Int × PoseVelBiasStateWithLin)) (cands : List Int) (second_newest newest : Int)
    (hsize : (cands ++ [second_newest, newest]).length < 2 ^ 64)
    (hfp : ∀ i ∈ cands, ∃ p, mapFind i fp = some p)
    (hfs : ∃ st, mapFind newest fs = some st) :
    stage2 F fp fs (cands ++ [second_newest, newest])
      = .ok (cands.foldl (scoreStep (codeScore F fp fs newest cands)) (DBL_MAX, -1)).2 := by
  have hlast : (cands ++ [second_newest, newest]).getLast? = some newest := by
    simp [List.getLast?_append]
  have hlen : (cands ++ [second_newest, newest]).length = cands.length + 2 := by simp
  have hb : candBound (cands ++ [second_newest, newest]).length = cands.length := by
    rw [candBound_eq _ (by omega) hsize, hlen]
    omega
  unfold stage2
  rw [hlast]
  simp only
  rw [hb, scoreLoop_eq F fp fs newest _ _ cands cands [second_newest, newest] _ ?_ hfp hfs]
  intro i hi
  have := denomLoop_eq F fp i cands [second_newest, newest] 0 (hfp i hi) hfp
  simpa using this


/-! ## Damping, checkpoints and the initial prior -/

theorem stdMax_eq (a b : ℚ) : stdMax a b = max a b := by
  unfold stdMax
  split_ifs with h
  · exact (max_eq_right h.le).symm
  · exact (max_eq_left (not_lt.mp h)).symm

theorem stdMin_eq (a b : ℚ) : stdMin a b = min a b := by
  unfold stdMin
  split_ifs with h
  · exact (min_eq_right h.le).symm
  · exact (min_eq_left (not_lt.mp h)).symm

/-! ## Doubles -/

theorem Flt.lt_irrefl (a : Flt) : Flt.lt a a = false := by
  cases a <;> simp [Flt.lt]

theorem Flt.le_of_not_lt (a b : Flt) (ha : a ≠ .nan) (hb : b ≠ .nan)
    (h : Flt.lt a b = false) : Flt.le b a = true := by
  cases a <;> cases b <;> simp_all [Flt.lt, Flt.le]

theorem Flt.not_lt_of_le (a b : Flt) (h : Flt.le b a = true) : Flt.lt a b = false := by
  cases a <;> cases b <;> simp_all [Flt.lt, Flt.le]

theorem Flt.not_le_nan_left (a : Flt) : Flt.le .nan a = false := by
  cases a <;> rfl

theorem Flt.not_le_nan_right (a : Flt) : Flt.le a .nan = false := by
  cases a <;> rfl

theorem Flt.stdMax_num (a b : ℚ) : Flt.stdMax (.num a) (.num b) = .num (max a b) := by
  unfold Flt.stdMax
  by_cases h : a < b
  · simp [Flt.lt, h, max_eq_right h.le]
  · simp [Flt.lt, h, max_eq_left (not_lt.mp h)]

theorem Flt.stdMax_nan (b : Flt) : Flt.stdMax .nan b = .nan := by
  cases b <;> rfl

theorem Flt.stdMax_not_lt (a b : Flt) : Flt.lt (Flt.stdMax a b) b = false := by
  unfold Flt.stdMax
  by_cases h : Flt.lt a b = true
  · rw [if_pos h]; exact Flt.lt_irrefl b
  · rw [if_neg h]; simpa using h

theorem Flt.stdMax_eq_nan (a : Flt) (m : ℚ) : Flt.stdMax a (.num m) = .nan ↔ a = .nan := by
  cases a <;> simp [Flt.stdMax, Flt.lt] <;> split_ifs <;> simp

theorem Flt.stdMax_ge (a : Flt) (m : ℚ) (ha : a ≠ .nan) :
    Flt.le (.num m) (Flt.stdMax a (.num m)) = true := by
  apply Flt.le_of_not_lt _ _ _ (by simp) (Flt.stdMax_not_lt a (.num m))
  intro h
  exact ha ((Flt.stdMax_eq_nan a m).mp h)

/-! ## The damping vector -/

theorem dampingVector_getElem? (N : OptNumerics) (factor min_lambda : ℚ) (Hdiag : List Flt)
    (i : Nat) :
    (dampingVector N factor min_lambda Hdiag)[i]? =
      (Hdiag[i]?).map (fun h => Flt.stdMax (N.mul h factor) (.num min_lambda)) := by
  unfold dampingVector
  rw [List.map_map, List.getElem?_map]
  cases Hdiag[i]? with
  | none => rfl
  | some h => rfl

theorem dampingVector_mem (N : OptNumerics) (factor min_lambda : ℚ) (Hdiag : List Flt) (x : Flt)
    (hx : x ∈ dampingVector N factor min_lambda Hdiag) :
    ∃ h ∈ Hdiag, x = Flt.stdMax (N.mul h factor) (.num min_lambda) := by
  unfold dampingVector at hx
  rw [List.map_map, List.mem_map] at hx
  obtain ⟨h, hm, rfl⟩ := hx
  exact ⟨h, hm, rfl⟩

/-- No component of the damping vector compares below `min_lambda`, and a
component that is a number compares at least `min_lambda`. -/
theorem dampingVector_ge (N : OptNumerics) (factor min_lambda : ℚ) (Hdiag : List Flt) :
    ∀ x ∈ dampingVector N factor min_lambda Hdiag,
      Flt.lt x (.num min_lambda) = false ∧ (x ≠ .nan → Flt.le (.num min_lambda) x = true) := by
  intro x hx
  obtain ⟨h, _, rfl⟩ := dampingVector_mem N factor min_lambda Hdiag x hx
  refine ⟨Flt.stdMax_not_lt _ _, fun hn => Flt.stdMax_ge _ _ ?_⟩
  intro h0
  exact hn ((Flt.stdMax_eq_nan _ _).mpr h0)

theorem KeypointPosition.restore_backup_set (p : KeypointPosition) (d : Vec2) (i : ℚ) :
    ({ p.backup with dir := d, id := i } : KeypointPosition).restore = p.backup := by
  cases p
  rfl

theorem positions_restore_setPositions_backup (db : LandmarkDatabase)
    (g : Int → KeypointPosition → Vec2 × ℚ) :
    ((db.backup.setPositions g).restore).positions = db.positions := by
  unfold LandmarkDatabase.positions LandmarkDatabase.restore LandmarkDatabase.setPositions
    LandmarkDatabase.backup
  simp only [List.map_map]
  apply List.map_congr_left
  intro kv _
  rfl

theorem restore_setPositions_backup (db : LandmarkDatabase)
    (g : Int → KeypointPosition → Vec2 × ℚ) :
    (db.backup.setPositions g).restore = db.backup := by
  unfold LandmarkDatabase.restore LandmarkDatabase.setPositions LandmarkDatabase.backup
  simp only [List.map_map]
  congr 1

theorem restore_restore (db : LandmarkDatabase) : db.restore.restore = db.restore := by
  unfold LandmarkDatabase.restore
  simp only [List.map_map]
  rfl

theorem positions_backup (db : LandmarkDatabase) : db.backup.positions = db.positions := by
  unfold LandmarkDatabase.positions LandmarkDatabase.backup
  simp only [List.map_map]
  rfl

/-! ## The Levenberg-Marquardt trial -/

theorem applyIncrement_lmdb (N : OptNumerics) (aom : AbsOrderMap) (w0 : Window) (inc : List ℚ)
    (w w' : Window) (h : applyIncrement N aom w0 inc w = .ok w') :
    w'.lmdb = w.lmdb.setPositions (N.updatePoints aom w0 inc) := by
  unfold applyIncrement at h
  cases hp : applyPoses N aom inc w.frame_poses with
  | error f => rw [hp] at h; cases h
  | ok poses =>
    rw [hp] at h
    cases hs : applyStates N aom inc w.frame_states with
    | error f => rw [hs] at h; cases h
    | ok states =>
      rw [hs] at h
      simp only [Except.ok.injEq] at h
      rw [← h]

theorem lmStepped_lmdb (N : OptNumerics) (aom : AbsOrderMap) (w0 : Window)
    (min_lambda lambda : ℚ) (Hdiag : List Flt) (w stepped : Window)
    (h : lmStepped N aom w0 min_lambda lambda Hdiag w = .ok stepped) :
    stepped.lmdb = w.lmdb.backup.setPositions
      (N.updatePoints aom w0 (N.solve aom w0 (dampingVector N lambda min_lambda Hdiag))) := by
  unfold lmStepped at h
  exact applyIncrement_lmdb N aom w0 _ _ _ h

/-- The two outcomes of a trial that returns: it is accepted when the double
comparison `f_diff < 0` of line 975 is false, rejected when it is true. -/
theorem lmTrial_cases (N : OptNumerics) (aom : AbsOrderMap) (w0 : Window)
    (min_lambda max_lambda : ℚ) (error_total : Flt) (Hdiag : List Flt) (st st' : LmLoop)
    (h : lmTrial N aom w0 min_lambda max_lambda error_total Hdiag st = .ok st') :
    ∃ stepped, lmStepped N aom w0 min_lambda st.lambda Hdiag st.w = .ok stepped ∧
      ((Flt.lt (N.sub error_total (N.after_error_total aom stepped)) (.num 0) = false ∧
          st'.step = true ∧
          st'.lambda = max min_lambda (st.lambda / 3) ∧ st'.lambda_vee = 2 ∧ st'.w = stepped) ∨
        (Flt.lt (N.sub error_total (N.after_error_total aom stepped)) (.num 0) = true ∧
          st'.step = st.step ∧
          st'.lambda = min max_lambda (st.lambda_vee * st.lambda) ∧
          st'.lambda_vee = st.lambda_vee * 2 ∧
          st'.w.frame_states = st.w.frame_states ∧ st'.w.frame_poses = st.w.frame_poses ∧
          st'.w.lmdb = stepped.lmdb.restore)) ∧
      st'.max_iter = st.max_iter - 1 := by
  unfold lmTrial at h
  cases hs : lmStepped N aom w0 min_lambda st.lambda Hdiag st.w with
  | error f => rw [hs] at h; cases h
  | ok stepped =>
    rw [hs] at h
    refine ⟨stepped, rfl, ?_⟩
    simp only at h
    by_cases hd : Flt.lt (N.sub error_total (N.after_error_total aom stepped)) (.num 0) = true
    · rw [if_pos hd] at h
      simp only [Except.ok.injEq] at h
      subst h
      refine ⟨Or.inr ⟨hd, rfl, stdMin_eq _ _, rfl, rfl, rfl, rfl⟩, rfl⟩
    · rw [if_neg hd] at h
      simp only [Except.ok.injEq] at h
      subst h
      refine ⟨Or.inl ⟨by simpa using hd, rfl, stdMax_eq _ _, rfl, rfl⟩, rfl⟩

/-- A trial returns whenever the increment can be applied. -/
theorem lmTrial_returns (N : OptNumerics) (aom : AbsOrderMap) (w0 : Window)
    (min_lambda max_lambda : ℚ) (error_total : Flt) (Hdiag : List Flt) (st : LmLoop) (stepped : Window)
    (hs : lmStepped N aom w0 min_lambda st.lambda Hdiag st.w = .ok stepped) :
    ∃ st', lmTrial N aom w0 min_lambda max_lambda error_total Hdiag st = .ok st' := by
  unfold lmTrial
  rw [hs]
  simp only
  split_ifs <;> exact ⟨_, rfl⟩

/-- A rejected trial leaves the parameters of every landmark as they were. -/
theorem lmTrial_rejected_positions (N : OptNumerics) (aom : AbsOrderMap) (w0 : Window)
    (min_lambda max_lambda : ℚ) (error_total : Flt) (Hdiag : List Flt) (st st' : LmLoop)
    (h : lmTrial N aom w0 min_lambda max_lambda error_total Hdiag st = .ok st')
    (hrej : st'.step = false) :
    st'.w.lmdb.positions = st.w.lmdb.positions ∧ st'.w.lmdb = st.w.lmdb.backup ∧
      st'.w.frame_states = st.w.frame_states ∧ st'.w.frame_poses = st.w.frame_poses := by
  obtain ⟨stepped, hs, hc, _⟩ := lmTrial_cases N aom w0 min_lambda max_lambda error_total Hdiag st st' h
  rcases hc with hc | hc
  · rw [hc.2.1] at hrej; cases hrej
  · have hl := lmStepped_lmdb N aom w0 min_lambda st.lambda Hdiag st.w stepped hs
    obtain ⟨_, _, _, _, h1, h2, h3⟩ := hc
    refine ⟨?_, ?_, h1, h2⟩
    · rw [h3, hl]; exact positions_restore_setPositions_backup _ _
    · rw [h3, hl]; exact restore_setPositions_backup _ _

/-- The loop ends with an accepted step only at a window for which the
comparison `f_diff < 0` of line 975 was false. -/
theorem lmWhile_accepted (N : OptNumerics) (aom : AbsOrderMap) (w0 : Window)
    (min_lambda max_lambda : ℚ) (error_total : Flt) (Hdiag : List Flt) :
    ∀ (fuel : Nat) (st r : LmLoop),
      lmWhile N aom w0 min_lambda max_lambda error_total Hdiag fuel st = .ok r →
      st.step = false → r.step = true →
      Flt.lt (N.sub error_total (N.after_error_total aom r.w)) (.num 0) = false := by
  intro fuel
  induction fuel with
  | zero =>
    intro st r h hst hr
    unfold lmWhile at h
    split_ifs at h
    simp only [Except.ok.injEq] at h
    subst h
    rw [hst] at hr; cases hr
  | succ n ih =>
    intro st r h hst hr
    unfold lmWhile at h
    split_ifs at h with hc
    · cases ht : lmTrial N aom w0 min_lambda max_lambda error_total Hdiag st with
      | error f => rw [ht] at h; cases h
      | ok st' =>
        rw [ht] at h
        simp only at h
        obtain ⟨stepped, _, hcase, _⟩ :=
          lmTrial_cases N aom w0 min_lambda max_lambda error_total Hdiag st st' ht
        rcases hcase with ha | hrj
        · have hstop : lmWhile N aom w0 min_lambda max_lambda error_total Hdiag n st' = .ok st' := by
            cases n <;> (unfold lmWhile; simp [ha.2.1])
          rw [hstop] at h
          simp only [Except.ok.injEq] at h
          subst h
          rw [ha.2.2.2.2]
          exact ha.1
        · exact ih st' r h (by rw [hrj.2.1, hst]) hr
    · simp only [Except.ok.injEq] at h
      subst h
      rw [hst] at hr; cases hr

/-! ## The gate of `optimize` and `marginalize` -/

theorem margCommit_opt_started (s s' : Estimator) (p : MargPlan) (h : margCommit s p = .ok s') :
    s'.opt_started = s.opt_started := by
  unfold margCommit at h
  split at h
  · simp at h
  · split at h
    · simp at h
    · simp only at h
      split at h
      · simp only [Except.ok.injEq] at h
        subst h
        rfl
      · simp at h

theorem optimizeRun_opt_started (N : OptNumerics) (config : VioConfig) (s s' : VioState)
    (h : optimizeRun N config s = .ok s') : s'.est.opt_started = true := by
  unfold optimizeRun at h
  split at h
  · simp at h
  · split at h
    · simp at h
    · simp only [Except.ok.injEq] at h
      subst h
      rfl

theorem marginalizeAll_opt_started (F : MathFns) (M : MargNumerics) (npc : List (Int × Int))
    (fuel : Nat) (s s' : VioState) (h : marginalizeAll F M npc fuel s = .ok s') :
    s'.est.opt_started = s.est.opt_started := by
  unfold marginalizeAll at h
  split_ifs at h with h1 h2
  · simp only [Except.ok.injEq] at h
    subst h; rfl
  · split at h
    · simp at h
    · split at h
      · simp at h
      · rename_i est' hc
        simp only [Except.ok.injEq] at h
        subst h
        exact margCommit_opt_started _ _ _ hc
  · simp only [Except.ok.injEq] at h
    subst h; rfl

/-! ## Runs of the examples -/

theorem optimize_exFiveFull :
    optimize (exNumerics 1) exConfig exFiveFull = .ok exFiveOptimized := by
  have ho : optimizeOrder exFiveFull.est.marg_order (mapKeys exFiveFull.est.frame_poses)
      (mapKeys exFiveFull.est.frame_states) = .ok
        { abs_order_map := [(1, (0, 15)), (2, (15, 15)), (3, (30, 15)), (4, (45, 15)), (5, (60, 15))]
          items := 5, total_size := 75 } := by decide
  unfold optimize
  rw [if_pos (Or.inr (by decide))]
  unfold optimizeRun
  rw [ho]
  simp [optIterations, optIteration, levenbergMarquardt, lmWhile, lmTrial, lmStepped,
    applyIncrement, applyPoses, applyStates, exNumerics, exNumericsAt, exMul, exSub, exValue,
    Flt.lt, Flt.stdMax, exFiveFull, exStarted, exConfig, mapAt,
    mapFind, initState, construct, mapSet, LandmarkDatabase.setPositions,
    LandmarkDatabase.backup, KeypointPosition.backup, dampingVector, stdMax, stdMin, maxAbsCoeff,
    exWindow, exFiveOptimized]
  norm_num

/-- The window of `exWindow` after one update of its landmark. -/
theorem lmStepped_exWindow (after : ℚ) :
    lmStepped (exNumerics after) exAom exWindow 1 1 [.num 4] exWindow = .ok exStepped := by
  simp [lmStepped, applyIncrement, applyPoses, applyStates, exNumerics, exNumericsAt, exMul, exSub, exValue,
    Flt.lt, Flt.stdMax, exNumericsAt, exAom, exWindow, mapAt,
    mapFind, LandmarkDatabase.setPositions, LandmarkDatabase.backup, KeypointPosition.backup,
    exStepped]

/-- A trial at equal cost (2 before, 2 after) is accepted. -/
theorem lmTrial_exLoop_equal :
    lmTrial (exNumerics 2) exAom exWindow 1 100 (.num 2) [.num 4] exLoop = .ok
      { w := exStepped, lambda := 1, lambda_vee := 2, step := true, max_iter := 9,
        converged := false } := by
  simp [lmTrial, lmStepped, applyIncrement, applyPoses, applyStates, exNumerics, exNumericsAt, exMul, exSub, exValue,
    Flt.lt, Flt.stdMax, exAom, exWindow,
    mapAt, mapFind, LandmarkDatabase.setPositions, LandmarkDatabase.backup,
    KeypointPosition.backup, exLoop, dampingVector, stdMax, stdMin, maxAbsCoeff, exStepped]
  norm_num

/-- A trial at a higher cost (2 before, 3 after) is rejected: the landmark is
back at its values, `lambda` is doubled. -/
theorem lmTrial_exLoop_higher :
    lmTrial (exNumerics 3) exAom exWindow 1 100 (.num 2) [.num 4] exLoop = .ok
      { w := exReverted, lambda := 2, lambda_vee := 4, step := false, max_iter := 9,
        converged := false } := by
  simp [lmTrial, lmStepped, applyIncrement, applyPoses, applyStates, exNumerics, exNumericsAt, exMul, exSub, exValue,
    Flt.lt, Flt.stdMax, exAom, exWindow,
    mapAt, mapFind, LandmarkDatabase.setPositions, LandmarkDatabase.backup,
    LandmarkDatabase.restore, KeypointPosition.restore,
    KeypointPosition.backup, exLoop, dampingVector, stdMax, stdMin, maxAbsCoeff, exReverted]
  norm_num

/-- The trial loop at a lower cost (2 before, 1 after) ends after one pass
with the step accepted. -/
theorem lmWhile_exLoop_lower :
    lmWhile (exNumerics 1) exAom exWindow 1 100 (.num 2) [.num 4] 10 exLoop = .ok
      { w := exStepped, lambda := 1, lambda_vee := 2, step := true, max_iter := 9,
        converged := false } := by
  simp [lmWhile, lmTrial, lmStepped, applyIncrement, applyPoses, applyStates, exNumerics, exNumericsAt, exMul, exSub, exValue,
    Flt.lt, Flt.stdMax, exAom,
    exWindow, mapAt, mapFind, LandmarkDatabase.setPositions, LandmarkDatabase.backup,
    KeypointPosition.backup, exLoop, dampingVector, stdMax, stdMin, maxAbsCoeff, exStepped]
  norm_num

/-- The trial loop at a cost after the update that is not a number ends
after one pass with the step accepted. -/
theorem lmWhile_exLoop_nan :
    lmWhile (exNumericsAt [.num 4] .nan) exAom exWindow 1 100 (.num 2) [.num 4] 10 exLoop = .ok
      { w := exStepped, lambda := 1, lambda_vee := 2, step := true, max_iter := 9,
        converged := false } := by
  simp [lmWhile, lmTrial, lmStepped, applyIncrement, applyPoses, applyStates, exNumericsAt,
    exMul, exSub, exValue, Flt.lt, Flt.stdMax, exAom,
    exWindow, mapAt, mapFind, LandmarkDatabase.setPositions, LandmarkDatabase.backup,
    KeypointPosition.backup, exLoop, dampingVector, stdMax, stdMin, maxAbsCoeff, exStepped]
  norm_num

/-- The difference of the examples has the sign property of IEEE 754. -/
theorem exSub_signExact : SubSignExact exSub := by
  intro a b
  cases a <;> cases b <;> simp [exSub, Flt.lt]

/-! ## The initial prior -/

theorem initMargH_eq (config : VioConfig) :
    initMargH config =
      [[config.vio_init_pose_weight, 0, 0, 0, 0, 0, 0, 0, 0, 0, 0, 0, 0, 0, 0],
       [0, config.vio_init_pose_weight, 0, 0, 0, 0, 0, 0, 0, 0, 0, 0, 0, 0, 0],
       [0, 0, config.vio_init_pose_weight, 0, 0, 0, 0, 0, 0, 0, 0, 0, 0, 0, 0],
       [0, 0, 0, 0, 0, 0, 0, 0, 0, 0, 0, 0, 0, 0, 0],
       [0, 0, 0, 0, 0, 0, 0, 0, 0, 0, 0, 0, 0, 0, 0],
       [0, 0, 0, 0, 0, config.vio_init_pose_weight, 0, 0, 0, 0, 0, 0, 0, 0, 0],
       [0, 0, 0, 0, 0, 0, 0, 0, 0, 0, 0, 0, 0, 0, 0],
       [0, 0, 0, 0, 0, 0, 0, 0, 0, 0, 0, 0, 0, 0, 0],
       [0, 0, 0, 0, 0, 0, 0, 0, 0, 0, 0, 0, 0, 0, 0],
       [0, 0, 0, 0, 0, 0, 0, 0, 0, config.vio_init_ba_weight, 0, 0, 0, 0, 0],
       [0, 0, 0, 0, 0, 0, 0, 0, 0, 0, config.vio_init_ba_weight, 0, 0, 0, 0],
       [0, 0, 0, 0, 0, 0, 0, 0, 0, 0, 0, config.vio_init_ba_weight, 0, 0, 0],
       [0, 0, 0, 0, 0, 0, 0, 0, 0, 0, 0, 0, config.vio_init_bg_weight, 0, 0],
       [0, 0, 0, 0, 0, 0, 0, 0, 0, 0, 0, 0, 0, config.vio_init_bg_weight, 0],
       [0, 0, 0, 0, 0, 0, 0, 0, 0, 0, 0, 0, 0, 0, config.vio_init_bg_weight]] := rfl

theorem initMargH_coeff (config : VioConfig) (i j : Fin 15) :
    coeff (initMargH config) i j =
      if i = j then
        (if i.val < 3 ∨ i.val = 5 then config.vio_init_pose_weight
         else if 9 ≤ i.val ∧ i.val < 12 then config.vio_init_ba_weight
         else if 12 ≤ i.val then config.vio_init_bg_weight
         else 0)
      else 0 := by
  rw [initMargH_eq]
  fin_cases i <;> fin_cases j <;> rfl

/-! ## The triangulation loop of `measure` -/

theorem landmarkTest_iff (p : Dbl4) :
    landmarkTest p = true ↔
      ∃ a b c w : ℚ, p = (some a, some b, some c, some w) ∧ 0 < w ∧ w < 3 ∧ fourth p = w := by
  obtain ⟨x, y, z, w⟩ := p
  cases x <;> cases y <;> cases z <;> cases w <;> simp [landmarkTest, fourth]
  constructor
  · rintro ⟨h1, h2⟩
    exact ⟨_, _, _, _, ⟨rfl, rfl, rfl, rfl⟩, h1, h2, rfl⟩
  · rintro ⟨a, b, c, w, ⟨_, _, _, rfl⟩, h1, h2, _⟩
    exact ⟨h1, h2⟩

theorem triangulateLoop_ok (T : TriNumerics) (config : VioConfig)
    (fs : List (Int × PoseVelBiasStateWithLin)) (fp : List (Int × PoseStateWithLin))
    (ofm : OpticalFlowResult) (prev : List (Int × OpticalFlowResult))
    (tcidl : TimeCamId) (lm_id : Int) :
    ∀ (views : List (TimeCamId × KeypointObservation)) (r : TriResult),
      triangulateLoop T config fs fp ofm prev tcidl lm_id views = .ok r →
      (∀ c ∈ r.calls,
        c.view ∈ views.map Prod.fst ∧
        Flt.lt (T.squaredNorm c.translation)
          (T.mul config.vio_min_triangulation_dist config.vio_min_triangulation_dist) = false ∧
        ∃ pose_l pose_o f0 f1,
          getPoseStateWithLin fs fp tcidl.frame_id = .ok pose_l ∧
          getPoseStateWithLin fs fp c.view.frame_id = .ok pose_o ∧
          c.translation = (T.T_0_1 pose_l pose_o c.view.cam_id).t ∧
          c.result = T.triangulate f0 f1 (T.T_0_1 pose_l pose_o c.view.cam_id)) ∧
      (r.created = none → ∀ c ∈ r.calls, landmarkTest c.result = false) ∧
      (∀ kp, r.created = some kp →
        ∃ pre c, r.calls = pre ++ [c] ∧ (∀ c' ∈ pre, landmarkTest c'.result = false) ∧
          landmarkTest c.result = true ∧
          kp = { kf_id := tcidl, dir := T.project c.result, id := fourth c.result }) := by
  intro views
  induction views with
  | nil =>
    intro r h
    simp only [triangulateLoop, Except.ok.injEq] at h
    subst h
    simp
  | cons kv rest ih =>
    intro r h
    rw [triangulateLoop] at h
    simp only at h
    have hmem : ∀ v : TimeCamId, v ∈ rest.map Prod.fst → v ∈ (kv :: rest).map Prod.fst := by
      intro v hv
      rw [List.map_cons]
      exact List.mem_cons_of_mem _ hv
    have hcont : ∀ r', triangulateLoop T config fs fp ofm prev tcidl lm_id rest = .ok r' →
        (∀ c ∈ r'.calls,
          c.view ∈ (kv :: rest).map Prod.fst ∧
          Flt.lt (T.squaredNorm c.translation)
            (T.mul config.vio_min_triangulation_dist config.vio_min_triangulation_dist) = false ∧
          ∃ pose_l pose_o f0 f1,
            getPoseStateWithLin fs fp tcidl.frame_id = .ok pose_l ∧
            getPoseStateWithLin fs fp c.view.frame_id = .ok pose_o ∧
            c.translation = (T.T_0_1 pose_l pose_o c.view.cam_id).t ∧
            c.result = T.triangulate f0 f1 (T.T_0_1 pose_l pose_o c.view.cam_id)) ∧
        (r'.created = none → ∀ c ∈ r'.calls, landmarkTest c.result = false) ∧
        (∀ kp, r'.created = some kp →
          ∃ pre c, r'.calls = pre ++ [c] ∧ (∀ c' ∈ pre, landmarkTest c'.result = false) ∧
            landmarkTest c.result = true ∧
            kp = { kf_id := tcidl, dir := T.project c.result, id := fourth c.result }) := by
      intro r' hr'
      obtain ⟨h1, h2, h3⟩ := ih r' hr'
      exact ⟨fun c hc => ⟨hmem _ (h1 c hc).1, (h1 c hc).2⟩, h2, h3⟩
    split at h
    · cases h
    · split at h
      · cases h
      · rename_i p0 _
        split at h
        · cases h
        · split at h
          · cases h
          · split at h
            · cases h
            · rename_i p1 _
              split at h
              · exact hcont r h
              · split at h
                · cases h
                · rename_i pose_l hl
                  split at h
                  · cases h
                  · rename_i pose_o ho
                    split at h
                    · exact hcont r h
                    · rename_i hbase
                      split at h
                      · rename_i htest
                        simp only [Except.ok.injEq] at h
                        subst h
                        refine ⟨?_, ?_, ?_⟩
                        · intro c hc
                          simp only [List.mem_singleton] at hc
                          subst hc
                          exact ⟨by simp, by simpa using hbase, pose_l, pose_o, _, _, hl, ho, rfl, rfl⟩
                        · intro hn; simp at hn
                        · intro kp hkp
                          simp only [Option.some.injEq] at hkp
                          subst hkp
                          exact ⟨[], _, rfl, by simp, htest, rfl⟩
                      · rename_i htest
                        split at h
                        · cases h
                        · rename_i r' hr'
                          simp only [Except.ok.injEq] at h
                          subst h
                          obtain ⟨h1, h2, h3⟩ := hcont r' hr'
                          refine ⟨?_, ?_, ?_⟩
                          · intro c hc
                            simp only [List.mem_cons] at hc
                            rcases hc with rfl | hc
                            · exact ⟨by simp, by simpa using hbase, pose_l, pose_o, _, _, hl, ho, rfl, rfl⟩
                            · exact h1 c hc
                          · intro hn c hc
                            simp only [List.mem_cons] at hc
                            rcases hc with rfl | hc
                            · simpa using htest
                            · exact h2 hn c hc
                          · intro kp hkp
                            obtain ⟨pre, c, hcalls, hpre, hc, hk⟩ := h3 kp hkp
                            refine ⟨({ view := kv.1
                                       translation := (T.T_0_1 pose_l pose_o kv.1.cam_id).t
                                       result := T.triangulate (T.unproject 0 p0).2
                                         (T.unproject kv.1.cam_id p1).2
                                         (T.T_0_1 pose_l pose_o kv.1.cam_id) } : TriCall) :: pre,
                              c, ?_, ?_, hc, hk⟩
                            · show _ :: r'.calls = _ :: pre ++ [c]
                              rw [hcalls]
                              rfl
                            intro c' hc'
                            simp only [List.mem_cons] at hc'
                            rcases hc' with rfl | hc'
                            · simpa using htest
                            · exact hpre c' hc'

theorem findObservations_mem (prev : List (Int × OpticalFlowResult)) (lm_id t : Int)
    (res : OpticalFlowResult) (cam : Nat) (obs : List (Int × Vec2)) (pos : Vec2)
    (hres : mapFind t prev = some res) (hobs : res.observations[cam]? = some obs)
    (hp : mapFind lm_id obs = some pos) :
    (({ frame_id := t, cam_id := cam } : TimeCamId), ({ kpt_id := lm_id, pos := pos } : KeypointObservation))
      ∈ findObservations prev lm_id := by
  unfold findObservations
  rw [List.mem_flatMap]
  refine ⟨(t, res), mapFind_mem t res prev hres, ?_⟩
  rw [List.mem_filterMap]
  refine ⟨(cam, obs), ?_, ?_⟩
  · exact List.mk_mem_enum_iff_getElem?.mpr hobs
  · simp [hp]

theorem exProduct_twentieth : exProduct 20⁻¹ 20⁻¹ = .num (20⁻¹ * 20⁻¹) := by
  unfold exProduct
  rw [if_neg]
  norm_num

theorem exProduct_zero : exProduct 0 0 = .num 0 := by
  unfold exProduct
  rw [if_pos]
  norm_num

theorem newLandmark_exPrev :
    newLandmark (exTri (none, none, none, none)) exConfig exTriStates [] exFlow5 exPrev 7 = .ok
      exTriResult := by
  simp [exTriResult, newLandmark, findObservations, exPrev, exFlow4, exFlow5, mapFind, List.enum, List.enumFrom,
    triangulateLoop, exTri, exProduct_twentieth, exProduct_zero, Flt.lt, exConfig, exTriStates, getPoseStateWithLin,
    PoseStateWithLin.ofState, freshState, V3.dot, landmarkTest, fourth]
  norm_num

theorem newLandmark_zero_dist :
    newLandmark (exTri (some 0, some 0, some 1, some (1 / 2))) exConfigZeroDist [(5, freshState)] []
      exFlow5 [(5, exFlow5)] 7 = .ok
      { calls := [{ view := { frame_id := 5, cam_id := 0 }, translation := ⟨0, 0, 0⟩
                    result := (some 0, some 0, some 1, some (1 / 2)) }]
        created := some { kf_id := { frame_id := 5, cam_id := 0 }, dir := (0, 0), id := 1 / 2 } } := by
  simp [newLandmark, findObservations, exFlow5, mapFind, List.enum, List.enumFrom,
    triangulateLoop, exTri, exProduct_twentieth, exProduct_zero, Flt.lt, exConfig, exConfigZeroDist, getPoseStateWithLin,
    PoseStateWithLin.ofState, freshState, V3.dot, landmarkTest, fourth]
  norm_num

theorem exProduct_tiny : exProduct (1 / 2 ^ 600) (1 / 2 ^ 600) = .num 0 := by
  unfold exProduct
  rw [if_pos]
  norm_num

theorem newLandmark_tiny_dist :
    newLandmark (exTri (some 0, some 0, some 1, some (1 / 2))) exConfigTinyDist [(5, freshState)] []
      exFlow5 [(5, exFlow5)] 7 = .ok
      { calls := [{ view := { frame_id := 5, cam_id := 0 }, translation := ⟨0, 0, 0⟩
                    result := (some 0, some 0, some 1, some (1 / 2)) }]
        created := some { kf_id := { frame_id := 5, cam_id := 0 }, dir := (0, 0), id := 1 / 2 } } := by
  have hd : exConfigTinyDist.vio_min_triangulation_dist = 1 / 2 ^ 600 := rfl
  have hm : (exTri (some 0, some 0, some 1, some (1 / 2))).mul (1 / 2 ^ 600) (1 / 2 ^ 600)
      = .num 0 := exProduct_tiny
  simp only [newLandmark, findObservations, exFlow5, mapFind, List.enum, List.enumFrom,
    triangulateLoop, hd, hm]
  simp [exTri, Flt.lt, getPoseStateWithLin, mapFind,
    PoseStateWithLin.ofState, freshState, V3.dot, landmarkTest, fourth]
  norm_num

/-- Each call of `triangulate` was made for a view whose squared baseline, as
computed, does not compare below the computed square of the minimal
distance; a zero baseline is only possible when that square is not
positive. -/
theorem newLandmark_calls (T : TriNumerics) (config : VioConfig)
    (fs : List (Int × PoseVelBiasStateWithLin)) (fp : List (Int × PoseStateWithLin))
    (ofm : OpticalFlowResult) (prev : List (Int × OpticalFlowResult)) (lm_id : Int)
    (r : TriResult) (h : newLandmark T config fs fp ofm prev lm_id = .ok r) :
    ∀ c ∈ r.calls,
      Flt.lt (T.squaredNorm c.translation)
        (T.mul config.vio_min_triangulation_dist config.vio_min_triangulation_dist) = false ∧
      (T.squaredNorm c.translation = .num (V3.dot c.translation c.translation) →
        T.mul config.vio_min_triangulation_dist config.vio_min_triangulation_dist
          = .num (config.vio_min_triangulation_dist * config.vio_min_triangulation_dist) →
        ∀ n : ℚ, 0 ≤ n → n * n = V3.dot c.translation c.translation →
          ¬ n < config.vio_min_triangulation_dist) ∧
      (T.squaredNorm ⟨0, 0, 0⟩ = .num 0 →
        Flt.lt (.num 0)
          (T.mul config.vio_min_triangulation_dist config.vio_min_triangulation_dist) = true →
        c.translation ≠ ⟨0, 0, 0⟩) ∧
      (T.squaredNorm ⟨0, 0, 0⟩ = .num 0 →
        Flt.lt (.num 0)
          (T.mul config.vio_min_triangulation_dist config.vio_min_triangulation_dist) = true →
        (∀ p, (T.T_0_1 p p 0).t = ⟨0, 0, 0⟩) →
        c.view ≠ { frame_id := ofm.t_ns, cam_id := 0 }) ∧
      c.view ∈ (findObservations prev lm_id).map Prod.fst := by
  intro c hc
  unfold newLandmark at h
  obtain ⟨hview, hbase, pose_l, pose_o, f0, f1, hl, ho, ht, _⟩ :=
    (triangulateLoop_ok T config fs fp ofm prev _ lm_id _ r h).1 c hc
  have hzero : T.squaredNorm ⟨0, 0, 0⟩ = .num 0 →
      Flt.lt (.num 0)
        (T.mul config.vio_min_triangulation_dist config.vio_min_triangulation_dist) = true →
      c.translation ≠ ⟨0, 0, 0⟩ := by
    intro hz hd h0
    rw [h0, hz, hd] at hbase
    cases hbase
  refine ⟨hbase, ?_, hzero, ?_, hview⟩
  · intro hs hm n hn hsq hlt
    rw [hs, hm] at hbase
    have h1 : n * n < config.vio_min_triangulation_dist * config.vio_min_triangulation_dist :=
      mul_self_lt_mul_self hn hlt
    rw [hsq] at h1
    simp [Flt.lt] at hbase
    linarith
  · intro hz hd hself hv
    apply hzero hz hd
    rw [hv] at ho
    simp only at hl ho
    rw [hl] at ho
    simp only [Except.ok.injEq] at ho
    rw [ht, hv, ← ho]
    exact hself pose_l

/-- A landmark is created by the last call of the loop, and by no other. -/
theorem newLandmark_created (T : TriNumerics) (config : VioConfig)
    (fs : List (Int × PoseVelBiasStateWithLin)) (fp : List (Int × PoseStateWithLin))
    (ofm : OpticalFlowResult) (prev : List (Int × OpticalFlowResult)) (lm_id : Int)
    (r : TriResult) (h : newLandmark T config fs fp ofm prev lm_id = .ok r) :
    (r.created = none → ∀ c ∈ r.calls, landmarkTest c.result = false) ∧
    (∀ kp, r.created = some kp →
      ∃ pre c, r.calls = pre ++ [c] ∧ (∀ c' ∈ pre, landmarkTest c'.result = false) ∧
        landmarkTest c.result = true ∧
        kp = { kf_id := { frame_id := ofm.t_ns, cam_id := 0 }, dir := T.project c.result,
               id := fourth c.result }) := by
  unfold newLandmark at h
  exact (triangulateLoop_ok T config fs fp ofm prev _ lm_id _ r h).2

/-! ## Triangulation -/

section TriangulateLemmas

variable {K : Type} [LinearOrderedField K]

theorem inverse_matrix3x4_mulVec (T : SE3 K) (p : V3 K) :
    T.inverse.matrix3x4.mulVec (homogeneous p) = T.inverse.act p := by
  simp only [M34.mulVec, SE3.matrix3x4, SE3.inverse, SE3.act, homogeneous, V4.dot, V3.dot,
    M33.transpose, V3.smul, M33.mulVec, V3.mk.injEq]
  refine ⟨?_, ?_, ?_⟩ <;> ring

/-- The homogeneous point lies in the null space of `A`. -/
theorem triangulateA_null (p : V3 K) (a b : K) (P2 : M34 K) :
    (triangulateA (V3.smul a p) (V3.smul b (P2.mulVec (homogeneous p))) P2).mulVec (homogeneous p)
      = ⟨0, 0, 0, 0⟩ := by
  simp only [triangulateA, M44.mulVec, M34.mulVec, homogeneous, V4.dot, V3.smul, V4.smul, V4.sub,
    P1, V4.mk.injEq]
  refine ⟨?_, ?_, ?_, ?_⟩ <;> ring

theorem V4.dot_self_nonneg (u : V4 K) : 0 ≤ V4.dot u u := by
  unfold V4.dot
  nlinarith [mul_self_nonneg u.x, mul_self_nonneg u.y, mul_self_nonneg u.z, mul_self_nonneg u.w]

theorem V4.eq_zero_of_dot_self (u : V4 K) (h : V4.dot u u ≤ 0) : u = ⟨0, 0, 0, 0⟩ := by
  unfold V4.dot at h
  have hx := mul_self_nonneg u.x
  have hy := mul_self_nonneg u.y
  have hz := mul_self_nonneg u.z
  have hw := mul_self_nonneg u.w
  have h1 : u.x * u.x = 0 := by linarith
  have h2 : u.y * u.y = 0 := by linarith
  have h3 : u.z * u.z = 0 := by linarith
  have h4 : u.w * u.w = 0 := by linarith
  obtain ⟨x, y, z, w⟩ := u
  simp only [V4.mk.injEq]
  exact ⟨mul_self_eq_zero.mp h1, mul_self_eq_zero.mp h2, mul_self_eq_zero.mp h3,
    mul_self_eq_zero.mp h4⟩

/-- With a non-zero null vector of `A`, the last right singular vector is a
null vector too. -/
theorem svd_null (A : M44 K) (v X : V4 K) (hv : IsLastSingularVector A v)
    (hX : A.mulVec X = ⟨0, 0, 0, 0⟩) (hpos : 0 < V4.dot X X) : A.mulVec v = ⟨0, 0, 0, 0⟩ := by
  apply V4.eq_zero_of_dot_self
  have h := hv.2 X
  rw [hX] at h
  have h0 : V4.dot (⟨0, 0, 0, 0⟩ : V4 K) ⟨0, 0, 0, 0⟩ = 0 := by simp [V4.dot]
  rw [h0] at h
  by_contra hc
  push_neg at hc
  have := mul_pos hc hpos
  linarith

/-- With both third bearing components non-zero and the point off the
baseline, the null space of `A` is the line through the homogeneous point. -/
theorem null_space_line (p : V3 K) (a b : K) (P2 : M34 K) (u : V4 K)
    (ha : a ≠ 0) (hb : b ≠ 0) (hpz : p.z ≠ 0) (hqz : (P2.mulVec (homogeneous p)).z ≠ 0)
    (hind : ∀ α β : K,
      α * (P2.r0.x * p.x + P2.r0.y * p.y + P2.r0.z * p.z) - β * P2.r0.w = 0 →
      α * (P2.r1.x * p.x + P2.r1.y * p.y + P2.r1.z * p.z) - β * P2.r1.w = 0 →
      α * (P2.r2.x * p.x + P2.r2.y * p.y + P2.r2.z * p.z) - β * P2.r2.w = 0 → α = 0 ∧ β = 0)
    (hu : (triangulateA (V3.smul a p) (V3.smul b (P2.mulVec (homogeneous p))) P2).mulVec u
      = ⟨0, 0, 0, 0⟩) :
    u = V4.smul u.w (homogeneous p) := by
  obtain ⟨px, py, pz⟩ := p
  obtain ⟨⟨m00, m01, m02, t0⟩, ⟨m10, m11, m12, t1⟩, ⟨m20, m21, m22, t2⟩⟩ := P2
  obtain ⟨ux, uy, uz, uw⟩ := u
  simp only [triangulateA, M44.mulVec, M34.mulVec, homogeneous, V4.dot, V3.smul, V4.smul, V4.sub,
    P1, V4.mk.injEq] at hu hqz hind ⊢
  obtain ⟨e0, e1, e2, e3⟩ := hu
  have f0 : px * uz - pz * ux = 0 := by
    have : a * (px * uz - pz * ux) = 0 := by linear_combination e0
    exact (mul_eq_zero.mp this).resolve_left ha
  have f1 : py * uz - pz * uy = 0 := by
    have : a * (py * uz - pz * uy) = 0 := by linear_combination e1
    exact (mul_eq_zero.mp this).resolve_left ha
  have hsx : ux = uz / pz * px := by field_simp; linear_combination -f0
  have hsy : uy = uz / pz * py := by field_simp; linear_combination -f1
  have hsz : uz = uz / pz * pz := by field_simp
  generalize hs : uz / pz = s at hsx hsy hsz
  subst hsx hsy
  have g2 : (uw - s) * ((m00 * px + m01 * py + m02 * pz + t0 * 1) * t2
      - (m20 * px + m21 * py + m22 * pz + t2 * 1) * t0) = 0 := by
    have : b * ((uw - s) * ((m00 * px + m01 * py + m02 * pz + t0 * 1) * t2
      - (m20 * px + m21 * py + m22 * pz + t2 * 1) * t0)) = 0 := by
      rw [hsz] at e2
      linear_combination e2
    exact (mul_eq_zero.mp this).resolve_left hb
  have g3 : (uw - s) * ((m10 * px + m11 * py + m12 * pz + t1 * 1) * t2
      - (m20 * px + m21 * py + m22 * pz + t2 * 1) * t1) = 0 := by
    have : b * ((uw - s) * ((m10 * px + m11 * py + m12 * pz + t1 * 1) * t2
      - (m20 * px + m21 * py + m22 * pz + t2 * 1) * t1)) = 0 := by
      rw [hsz] at e3
      linear_combination e3
    exact (mul_eq_zero.mp this).resolve_left hb
  by_cases hd : uw - s = 0
  · have hw : uw = s := by linear_combination hd
    subst hw
    refine ⟨rfl, rfl, ?_, by ring⟩
    exact hsz
  · exfalso
    have c2 := (mul_eq_zero.mp g2).resolve_left hd
    have c3 := (mul_eq_zero.mp g3).resolve_left hd
    have hQ : m20 * px + m21 * py + m22 * pz + t2 ≠ 0 := by simpa using hqz
    have key : t2 / (m20 * px + m21 * py + m22 * pz + t2) * (m20 * px + m21 * py + m22 * pz + t2)
        = t2 := div_mul_cancel₀ _ hQ
    generalize t2 / (m20 * px + m21 * py + m22 * pz + t2) = l at key
    have hl := hind l (1 - l)
      (by
        have : (m20 * px + m21 * py + m22 * pz + t2)
            * (l * (m00 * px + m01 * py + m02 * pz) - (1 - l) * t0) = 0 := by
          linear_combination c2 + (m00 * px + m01 * py + m02 * pz + t0) * key
        exact (mul_eq_zero.mp this).resolve_left hQ)
      (by
        have : (m20 * px + m21 * py + m22 * pz + t2)
            * (l * (m10 * px + m11 * py + m12 * pz) - (1 - l) * t1) = 0 := by
          linear_combination c3 + (m10 * px + m11 * py + m12 * pz + t1) * key
        exact (mul_eq_zero.mp this).resolve_left hQ)
      (by linear_combination key)
    obtain ⟨h1, h2⟩ := hl
    rw [h1] at h2
    simp at h2

/-- A point off the baseline stays off it in the coordinates of the second
camera. -/
theorem independent_second_camera (T : SE3 K) (p : V3 K) (hR : RowsOrthonormal T.R)
    (hind : Independent p T.t) (α β : K)
    (h0 : α * (T.inverse.matrix3x4.r0.x * p.x + T.inverse.matrix3x4.r0.y * p.y
        + T.inverse.matrix3x4.r0.z * p.z) - β * T.inverse.matrix3x4.r0.w = 0)
    (h1 : α * (T.inverse.matrix3x4.r1.x * p.x + T.inverse.matrix3x4.r1.y * p.y
        + T.inverse.matrix3x4.r1.z * p.z) - β * T.inverse.matrix3x4.r1.w = 0)
    (h2 : α * (T.inverse.matrix3x4.r2.x * p.x + T.inverse.matrix3x4.r2.y * p.y
        + T.inverse.matrix3x4.r2.z * p.z) - β * T.inverse.matrix3x4.r2.w = 0) :
    α = 0 ∧ β = 0 := by
  obtain ⟨⟨⟨r00, r01, r02⟩, ⟨r10, r11, r12⟩, ⟨r20, r21, r22⟩⟩, ⟨tx, ty, tz⟩⟩ := T
  obtain ⟨px, py, pz⟩ := p
  obtain ⟨o00, o11, o22, o01, o02, o12⟩ := hR
  simp only [SE3.matrix3x4, SE3.inverse, M33.transpose, V3.smul, M33.mulVec, V3.dot] at h0 h1 h2
  simp only [V3.dot] at o00 o11 o22 o01 o02 o12
  have hx : α * px + β * tx = 0 := by
    linear_combination r00 * h0 + r01 * h1 + r02 * h2 - (α * px + β * tx) * o00
      - (α * py + β * ty) * o01 - (α * pz + β * tz) * o02
  have hy : α * py + β * ty = 0 := by
    linear_combination r10 * h0 + r11 * h1 + r12 * h2 - (α * px + β * tx) * o01
      - (α * py + β * ty) * o11 - (α * pz + β * tz) * o12
  have hz : α * pz + β * tz = 0 := by
    linear_combination r20 * h0 + r21 * h1 + r22 * h2 - (α * px + β * tx) * o02
      - (α * py + β * ty) * o12 - (α * pz + β * tz) * o22
  have := hind α (-β) (by
    simp only [V3.sub, V3.smul, V3.mk.injEq]
    exact ⟨by linear_combination hx, by linear_combination hy, by linear_combination hz⟩)
  exact ⟨this.1, by simpa using this.2⟩

/-- A matrix with orthonormal rows: `Rᵀ d = 0` only for `d = 0`. -/
theorem transpose_mulVec_eq_zero (R : M33 K) (hR : RowsOrthonormal R) (d : V3 K)
    (h : R.transpose.mulVec d = ⟨0, 0, 0⟩) : d = ⟨0, 0, 0⟩ := by
  obtain ⟨⟨r00, r01, r02⟩, ⟨r10, r11, r12⟩, ⟨r20, r21, r22⟩⟩ := R
  obtain ⟨dx, dy, dz⟩ := d
  obtain ⟨o00, o11, o22, o01, o02, o12⟩ := hR
  simp only [M33.transpose, M33.mulVec, V3.dot, V3.mk.injEq] at h o00 o11 o22 o01 o02 o12 ⊢
  obtain ⟨h0, h1, h2⟩ := h
  refine ⟨?_, ?_, ?_⟩
  · linear_combination r00 * h0 + r01 * h1 + r02 * h2 - dx * o00 - dy * o01 - dz * o02
  · linear_combination r10 * h0 + r11 * h1 + r12 * h2 - dx * o01 - dy * o11 - dz * o12
  · linear_combination r20 * h0 + r21 * h1 + r22 * h2 - dx * o02 - dy * o12 - dz * o22

/-- The rows of `A` applied to a vector. -/
theorem triangulateA_mulVec (f0 f1 : V3 K) (P2 : M34 K) (u : V4 K) :
    (triangulateA f0 f1 P2).mulVec u =
      ⟨f0.x * u.z - f0.z * u.x, f0.y * u.z - f0.z * u.y,
        f1.x * (P2.mulVec u).z - f1.z * (P2.mulVec u).x,
        f1.y * (P2.mulVec u).z - f1.z * (P2.mulVec u).y⟩ := by
  simp only [triangulateA, M44.mulVec, M34.mulVec, V4.dot, V4.smul, V4.sub, P1, V4.mk.injEq]
  refine ⟨?_, ?_, ?_, ?_⟩ <;> ring

/-- The second camera sees `h - w t - s (p - t)` as `P2 [h; w] - s q`. -/
theorem transpose_mulVec_combination (T : SE3 K) (p : V3 K) (u : V4 K) (s : K) :
    T.R.transpose.mulVec
        ⟨u.x - u.w * T.t.x - s * (p.x - T.t.x), u.y - u.w * T.t.y - s * (p.y - T.t.y),
          u.z - u.w * T.t.z - s * (p.z - T.t.z)⟩ =
      ⟨(T.inverse.matrix3x4.mulVec u).x - s * (T.inverse.act p).x,
        (T.inverse.matrix3x4.mulVec u).y - s * (T.inverse.act p).y,
        (T.inverse.matrix3x4.mulVec u).z - s * (T.inverse.act p).z⟩ := by
  simp only [M34.mulVec, SE3.matrix3x4, SE3.inverse, SE3.act, V4.dot, V3.dot,
    M33.transpose, V3.smul, M33.mulVec, V3.mk.injEq]
  refine ⟨?_, ?_, ?_⟩ <;> ring

theorem independent_left_ne_zero (p t : V3 K) (h : Independent p t) : p ≠ ⟨0, 0, 0⟩ := by
  rintro rfl
  have := (h 1 0 (by simp [V3.sub, V3.smul])).1
  exact one_ne_zero this

theorem independent_sub_ne_zero (p t : V3 K) (h : Independent p t) :
    (⟨p.x - t.x, p.y - t.y, p.z - t.z⟩ : V3 K) ≠ ⟨0, 0, 0⟩ := by
  intro h0
  simp only [V3.mk.injEq] at h0
  have := (h 1 1 (by simp [V3.sub, V3.smul, h0.1, h0.2.1, h0.2.2])).1
  exact one_ne_zero this

/-- Off the baseline the bearing in the second camera is not zero. -/
theorem second_bearing_ne_zero (T : SE3 K) (p : V3 K) (hR : RowsOrthonormal T.R)
    (hoff : Independent p T.t) : T.inverse.act p ≠ ⟨0, 0, 0⟩ := by
  intro hq
  apply independent_sub_ne_zero p T.t hoff
  apply transpose_mulVec_eq_zero T.R hR
  have e : T.R.transpose.mulVec ⟨p.x - T.t.x, p.y - T.t.y, p.z - T.t.z⟩ = T.inverse.act p := by
    simp only [SE3.inverse, SE3.act, V3.dot, M33.transpose, V3.smul, M33.mulVec, V3.mk.injEq]
    refine ⟨?_, ?_, ?_⟩ <;> ring
  rw [e, hq]

/-- The first bearing has a zero third component, the second has not, and
the second camera stands off the plane `z = 0` of the first: the null space
of `A` is the line through the homogeneous point. -/
theorem null_space_line_first_flat (p : V3 K) (T : SE3 K) (a b : K) (u : V4 K)
    (hR : RowsOrthonormal T.R) (hoff : Independent p T.t) (ha : a ≠ 0) (hb : b ≠ 0)
    (hpz : p.z = 0) (hqz : (T.inverse.act p).z ≠ 0) (htz : T.t.z ≠ 0)
    (hu : (triangulateA (V3.smul a p) (V3.smul b (T.inverse.act p)) T.inverse.matrix3x4).mulVec u
      = ⟨0, 0, 0, 0⟩) :
    u = V4.smul u.w (homogeneous p) := by
  rw [triangulateA_mulVec] at hu
  simp only [V3.smul, V4.mk.injEq] at hu
  obtain ⟨e0, e1, e2, e3⟩ := hu
  have hp := independent_left_ne_zero p T.t hoff
  have huz : u.z = 0 := by
    by_contra hne
    apply hp
    have h0 : p.x = 0 := by
      have : a * u.z * p.x = 0 := by rw [hpz] at e0; linear_combination e0
      rcases mul_eq_zero.mp this with h | h
      · exact absurd h (mul_ne_zero ha hne)
      · exact h
    have h1 : p.y = 0 := by
      have : a * u.z * p.y = 0 := by rw [hpz] at e1; linear_combination e1
      rcases mul_eq_zero.mp this with h | h
      · exact absurd h (mul_ne_zero ha hne)
      · exact h
    obtain ⟨px, py, pz⟩ := p
    simp only at h0 h1 hpz
    rw [h0, h1, hpz]
  have hk := transpose_mulVec_combination T p u
    ((T.inverse.matrix3x4.mulVec u).z / (T.inverse.act p).z)
  generalize hs : (T.inverse.matrix3x4.mulVec u).z / (T.inverse.act p).z = s at hk
  have hvz : (T.inverse.matrix3x4.mulVec u).z = s * (T.inverse.act p).z := by
    rw [← hs]; field_simp
  have hvx : (T.inverse.matrix3x4.mulVec u).x = s * (T.inverse.act p).x := by
    have : b * (T.inverse.act p).z * ((T.inverse.matrix3x4.mulVec u).x
        - s * (T.inverse.act p).x) = 0 := by
      linear_combination -e2 + b * (T.inverse.act p).x * hvz
    rcases mul_eq_zero.mp this with h | h
    · exact absurd h (mul_ne_zero hb hqz)
    · linear_combination h
  have hvy : (T.inverse.matrix3x4.mulVec u).y = s * (T.inverse.act p).y := by
    have : b * (T.inverse.act p).z * ((T.inverse.matrix3x4.mulVec u).y
        - s * (T.inverse.act p).y) = 0 := by
      linear_combination -e3 + b * (T.inverse.act p).y * hvz
    rcases mul_eq_zero.mp this with h | h
    · exact absurd h (mul_ne_zero hb hqz)
    · linear_combination h
  rw [hvx, hvy, hvz, sub_self, sub_self, sub_self] at hk
  have hd := transpose_mulVec_eq_zero T.R hR _ hk
  simp only [V3.mk.injEq] at hd
  obtain ⟨dx, dy, dz⟩ := hd
  have hsw : s = u.w := by
    have : (s - u.w) * T.t.z = 0 := by
      rw [huz, hpz] at dz
      linear_combination dz
    rcases mul_eq_zero.mp this with h | h
    · linear_combination h
    · exact absurd h htz
  obtain ⟨ux, uy, uz, uw⟩ := u
  simp only [V4.smul, homogeneous, V4.mk.injEq] at *
  subst hsw
  refine ⟨by linear_combination dx, by linear_combination dy, by rw [huz, hpz]; ring, by ring⟩

/-- The second bearing has a zero third component, the first has not, and
the first camera stands off the plane `z = 0` of the second: the null space
of `A` is the line through the homogeneous point. -/
theorem null_space_line_second_flat (p : V3 K) (T : SE3 K) (a b : K) (u : V4 K)
    (hR : RowsOrthonormal T.R) (hoff : Independent p T.t) (ha : a ≠ 0) (hb : b ≠ 0)
    (hpz : p.z ≠ 0) (hqz : (T.inverse.act p).z = 0) (htz : T.inverse.t.z ≠ 0)
    (hu : (triangulateA (V3.smul a p) (V3.smul b (T.inverse.act p)) T.inverse.matrix3x4).mulVec u
      = ⟨0, 0, 0, 0⟩) :
    u = V4.smul u.w (homogeneous p) := by
  rw [triangulateA_mulVec] at hu
  simp only [V3.smul, V4.mk.injEq] at hu
  obtain ⟨e0, e1, e2, e3⟩ := hu
  have hq := second_bearing_ne_zero T p hR hoff
  have hvz : (T.inverse.matrix3x4.mulVec u).z = 0 := by
    by_contra hne
    apply hq
    have h0 : (T.inverse.act p).x = 0 := by
      have : b * (T.inverse.matrix3x4.mulVec u).z * (T.inverse.act p).x = 0 := by
        rw [hqz] at e2; linear_combination e2
      rcases mul_eq_zero.mp this with h | h
      · exact absurd h (mul_ne_zero hb hne)
      · exact h
    have h1 : (T.inverse.act p).y = 0 := by
      have : b * (T.inverse.matrix3x4.mulVec u).z * (T.inverse.act p).y = 0 := by
        rw [hqz] at e3; linear_combination e3
      rcases mul_eq_zero.mp this with h | h
      · exact absurd h (mul_ne_zero hb hne)
      · exact h
    generalize T.inverse.act p = q at h0 h1 hqz
    obtain ⟨qx, qy, qz⟩ := q
    simp only at h0 h1 hqz
    rw [h0, h1, hqz]
  generalize hs : u.z / p.z = s
  have hsz : u.z = s * p.z := by rw [← hs]; field_simp
  have hsx : u.x = s * p.x := by
    have : a * p.z * (u.x - s * p.x) = 0 := by linear_combination -e0 + a * p.x * hsz
    rcases mul_eq_zero.mp this with h | h
    · exact absurd h (mul_ne_zero ha hpz)
    · linear_combination h
  have hsy : u.y = s * p.y := by
    have : a * p.z * (u.y - s * p.y) = 0 := by linear_combination -e1 + a * p.y * hsz
    rcases mul_eq_zero.mp this with h | h
    · exact absurd h (mul_ne_zero ha hpz)
    · linear_combination h
  have hsw : s = u.w := by
    have : (u.w - s) * T.inverse.t.z = 0 := by
      have e : (T.inverse.matrix3x4.mulVec u).z - s * (T.inverse.act p).z
          = (u.w - s) * T.inverse.t.z := by
        simp only [M34.mulVec, SE3.matrix3x4, SE3.inverse, SE3.act, V4.dot, V3.dot,
          M33.transpose, V3.smul, M33.mulVec]
        rw [hsx, hsy, hsz]
        ring
      rw [← e, hvz, hqz]
      ring
    rcases mul_eq_zero.mp this with h | h
    · linear_combination -h
    · exact absurd h htz
  obtain ⟨ux, uy, uz, uw⟩ := u
  simp only [V4.smul, homogeneous, V4.mk.injEq] at *
  subst hsw
  exact ⟨hsx, hsy, hsz, by ring⟩

/-- Under `ViewsDetermine` the null space of `A` is the line through the
homogeneous point. -/
theorem null_space_line_of_views (p : V3 K) (T : SE3 K) (a b : K) (u : V4 K)
    (hR : RowsOrthonormal T.R) (hoff : Independent p T.t) (ha : a ≠ 0) (hb : b ≠ 0)
    (hv : ViewsDetermine p T)
    (hu : (triangulateA (V3.smul a p) (V3.smul b (T.inverse.act p)) T.inverse.matrix3x4).mulVec u
      = ⟨0, 0, 0, 0⟩) :
    u = V4.smul u.w (homogeneous p) := by
  by_cases hpz : p.z = 0
  · exact null_space_line_first_flat p T a b u hR hoff ha hb hpz (hv.1 hpz).1 (hv.1 hpz).2 hu
  · by_cases hqz : (T.inverse.act p).z = 0
    · exact null_space_line_second_flat p T a b u hR hoff ha hb hpz hqz (hv.2 hqz) hu
    · rw [← inverse_matrix3x4_mulVec] at hu hqz
      exact null_space_line p a b T.inverse.matrix3x4 u ha hb hpz hqz
        (independent_second_camera T p hR hoff) hu

/-- Without `ViewsDetermine` the null space of `A` holds a direction at
infinity: a vector with a zero last component that is not zero. -/
theorem null_space_not_line (p : V3 K) (T : SE3 K) (a b : K)
    (hoff : Independent p T.t) (hv : ¬ ViewsDetermine p T) :
    ∃ u : V4 K,
      (triangulateA (V3.smul a p) (V3.smul b (T.inverse.act p)) T.inverse.matrix3x4).mulVec u
        = ⟨0, 0, 0, 0⟩ ∧ u.w = 0 ∧ u ≠ V4.smul u.w (homogeneous p) := by
  have hne : ∀ x y z : K, (⟨x, y, z⟩ : V3 K) ≠ ⟨0, 0, 0⟩ →
      (⟨x, y, z, 0⟩ : V4 K) ≠ V4.smul (⟨x, y, z, 0⟩ : V4 K).w (homogeneous p) := by
    intro x y z h0 h1
    apply h0
    simp only [V4.smul, homogeneous, V4.mk.injEq, zero_mul] at h1
    rw [h1.1, h1.2.1, h1.2.2.1]
  by_cases hpz : p.z = 0
  · by_cases htz : T.t.z = 0
    · refine ⟨⟨p.x - T.t.x, p.y - T.t.y, p.z - T.t.z, 0⟩, ?_, rfl,
        hne _ _ _ (independent_sub_ne_zero p T.t hoff)⟩
      rw [triangulateA_mulVec]
      simp only [M34.mulVec, SE3.matrix3x4, SE3.inverse, SE3.act, V4.dot, V3.dot,
        M33.transpose, V3.smul, M33.mulVec, V4.mk.injEq, hpz, htz]
      refine ⟨?_, ?_, ?_, ?_⟩ <;> ring
    · have hqz : (T.inverse.act p).z = 0 := by
        by_contra hq
        exact hv ⟨fun _ => ⟨hq, htz⟩, fun h => absurd h hq⟩
      by_cases hr : T.R.r0.z = 0 ∧ T.R.r1.z = 0
      · refine ⟨⟨1, 0, 0, 0⟩, ?_, rfl, hne _ _ _ (by simp)⟩
        rw [triangulateA_mulVec]
        simp only [V3.smul, hqz, hpz]
        simp only [M34.mulVec, SE3.matrix3x4, SE3.inverse, V4.dot,
          M33.transpose, V3.smul, M33.mulVec, V4.mk.injEq, hr.1]
        refine ⟨?_, ?_, ?_, ?_⟩ <;> ring
      · refine ⟨⟨T.R.r1.z, -T.R.r0.z, 0, 0⟩, ?_, rfl, hne _ _ _ ?_⟩
        · rw [triangulateA_mulVec]
          simp only [V3.smul, hqz, hpz]
          simp only [M34.mulVec, SE3.matrix3x4, SE3.inverse, V4.dot,
            M33.transpose, V3.smul, M33.mulVec, V4.mk.injEq]
          refine ⟨?_, ?_, ?_, ?_⟩ <;> ring
        · intro h0
          simp only [V3.mk.injEq, neg_eq_zero] at h0
          exact hr ⟨h0.2.1, h0.1⟩
  · have hqz : (T.inverse.act p).z = 0 ∧ T.inverse.t.z = 0 := by
      by_contra hq
      apply hv
      refine ⟨fun h => absurd h hpz, fun h => ?_⟩
      intro ht
      exact hq ⟨h, ht⟩
    refine ⟨⟨p.x, p.y, p.z, 0⟩, ?_, rfl, hne _ _ _ (independent_left_ne_zero p T.t hoff)⟩
    have hrp : (T.inverse.matrix3x4.mulVec ⟨p.x, p.y, p.z, 0⟩).z = 0 := by
      have e : (T.inverse.matrix3x4.mulVec ⟨p.x, p.y, p.z, 0⟩).z
          = (T.inverse.act p).z - T.inverse.t.z := by
        simp only [M34.mulVec, SE3.matrix3x4, SE3.inverse, SE3.act, V4.dot, V3.dot,
          M33.transpose, V3.smul, M33.mulVec]
        ring
      rw [e, hqz.1, hqz.2, sub_zero]
    rw [triangulateA_mulVec]
    simp only [V3.smul, hqz.1, hrp, V4.mk.injEq]
    refine ⟨?_, ?_, ?_, ?_⟩ <;> ring

/-- The normalization and the sign flip of `triangulate` on a unit multiple
of the homogeneous point. -/
theorem triangulate_of_line (svdLastCol : M44 K → V4 K) (norm : V3 K → K) (p : V3 K)
    (f1 : V3 K) (T : SE3 K) (a np : K) (ha : 0 < a)
    (hline : svdLastCol (triangulateA (V3.smul a p) f1 T.inverse.matrix3x4) =
      V4.smul (svdLastCol (triangulateA (V3.smul a p) f1 T.inverse.matrix3x4)).w (homogeneous p))
    (hunit : V4.dot (svdLastCol (triangulateA (V3.smul a p) f1 T.inverse.matrix3x4))
      (svdLastCol (triangulateA (V3.smul a p) f1 T.inverse.matrix3x4)) = 1)
    (hn0 : 0 ≤ norm (svdLastCol (triangulateA (V3.smul a p) f1 T.inverse.matrix3x4)).head3)
    (hn : norm (svdLastCol (triangulateA (V3.smul a p) f1 T.inverse.matrix3x4)).head3
        * norm (svdLastCol (triangulateA (V3.smul a p) f1 T.inverse.matrix3x4)).head3
      = V3.dot (svdLastCol (triangulateA (V3.smul a p) f1 T.inverse.matrix3x4)).head3
          (svdLastCol (triangulateA (V3.smul a p) f1 T.inverse.matrix3x4)).head3)
    (hnp0 : 0 < np) (hnp : np * np = V3.dot p p) :
    triangulate svdLastCol norm (V3.smul a p) f1 T = bearingInvDist p np := by
  unfold triangulate
  simp only
  generalize svdLastCol (triangulateA (V3.smul a p) f1 T.inverse.matrix3x4) = v at hline hunit hn0 hn
  generalize norm v.head3 = n at hn0 hn
  obtain ⟨px, py, pz⟩ := p
  obtain ⟨vx, vy, vz, s⟩ := v
  simp only [V4.smul, homogeneous, V4.mk.injEq] at hline
  obtain ⟨hx, hy, hz, -⟩ := hline
  subst hx hy hz
  simp only [V4.dot, V4.head3, V3.dot, V3.smul, V4.div, V4.mulScalar, bearingInvDist] at *
  have hs : s ≠ 0 := by
    rintro rfl
    simp at hunit
  have hnn : n * n = (s * np) * (s * np) := by
    rw [hn]; linear_combination (s * s) * (-hnp)
  have hnpne : np ≠ 0 := hnp0.ne'
  rcases lt_or_gt_of_ne hs with hneg | hpos
  · have hne : n = -(s * np) := by
      have h1 : 0 ≤ -(s * np) := by nlinarith
      exact (mul_self_inj hn0 h1).mp (by rw [hnn]; ring)
    have hlt : a * px * (s * px / n) + a * py * (s * py / n) + a * pz * (s * pz / n) < 0 := by
      rw [hne]
      have e : ∀ x : K, s * x / -(s * np) = -(x / np) := by
        intro x; field_simp; ring
      have : a * px * (s * px / -(s * np)) + a * py * (s * py / -(s * np))
          + a * pz * (s * pz / -(s * np)) = -(a * np) := by
        rw [e, e, e]
        have : a * px * -(px / np) + a * py * -(py / np) + a * pz * -(pz / np)
            = -(a * ((px * px + py * py + pz * pz) / np)) := by ring
        rw [this, ← hnp, mul_div_assoc, div_self hnpne, mul_one]
      rw [this]
      have := mul_pos ha hnp0
      linarith
    rw [if_pos hlt, hne]
    have e : ∀ x : K, s * x / -(s * np) * -1 = x / np := by
      intro x; field_simp; ring
    simp only [V4.mk.injEq]
    refine ⟨e px, e py, e pz, ?_⟩
    have := e 1
    rwa [mul_one] at this
  · have hne : n = s * np := by
      have h1 : 0 ≤ s * np := by positivity
      exact (mul_self_inj hn0 h1).mp hnn
    have hge : ¬ a * px * (s * px / n) + a * py * (s * py / n) + a * pz * (s * pz / n) < 0 := by
      rw [hne]
      have e : ∀ x : K, s * x / (s * np) = x / np := by
        intro x; field_simp; ring
      have : a * px * (s * px / (s * np)) + a * py * (s * py / (s * np))
          + a * pz * (s * pz / (s * np)) = a * np := by
        rw [e, e, e]
        have : a * px * (px / np) + a * py * (py / np) + a * pz * (pz / np)
            = a * ((px * px + py * py + pz * pz) / np) := by ring
        rw [this, ← hnp, mul_div_assoc, div_self hnpne, mul_one]
      rw [this]
      have := mul_pos ha hnp0
      linarith
    rw [if_neg hge, hne]
    have e : ∀ x : K, s * x / (s * np) = x / np := by
      intro x; field_simp; ring
    simp only [V4.mk.injEq]
    refine ⟨e px, e py, e pz, ?_⟩
    have := e 1
    rwa [mul_one] at this

end TriangulateLemmas

/-! ## The scenes of the triangulation examples -/

theorem exFlat_facts :
    Independent exFlatPoint exFlatPose.t ∧ RowsOrthonormal exFlatPose.R ∧
    exFlatPose.inverse.act exFlatPoint = ⟨1, -1, 0⟩ ∧
    triangulateA (V3.smul 1 exFlatPoint) (V3.smul 1 (exFlatPose.inverse.act exFlatPoint))
        exFlatPose.inverse.matrix3x4
      = ⟨⟨0, 0, 1, 0⟩, ⟨0, 0, 0, 0⟩, ⟨0, 0, 1, 0⟩, ⟨0, 0, -1, 0⟩⟩ := by
  refine ⟨?_, ?_, ?_, ?_⟩
  · intro α β h
    simp [V3.sub, V3.smul, exFlatPoint, exFlatPose] at h
    exact h
  · simp [RowsOrthonormal, exFlatPose, exIdentity, V3.dot]
  · simp [SE3.act, SE3.inverse, exFlatPose, exIdentity, exFlatPoint, M33.transpose, M33.mulVec,
      V3.dot, V3.smul]
  · simp [triangulateA, SE3.act, SE3.inverse, SE3.matrix3x4, exFlatPose, exIdentity, exFlatPoint,
      M33.transpose, M33.mulVec, V3.dot, V3.smul, V4.smul, V4.sub, P1]

theorem exFlat_svd :
    IsLastSingularVector (⟨⟨0, 0, 1, 0⟩, ⟨0, 0, 0, 0⟩, ⟨0, 0, 1, 0⟩, ⟨0, 0, -1, 0⟩⟩ : M44 ℚ)
      ⟨1, 0, 0, 0⟩ := by
  constructor
  · simp [V4.dot]
  · intro u
    have h0 : (⟨⟨0, 0, 1, 0⟩, ⟨0, 0, 0, 0⟩, ⟨0, 0, 1, 0⟩, ⟨0, 0, -1, 0⟩⟩ : M44 ℚ).mulVec
        ⟨1, 0, 0, 0⟩ = ⟨0, 0, 0, 0⟩ := by
      simp [M44.mulVec, V4.dot]
    rw [h0]
    have : V4.dot (⟨0, 0, 0, 0⟩ : V4 ℚ) ⟨0, 0, 0, 0⟩ = 0 := by simp [V4.dot]
    rw [this, zero_mul]
    exact V4.dot_self_nonneg _

theorem exFlat_svd_last :
    IsLastSingularVector (⟨⟨0, 0, 1, 0⟩, ⟨0, 0, 0, 0⟩, ⟨0, 0, 1, 0⟩, ⟨0, 0, -1, 0⟩⟩ : M44 ℚ)
      ⟨0, 0, 0, 1⟩ := by
  constructor
  · simp [V4.dot]
  · intro u
    have h0 : (⟨⟨0, 0, 1, 0⟩, ⟨0, 0, 0, 0⟩, ⟨0, 0, 1, 0⟩, ⟨0, 0, -1, 0⟩⟩ : M44 ℚ).mulVec
        ⟨0, 0, 0, 1⟩ = ⟨0, 0, 0, 0⟩ := by
      simp [M44.mulVec, V4.dot]
    rw [h0]
    have : V4.dot (⟨0, 0, 0, 0⟩ : V4 ℚ) ⟨0, 0, 0, 0⟩ = 0 := by simp [V4.dot]
    rw [this, zero_mul]
    exact V4.dot_self_nonneg _

theorem exFlat_triangulate :
    triangulate exFlatSvd exNorm (V3.smul 1 exFlatPoint)
      (V3.smul 1 (exFlatPose.inverse.act exFlatPoint)) exFlatPose = ⟨1, 0, 0, 0⟩ := by
  simp [triangulate, exFlatSvd, exNorm, V4.head3, V4.div, V3.dot, V3.smul, exFlatPoint]

theorem exAxis_facts :
    Independent exAxisPoint exSidePose.t ∧ RowsOrthonormal exSidePose.R ∧
    exSidePose.inverse.act exAxisPoint = ⟨-1, 0, 3 / 4⟩ ∧
    triangulateA (V3.smul 1 exAxisPoint) (V3.smul 1 (exSidePose.inverse.act exAxisPoint))
        exSidePose.inverse.matrix3x4
      = ⟨⟨-(3 / 4), 0, 0, 0⟩, ⟨0, -(3 / 4), 0, 0⟩, ⟨-(3 / 4), 0, -1, 3 / 4⟩,
          ⟨0, -(3 / 4), 0, 0⟩⟩ := by
  refine ⟨?_, ?_, ?_, ?_⟩
  · intro α β h
    simp [V3.sub, V3.smul, exAxisPoint, exSidePose] at h
    exact ⟨h.2, h.1⟩
  · simp [RowsOrthonormal, exSidePose, exIdentity, V3.dot]
  · simp [SE3.act, SE3.inverse, exSidePose, exIdentity, exAxisPoint, M33.transpose, M33.mulVec,
      V3.dot, V3.smul]
  · simp [triangulateA, SE3.act, SE3.inverse, SE3.matrix3x4, exSidePose, exIdentity, exAxisPoint,
      M33.transpose, M33.mulVec, V3.dot, V3.smul, V4.smul, V4.sub, P1]

theorem exAxis_svd :
    IsLastSingularVector (⟨⟨-(3 / 4), 0, 0, 0⟩, ⟨0, -(3 / 4), 0, 0⟩, ⟨-(3 / 4), 0, -1, 3 / 4⟩,
          ⟨0, -(3 / 4), 0, 0⟩⟩ : M44 ℚ) ⟨0, 0, 3 / 5, 4 / 5⟩ := by
  constructor
  · norm_num [V4.dot]
  · intro u
    have h0 : (⟨⟨-(3 / 4), 0, 0, 0⟩, ⟨0, -(3 / 4), 0, 0⟩, ⟨-(3 / 4), 0, -1, 3 / 4⟩,
          ⟨0, -(3 / 4), 0, 0⟩⟩ : M44 ℚ).mulVec ⟨0, 0, 3 / 5, 4 / 5⟩ = ⟨0, 0, 0, 0⟩ := by
      norm_num [M44.mulVec, V4.dot]
    rw [h0]
    have : V4.dot (⟨0, 0, 0, 0⟩ : V4 ℚ) ⟨0, 0, 0, 0⟩ = 0 := by simp [V4.dot]
    rw [this, zero_mul]
    exact V4.dot_self_nonneg _

theorem exPlane_facts :
    Independent exPlanePoint exAheadPose.t ∧ RowsOrthonormal exAheadPose.R ∧
    exAheadPose.inverse.act exPlanePoint = ⟨3 / 4, 0, -1⟩ ∧
    triangulateA (V3.smul 1 exPlanePoint) (V3.smul 1 (exAheadPose.inverse.act exPlanePoint))
        exAheadPose.inverse.matrix3x4
      = ⟨⟨0, 0, 3 / 4, 0⟩, ⟨0, 0, 0, 0⟩, ⟨1, 0, 3 / 4, -(3 / 4)⟩, ⟨0, 1, 0, 0⟩⟩ ∧
    ViewsDetermine exPlanePoint exAheadPose := by
  have hq : exAheadPose.inverse.act exPlanePoint = ⟨3 / 4, 0, -1⟩ := by
    simp [SE3.act, SE3.inverse, exAheadPose, exIdentity, exPlanePoint, M33.transpose, M33.mulVec,
      V3.dot, V3.smul]
  refine ⟨?_, ?_, hq, ?_, ?_⟩
  · intro α β h
    simp [V3.sub, V3.smul, exPlanePoint, exAheadPose] at h
    exact h
  · simp [RowsOrthonormal, exAheadPose, exIdentity, V3.dot]
  · rw [hq]
    simp [triangulateA, SE3.inverse, SE3.matrix3x4, exAheadPose, exIdentity, exPlanePoint,
      M33.transpose, M33.mulVec, V3.dot, V3.smul, V4.smul, V4.sub, P1]
  · unfold ViewsDetermine
    rw [hq]
    refine ⟨fun _ => ⟨by norm_num, by norm_num [exAheadPose]⟩, fun h => ?_⟩
    norm_num at h

theorem exPlane_svd :
    IsLastSingularVector (⟨⟨0, 0, 3 / 4, 0⟩, ⟨0, 0, 0, 0⟩, ⟨1, 0, 3 / 4, -(3 / 4)⟩,
          ⟨0, 1, 0, 0⟩⟩ : M44 ℚ) ⟨3 / 5, 0, 0, 4 / 5⟩ := by
  constructor
  · norm_num [V4.dot]
  · intro u
    have h0 : (⟨⟨0, 0, 3 / 4, 0⟩, ⟨0, 0, 0, 0⟩, ⟨1, 0, 3 / 4, -(3 / 4)⟩,
          ⟨0, 1, 0, 0⟩⟩ : M44 ℚ).mulVec ⟨3 / 5, 0, 0, 4 / 5⟩ = ⟨0, 0, 0, 0⟩ := by
      norm_num [M44.mulVec, V4.dot]
    rw [h0]
    have : V4.dot (⟨0, 0, 0, 0⟩ : V4 ℚ) ⟨0, 0, 0, 0⟩ = 0 := by simp [V4.dot]
    rw [this, zero_mul]
    exact V4.dot_self_nonneg _

theorem exAxis_views : ViewsDetermine exAxisPoint exSidePose := by
  unfold ViewsDetermine
  rw [exAxis_facts.2.2.1]
  refine ⟨fun h => ?_, fun h => ?_⟩
  · norm_num [exAxisPoint] at h
  · norm_num at h

theorem exFlat_views : ¬ ViewsDetermine exFlatPoint exFlatPose := by
  intro h
  have := (h.1 rfl).1
  rw [exFlat_facts.2.2.1] at this
  exact this rfl

/-! ## The damping members across trials -/

theorem trialUpdate_cases (min_lambda max_lambda : ℚ) (accepted : Bool) (a b : ℚ × ℚ)
    (h : TrialUpdate min_lambda max_lambda accepted a b) :
    (accepted = true ∧ b = (max min_lambda (a.1 / 3), 2)) ∨
    (accepted = false ∧ b = (min max_lambda (a.2 * a.1), a.2 * 2)) := by
  obtain ⟨N, aom, w0, error_total, Hdiag, st, st', hst, ha, ht, hb, hacc⟩ := h
  obtain ⟨stepped, _, hc, _⟩ :=
    lmTrial_cases N aom w0 min_lambda max_lambda error_total Hdiag st st' ht
  subst ha hb
  rcases hc with hc | hc
  · left
    refine ⟨by rw [← hacc, hc.2.1], ?_⟩
    rw [hc.2.2.1, hc.2.2.2.1]
  · right
    refine ⟨by rw [← hacc, hc.2.1, hst], ?_⟩
    rw [hc.2.2.1, hc.2.2.2.1]

theorem dampingInBounds_step (min_lambda max_lambda : ℚ) (accepted : Bool) (a b : ℚ × ℚ)
    (hb : DampingInBounds min_lambda max_lambda a)
    (h : TrialUpdate min_lambda max_lambda accepted a b) :
    DampingInBounds min_lambda max_lambda b ∧
    (accepted = true → b.2 = 2 ∧ b.1 ≤ a.1) ∧
    (accepted = false → b.2 = a.2 * 2 ∧ a.1 ≤ b.1) := by
  obtain ⟨h0, h1, h2, h3, h4⟩ := hb
  have hpos : 0 < a.1 := lt_of_lt_of_le h0 h2
  rcases trialUpdate_cases min_lambda max_lambda accepted a b h with ⟨hacc, rfl⟩ | ⟨hacc, rfl⟩
  · refine ⟨⟨h0, h1, le_max_left _ _, max_le h1 (by linarith), le_refl _⟩, ?_, ?_⟩
    · intro _; exact ⟨rfl, max_le h2 (by linarith)⟩
    · intro hf; rw [hacc] at hf; cases hf
  · have hge : a.1 ≤ a.2 * a.1 := by nlinarith
    refine ⟨⟨h0, h1, le_min h1 (by linarith), min_le_left _ _, by simp only; linarith⟩, ?_, ?_⟩
    · intro hf; rw [hacc] at hf; cases hf
    · intro _; exact ⟨rfl, le_min h3 hge⟩

theorem rejections_chain (min_lambda max_lambda : ℚ) :
    ∀ (l : List (ℚ × ℚ)) (a : ℚ × ℚ),
      List.Chain (TrialUpdate min_lambda max_lambda false) a l →
      ((a :: l).getLast (List.cons_ne_nil a l)).2 = a.2 * 2 ^ l.length := by
  intro l
  induction l with
  | nil => intro a _; simp
  | cons b t ih =>
    intro a hch
    rw [List.chain_cons] at hch
    obtain ⟨hab, ht⟩ := hch
    have hb := ih b ht
    rw [List.getLast_cons (List.cons_ne_nil b t), hb]
    rcases trialUpdate_cases min_lambda max_lambda false a b hab with ⟨hacc, _⟩ | ⟨_, rfl⟩
    · cases hacc
    · simp only [List.length_cons]
      ring

/-! ## The observations linearized in a marginalization round -/

theorem tcLt_asymm {a b : TimeCamId} (h : tcLt a b) : ¬ tcLt b a := by
  unfold tcLt at *
  rintro (h' | ⟨h1, h2⟩)
  · rcases h with h | ⟨h, _⟩
    · omega
    · omega
  · rcases h with h | ⟨_, h⟩
    · omega
    · omega

theorem tcLt_ne {a b : TimeCamId} (h : tcLt a b) : a ≠ b := by
  rintro rfl
  exact tcLt_asymm h h

theorem tcLt_trans {a b c : TimeCamId} (h1 : tcLt a b) (h2 : tcLt b c) : tcLt a c := by
  unfold tcLt at *
  rcases h1 with h1 | ⟨h1, h1'⟩ <;> rcases h2 with h2 | ⟨h2, h2'⟩
  · left; omega
  · left; omega
  · left; omega
  · right; exact ⟨by omega, by omega⟩

theorem tcEmplace_append {V : Type} (k : TimeCamId) (v : V) :
    ∀ m : List (TimeCamId × V), (∀ e ∈ m, tcLt e.1 k) → tcEmplace k v m = m ++ [(k, v)] := by
  intro m
  induction m with
  | nil => intro _; rfl
  | cons e t ih =>
    intro h
    have he := h e (List.mem_cons_self _ _)
    unfold tcEmplace
    rw [if_neg (tcLt_ne he), if_neg (tcLt_asymm he), ih (fun x hx => h x (List.mem_cons_of_mem _ hx))]
    rfl

theorem tcUpdate_append {V : Type} (k : TimeCamId) (dflt : V) (f : V → V) :
    ∀ m : List (TimeCamId × V), (∀ e ∈ m, tcLt e.1 k) →
      tcUpdate k dflt f m = m ++ [(k, f dflt)] := by
  intro m
  induction m with
  | nil => intro _; rfl
  | cons e t ih =>
    intro h
    have he := h e (List.mem_cons_self _ _)
    unfold tcUpdate
    rw [if_neg (tcLt_ne he), if_neg (tcLt_asymm he), ih (fun x hx => h x (List.mem_cons_of_mem _ hx))]
    rfl

theorem tcUpdate_last {V : Type} (k : TimeCamId) (dflt v : V) (f : V → V) :
    ∀ m : List (TimeCamId × V), (∀ e ∈ m, tcLt e.1 k) →
      tcUpdate k dflt f (m ++ [(k, v)]) = m ++ [(k, f v)] := by
  intro m
  induction m with
  | nil => intro _; simp [tcUpdate]
  | cons e t ih =>
    intro h
    have he := h e (List.mem_cons_self _ _)
    rw [List.cons_append]
    unfold tcUpdate
    rw [if_neg (tcLt_ne he), if_neg (tcLt_asymm he), ih (fun x hx => h x (List.mem_cons_of_mem _ hx))]
    rfl

/-- The inner loop extends the bucket list of the host it is run for. -/
theorem obsToLinInner_last (last : Int) (host : TimeCamId) (acc0 : ObsGraph)
    (hacc : ∀ e ∈ acc0, tcLt e.1 host) :
    ∀ (ts cur : List (TimeCamId × List KeypointObservation)),
      (ts.map Prod.fst).Pairwise tcLt →
      (∀ c ∈ cur, ∀ t ∈ ts, tcLt c.1 t.1) →
      obsToLinInner last host ts (acc0 ++ [(host, cur)]) =
        acc0 ++ [(host, cur ++ ts.filter (fun tv => decide (tv.1.frame_id ≤ last)))] := by
  intro ts
  induction ts with
  | nil => intro cur _ _; simp [obsToLinInner]
  | cons t rest ih =>
    intro cur hs hc
    rw [List.map_cons, List.pairwise_cons] at hs
    unfold obsToLinInner
    by_cases hle : t.1.frame_id ≤ last
    · rw [if_pos hle, tcUpdate_last host [] cur _ acc0 hacc,
        tcEmplace_append t.1 t.2 cur (fun c hcm => hc c hcm t (List.mem_cons_self _ _)),
        ih (cur ++ [(t.1, t.2)]) hs.2]
      · rw [List.filter_cons_of_pos (by simpa using hle)]
        simp
      · intro c hcm x hx
        rw [List.mem_append] at hcm
        rcases hcm with hcm | hcm
        · exact hc c hcm x (List.mem_cons_of_mem _ hx)
        · simp only [List.mem_singleton] at hcm
          subst hcm
          exact hs.1 x.1 (List.mem_map_of_mem _ hx)
    · rw [if_neg hle, ih cur hs.2 (fun c hcm x hx => hc c hcm x (List.mem_cons_of_mem _ hx))]
      rw [List.filter_cons_of_neg (by simpa using hle)]

/-- The inner loop on a host that has no entry yet. -/
theorem obsToLinInner_new (last : Int) (host : TimeCamId) (acc0 : ObsGraph)
    (hacc : ∀ e ∈ acc0, tcLt e.1 host) :
    ∀ (ts : List (TimeCamId × List KeypointObservation)),
      (ts.map Prod.fst).Pairwise tcLt →
      obsToLinInner last host ts acc0 =
        if ts.filter (fun tv => decide (tv.1.frame_id ≤ last)) = [] then acc0
        else acc0 ++ [(host, ts.filter (fun tv => decide (tv.1.frame_id ≤ last)))] := by
  intro ts
  induction ts with
  | nil => intro _; simp [obsToLinInner]
  | cons t rest ih =>
    intro hs
    rw [List.map_cons, List.pairwise_cons] at hs
    unfold obsToLinInner
    by_cases hle : t.1.frame_id ≤ last
    · rw [if_pos hle, tcUpdate_append host [] _ acc0 hacc]
      have : tcEmplace t.1 t.2 ([] : List (TimeCamId × List KeypointObservation)) = [(t.1, t.2)] :=
        rfl
      rw [this, obsToLinInner_last last host acc0 hacc rest [(t.1, t.2)] hs.2]
      · rw [List.filter_cons_of_pos (by simpa using hle)]
        simp
      · intro c hcm x hx
        simp only [List.mem_singleton] at hcm
        subst hcm
        exact hs.1 x.1 (List.mem_map_of_mem _ hx)
    · rw [if_neg hle, ih hs.2, List.filter_cons_of_neg (by simpa using hle)]

/-- What one host contributes to `obs_to_lin`. -/
theorem obsToLinLoop_eq (kfs : List Int) (last : Int) :
    ∀ (g acc : ObsGraph), GraphSorted g → (∀ e ∈ acc, ∀ hv ∈ g, tcLt e.1 hv.1) →
      buckets (obsToLinLoop kfs last g acc) =
        buckets acc ++ (buckets g).filter
          (fun b => decide (b.1.frame_id ∈ kfs) && decide (b.2.1.frame_id ≤ last)) := by
  intro g
  induction g with
  | nil => intro acc _ _; simp [obsToLinLoop, buckets]
  | cons hv rest ih =>
    intro acc hs hacc
    obtain ⟨hs1, hs2⟩ := hs
    rw [List.map_cons, List.pairwise_cons] at hs1
    have hrest : GraphSorted rest :=
      ⟨hs1.2, fun x hx => hs2 x (List.mem_cons_of_mem _ hx)⟩
    have hb : buckets (hv :: rest) = hv.2.map (fun tv => (hv.1, tv.1, tv.2)) ++ buckets rest := by
      simp [buckets]
    unfold obsToLinLoop
    by_cases hk : setCount hv.1.frame_id kfs > 0
    · have hmem : hv.1.frame_id ∈ kfs := (setCount_pos _ _).mp hk
      rw [if_pos hk, obsToLinInner_new last hv.1 acc
        (fun e he => hacc e he hv (List.mem_cons_self _ _)) hv.2
        (hs2 hv (List.mem_cons_self _ _))]
      have hfil : (hv.2.map (fun tv => (hv.1, tv.1, tv.2))).filter
          (fun b => decide (b.1.frame_id ∈ kfs) && decide (b.2.1.frame_id ≤ last)) =
          (hv.2.filter (fun tv => decide (tv.1.frame_id ≤ last))).map
            (fun tv => (hv.1, tv.1, tv.2)) := by
        rw [List.filter_map]
        congr 1
        apply List.filter_congr
        intro x _
        simp [hmem]
      split_ifs with he
      · rw [ih acc hrest (fun e hem x hx => hacc e hem x (List.mem_cons_of_mem _ hx)), hb,
          List.filter_append, hfil, he]
        simp
      · rw [ih _ hrest, hb, List.filter_append, hfil]
        · simp [buckets]
        · intro e hem x hx
          rw [List.mem_append] at hem
          rcases hem with hem | hem
          · exact hacc e hem x (List.mem_cons_of_mem _ hx)
          · simp only [List.mem_singleton] at hem
            subst hem
            exact hs1.1 x.1 (List.mem_map_of_mem _ hx)
    · have hmem : hv.1.frame_id ∉ kfs := fun h => hk ((setCount_pos _ _).mpr h)
      rw [if_neg hk, ih acc hrest (fun e hem x hx => hacc e hem x (List.mem_cons_of_mem _ hx)), hb,
        List.filter_append]
      have hfil : (hv.2.map (fun tv => (hv.1, tv.1, tv.2))).filter
          (fun b => decide (b.1.frame_id ∈ kfs) && decide (b.2.1.frame_id ≤ last)) = [] := by
        rw [List.filter_eq_nil_iff]
        intro b hbm
        rw [List.mem_map] at hbm
        obtain ⟨tv, _, rfl⟩ := hbm
        simp [hmem]
      rw [hfil]
      simp

/-- The buckets of `obs_to_lin` are the buckets of the store hosted by a
keyframe removed for good whose target is not newer than
`last_state_to_marg`, in the order of the store. -/
theorem obsToLin_buckets (p : MargPlan) (db : LandmarkDatabase) (hs : GraphSorted db.obs) :
    buckets (obsToLin p db) = (buckets db.obs).filter
      (fun b => decide (b.1.frame_id ∈ p.kfs_to_marg) &&
        decide (b.2.1.frame_id ≤ p.last_state_to_marg)) := by
  unfold obsToLin
  rw [obsToLinLoop_eq p.kfs_to_marg p.last_state_to_marg db.obs [] hs (by simp)]
  simp [buckets]

/-! ## The processing thread -/

theorem drainFrames_eq (curr_frame : Option OpticalFlowResult) :
    ∀ queue : List (Option OpticalFlowResult),
      drainFrames curr_frame queue =
        ((curr_frame :: queue).getLast (List.cons_ne_nil _ _), []) := by
  intro queue
  induction queue generalizing curr_frame with
  | nil => rfl
  | cons next rest ih =>
    unfold drainFrames
    rw [ih next, List.getLast_cons (List.cons_ne_nil _ _)]

theorem procInit_keeps (curr_frame : OpticalFlowResult) (v v' : ProcVars)
    (h : procInit curr_frame v = .ok v') :
    v'.vision_data_queue = v.vision_data_queue ∧ v'.measured = v.measured ∧
      v'.prev_frame = v.prev_frame ∧ v'.meas = v.meas := by
  unfold procInit at h
  split_ifs at h with hi
  · simp only [Except.ok.injEq] at h
    subst h
    exact ⟨rfl, rfl, rfl, rfl⟩
  · split at h
    · cases h
    · split at h
      · cases h
      · cases h
      · simp only [Except.ok.injEq] at h
        subst h
        exact ⟨rfl, rfl, rfl, rfl⟩

theorem procIntegrate_keeps
    (integrate : IntegratedImuMeasurement → ImuData → IntegratedImuMeasurement)
    (curr_frame : OpticalFlowResult) (v v' : ProcVars) (go : Bool)
    (h : procIntegrate integrate curr_frame v = .ok (v', go)) :
    v'.vision_data_queue = v.vision_data_queue ∧ v'.measured = v.measured := by
  unfold procIntegrate at h
  split at h
  · simp only [Except.ok.injEq, Prod.mk.injEq] at h
    obtain ⟨rfl, _⟩ := h
    exact ⟨rfl, rfl⟩
  · simp only at h
    split at h
    · cases h
    · split at h
      · cases h
      · cases h
      · split at h
        · cases h
        · split_ifs at h
          · split at h
            · simp only [Except.ok.injEq, Prod.mk.injEq] at h
              obtain ⟨rfl, _⟩ := h
              exact ⟨rfl, rfl⟩
            · simp only [Except.ok.injEq, Prod.mk.injEq] at h
              obtain ⟨rfl, _⟩ := h
              exact ⟨rfl, rfl⟩
          · simp only [Except.ok.injEq, Prod.mk.injEq] at h
            obtain ⟨rfl, _⟩ := h
            exact ⟨rfl, rfl⟩

/-- A pass of the loop that goes on has called `measure` with the frame that
`popFrame` handed over. -/
theorem procStep_measures (rt : Bool)
    (integrate : IntegratedImuMeasurement → ImuData → IntegratedImuMeasurement)
    (v v' : ProcVars) (h : procStep rt integrate v = .ok (v', true)) :
    ∃ frame, popFrame rt v.vision_data_queue = some (some frame, v'.vision_data_queue) ∧
      v'.measured = v.measured ++ [(frame, v'.meas)] ∧ v'.prev_frame = some frame := by
  unfold procStep at h
  split at h
  · cases h
  · simp at h
  · rename_i curr_frame queue hpop
    split at h
    · cases h
    · rename_i v1 h1
      split at h
      · cases h
      · simp at h
      · rename_i v2 h2
        simp only [Except.ok.injEq, Prod.mk.injEq, and_true] at h
        subst h
        obtain ⟨a1, a2, _, _⟩ := procInit_keeps _ _ _ h1
        obtain ⟨b1, b2⟩ := procIntegrate_keeps _ _ _ _ _ h2
        refine ⟨curr_frame, ?_, ?_, rfl⟩
        · rw [hpop]
          simp only [b1, a1]
        · simp only [b2, a2]

/-- A null frame ends the thread at once, as a finished run. -/
theorem procFunc_null_frame (rt : Bool)
    (integrate : IntegratedImuMeasurement → ImuData → IntegratedImuMeasurement)
    (outputs : OutputQueues) (initialized : Bool) (data : ImuData)
    (imu_data_queue : List (Option ImuData)) :
    procFunc rt integrate outputs initialized (some data :: imu_data_queue) [none] =
      .ok { measured := [], null_pushed := outputs, finished := true } := by
  cases rt <;> rfl

theorem hessianCalls_append (a b : List AccumCall) :
    hessianCalls (a ++ b) = hessianCalls a ++ hessianCalls b := by
  induction a with
  | nil => rfl
  | cons x t ih =>
    cases x with
    | addB i d => simpa [hessianCalls] using ih
    | addH i j d => simp [hessianCalls, ih]

theorem absIdx_ok (aom : AbsOrderMap) (k : Int) (n : Nat) (h : absIdx aom k = .ok n) :
    offsetOf aom k = n := by
  unfold absIdx mapAt at h
  unfold offsetOf
  cases hf : mapFind k aom.abs_order_map with
  | none => rw [hf] at h; cases h
  | some e =>
    rw [hf] at h
    simp only [Except.ok.injEq] at h
    simp [h]

/-- The calls of one pass of the inner loop are the blocks `claimedBlocks`, and
the pass checks that the two entries have the same host. -/
theorem linearizeAbsPair_ok (rel_H : Nat → Nat → ℚ) (rld : RelLinDataBase) (aom : AbsOrderMap)
    (i j : Nat) (calls : List AccumCall)
    (h : linearizeAbsPair rel_H rld aom i j = .ok calls) :
    hessianCalls calls = claimedBlocks rel_H rld aom i j ∧
    (rld.order.getD i (⟨0, 0⟩, ⟨0, 0⟩)).1 = (rld.order.getD j (⟨0, 0⟩, ⟨0, 0⟩)).1 ∧
    (∀ c ∈ calls, ∃ a b d, c = .addH a b d) := by
  unfold linearizeAbsPair at h
  cases hoi : rld.order[i]? with
  | none => rw [hoi] at h; cases h
  | some oi =>
  cases hoj : rld.order[j]? with
  | none => rw [hoi, hoj] at h; cases h
  | some oj =>
  rw [hoi, hoj] at h
  simp only at h
  have hgi : rld.order.getD i (⟨0, 0⟩, ⟨0, 0⟩) = oi := by
    rw [List.getD_eq_getElem?_getD, hoi]; rfl
  have hgj : rld.order.getD j (⟨0, 0⟩, ⟨0, 0⟩) = oj := by
    rw [List.getD_eq_getElem?_getD, hoj]; rfl
  by_cases hhost : oi.1 = oj.1
  swap
  · rw [if_neg hhost] at h; cases h
  rw [if_pos hhost] at h
  cases hh : absIdx aom oi.1.frame_id with
  | error f => rw [hh] at h; split at h <;> simp_all
  | ok abs_h_idx =>
  cases hti : absIdx aom oi.2.frame_id with
  | error f => rw [hh, hti] at h; split at h <;> simp_all
  | ok abs_ti_idx =>
  cases htj : absIdx aom oj.2.frame_id with
  | error f => rw [hh, hti, htj] at h; split at h <;> simp_all
  | ok abs_tj_idx =>
  rw [hh, hti, htj] at h
  simp only at h
  have e1 := absIdx_ok _ _ _ hh
  have e2 := absIdx_ok _ _ _ hti
  have e3 := absIdx_ok _ _ _ htj
  by_cases hskip : oi.1.frame_id = oi.2.frame_id ∨ oi.1.frame_id = oj.2.frame_id
  · rw [if_pos hskip] at h
    simp only [Except.ok.injEq] at h
    subst h
    refine ⟨?_, by rw [hgi, hgj]; exact hhost, by simp⟩
    unfold claimedBlocks
    simp only [hgi, hgj]
    rw [if_pos]
    · rfl
    · rcases hskip with hs | hs
      · exact Or.inl hs.symm
      · exact Or.inr hs.symm
  · rw [if_neg hskip] at h
    cases h1 : rld.d_rel_d_h[i]? with
    | none => rw [h1] at h; split at h <;> simp_all
    | some dhi =>
    cases h2 : rld.d_rel_d_t[i]? with
    | none => rw [h1, h2] at h; split at h <;> simp_all
    | some dti =>
    cases h3 : rld.d_rel_d_h[j]? with
    | none => rw [h1, h2, h3] at h; split at h <;> simp_all
    | some dhj =>
    cases h4 : rld.d_rel_d_t[j]? with
    | none => rw [h1, h2, h3, h4] at h; split at h <;> simp_all
    | some dtj =>
    rw [h1, h2, h3, h4] at h
    simp only [Except.ok.injEq] at h
    subst h
    refine ⟨?_, by rw [hgi, hgj]; exact hhost, by simp⟩
    unfold claimedBlocks
    simp only [hgi, hgj]
    rw [if_neg]
    · have g1 : rld.d_rel_d_h.getD i 0 = dhi := by
        rw [List.getD_eq_getElem?_getD, h1]; rfl
      have g2 : rld.d_rel_d_t.getD i 0 = dti := by
        rw [List.getD_eq_getElem?_getD, h2]; rfl
      have g3 : rld.d_rel_d_h.getD j 0 = dhj := by
        rw [List.getD_eq_getElem?_getD, h3]; rfl
      have g4 : rld.d_rel_d_t.getD j 0 = dtj := by
        rw [List.getD_eq_getElem?_getD, h4]; rfl
      simp only [hessianCalls, g1, g2, g3, g4, e1, e2, e3]
    · intro hc
      apply hskip
      rcases hc with hs | hs
      · exact Or.inl hs.symm
      · exact Or.inr hs.symm

/-- A run of the inner loop that returns makes the calls `claimedBlocks` for the
pairs it passes, and has checked the host of each of them. -/
theorem linearizeAbsInner_ok (rel_H : Nat → Nat → ℚ) (rld : RelLinDataBase) (aom : AbsOrderMap)
    (i n : Nat) : ∀ (j : Nat) (calls : List AccumCall),
    linearizeAbsInner rel_H rld aom i n j = .ok calls →
    hessianCalls calls = (List.range' j n).flatMap (claimedBlocks rel_H rld aom i) ∧
    (∀ k, j ≤ k → k < j + n →
      (rld.order.getD i (⟨0, 0⟩, ⟨0, 0⟩)).1 = (rld.order.getD k (⟨0, 0⟩, ⟨0, 0⟩)).1) := by
  induction n with
  | zero =>
    intro j calls h
    simp only [linearizeAbsInner, Except.ok.injEq] at h
    subst h
    exact ⟨rfl, fun k h1 h2 => by omega⟩
  | succ n ih =>
    intro j calls h
    rw [linearizeAbsInner] at h
    cases hp : linearizeAbsPair rel_H rld aom i j with
    | error f => rw [hp] at h; cases h
    | ok c1 =>
      rw [hp] at h
      simp only at h
      cases hr : linearizeAbsInner rel_H rld aom i n (j + 1) with
      | error f => rw [hr] at h; cases h
      | ok c2 =>
        rw [hr] at h
        simp only [Except.ok.injEq] at h
        subst h
        obtain ⟨a1, a2, _⟩ := linearizeAbsPair_ok _ _ _ _ _ _ hp
        obtain ⟨b1, b2⟩ := ih _ _ hr
        refine ⟨?_, ?_⟩
        · rw [hessianCalls_append, a1, b1, List.range'_succ, List.flatMap_cons]
        · intro k h1 h2
          by_cases hk : k = j
          · subst hk; exact a2
          · exact b2 k (by omega) (by omega)

theorem linearizeAbsRow_ok (rel_H : Nat → Nat → ℚ) (rel_b : Nat → ℚ) (rld : RelLinDataBase)
    (aom : AbsOrderMap) (i : Nat) (calls : List AccumCall)
    (h : linearizeAbsRow rel_H rel_b rld aom i = .ok calls) :
    hessianCalls calls =
      (List.range rld.order.length).flatMap (claimedBlocks rel_H rld aom i) ∧
    (∀ k, k < rld.order.length →
      (rld.order.getD i (⟨0, 0⟩, ⟨0, 0⟩)).1 = (rld.order.getD k (⟨0, 0⟩, ⟨0, 0⟩)).1) := by
  unfold linearizeAbsRow at h
  split at h
  · cases h
  · split at h
    · split at h
      · split at h
        · cases h
        · rename_i c hc
          simp only [Except.ok.injEq] at h
          subst h
          obtain ⟨a1, a2⟩ := linearizeAbsInner_ok _ _ _ _ _ _ _ hc
          refine ⟨?_, fun k hk => a2 k (Nat.zero_le _) (by omega)⟩
          rw [List.range_eq_range']
          simpa [hessianCalls] using a1
      · cases h
    · cases h
    · cases h

theorem linearizeAbsOuter_ok (rel_H : Nat → Nat → ℚ) (rel_b : Nat → ℚ) (rld : RelLinDataBase)
    (aom : AbsOrderMap) (n : Nat) : ∀ (i : Nat) (calls : List AccumCall),
    linearizeAbsOuter rel_H rel_b rld aom n i = .ok calls →
    hessianCalls calls = (List.range' i n).flatMap (fun a =>
      (List.range rld.order.length).flatMap (claimedBlocks rel_H rld aom a)) ∧
    (∀ a, i ≤ a → a < i + n → ∀ k, k < rld.order.length →
      (rld.order.getD a (⟨0, 0⟩, ⟨0, 0⟩)).1 = (rld.order.getD k (⟨0, 0⟩, ⟨0, 0⟩)).1) := by
  induction n with
  | zero =>
    intro i calls h
    simp only [linearizeAbsOuter, Except.ok.injEq] at h
    subst h
    exact ⟨rfl, fun a h1 h2 => by omega⟩
  | succ n ih =>
    intro i calls h
    rw [linearizeAbsOuter] at h
    cases hp : linearizeAbsRow rel_H rel_b rld aom i with
    | error f => rw [hp] at h; cases h
    | ok c1 =>
      rw [hp] at h
      simp only at h
      cases hr : linearizeAbsOuter rel_H rel_b rld aom n (i + 1) with
      | error f => rw [hr] at h; cases h
      | ok c2 =>
        rw [hr] at h
        simp only [Except.ok.injEq] at h
        subst h
        obtain ⟨a1, a2⟩ := linearizeAbsRow_ok _ _ _ _ _ _ hp
        obtain ⟨b1, b2⟩ := ih _ _ hr
        refine ⟨?_, ?_⟩
        · rw [hessianCalls_append, a1, b1, List.range'_succ, List.flatMap_cons]
        · intro a h1 h2
          by_cases hk : a = i
          · subst hk; exact a2
          · exact b2 a (by omega) (by omega)

/-- A run of `linearizeAbs` that returns has called `addH` with the blocks
`claimedHessian`, in the order of the two loops, and all entries have one
host. -/
theorem linearizeAbs_ok (rel_H : Nat → Nat → ℚ) (rel_b : Nat → ℚ) (rld : RelLinDataBase)
    (aom : AbsOrderMap) (calls : List AccumCall)
    (h : linearizeAbs rel_H rel_b rld aom = .ok calls) :
    hessianCalls calls = claimedHessian rel_H rld aom ∧
    (∀ a, a < rld.order.length → ∀ k, k < rld.order.length →
      (rld.order.getD a (⟨0, 0⟩, ⟨0, 0⟩)).1 = (rld.order.getD k (⟨0, 0⟩, ⟨0, 0⟩)).1) := by
  obtain ⟨a1, a2⟩ := linearizeAbsOuter_ok _ _ _ _ _ _ _ h
  refine ⟨?_, fun a ha => a2 a (Nat.zero_le _) (by omega)⟩
  rw [a1]
  unfold claimedHessian
  rw [List.range_eq_range']

theorem hessianOf_eq (calls : List AccumCall) (r c : Nat) :
    hessianOf calls r c =
      ((hessianCalls calls).map (fun t => blockEntry t.1 t.2.1 t.2.2 r c)).sum := by
  unfold hessianOf
  induction calls with
  | nil => rfl
  | cons x t ih =>
    cases x with
    | addB i d => simpa [hessianCalls, hessianEntry] using ih
    | addH i j d => simp [hessianCalls, hessianEntry, ih]

theorem blockEntry_transpose (i j : Nat) (M : Mat6) (r c : Nat) :
    blockEntry j i (Matrix.transpose M) c r = blockEntry i j M r c := by
  unfold blockEntry
  by_cases h : (i ≤ r ∧ r < i + 6) ∧ (j ≤ c ∧ c < j + 6)
  · rw [dif_pos h, dif_pos ⟨h.2, h.1⟩]
    rfl
  · rw [dif_neg h, dif_neg (fun h2 => h ⟨h2.2, h2.1⟩)]

theorem sum_map_flatMap {α β : Type} (l : List α) (f : α → List β) (g : β → ℚ) :
    ((l.flatMap f).map g).sum = (l.map (fun a => ((f a).map g).sum)).sum := by
  induction l with
  | nil => rfl
  | cons x t ih => simp [List.flatMap_cons, ih]

theorem sum_range_comm (n m : Nat) (F : Nat → Nat → ℚ) :
    ((List.range n).map (fun i => ((List.range m).map (fun j => F i j)).sum)).sum =
    ((List.range m).map (fun j => ((List.range n).map (fun i => F i j)).sum)).sum := by
  have e : ∀ (k : Nat) (G : Nat → ℚ), ((List.range k).map G).sum = ∑ i in Finset.range k, G i := by
    intro k G
    induction k with
    | zero => rfl
    | succ k ih => rw [List.range_succ, List.map_append, List.sum_append, ih, Finset.sum_range_succ]; simp
  rw [e]
  simp only [e]
  rw [Finset.sum_comm]

theorem sum_map_congr_range (n : Nat) (F G : Nat → ℚ) (h : ∀ i, i < n → F i = G i) :
    ((List.range n).map F).sum = ((List.range n).map G).sum := by
  congr 1
  apply List.map_congr_left
  intro a ha
  exact h a (List.mem_range.mp ha)

/-- The blocks of the pair `(j, i)` are the transposes of the blocks of the
pair `(i, j)` when the two entries have the same host and `rel_H` is
symmetric. -/
theorem claimedBlocks_swap (rel_H : Nat → Nat → ℚ) (rld : RelLinDataBase) (aom : AbsOrderMap)
    (i j r c : Nat)
    (hhost : (rld.order.getD i (⟨0, 0⟩, ⟨0, 0⟩)).1 = (rld.order.getD j (⟨0, 0⟩, ⟨0, 0⟩)).1)
    (hsym : block6 rel_H i j = Matrix.transpose (block6 rel_H j i)) :
    ((claimedBlocks rel_H rld aom i j).map (fun t => blockEntry t.1 t.2.1 t.2.2 r c)).sum =
    ((claimedBlocks rel_H rld aom j i).map (fun t => blockEntry t.1 t.2.1 t.2.2 c r)).sum := by
  unfold claimedBlocks
  simp only
  rw [← hhost]
  by_cases hs : (rld.order.getD i (⟨0, 0⟩, ⟨0, 0⟩)).2.frame_id
        = (rld.order.getD i (⟨0, 0⟩, ⟨0, 0⟩)).1.frame_id ∨
      (rld.order.getD j (⟨0, 0⟩, ⟨0, 0⟩)).2.frame_id
        = (rld.order.getD i (⟨0, 0⟩, ⟨0, 0⟩)).1.frame_id
  · rw [if_pos hs, if_pos hs.symm]
    rfl
  · rw [if_neg hs, if_neg (fun h => hs h.symm)]
    simp only [List.map_cons, List.map_nil, List.sum_cons, List.sum_nil, add_zero]
    rw [← blockEntry_transpose _ _ _ r c, ← blockEntry_transpose _ _ _ r c,
      ← blockEntry_transpose _ _ _ r c, ← blockEntry_transpose _ _ _ r c]
    simp only [Matrix.transpose_mul, Matrix.transpose_transpose, hsym, Matrix.mul_assoc]
    ring

theorem absIdx_of_find (aom : AbsOrderMap) (k : Int) (e : Nat × Nat)
    (h : mapFind k aom.abs_order_map = some e) : absIdx aom k = .ok e.1 := by
  unfold absIdx mapAt
  rw [h]

theorem linearizeAbsPair_total (rel_H : Nat → Nat → ℚ) (rld : RelLinDataBase) (aom : AbsOrderMap)
    (hw : RelWellFormed rld aom) (i j : Nat) (hi : i < rld.order.length)
    (hj : j < rld.order.length) :
    ∃ calls, linearizeAbsPair rel_H rld aom i j = .ok calls := by
  obtain ⟨h1, h2, h3, h4⟩ := hw
  unfold linearizeAbsPair
  rw [List.getElem?_eq_getElem hi, List.getElem?_eq_getElem hj]
  simp only
  have mi := List.getElem_mem hi
  have mj := List.getElem_mem hj
  rw [if_pos (h1 _ mi _ mj)]
  obtain ⟨a1, a2⟩ := h2 _ mi
  obtain ⟨b1, b2⟩ := h2 _ mj
  obtain ⟨e1, he1⟩ := Option.ne_none_iff_exists'.mp a1
  obtain ⟨e2, he2⟩ := Option.ne_none_iff_exists'.mp a2
  obtain ⟨e3, he3⟩ := Option.ne_none_iff_exists'.mp b2
  rw [absIdx_of_find _ _ _ he1, absIdx_of_find _ _ _ he2, absIdx_of_find _ _ _ he3]
  simp only
  split_ifs
  · exact ⟨_, rfl⟩
  · rw [List.getElem?_eq_getElem (show i < rld.d_rel_d_h.length by omega),
      List.getElem?_eq_getElem (show i < rld.d_rel_d_t.length by omega),
      List.getElem?_eq_getElem (show j < rld.d_rel_d_h.length by omega),
      List.getElem?_eq_getElem (show j < rld.d_rel_d_t.length by omega)]
    exact ⟨_, rfl⟩

theorem linearizeAbsInner_total (rel_H : Nat → Nat → ℚ) (rld : RelLinDataBase)
    (aom : AbsOrderMap) (hw : RelWellFormed rld aom) (i : Nat) (hi : i < rld.order.length)
    (n : Nat) : ∀ j, j + n ≤ rld.order.length →
    ∃ calls, linearizeAbsInner rel_H rld aom i n j = .ok calls := by
  induction n with
  | zero => intro j _; exact ⟨_, rfl⟩
  | succ n ih =>
    intro j hj
    obtain ⟨c1, h1⟩ := linearizeAbsPair_total rel_H rld aom hw i j hi (by omega)
    obtain ⟨c2, h2⟩ := ih (j + 1) (by omega)
    rw [linearizeAbsInner, h1]
    simp only
    rw [h2]
    exact ⟨_, rfl⟩

theorem linearizeAbsRow_total (rel_H : Nat → Nat → ℚ) (rel_b : Nat → ℚ) (rld : RelLinDataBase)
    (aom : AbsOrderMap) (hw : RelWellFormed rld aom) (i : Nat) (hi : i < rld.order.length) :
    ∃ calls, linearizeAbsRow rel_H rel_b rld aom i = .ok calls := by
  obtain ⟨c, hc⟩ := linearizeAbsInner_total rel_H rld aom hw i hi rld.order.length 0 (by omega)
  obtain ⟨h1, h2, h3, h4⟩ := hw
  unfold linearizeAbsRow
  rw [List.getElem?_eq_getElem hi]
  simp only
  obtain ⟨a1, a2⟩ := h2 _ (List.getElem_mem hi)
  obtain ⟨e1, he1⟩ := Option.ne_none_iff_exists'.mp a1
  obtain ⟨e2, he2⟩ := Option.ne_none_iff_exists'.mp a2
  rw [absIdx_of_find _ _ _ he1, absIdx_of_find _ _ _ he2]
  simp only
  rw [List.getElem?_eq_getElem (show i < rld.d_rel_d_h.length by omega),
    List.getElem?_eq_getElem (show i < rld.d_rel_d_t.length by omega)]
  simp only
  rw [hc]
  exact ⟨_, rfl⟩

theorem linearizeAbsOuter_total (rel_H : Nat → Nat → ℚ) (rel_b : Nat → ℚ)
    (rld : RelLinDataBase) (aom : AbsOrderMap) (hw : RelWellFormed rld aom)
    (n : Nat) : ∀ i, i + n ≤ rld.order.length →
    ∃ calls, linearizeAbsOuter rel_H rel_b rld aom n i = .ok calls := by
  induction n with
  | zero => intro j _; exact ⟨_, rfl⟩
  | succ n ih =>
    intro i hi
    obtain ⟨c1, h1⟩ := linearizeAbsRow_total rel_H rel_b rld aom hw i (by omega)
    obtain ⟨c2, h2⟩ := ih (i + 1) (by omega)
    rw [linearizeAbsOuter, h1]
    simp only
    rw [h2]
    exact ⟨_, rfl⟩

/-- On well-formed inputs `linearizeAbs` returns. -/
theorem linearizeAbs_total (rel_H : Nat → Nat → ℚ) (rel_b : Nat → ℚ)
    (rld : RelLinDataBase) (aom : AbsOrderMap) (hw : RelWellFormed rld aom) :
    ∃ calls, linearizeAbs rel_H rel_b rld aom = .ok calls :=
  linearizeAbsOuter_total rel_H rel_b rld aom hw _ 0 (by omega)

/-- The Hessian that a returning run of `linearizeAbs` adds up to is symmetric
when `rel_H` is. -/
theorem linearizeAbs_symmetric (rel_H : Nat → Nat → ℚ) (rel_b : Nat → ℚ)
    (rld : RelLinDataBase) (aom : AbsOrderMap) (calls : List AccumCall)
    (h : linearizeAbs rel_H rel_b rld aom = .ok calls)
    (hsym : ∀ i j, i < rld.order.length → j < rld.order.length →
      block6 rel_H i j = Matrix.transpose (block6 rel_H j i))
    (r c : Nat) : hessianOf calls r c = hessianOf calls c r := by
  obtain ⟨a1, a2⟩ := linearizeAbs_ok _ _ _ _ _ h
  rw [hessianOf_eq, hessianOf_eq, a1]
  unfold claimedHessian
  rw [sum_map_flatMap, sum_map_flatMap]
  simp only [sum_map_flatMap]
  rw [sum_range_comm]
  apply sum_map_congr_range
  intro j hj
  apply sum_map_congr_range
  intro i hi
  exact claimedBlocks_swap rel_H rld aom i j r c (a2 i hi j hj) (hsym i j hi hj)

theorem exRld_wellFormed : RelWellFormed exRld exAomRel := by
  unfold RelWellFormed
  decide

theorem exRld_offsets : (claimedHessian exRelH exRld exAomRel).map (fun t => (t.1, t.2.1)) =
    [(0, 0), (6, 0), (0, 6), (6, 6), (0, 0), (6, 0), (0, 12), (6, 12),
     (0, 0), (12, 0), (0, 6), (12, 6), (0, 0), (12, 0), (0, 12), (12, 12)] := by
  rfl

theorem exRld_entry : ((claimedHessian exRelH exRld exAomRel).map
    (fun t => blockEntry t.1 t.2.1 t.2.2 6 6)).sum = 36 := by
  have v3 : ((3 : Fin 6) : Nat) = 3 := rfl
  have v4 : ((4 : Fin 6) : Nat) = 4 := rfl
  have v5 : ((5 : Fin 6) : Nat) = 5 := rfl
  simp [claimedHessian, List.range, List.range.loop, claimedBlocks, exRld, exAomRel, offsetOf,
    mapFind, blockEntry, Matrix.mul_apply, Fin.sum_univ_six, block6, exRelH, Matrix.transpose,
    v3, v4, v5]
  norm_num

theorem exRelH_symmetric (i j : Nat) :
    block6 exRelH i j = Matrix.transpose (block6 exRelH j i) := by
  funext a b
  simp only [block6, exRelH, Matrix.transpose_apply]
  ring

theorem tcUpdate_mem_self {V : Type} (k : TimeCamId) (d : V) (f : V → V)
    (m : List (TimeCamId × V)) : ∃ v0, (k, f v0) ∈ tcUpdate k d f m := by
  induction m with
  | nil => exact ⟨d, by simp [tcUpdate]⟩
  | cons e t ih =>
    unfold tcUpdate
    by_cases h1 : e.1 = k
    · rw [if_pos h1]
      exact ⟨e.2, by simp [h1]⟩
    · rw [if_neg h1]
      by_cases h2 : tcLt k e.1
      · rw [if_pos h2]
        exact ⟨d, by simp⟩
      · rw [if_neg h2]
        obtain ⟨v0, hv0⟩ := ih
        exact ⟨v0, List.mem_cons_of_mem _ hv0⟩

theorem tcUpdate_mem_mono {V : Type} (k : TimeCamId) (d : V) (f : V → V)
    (m : List (TimeCamId × V)) (k' : TimeCamId) (v : V) (h : (k', v) ∈ m) :
    (k', v) ∈ tcUpdate k d f m ∨ (k' = k ∧ (k', f v) ∈ tcUpdate k d f m) := by
  induction m with
  | nil => cases h
  | cons e t ih =>
    unfold tcUpdate
    by_cases h1 : e.1 = k
    · rw [if_pos h1]
      rcases List.mem_cons.1 h with he | ht
      · right
        subst he
        exact ⟨h1, by simp⟩
      · left
        exact List.mem_cons_of_mem _ ht
    · rw [if_neg h1]
      by_cases h2 : tcLt k e.1
      · rw [if_pos h2]
        left
        exact List.mem_cons_of_mem _ h
      · rw [if_neg h2]
        rcases List.mem_cons.1 h with he | ht
        · left
          rw [he]
          exact List.mem_cons_self _ _
        · rcases ih ht with h3 | ⟨h3, h4⟩
          · exact Or.inl (List.mem_cons_of_mem _ h3)
          · exact Or.inr ⟨h3, List.mem_cons_of_mem _ h4⟩

theorem observed_iff (g : ObsGraph) (host target : TimeCamId) (o : KeypointObservation) :
    Observed g host target o ↔ ∃ hv l, (host, hv) ∈ g ∧ (target, l) ∈ hv ∧ o ∈ l := by
  unfold Observed buckets
  constructor
  · rintro ⟨b, hb, h1, h2, h3⟩
    rw [List.mem_flatMap] at hb
    obtain ⟨hv, hhv, hb⟩ := hb
    rw [List.mem_map] at hb
    obtain ⟨tv, htv, rfl⟩ := hb
    simp only at h1 h2 h3
    subst h1
    subst h2
    exact ⟨hv.2, tv.2, hhv, htv, h3⟩
  · rintro ⟨hv, l, h1, h2, h3⟩
    refine ⟨(host, target, l), ?_, rfl, rfl, h3⟩
    rw [List.mem_flatMap]
    exact ⟨(host, hv), h1, List.mem_map.2 ⟨(target, l), h2, rfl⟩⟩

/-- An observation that is appended stands in its bucket. -/
theorem observed_added (g : ObsGraph) (host target : TimeCamId) (o : KeypointObservation) :
    Observed (tcUpdate host [] (tcUpdate target [] (fun v => v ++ [o])) g) host target o := by
  rw [observed_iff]
  obtain ⟨v0, hv0⟩ := tcUpdate_mem_self host ([] : List (TimeCamId × List KeypointObservation))
    (tcUpdate target [] (fun v => v ++ [o])) g
  obtain ⟨l0, hl0⟩ := tcUpdate_mem_self target ([] : List KeypointObservation)
    (fun v => v ++ [o]) v0
  exact ⟨_, _, hv0, hl0, by simp⟩

/-- Appending an observation removes none. -/
theorem observed_mono (g : ObsGraph) (host target : TimeCamId) (o : KeypointObservation)
    (h t : TimeCamId) (o' : KeypointObservation) (hobs : Observed g h t o') :
    Observed (tcUpdate host [] (tcUpdate target [] (fun v => v ++ [o])) g) h t o' := by
  rw [observed_iff] at hobs ⊢
  obtain ⟨hv, l, h1, h2, h3⟩ := hobs
  rcases tcUpdate_mem_mono host [] (tcUpdate target [] (fun v => v ++ [o])) g h hv h1
    with h4 | ⟨_, h4⟩
  · exact ⟨hv, l, h4, h2, h3⟩
  · rcases tcUpdate_mem_mono target [] (fun v => v ++ [o]) hv t l h2 with h5 | ⟨_, h5⟩
    · exact ⟨_, l, h4, h5, h3⟩
    · exact ⟨_, _, h4, h5, by simp [h3]⟩

/-! ## The store methods -/

theorem addObservation_some (db : LandmarkDatabase) (tcid_target : TimeCamId)
    (o : KeypointObservation) (lm : KeypointPosition) (h : mapFind o.kpt_id db.kpts = some lm) :
    ∃ db', db.addObservation tcid_target o = some db' ∧ db'.kpts = db.kpts ∧
      db'.num_observations = db.num_observations + 1 ∧
      Observed db'.obs lm.kf_id tcid_target o ∧
      ∀ h t o', Observed db.obs h t o' → Observed db'.obs h t o' := by
  unfold LandmarkDatabase.addObservation
  rw [h]
  exact ⟨_, rfl, rfl, rfl, observed_added _ _ _ _, fun h t o' ho => observed_mono _ _ _ _ _ _ _ ho⟩

theorem landmarkExists_iff (db : LandmarkDatabase) (lm_id : Int) :
    db.landmarkExists lm_id = true ↔ ∃ lm, mapFind lm_id db.kpts = some lm := by
  unfold LandmarkDatabase.landmarkExists
  rw [Option.isSome_iff_exists]

theorem landmarkExists_congr (db db' : LandmarkDatabase) (h : db'.kpts = db.kpts) (lm_id : Int) :
    db'.landmarkExists lm_id = db.landmarkExists lm_id := by
  unfold LandmarkDatabase.landmarkExists
  rw [h]

/-! ## The association step -/

/-- One pass of the association loop never fails: the landmark of an
observation that is added exists. It leaves the landmarks as they are. -/
theorem assocStep_spec (t_ns : Int) (i : Nat) (kv : Int × Vec2) (a : Assoc) :
    ∃ a', assocStep t_ns i kv a = .ok a' ∧ a'.lmdb.kpts = a.lmdb.kpts ∧
      a'.connected0 = (if i = 0 ∧ a.lmdb.landmarkExists kv.1 = true then a.connected0 + 1
        else a.connected0) ∧
      a'.unconnected_obs0 = (if i = 0 ∧ a.lmdb.landmarkExists kv.1 = false then
        unorderedEmplace kv.1 a.unconnected_obs0 else a.unconnected_obs0) ∧
      a'.lmdb.num_observations = a.lmdb.num_observations +
        (if a.lmdb.landmarkExists kv.1 = true then 1 else 0) ∧
      (∀ h t o, Observed a.lmdb.obs h t o → Observed a'.lmdb.obs h t o) ∧
      (a.lmdb.landmarkExists kv.1 = true → ∃ lm, a.lmdb.getLandmark kv.1 = some lm ∧
        Observed a'.lmdb.obs lm.kf_id { frame_id := t_ns, cam_id := i }
          { kpt_id := kv.1, pos := kv.2 }) := by
  unfold assocStep
  by_cases hex : a.lmdb.landmarkExists kv.1 = true
  · obtain ⟨lm, hlm⟩ := (landmarkExists_iff _ _).1 hex
    obtain ⟨db', h1, h2, h3, h4, h5⟩ := addObservation_some a.lmdb
      { frame_id := t_ns, cam_id := i } { kpt_id := kv.1, pos := kv.2 } lm hlm
    rw [if_pos hex]
    simp only [LandmarkDatabase.getLandmark, hlm, h1, storeCall]
    refine ⟨_, rfl, h2, ?_, ?_, ?_, h5, fun _ => ⟨lm, rfl, h4⟩⟩
    · by_cases hi : i = 0 <;> simp [hi, hex]
    · simp [hex]
    · simp [hex, h3]
  · rw [if_neg hex]
    have hf : a.lmdb.landmarkExists kv.1 = false := by simpa using hex
    by_cases hi : i = 0
    · rw [if_pos hi]
      refine ⟨_, rfl, rfl, ?_, ?_, ?_, fun h t o ho => ho, fun hc => absurd hc hex⟩
      · simp [hf]
      · simp [hi, hf]
      · simp [hf]
    · rw [if_neg hi]
      refine ⟨_, rfl, rfl, ?_, ?_, ?_, fun h t o ho => ho, fun hc => absurd hc hex⟩
      · simp [hi]
      · simp [hi]
      · simp [hf]

theorem getLandmark_congr (db db' : LandmarkDatabase) (h : db'.kpts = db.kpts) (lm_id : Int) :
    db'.getLandmark lm_id = db.getLandmark lm_id := by
  unfold LandmarkDatabase.getLandmark
  rw [h]

/-- The inner loop over the observations of camera `i`, on a store with the
landmarks of `db0`. -/
theorem assocInner_spec (t_ns : Int) (i : Nat) (db0 : LandmarkDatabase) :
    ∀ (obs : List (Int × Vec2)) (a : Assoc), a.lmdb.kpts = db0.kpts →
    ∃ a', assocInner t_ns i obs a = .ok a' ∧ a'.lmdb.kpts = db0.kpts ∧
      a'.connected0 = a.connected0 +
        (if i = 0 then (obs.filter (fun kv => db0.landmarkExists kv.1)).length else 0) ∧
      a'.unconnected_obs0 = (if i = 0 then
        ((mapKeys obs).filter (fun id => !db0.landmarkExists id)).foldl
          (fun s k => unorderedEmplace k s) a.unconnected_obs0 else a.unconnected_obs0) ∧
      a'.lmdb.num_observations = a.lmdb.num_observations +
        ((obs.filter (fun kv => db0.landmarkExists kv.1)).length : Int) ∧
      (∀ h t o, Observed a.lmdb.obs h t o → Observed a'.lmdb.obs h t o) ∧
      (∀ kv ∈ obs, db0.landmarkExists kv.1 = true → ∃ lm, db0.getLandmark kv.1 = some lm ∧
        Observed a'.lmdb.obs lm.kf_id { frame_id := t_ns, cam_id := i }
          { kpt_id := kv.1, pos := kv.2 }) := by
  intro obs
  induction obs with
  | nil =>
    intro a ha
    refine ⟨a, rfl, ha, ?_, ?_, ?_, fun h t o ho => ho, fun kv hkv => absurd hkv (by simp)⟩
    · simp
    · simp [mapKeys]
    · simp
  | cons kv rest ih =>
    intro a ha
    obtain ⟨a1, h1, h2, h3, h4, h5, h6, h7⟩ := assocStep_spec t_ns i kv a
    have ha1 : a1.lmdb.kpts = db0.kpts := h2.trans ha
    obtain ⟨a2, g1, g2, g3, g4, g5, g6, g7⟩ := ih a1 ha1
    have hex : a.lmdb.landmarkExists kv.1 = db0.landmarkExists kv.1 :=
      landmarkExists_congr _ _ ha _
    rw [hex] at h3 h4 h5 h7
    refine ⟨a2, ?_, g2, ?_, ?_, ?_, fun h t o ho => g6 h t o (h6 h t o ho), ?_⟩
    · simp only [assocInner, h1, g1]
    · rw [g3, h3]
      by_cases hi : i = 0
      · by_cases he : db0.landmarkExists kv.1 = true
        · simp [hi, he, List.filter_cons]
          omega
        · simp [hi, he, List.filter_cons]
      · simp [hi]
    · rw [g4, h4]
      by_cases hi : i = 0
      · by_cases he : db0.landmarkExists kv.1 = true
        · simp [hi, he, mapKeys, List.filter_cons]
        · have hf : db0.landmarkExists kv.1 = false := by simpa using he
          simp [hi, hf, mapKeys, List.filter_cons]
      · simp [hi]
    · rw [g5, h5]
      by_cases he : db0.landmarkExists kv.1 = true
      · simp [he, List.filter_cons]
        omega
      · simp [he, List.filter_cons]
    · intro kv' hkv' hex'
      rcases List.mem_cons.1 hkv' with rfl | hr
      · obtain ⟨lm, hlm, ho⟩ := h7 hex'
        rw [getLandmark_congr _ _ ha] at hlm
        exact ⟨lm, hlm, g6 _ _ _ ho⟩
      · exact g7 kv' hr hex'

/-- The cameras from `i >= 1` on change neither count. -/
theorem assocLoop_spec (t_ns : Int) (db0 : LandmarkDatabase) :
    ∀ (cams : List (List (Int × Vec2))) (i : Nat) (a : Assoc), 1 ≤ i →
    a.lmdb.kpts = db0.kpts →
    ∃ a', assocLoop t_ns i cams a = .ok a' ∧ a'.lmdb.kpts = db0.kpts ∧
      a'.connected0 = a.connected0 ∧ a'.unconnected_obs0 = a.unconnected_obs0 ∧
      a'.lmdb.num_observations = a.lmdb.num_observations +
        (((cams.flatMap id).filter (fun kv => db0.landmarkExists kv.1)).length : Int) ∧
      (∀ h t o, Observed a.lmdb.obs h t o → Observed a'.lmdb.obs h t o) ∧
      (∀ j (hj : j < cams.length), ∀ kv ∈ cams[j], db0.landmarkExists kv.1 = true →
        ∃ lm, db0.getLandmark kv.1 = some lm ∧
          Observed a'.lmdb.obs lm.kf_id { frame_id := t_ns, cam_id := i + j }
            { kpt_id := kv.1, pos := kv.2 }) := by
  intro cams
  induction cams with
  | nil =>
    intro i a _ ha
    exact ⟨a, rfl, ha, rfl, rfl, by simp, fun h t o ho => ho, fun j hj => absurd hj (by simp)⟩
  | cons c rest ih =>
    intro i a hi ha
    obtain ⟨a1, h1, h2, h3, h4, h5, h6, h7⟩ := assocInner_spec t_ns i db0 c a ha
    obtain ⟨a2, g1, g2, g3, g4, g5, g6, g7⟩ := ih (i + 1) a1 (by omega) h2
    have hi0 : i ≠ 0 := by omega
    rw [if_neg hi0] at h3 h4
    refine ⟨a2, ?_, g2, by rw [g3, h3]; simp, by rw [g4, h4], ?_,
      fun h t o ho => g6 h t o (h6 h t o ho), ?_⟩
    · simp only [assocLoop, h1, g1]
    · rw [g5, h5]
      simp only [List.flatMap_cons, id, List.filter_append, List.length_append, Nat.cast_add]
      ring
    · intro j hj kv hkv hex
      cases j with
      | zero =>
        obtain ⟨lm, hlm, ho⟩ := h7 kv (by simpa using hkv) hex
        exact ⟨lm, hlm, g6 _ _ _ ho⟩
      | succ j =>
        have hj' : j < rest.length := by simpa using hj
        obtain ⟨lm, hlm, ho⟩ := g7 j hj' kv (by simpa using hkv) hex
        refine ⟨lm, hlm, ?_⟩
        have e : i + (j + 1) = i + 1 + j := by omega
        rw [e]
        exact ho

theorem foldl_unorderedEmplace (l s : List Int) (hl : l.Nodup) (hd : ∀ x ∈ l, x ∉ s) :
    l.foldl (fun s k => unorderedEmplace k s) s = s ++ l := by
  induction l generalizing s with
  | nil => simp
  | cons x t ih =>
    have hx : x ∉ s := hd x (by simp)
    have hstep : unorderedEmplace x s = s ++ [x] := by simp [unorderedEmplace, hx]
    rw [List.foldl_cons, hstep, ih (s ++ [x]) (List.nodup_cons.1 hl).2]
    · simp
    · intro y hy hys
      rcases List.mem_append.1 hys with h | h
      · exact hd y (List.mem_cons_of_mem _ hy) h
      · have : y = x := by simpa using h
        subst this
        exact (List.nodup_cons.1 hl).1 hy

theorem foldl_unorderedEmplace_mem (l s : List Int) :
    (s.Nodup → (l.foldl (fun s k => unorderedEmplace k s) s).Nodup) ∧
    ∀ x, x ∈ l.foldl (fun s k => unorderedEmplace k s) s ↔ x ∈ s ∨ x ∈ l := by
  induction l generalizing s with
  | nil => simp
  | cons y t ih =>
    simp only [List.foldl_cons]
    obtain ⟨h1, h2⟩ := ih (unorderedEmplace y s)
    have hm : ∀ x, x ∈ unorderedEmplace y s ↔ x ∈ s ∨ x = y := by
      intro x
      unfold unorderedEmplace
      by_cases hy : y ∈ s
      · rw [if_pos hy]
        constructor
        · exact Or.inl
        · rintro (h | rfl)
          · exact h
          · exact hy
      · rw [if_neg hy]
        simp
    refine ⟨fun hs => h1 ?_, fun x => ?_⟩
    · unfold unorderedEmplace
      by_cases hy : y ∈ s
      · rw [if_pos hy]; exact hs
      · rw [if_neg hy]
        exact List.Nodup.append hs (List.nodup_singleton y) (by simpa using hy)
    · rw [h2, hm]
      simp only [List.mem_cons]
      tauto

/-- The association step returns for every frame and every store. -/
theorem associate_raw (m : OpticalFlowResult) (db : LandmarkDatabase) :
    ∃ a, associate m db = .ok a ∧
      a.connected0 = ((camera0 m).filter (fun kv => db.landmarkExists kv.1)).length ∧
      a.unconnected_obs0 = ((mapKeys (camera0 m)).filter (fun id => !db.landmarkExists id)).foldl
        (fun s k => unorderedEmplace k s) [] ∧
      a.lmdb.kpts = db.kpts ∧
      a.lmdb.num_observations = db.num_observations +
        (((m.observations.flatMap id).filter (fun kv => db.landmarkExists kv.1)).length : Int) ∧
      (∀ h t o, Observed db.obs h t o → Observed a.lmdb.obs h t o) ∧
      (∀ j (hj : j < m.observations.length), ∀ kv ∈ m.observations[j],
        db.landmarkExists kv.1 = true → ∃ lm, db.getLandmark kv.1 = some lm ∧
          Observed a.lmdb.obs lm.kf_id { frame_id := m.t_ns, cam_id := j }
            { kpt_id := kv.1, pos := kv.2 }) := by
  unfold associate camera0 at *
  cases hobs : m.observations with
  | nil =>
    refine ⟨_, rfl, by simp, by simp [mapKeys], rfl, by simp,
      fun h t o ho => ho, fun j hj => absurd hj (by simp)⟩
  | cons c rest =>
    simp only [List.headD_cons]
    obtain ⟨a1, h1, h2, h3, h4, h5, h6, h7⟩ := assocInner_spec m.t_ns 0 db c
      { lmdb := db, connected0 := 0, num_points_connected := [], unconnected_obs0 := [] } rfl
    obtain ⟨a2, g1, g2, g3, g4, g5, g6, g7⟩ := assocLoop_spec m.t_ns db rest 1 a1 (le_refl _) h2
    simp only [if_true, Nat.zero_add] at h3 h4
    refine ⟨a2, ?_, by rw [g3, h3], by rw [g4, h4], g2, ?_,
      fun h t o ho => g6 h t o (h6 h t o ho), ?_⟩
    · simp only [assocLoop, h1, g1]
    · rw [g5, h5]
      simp only [List.flatMap_cons, id, List.filter_append, List.length_append, Nat.cast_add]
      ring
    · intro j hj kv hkv hex
      cases j with
      | zero =>
        obtain ⟨lm, hlm, ho⟩ := h7 kv (by simpa using hkv) hex
        exact ⟨lm, hlm, g6 _ _ _ ho⟩
      | succ j =>
        have hj' : j < rest.length := by simpa using hj
        obtain ⟨lm, hlm, ho⟩ := g7 j hj' kv (by simpa using hkv) hex
        refine ⟨lm, hlm, ?_⟩
        have e : 1 + j = j + 1 := by omega
        rw [e] at ho
        exact ho

/-- The ids left unconnected are distinct camera-0 ids without a landmark. -/
theorem associate_unconnected (m : OpticalFlowResult) (db : LandmarkDatabase) (a : Assoc)
    (h : associate m db = .ok a) :
    a.unconnected_obs0.Nodup ∧ a.lmdb.kpts = db.kpts ∧
    (∀ h t o, Observed db.obs h t o → Observed a.lmdb.obs h t o) ∧
    ∀ id ∈ a.unconnected_obs0, db.landmarkExists id = false ∧
      ∃ pos, mapFind id (camera0 m) = some pos := by
  obtain ⟨a', h1, _, h3, h4, _, h6, _⟩ := associate_raw m db
  rw [h] at h1
  simp only [Except.ok.injEq] at h1
  subst h1
  obtain ⟨g1, g2⟩ := foldl_unorderedEmplace_mem
    ((mapKeys (camera0 m)).filter (fun id => !db.landmarkExists id)) []
  rw [← h3] at g1 g2
  refine ⟨g1 List.nodup_nil, h4, h6, fun id hid => ?_⟩
  have := (g2 id).1 hid
  simp only [List.not_mem_nil, false_or, List.mem_filter, Bool.not_eq_true'] at this
  exact ⟨this.2, (mapFind_isSome_iff id (camera0 m)).2 this.1⟩

theorem length_filter_split {α : Type} (p : α → Bool) (l : List α) :
    (l.filter p).length + (l.filter (fun x => !p x)).length = l.length := by
  induction l with
  | nil => rfl
  | cons x t ih =>
    by_cases h : p x = true
    · simp [List.filter_cons, h]
      omega
    · simp [List.filter_cons, h]
      omega

/-- The association step: it returns, the two counts are those of the
camera-0 observations by whether their landmark exists, and every
observation of a landmark that exists is attached to it. -/
theorem associate_spec (m : OpticalFlowResult) (db : LandmarkDatabase)
    (hnd : (mapKeys (camera0 m)).Nodup) :
    ∃ a, associate m db = .ok a ∧
      a.connected0 + a.unconnected_obs0.length = (camera0 m).length ∧
      a.connected0 = ((camera0 m).filter (fun kv => db.landmarkExists kv.1)).length ∧
      a.unconnected_obs0 = (mapKeys (camera0 m)).filter (fun id => !db.landmarkExists id) ∧
      a.lmdb.kpts = db.kpts ∧
      a.lmdb.num_observations = db.num_observations +
        (((m.observations.flatMap id).filter (fun kv => db.landmarkExists kv.1)).length : Int) ∧
      (∀ h t o, Observed db.obs h t o → Observed a.lmdb.obs h t o) ∧
      (∀ j (hj : j < m.observations.length), ∀ kv ∈ m.observations[j],
        db.landmarkExists kv.1 = true → ∃ lm, db.getLandmark kv.1 = some lm ∧
          Observed a.lmdb.obs lm.kf_id { frame_id := m.t_ns, cam_id := j }
            { kpt_id := kv.1, pos := kv.2 }) := by
  obtain ⟨a, h1, h2, h3, h4, h5, h6, h7⟩ := associate_raw m db
  have hun : a.unconnected_obs0 = (mapKeys (camera0 m)).filter (fun id => !db.landmarkExists id) := by
    rw [h3, foldl_unorderedEmplace _ _ (hnd.filter _) (by simp)]
    simp
  have hmk : ((mapKeys (camera0 m)).filter (fun id => !db.landmarkExists id)).length
      = ((camera0 m).filter (fun kv => !db.landmarkExists kv.1)).length := by
    unfold mapKeys
    rw [List.filter_map, List.length_map]
    rfl
  refine ⟨a, h1, ?_, h2, hun, h4, h5, h6, h7⟩
  rw [h2, hun, hmk]
  exact length_filter_split (fun kv => db.landmarkExists kv.1) (camera0 m)

/-! ## The creation of landmarks -/

theorem getPoseStateWithLin_fault (fs : List (Int × PoseVelBiasStateWithLin))
    (fp : List (Int × PoseStateWithLin)) (t : Int) (f : Fault)
    (h : getPoseStateWithLin fs fp t = .error f) : f = .assertion 457 := by
  unfold getPoseStateWithLin at h
  split at h
  · cases h
  · split at h
    · cases h; rfl
    · cases h

/-- The loop over the views of a keypoint never ends with the fault of a
store call: it calls no store method. -/
theorem triangulateLoop_fault (T : TriNumerics) (config : VioConfig)
    (fs : List (Int × PoseVelBiasStateWithLin)) (fp : List (Int × PoseStateWithLin))
    (ofm : OpticalFlowResult) (prev : List (Int × OpticalFlowResult))
    (tcidl : TimeCamId) (lm_id : Int) :
    ∀ (views : List (TimeCamId × KeypointObservation)),
      triangulateLoop T config fs fp ofm prev tcidl lm_id views ≠ .error (.assertion 0) := by
  intro views
  induction views with
  | nil => simp [triangulateLoop]
  | cons v rest ih =>
    intro h
    unfold triangulateLoop at h
    simp only at h
    repeat' split at h
    all_goals first
      | exact ih h
      | (cases h; done)
      | (rename_i hp; have := getPoseStateWithLin_fault _ _ _ _ hp; cases h; cases this)
      | (rename_i hp; cases h; exact ih hp)

theorem findObservations_kpt_id (prev : List (Int × OpticalFlowResult)) (lm_id : Int) :
    ∀ x ∈ findObservations prev lm_id, x.2.kpt_id = lm_id := by
  intro x hx
  unfold findObservations at hx
  rw [List.mem_flatMap] at hx
  obtain ⟨kv, _, hx⟩ := hx
  rw [List.mem_filterMap] at hx
  obtain ⟨km, _, hx⟩ := hx
  split at hx
  · simp only [Option.some.injEq] at hx
    rw [← hx]
  · cases hx

theorem addLandmark_some (db : LandmarkDatabase) (lm_id : Int) (pos : KeypointPosition)
    (h : db.landmarkExists lm_id = false) :
    ∃ db', db.addLandmark lm_id pos = some db' ∧ mapFind lm_id db'.kpts = some pos ∧
      (∀ k, k ≠ lm_id → mapFind k db'.kpts = mapFind k db.kpts) ∧ db'.obs = db.obs := by
  unfold LandmarkDatabase.addLandmark
  rw [h]
  exact ⟨_, rfl, mapFind_mapSet_self _ _ _, fun k hk => mapFind_mapSet_ne _ _ _ _ hk, rfl⟩

theorem addLandmark_none (db : LandmarkDatabase) (lm_id : Int) (pos : KeypointPosition)
    (h : db.landmarkExists lm_id = true) : db.addLandmark lm_id pos = none := by
  unfold LandmarkDatabase.addLandmark
  rw [if_pos h]

theorem addObservation_none (db : LandmarkDatabase) (t : TimeCamId) (o : KeypointObservation)
    (h : db.landmarkExists o.kpt_id = false) : db.addObservation t o = none := by
  unfold LandmarkDatabase.landmarkExists at h
  unfold LandmarkDatabase.addObservation
  cases hf : mapFind o.kpt_id db.kpts with
  | none => rfl
  | some lm => rw [hf] at h; cases h

/-- The observations of a landmark that exists are all added. -/
theorem addObservations_spec (lm_id : Int) (lm : KeypointPosition) :
    ∀ (views : List (TimeCamId × KeypointObservation)) (db : LandmarkDatabase),
      (∀ x ∈ views, x.2.kpt_id = lm_id) → mapFind lm_id db.kpts = some lm →
      ∃ db', addObservations views db = .ok db' ∧ db'.kpts = db.kpts ∧
        (∀ h t o, Observed db.obs h t o → Observed db'.obs h t o) ∧
        ∀ x ∈ views, Observed db'.obs lm.kf_id x.1 x.2 := by
  intro views
  induction views with
  | nil =>
    intro db _ _
    exact ⟨db, rfl, rfl, fun h t o ho => ho, fun x hx => absurd hx (by simp)⟩
  | cons v rest ih =>
    intro db hid hlm
    have hv : v.2.kpt_id = lm_id := hid v (by simp)
    obtain ⟨db1, h1, h2, _, h4, h5⟩ := addObservation_some db v.1 v.2 lm (by rw [hv]; exact hlm)
    obtain ⟨db2, g1, g2, g3, g4⟩ := ih db1 (fun x hx => hid x (List.mem_cons_of_mem _ hx))
      (by rw [h2]; exact hlm)
    refine ⟨db2, ?_, g2.trans h2, fun h t o ho => g3 h t o (h5 h t o ho), ?_⟩
    · simp only [addObservations, h1, storeCall, g1]
    · intro x hx
      rcases List.mem_cons.1 hx with rfl | hr
      · exact g3 _ _ _ h4
      · exact g4 x hr

/-- The pass of the creation loop for an id without a landmark: no store
call fails, no other landmark changes, and a landmark that is created is
hosted by camera 0 of the current frame and observed in every view found. -/
theorem createLandmark_spec (T : TriNumerics) (config : VioConfig)
    (fs : List (Int × PoseVelBiasStateWithLin)) (fp : List (Int × PoseStateWithLin))
    (ofm : OpticalFlowResult) (prev : List (Int × OpticalFlowResult)) (lm_id : Int)
    (acc : LandmarkDatabase × Int) (hnew : acc.1.landmarkExists lm_id = false) :
    createLandmark T config fs fp ofm prev lm_id acc ≠ .error (.assertion 0) ∧
    ∀ r, createLandmark T config fs fp ofm prev lm_id acc = .ok r →
      (∀ k, k ≠ lm_id → mapFind k r.1.kpts = mapFind k acc.1.kpts) ∧
      (∀ h t o, Observed acc.1.obs h t o → Observed r.1.obs h t o) ∧
      (∀ p, mapFind lm_id r.1.kpts = some p →
        p.kf_id = { frame_id := ofm.t_ns, cam_id := 0 } ∧
        ∀ x ∈ findObservations prev lm_id,
          Observed r.1.obs { frame_id := ofm.t_ns, cam_id := 0 } x.1 x.2) := by
  have hnone : mapFind lm_id acc.1.kpts = none := by
    unfold LandmarkDatabase.landmarkExists at hnew
    cases hf : mapFind lm_id acc.1.kpts with
    | none => rfl
    | some v => rw [hf] at hnew; cases hnew
  unfold createLandmark
  cases hn : newLandmark T config fs fp ofm prev lm_id with
  | error f =>
    simp only
    refine ⟨?_, fun r hr => by cases hr⟩
    intro hc
    simp only [Except.error.injEq] at hc
    subst hc
    exact triangulateLoop_fault T config fs fp ofm prev _ lm_id _ hn
  | ok tr =>
    simp only
    cases hcr : tr.created with
    | none =>
      simp only
      refine ⟨by simp, fun r hr => ?_⟩
      simp only [Except.ok.injEq] at hr
      subst hr
      refine ⟨fun k _ => rfl, fun h t o ho => ho, fun p hp => ?_⟩
      rw [hnone] at hp
      cases hp
    | some kp =>
      simp only
      have hkf : kp.kf_id = { frame_id := ofm.t_ns, cam_id := 0 } := by
        obtain ⟨pre, c, _, _, _, hkp⟩ := (newLandmark_created T config fs fp ofm prev lm_id tr hn).2
          kp hcr
        rw [hkp]
      obtain ⟨db1, h1, h2, h3, h4⟩ := addLandmark_some acc.1 lm_id kp hnew
      obtain ⟨db2, g1, g2, g3, g4⟩ := addObservations_spec lm_id kp
        (findObservations prev lm_id) db1 (findObservations_kpt_id prev lm_id) h2
      simp only [h1, storeCall, g1]
      refine ⟨by simp, fun r hr => ?_⟩
      simp only [Except.ok.injEq] at hr
      subst hr
      refine ⟨fun k hk => by simp only [g2]; exact h3 k hk,
        fun h t o ho => g3 h t o (by rw [h4]; exact ho), fun p hp => ?_⟩
      simp only [g2, h2, Option.some.injEq] at hp
      subst hp
      refine ⟨hkf, fun x hx => ?_⟩
      rw [← hkf]
      exact g4 x hx

/-- The creation loop over distinct ids without a landmark: no store call
fails, the landmarks of other ids stay, and a landmark that is created is
hosted by camera 0 of the current frame and observed in every view found. -/
theorem createLoop_spec (T : TriNumerics) (config : VioConfig)
    (fs : List (Int × PoseVelBiasStateWithLin)) (fp : List (Int × PoseStateWithLin))
    (ofm : OpticalFlowResult) (prev : List (Int × OpticalFlowResult)) :
    ∀ (ids : List Int) (acc : LandmarkDatabase × Int), ids.Nodup →
      (∀ id ∈ ids, acc.1.landmarkExists id = false) →
      createLoop T config fs fp ofm prev ids acc ≠ .error (.assertion 0) ∧
      ∀ r, createLoop T config fs fp ofm prev ids acc = .ok r →
        (∀ k, k ∉ ids → mapFind k r.1.kpts = mapFind k acc.1.kpts) ∧
        (∀ h t o, Observed acc.1.obs h t o → Observed r.1.obs h t o) ∧
        (∀ id ∈ ids, ∀ p, mapFind id r.1.kpts = some p →
          p.kf_id = { frame_id := ofm.t_ns, cam_id := 0 } ∧
          ∀ x ∈ findObservations prev id,
            Observed r.1.obs { frame_id := ofm.t_ns, cam_id := 0 } x.1 x.2) := by
  intro ids
  induction ids with
  | nil =>
    intro acc _ _
    refine ⟨by simp [createLoop], fun r hr => ?_⟩
    simp only [createLoop, Except.ok.injEq] at hr
    subst hr
    exact ⟨fun k _ => rfl, fun h t o ho => ho, fun id hid => absurd hid (by simp)⟩
  | cons id rest ih =>
    intro acc hnd hnew
    obtain ⟨hid_rest, hrest⟩ := List.nodup_cons.1 hnd
    obtain ⟨c1, c2⟩ := createLandmark_spec T config fs fp ofm prev id acc (hnew id (by simp))
    unfold createLoop
    cases hc : createLandmark T config fs fp ofm prev id acc with
    | error f =>
      simp only
      refine ⟨?_, fun r hr => by cases hr⟩
      intro hf
      apply c1
      rw [hc, hf]
    | ok acc1 =>
      simp only
      obtain ⟨d1, d2, d3⟩ := c2 acc1 hc
      have hnew1 : ∀ id' ∈ rest, acc1.1.landmarkExists id' = false := by
        intro id' hid'
        have hne : id' ≠ id := by
          rintro rfl
          exact hid_rest hid'
        have := hnew id' (List.mem_cons_of_mem _ hid')
        unfold LandmarkDatabase.landmarkExists at this ⊢
        rw [d1 id' hne]
        exact this
      obtain ⟨e1, e2⟩ := ih acc1 hrest hnew1
      refine ⟨e1, fun r hr => ?_⟩
      obtain ⟨f1, f2, f3⟩ := e2 r hr
      refine ⟨?_, fun h t o ho => f2 h t o (d2 h t o ho), ?_⟩
      · intro k hk
        have hk1 : k ≠ id := fun h => hk (by simp [h])
        have hk2 : k ∉ rest := fun h => hk (List.mem_cons_of_mem _ h)
        rw [f1 k hk2, d1 k hk1]
      · intro id' hid' p hp
        rcases List.mem_cons.1 hid' with rfl | hr'
        · rw [f1 id' hid_rest] at hp
          obtain ⟨g1, g2⟩ := d3 p hp
          exact ⟨g1, fun x hx => f2 _ _ _ (g2 x hx)⟩
        · exact f3 id' hr' p hp

/-- The keyframe step of `measure` on the result of the association step,
for any order in which `unconnected_obs0` is gone through: no store call
fails, and every landmark of the store afterwards was there before or is
hosted by camera 0 of the current frame and observed there. -/
theorem keyframeStep_spec (X : MeasureNumerics) (config : VioConfig) (m : OpticalFlowResult)
    (flow0 : List (Int × OpticalFlowResult)) (db : LandmarkDatabase) (a : Assoc)
    (ids : List Int) (s : VioState) (ha : associate m db = .ok a)
    (hperm : ids.Perm a.unconnected_obs0) (hs : s.lmdb = a.lmdb) :
    keyframeStep X config m (mapSet m.t_ns m flow0) ids s ≠ .error (.assertion 0) ∧
    ∀ s', keyframeStep X config m (mapSet m.t_ns m flow0) ids s = .ok s' →
      (∀ h t o, Observed db.obs h t o → Observed s'.lmdb.obs h t o) ∧
      ∀ id p, mapFind id s'.lmdb.kpts = some p →
        mapFind id db.kpts = some p ∨
        (db.landmarkExists id = false ∧ p.kf_id = { frame_id := m.t_ns, cam_id := 0 } ∧
          ∃ pos, mapFind id (camera0 m) = some pos ∧
            Observed s'.lmdb.obs { frame_id := m.t_ns, cam_id := 0 }
              { frame_id := m.t_ns, cam_id := 0 } { kpt_id := id, pos := pos }) := by
  obtain ⟨u1', u2, u3, u4'⟩ := associate_unconnected m db a ha
  have u1 : ids.Nodup := hperm.nodup_iff.2 u1'
  have u4 : ∀ id ∈ ids, db.landmarkExists id = false ∧
      ∃ pos, mapFind id (camera0 m) = some pos := fun id hid => u4' id (hperm.mem_iff.1 hid)
  have hb : (keyframeBranch s).1.lmdb = a.lmdb := by
    unfold keyframeBranch
    split <;> exact hs
  have hnew : ∀ id ∈ ids,
      ((keyframeBranch s).1.lmdb, (0 : Int)).1.landmarkExists id = false := by
    intro id hid
    simp only [hb]
    rw [landmarkExists_congr db a.lmdb u2]
    exact (u4 id hid).1
  obtain ⟨c1, c2⟩ := createLoop_spec X.T config (keyframeBranch s).1.est.frame_states
    (keyframeBranch s).1.est.frame_poses m (mapSet m.t_ns m flow0) ids
    ((keyframeBranch s).1.lmdb, 0) u1 hnew
  unfold keyframeStep
  by_cases hk : (keyframeBranch s).2 = true
  · rw [if_pos hk]
    cases hc : createLoop X.T config (keyframeBranch s).1.est.frame_states
        (keyframeBranch s).1.est.frame_poses m (mapSet m.t_ns m flow0) ids
        ((keyframeBranch s).1.lmdb, 0) with
    | error f =>
      simp only
      refine ⟨?_, fun r hr => by cases hr⟩
      intro hf
      apply c1
      rw [hc]
      simp only [Except.error.injEq] at hf
      rw [hf]
    | ok r =>
      simp only
      refine ⟨by simp, fun s' hs' => ?_⟩
      simp only [Except.ok.injEq] at hs'
      subst hs'
      obtain ⟨d1, d2, d3⟩ := c2 r hc
      simp only [hb] at d1 d2
      refine ⟨fun h t o ho => d2 h t o (u3 h t o ho), fun id p hp => ?_⟩
      simp only at hp
      by_cases hid : id ∈ ids
      · right
        obtain ⟨e1, pos, e2⟩ := u4 id hid
        obtain ⟨g1, g2⟩ := d3 id hid p hp
        refine ⟨e1, g1, pos, e2, ?_⟩
        have hx := findObservations_mem (mapSet m.t_ns m flow0) id m.t_ns m 0 (camera0 m) pos
          (mapFind_mapSet_self _ _ _) ?_ e2
        · exact g2 _ hx
        · unfold camera0 at e2 ⊢
          cases hobs : m.observations with
          | nil => rw [hobs] at e2; simp [mapFind] at e2
          | cons c rest => simp
      · left
        rw [d1 id hid, u2] at hp
        exact hp
  · rw [if_neg hk]
    refine ⟨by simp, fun s' hs' => ?_⟩
    simp only [Except.ok.injEq] at hs'
    subst hs'
    rw [hb]
    refine ⟨u3, fun id p hp => Or.inl ?_⟩
    rw [u2] at hp
    exact hp

theorem associate_exStereo : associate exStereo exWindow.lmdb = .ok exAssoc := by
  decide

theorem measure_exRun0 :
    measure exMeasure exConfigKf false 5 (exKfFrame 1) none exRun0 = .ok exRun1 := by
  simp [measure, measureImu, associate, assocLoop, assocInner, assocStep, keyframeStep,
    keyframeRule, keyframeBranch, createLoop, createLandmark, newLandmark, findObservations,
    triangulateLoop, optimize, marginalizeAll, exRun0, exRun1, exKfFrame, exMeasure, exConfigKf,
    exConfig, initState, construct, mapSet, mapFind, setEmplace, LandmarkDatabase.landmarkExists,
    unorderedEmplace, connectedBelow, exTri, exProduct_twentieth, Flt.lt, getPoseStateWithLin, PoseStateWithLin.ofState,
    V3.dot, List.enum, List.enumFrom]

theorem measure_exRun1 :
    measure exMeasure exConfigKf false 5 (exKfFrame 2) (some ⟨1, 1⟩) exRun1 = .ok exRun2 := by
  simp [measure, measureImu, associate, assocLoop, assocInner, assocStep, keyframeStep,
    keyframeRule, keyframeBranch, createLoop, createLandmark, newLandmark, findObservations,
    triangulateLoop, optimize, marginalizeAll, exRun0, exRun1, exRun2, exKfFrame, exMeasure,
    exConfigKf, exConfig, initState, construct, mapSet, mapFind, setEmplace,
    LandmarkDatabase.landmarkExists, unorderedEmplace, connectedBelow, exTri, exProduct_twentieth, Flt.lt,
    getPoseStateWithLin, PoseStateWithLin.ofState, V3.dot, List.enum, List.enumFrom, linState,
    freshState]

theorem measure_exRun2 :
    measure exMeasure exConfigKf false 5 (exKfFrame 3) (some ⟨2, 1⟩) exRun2 = .ok exRun3 := by
  simp [measure, measureImu, associate, assocLoop, assocInner, assocStep, keyframeStep,
    keyframeRule, keyframeBranch, createLoop, createLandmark, newLandmark, findObservations,
    triangulateLoop, optimize, marginalizeAll, exRun0, exRun1, exRun2, exRun3, exKfFrame,
    exMeasure, exConfigKf, exConfig, initState, construct, mapSet, mapFind, setEmplace,
    LandmarkDatabase.landmarkExists, unorderedEmplace, connectedBelow, exTri, exProduct_twentieth, Flt.lt,
    getPoseStateWithLin, PoseStateWithLin.ofState, V3.dot, List.enum, List.enumFrom, linState,
    freshState]

theorem measure_exRun3 :
    measure exMeasure exConfigKf false 5 (exKfFrame 4) (some ⟨3, 1⟩) exRun3 = .ok exRun4 := by
  simp [measure, measureImu, associate, assocLoop, assocInner, assocStep, keyframeStep,
    keyframeRule, keyframeBranch, createLoop, createLandmark, newLandmark, findObservations,
    triangulateLoop, optimize, marginalizeAll, exRun0, exRun1, exRun2, exRun3, exRun4, exKfFrame,
    exMeasure, exConfigKf, exConfig, initState, construct, mapSet, mapFind, setEmplace,
    LandmarkDatabase.landmarkExists, unorderedEmplace, connectedBelow, exTri, exProduct_twentieth, Flt.lt,
    getPoseStateWithLin, PoseStateWithLin.ofState, V3.dot, List.enum, List.enumFrom, linState,
    freshState]

theorem marginalizeAll_fault (F : MathFns) (M : MargNumerics) (npc : List (Int × Int))
    (fuel : Nat) (s : VioState) (f : Fault) (h : marginalize F npc fuel s.est = .error f) :
    marginalizeAll F M npc fuel s = .error f := by
  unfold marginalize at h
  unfold marginalizeAll
  split_ifs at h ⊢ with h1 h2
  cases hp : margPlan F npc fuel s.est with
  | error f' =>
    rw [hp] at h
    simp only [Except.error.injEq] at h ⊢
    exact h
  | ok p =>
    rw [hp] at h
    simp only at h ⊢
    rw [h]

/-- A call of `measure` whose steps return up to `optimize` and whose
marginalization ends with a fault ends with that fault. -/
theorem measure_fault (X : MeasureNumerics) (config : VioConfig) (q : Bool) (fuel : Nat)
    (m : OpticalFlowResult) (meas : Option IntegratedImuMeasurement) (s : MeasureState)
    (s1 : VioState) (a : Assoc) (s4 s5 : VioState) (f : Fault)
    (h1 : measureImu X m meas s.estimator = .ok s1) (h2 : associate m s1.lmdb = .ok a)
    (h3 : keyframeStep X config m (mapSet m.t_ns m s.flow) a.unconnected_obs0
      (keyframeRule config a.connected0 a.unconnected_obs0
        { s1 with
          lmdb := a.lmdb
          est := { s1.est with
                   prev_opt_flow_res := setEmplace m.t_ns s1.est.prev_opt_flow_res } }) = .ok s4)
    (h4 : optimize X.N config s4 = .ok s5)
    (h5 : marginalizeAll X.F X.M a.num_points_connected fuel s5 = .error f) :
    measure X config q fuel m meas s = .error f := by
  unfold measure
  rw [h1]
  simp only
  rw [h2]
  simp only
  rw [h3]
  simp only
  rw [h4]
  simp only
  rw [h5]

theorem marginalize_exRun5 : marginalize lineMath [] 5 exRun5.est = .error (.assertion 807) := by
  decide

theorem selectKf_exRun5 : selectKf lineMath [] exRun5.est [1, 3, 5] = .ok 1 := by
  decide

theorem optimize_exRun5 : optimize (exNumerics 1) exConfigKf exRun5Pre = .ok exRun5 := by
  have ho : optimizeOrder exRun5Pre.est.marg_order (mapKeys exRun5Pre.est.frame_poses)
      (mapKeys exRun5Pre.est.frame_states) = .ok
        { abs_order_map := [(1, (0, 15)), (2, (15, 15)), (3, (30, 15)), (4, (45, 15)), (5, (60, 15))]
          items := 5, total_size := 75 } := by decide
  unfold optimize
  rw [if_pos (Or.inr (by decide))]
  unfold optimizeRun
  rw [ho]
  simp [optIterations, optIteration, levenbergMarquardt, lmWhile, lmTrial, lmStepped,
    applyIncrement, applyPoses, applyStates, exNumerics, exNumericsAt, exMul, exSub, exValue,
    Flt.lt, Flt.stdMax, exRun5, exRun5Pre, exRun4, exRun3,
    exRun2, exRun1, exRun0, exConfigKf, exConfig, mapAt,
    mapFind, initState, construct, mapSet, LandmarkDatabase.setPositions,
    LandmarkDatabase.backup, KeypointPosition.backup, dampingVector, stdMax, stdMin, maxAbsCoeff,
    linState, freshState]
  norm_num

theorem measure_exRun4 :
    measure exMeasure exConfigKf false 5 (exKfFrame 5) (some ⟨4, 1⟩) exRun4
      = .error (.assertion 807) := by
  refine measure_fault exMeasure exConfigKf false 5 (exKfFrame 5) (some ⟨4, 1⟩) exRun4
    { exRun4.estimator with
      est := { exRun4.estimator.est with
               last_state_t_ns := 5
               frame_states :=
                 [(1, linState), (2, freshState), (3, freshState), (4, freshState),
                  (5, freshState)]
               imu_meas := [1, 2, 3, 4] } }
    { lmdb := {}, connected0 := 0, num_points_connected := [], unconnected_obs0 := [7] }
    exRun5Pre exRun5 (.assertion 807) ?_ ?_ ?_ optimize_exRun5
    (marginalizeAll_fault _ _ _ _ _ _ marginalize_exRun5)
  · simp [measureImu, exRun4, exRun3, exRun2, exRun1, exRun0, exKfFrame, exMeasure, initState,
      construct, mapSet, mapFind, setEmplace, linState, freshState]
  · simp [associate, assocLoop, assocInner, assocStep, exKfFrame, exRun4, exRun3, exRun2, exRun1,
      exRun0, initState, construct, LandmarkDatabase.landmarkExists, mapFind, unorderedEmplace]
  · simp [keyframeStep, keyframeRule, keyframeBranch, createLoop, createLandmark, newLandmark,
      findObservations, triangulateLoop, exRun5Pre, exRun4, exRun3, exRun2, exRun1, exRun0,
      exKfFrame, exMeasure, exConfigKf, exConfig, initState, construct, mapSet, mapFind,
      setEmplace, connectedBelow, exTri, exProduct_twentieth, Flt.lt, getPoseStateWithLin, PoseStateWithLin.ofState, V3.dot,
      List.enum, List.enumFrom, linState, freshState]

theorem associate_exFlow5 : associate exFlow5 {} = .ok
    { lmdb := {}, connected0 := 0, num_points_connected := [], unconnected_obs0 := [7] } := by
  simp [associate, assocLoop, assocInner, assocStep, exFlow5, LandmarkDatabase.landmarkExists,
    mapFind, unorderedEmplace]

theorem keyframeStep_exKfState :
    keyframeStep exMeasure exConfig exFlow5 (mapSet exFlow5.t_ns exFlow5 [(4, exFlow4)]) [7]
      exKfState = .ok exKfAfter := by
  have hprev : mapSet exFlow5.t_ns exFlow5 [(4, exFlow4)] = exPrev := by
    simp [mapSet, exFlow5, exPrev]
  have hn : newLandmark exMeasure.T exConfig exTriStates [] exFlow5 exPrev 7 = .ok exTriResult :=
    newLandmark_exPrev
  have hb : keyframeBranch exKfState =
      ({ exKfState with take_kf := false, est := { exKfState.est with kf_ids := [5] } }, true) := by
    simp [keyframeBranch, exKfState, construct, setEmplace]
  rw [hprev]
  unfold keyframeStep
  rw [hb]
  simp only [if_true, createLoop, createLandmark]
  have e1 : exKfState.est.frame_states = exTriStates := rfl
  have e2 : exKfState.est.frame_poses = [] := rfl
  simp only [e1, e2, hn]
  simp [exTriResult, storeCall, LandmarkDatabase.addLandmark, LandmarkDatabase.landmarkExists,
    addObservations, LandmarkDatabase.addObservation, findObservations, exPrev, exFlow4, exFlow5,
    mapFind, mapSet, tcUpdate, tcLt, setEmplace, List.enum, List.enumFrom, exKfAfter, exKfState,
    construct]
/-! ## The claims -/

/-- C1: in a marginalization round (sorted frame maps with no common
timestamp), the index sets computed from the round's AbsOrderMap are
disjoint, their union is exactly `{0, ..., aom.total_size - 1}`, hence
`idx_to_keep` is the complement of `idx_to_marg` in that range and
`|idx_to_keep| = total_size - |idx_to_marg|`. -/
theorem C1_index_sets_partition (F : MathFns) (npc : List (Int × Int)) (fuel : Nat)
    (s : Estimator) (p : MargPlan)
    (hFS : (mapKeys s.frame_states).Sorted (· < ·)) (hFP : (mapKeys s.frame_poses).Sorted (· < ·))
    (hdisj : ∀ k ∈ mapKeys s.frame_poses, k ∉ mapKeys s.frame_states)
    (h : margPlan F npc fuel s = .ok p) :
    Disjoint p.idx_to_keep p.idx_to_marg ∧
    p.idx_to_keep ∪ p.idx_to_marg = Finset.range p.aom.total_size ∧
    p.idx_to_keep = Finset.range p.aom.total_size \ p.idx_to_marg ∧
    p.idx_to_keep.card = p.aom.total_size - p.idx_to_marg.card := by
  obtain ⟨hd, hu⟩ := idx_partition F npc fuel s p hFS hFP hdisj h
  have hcard : p.idx_to_keep.card + p.idx_to_marg.card = p.aom.total_size := by
    rw [← Finset.card_union_of_disjoint hd, hu, Finset.card_range]
  refine ⟨hd, hu, ?_, by omega⟩
  rw [← hu, Finset.union_sdiff_right]
  exact (Finset.sdiff_eq_self_of_disjoint hd).symm

/-- Witness of C1: the round planned for `exBefore` (42 indices, 27 kept,
15 marginalized). -/
theorem C1_index_sets_partition_witness :
    Disjoint exPlan.idx_to_keep exPlan.idx_to_marg ∧
    exPlan.idx_to_keep ∪ exPlan.idx_to_marg = Finset.range exPlan.aom.total_size ∧
    exPlan.idx_to_keep = Finset.range exPlan.aom.total_size \ exPlan.idx_to_marg ∧
    exPlan.idx_to_keep.card = exPlan.aom.total_size - exPlan.idx_to_marg.card :=
  C1_index_sets_partition lineMath [] 1 exBefore exPlan (by decide) (by decide) (by decide) rfl

/-- C2 (defect): at `exFiveStates` the hypotheses of the claim hold (frame
maps disjoint, every pose-only frame a keyframe, a round is due), the first
selection stage picks keyframe 1, which is still a full state and is being
demoted in the same round; the index loop keeps its 6 pose indices (27 kept
indices in all), the bookkeeping then erases it from `frame_poses`, so the new
order has `total_size = 6 * 1 + 15 = 21` and the assertion
`marg_H.cols() == marg_order.total_size` of line 807 fails. -/
theorem C2_prior_size_assertion_fails :
    (∀ k ∈ mapKeys exFiveStates.frame_poses, k ∉ mapKeys exFiveStates.frame_states) ∧
    (∀ k ∈ mapKeys exFiveStates.frame_poses, k ∈ exFiveStates.kf_ids) ∧
    exFiveStates.opt_started = true ∧
    exFiveStates.frame_states.length ≥ exFiveStates.max_states ∧
    (margPlan lineMath [] 1 exFiveStates).map
        (fun p => (p.kfs_to_marg, p.states_to_marg_vel_bias, p.idx_to_keep.card))
      = .ok ([1], [1, 3], 27) ∧
    (margOrderNew [3] 4).total_size = 21 ∧
    marginalize lineMath [] 1 exFiveStates = .error (.assertion 807) := by
  refine ⟨by decide, by decide, rfl, by decide, by decide, by decide, by decide⟩

/-- C3: the AbsOrderMap built by the order loops of `optimize` (first
conjunct) and of `marginalize` (second conjunct, where the state loop stops
after `last_state_to_marg`) lays the visited frames out without gap or
overlap, provided no timestamp is a key of both frame maps: `items` and the
number of entries equal the number of visited frames, the entry of the `n`-th
visited frame is (sum of the block sizes visited before it, its block size),
and `total_size` is the sum of all block sizes. The third conjunct spells the
offsets out: they start at 0, strictly increase in visiting order, each block
starts where the previous one ends, and the last one ends at
`6 * #poses + 15 * #states`. -/
theorem C3_order_map_tiles (marg_order : AbsOrderMap) (kf_ids : List Int)
    (last_state_to_marg : Int) (poseKeys stateKeys : List Int)
    (hP : poseKeys.Sorted (· < ·)) (hS : stateKeys.Sorted (· < ·))
    (hdisj : ∀ k ∈ poseKeys, k ∉ stateKeys) :
    (∀ aom, optimizeOrder marg_order poseKeys stateKeys = .ok aom →
      Tiles aom (visitBlocks poseKeys stateKeys)) ∧
    (∀ pl sp, margPoseLoop marg_order kf_ids poseKeys ({}, []) = .ok pl →
      margStateLoop marg_order kf_ids last_state_to_marg stateKeys
        { aom := pl.1, states_to_marg_vel_bias := [], states_to_marg_all := [] } = .ok sp →
      Tiles sp.aom
        (visitBlocks poseKeys (stateKeys.takeWhile (fun k => decide (k ≤ last_state_to_marg))))) ∧
    (∀ visited : List Int,
      visitOffset (visitBlocks poseKeys visited) 0 = 0 ∧
      (∀ m n, m < n → n < (visitBlocks poseKeys visited).length →
        visitOffset (visitBlocks poseKeys visited) m
          < visitOffset (visitBlocks poseKeys visited) n) ∧
      (∀ n (h : n < (visitBlocks poseKeys visited).length),
        visitOffset (visitBlocks poseKeys visited) (n + 1)
          = visitOffset (visitBlocks poseKeys visited) n
            + ((visitBlocks poseKeys visited)[n]).2) ∧
      visitOffset (visitBlocks poseKeys visited) (visitBlocks poseKeys visited).length
        = 6 * poseKeys.length + 15 * visited.length) := by
  refine ⟨?_, ?_, ?_⟩
  · intro aom h
    rw [optimizeOrder_ok _ _ _ _ h]
    apply tiles_pushAll
    rw [visitBlocks_keys]
    exact nodup_of_sorted_disjoint _ _ hP hS hdisj
  · intro pl sp h1 h2
    have e1 := (margPoseLoop_ok _ _ _ _ _ h1).1
    have e2 := (margStateLoop_ok _ _ _ _ _ _ h2).1
    simp only at e1 e2
    rw [e2, e1, ← pushAll_append]
    apply tiles_pushAll
    rw [show List.map (fun k => (k, POSE_SIZE)) poseKeys ++
        List.map (fun k => (k, POSE_VEL_BIAS_SIZE))
          (List.takeWhile (fun k => decide (k ≤ last_state_to_marg)) stateKeys)
        = visitBlocks poseKeys
          (List.takeWhile (fun k => decide (k ≤ last_state_to_marg)) stateKeys) from rfl,
      visitBlocks_keys]
    refine nodup_of_sorted_disjoint _ _ hP (sorted_takeWhile _ _ hS) ?_
    intro k hk hk2
    exact hdisj k hk ((List.takeWhile_sublist _).subset hk2)
  · intro visited
    refine ⟨by simp [visitOffset], ?_, ?_, ?_⟩
    · intro m n hmn hn
      exact visitOffset_lt _ (visitBlocks_size_pos _ _) m n hmn (le_of_lt hn)
    · intro n h
      exact visitOffset_succ _ n h
    · exact visitOffset_total _ _

/-- Witness of C3: one pose-only frame and two full states, checked against
the order of the previous prior. -/
theorem C3_order_map_tiles_witness :
    Tiles { abs_order_map := [(10, (0, 6)), (20, (6, 15)), (21, (21, 15))]
            items := 3, total_size := 36 }
      (visitBlocks [10] [20, 21]) :=
  (C3_order_map_tiles { abs_order_map := [(10, (0, 6)), (20, (6, 15))], items := 2, total_size := 21 }
    [10, 20] 20 [10] [20, 21] (by decide) (by decide) (by decide)).1 _ (by decide)

/-- C4: the `marg_order` written by a marginalization round that returns
(sorted frame maps with no common timestamp) is structurally consistent with
the order maps of the next `optimize` and of the next `marginalize` (whatever
state `last'` of the window its state loop stops after, whatever `kf_ids'`)
once newer full states `newer` have been appended (one in the claim, any
number here): no order assertion fails and every frame named by `marg_order`
has the identical (offset, size) pair in the new map. The second conjunct is
the same for the `marg_order` set at initialization, the single entry
`t_ns -> (0, 15)`, with no pose-only frame. -/
theorem C4_marg_order_consistent (F : MathFns) (npc : List (Int × Int)) (fuel : Nat)
    (s s' : Estimator) (newer kf_ids' : List Int) (last' : Int)
    (hFS : (mapKeys s.frame_states).Sorted (· < ·)) (hFP : (mapKeys s.frame_poses).Sorted (· < ·))
    (hdisj : ∀ k ∈ mapKeys s.frame_poses, k ∉ mapKeys s.frame_states)
    (hopt : s.opt_started = true)
    (hround : s.frame_poses.length > s.max_kfs ∨ s.frame_states.length ≥ s.max_states)
    (h : marginalize F npc fuel s = .ok s')
    (hnew : (mapKeys s'.frame_states ++ newer).Sorted (· < ·))
    (hnp : ∀ k ∈ newer, k ∉ mapKeys s'.frame_poses)
    (hlast' : last' ∈ mapKeys s'.frame_states ++ newer) :
    OrderConsistent s'.marg_order kf_ids' last' (mapKeys s'.frame_poses)
      (mapKeys s'.frame_states ++ newer) ∧
    (∀ (t_ns : Int) (later : List Int) (last0 : Int),
      (t_ns :: later).Sorted (· < ·) → last0 ∈ t_ns :: later →
      OrderConsistent (initMargOrder t_ns) kf_ids' last0 [] (t_ns :: later)) := by
  constructor
  · obtain ⟨p, hp, hc⟩ := marginalize_round F npc fuel s s' hopt hround h
    obtain ⟨-, -, c3, c4, -⟩ := margCommit_ok s s' p hc
    obtain ⟨rest, hrest⟩ := round_states_head F npc fuel s s' p hFS hp hc
    have hd' := round_disjoint s s' p hdisj hc
    rw [c4, margOrderNew_eq, hrest, List.cons_append]
    rw [hrest, List.cons_append] at hnew hlast'
    apply orderConsistent_of_prior
    · rw [List.nodup_append]
      refine ⟨(c3 hFP).nodup, hnew.nodup, ?_⟩
      intro x hx hx'
      have : x ∈ mapKeys s'.frame_states ++ newer := by
        rw [hrest, List.cons_append]
        exact hx'
      rcases List.mem_append.1 this with h1 | h1
      · exact hd' x hx h1
      · exact hnp x h1 hx
    · rcases List.mem_cons.1 hlast' with h1 | h1
      · exact le_of_eq h1.symm
      · exact le_of_lt ((List.sorted_cons.1 hnew).1 _ h1)
  · intro t_ns later last0 hs hl
    have e : initMargOrder t_ns = pushAll (visitBlocks [] [t_ns]) {} := rfl
    rw [e]
    apply orderConsistent_of_prior
    · simpa using hs.nodup
    · rcases List.mem_cons.1 hl with h1 | h1
      · exact le_of_eq h1.symm
      · exact le_of_lt ((List.sorted_cons.1 hs).1 _ h1)

/-- Witness of C4: after the round from `exBefore` to `exAfter` the frame with
timestamp 33 arrives; the next round stops after state 32. -/
theorem C4_marg_order_consistent_witness :
    OrderConsistent exAfter.marg_order [20, 30, 33] 32 (mapKeys exAfter.frame_poses)
      (mapKeys exAfter.frame_states ++ [33]) ∧
    (∀ (t_ns : Int) (later : List Int) (last0 : Int),
      (t_ns :: later).Sorted (· < ·) → last0 ∈ t_ns :: later →
      OrderConsistent (initMargOrder t_ns) [20, 30, 33] last0 [] (t_ns :: later)) :=
  C4_marg_order_consistent lineMath [] 1 exBefore exAfter [33] [20, 30, 33] 32 (by decide)
    (by decide) (by decide) (by decide) (by decide) (by decide) (by decide) (by decide)
    (by decide)

/-- C5: disjointness of the two frame maps is preserved by `marginalize`: if
no timestamp is a key of both `frame_poses` and `frame_states` before the
call, none is afterwards; `marginalize` inserts no key into `frame_states`,
and every key new in `frame_poses` was a key of `frame_states` (frames only
move from full to pose-only). -/
theorem C5_frame_maps_stay_disjoint (F : MathFns) (npc : List (Int × Int)) (fuel : Nat)
    (s s' : Estimator)
    (hdisj : ∀ k ∈ mapKeys s.frame_poses, k ∉ mapKeys s.frame_states)
    (h : marginalize F npc fuel s = .ok s') :
    (∀ k ∈ mapKeys s'.frame_poses, k ∉ mapKeys s'.frame_states) ∧
    (∀ k ∈ mapKeys s'.frame_states, k ∈ mapKeys s.frame_states) ∧
    (∀ k ∈ mapKeys s'.frame_poses, k ∈ mapKeys s.frame_poses ∨ k ∈ mapKeys s.frame_states) := by
  rcases marginalize_cases F npc fuel s s' h with rfl | ⟨p, hp, hc⟩
  · exact ⟨hdisj, fun k hk => hk, fun k hk => Or.inl hk⟩
  · obtain ⟨c1, c2, -⟩ := margCommit_ok s s' p hc
    obtain ⟨-, -, p3, -⟩ := margPlan_ok F npc fuel s p hp
    refine ⟨?_, ?_, ?_⟩
    · intro k hk hk'
      rw [c1, List.mem_filter] at hk'
      rw [c2] at hk
      simp only [Bool.and_eq_true, decide_eq_true_eq] at hk'
      rcases hk.1 with h1 | h1
      · exact hdisj k h1 hk'.1
      · exact hk'.2.2 h1
    · intro k hk
      rw [c1] at hk
      exact (List.mem_filter.1 hk).1
    · intro k hk
      rw [c2] at hk
      rcases hk.1 with h1 | h1
      · exact Or.inl h1
      · exact Or.inr ((List.takeWhile_sublist _).subset ((p3 k).1 h1).1)

/-- Witness of C5: the round that takes `exBefore` to `exAfter`. -/
theorem C5_frame_maps_stay_disjoint_witness :
    (∀ k ∈ mapKeys exAfter.frame_poses, k ∉ mapKeys exAfter.frame_states) ∧
    (∀ k ∈ mapKeys exAfter.frame_states, k ∈ mapKeys exBefore.frame_states) ∧
    (∀ k ∈ mapKeys exAfter.frame_poses,
      k ∈ mapKeys exBefore.frame_poses ∨ k ∈ mapKeys exBefore.frame_states) :=
  C5_frame_maps_stay_disjoint lineMath [] 1 exBefore exAfter (by decide) (by decide)

/-- In a marginalization round that returns (sorted frame maps with no
common timestamp), every full state strictly older than `last_state_to_marg`
has a 15-wide block in the order map of the round and
* if it is a keyframe (in `kf_ids` at the start of the round), it has left
  `frame_states` and is in `frame_poses`; of its block exactly the 6 pose
  indices are in `idx_to_keep` and exactly the 9 velocity/bias indices are in
  `idx_to_marg`;
* if it is not a keyframe, it is in neither map and all 15 indices of its
  block are in `idx_to_marg`, none in `idx_to_keep`.
That a demoted keyframe is still in `frame_poses` rests on the assertion of
line 807 having passed. -/
theorem round_older_states (F : MathFns) (npc : List (Int × Int)) (fuel : Nat)
    (s s' : Estimator)
    (hFS : (mapKeys s.frame_states).Sorted (· < ·)) (hFP : (mapKeys s.frame_poses).Sorted (· < ·))
    (hdisj : ∀ k ∈ mapKeys s.frame_poses, k ∉ mapKeys s.frame_states)
    (hopt : s.opt_started = true)
    (hround : s.frame_poses.length > s.max_kfs ∨ s.frame_states.length ≥ s.max_states)
    (h : marginalize F npc fuel s = .ok s') :
    ∃ p, margPlan F npc fuel s = .ok p ∧
      ∀ k ∈ mapKeys s.frame_states, k < p.last_state_to_marg →
        ∃ off, mapFind k p.aom.abs_order_map = some (off, 15) ∧
          (k ∈ s.kf_ids →
            k ∉ mapKeys s'.frame_states ∧ k ∈ mapKeys s'.frame_poses ∧
            ∀ i, off ≤ i → i < off + 15 →
              ((i ∈ p.idx_to_keep ↔ i < off + 6) ∧ (i ∈ p.idx_to_marg ↔ off + 6 ≤ i))) ∧
          (k ∉ s.kf_ids →
            k ∉ mapKeys s'.frame_states ∧ k ∉ mapKeys s'.frame_poses ∧
            ∀ i, off ≤ i → i < off + 15 → (i ∈ p.idx_to_marg ∧ i ∉ p.idx_to_keep)) := by
  obtain ⟨p, hp, hc⟩ := marginalize_round F npc fuel s s' hopt hround h
  refine ⟨p, hp, ?_⟩
  intro k hk hlt
  obtain ⟨c1, c2, -⟩ := margCommit_ok s s' p hc
  obtain ⟨-, -, p3, p4, -⟩ := margPlan_ok F npc fuel s p hp
  obtain ⟨-, hkeep, hmarg, -⟩ := margPlan_idx F npc fuel s p hFS hFP hdisj hp
  obtain ⟨hd, -⟩ := idx_partition F npc fuel s p hFS hFP hdisj hp
  have hvis : k ∈ (mapKeys s.frame_states).takeWhile
      (fun k => decide (k ≤ p.last_state_to_marg)) :=
    (mem_takeWhile_le_of_sorted _ _ _ hFS).2 ⟨hk, le_of_lt hlt⟩
  obtain ⟨off, hoff⟩ := margPlan_state_entry F npc fuel s p hFS hFP hdisj hp k hvis
  have hmem := mapFind_mem _ _ _ hoff
  have hne : k ≠ p.last_state_to_marg := ne_of_lt hlt
  have h615 : ¬ POSE_VEL_BIAS_SIZE = POSE_SIZE := by decide
  have hK : keepPart p.poses_to_marg p.states_to_marg_all p.states_to_marg_vel_bias
      (k, (off, POSE_VEL_BIAS_SIZE)) ⊆ p.idx_to_keep := by
    intro x hx
    rw [hkeep, mem_listUnion]
    exact ⟨_, List.mem_map.2 ⟨_, hmem, rfl⟩, hx⟩
  have hM : margPart p.poses_to_marg p.states_to_marg_all p.states_to_marg_vel_bias
      (k, (off, POSE_VEL_BIAS_SIZE)) ⊆ p.idx_to_marg := by
    intro x hx
    rw [hmarg, mem_listUnion]
    exact ⟨_, List.mem_map.2 ⟨_, hmem, rfl⟩, hx⟩
  refine ⟨off, hoff, ?_, ?_⟩
  · intro hkf
    have hvb : k ∈ p.states_to_marg_vel_bias := (p3 k).2 ⟨hvis, hne, hkf⟩
    have hna : k ∉ p.states_to_marg_all := fun hh => ((p4 k).1 hh).2.2 hkf
    have hnp : k ∉ p.poses_to_marg :=
      round_keeps_demoted F npc fuel s s' p hFS hFP hdisj hp hc k hvb
    refine ⟨?_, ?_, ?_⟩
    · rw [c1, List.mem_filter]
      simp [hvb]
    · rw [c2]
      exact ⟨Or.inr hvb, hnp⟩
    · intro i hi1 hi2
      simp only [keepPart, margPart, h615, hna, hvb, if_true, if_false] at hK hM
      have hk6 : i < off + 6 → i ∈ p.idx_to_keep := fun h6 =>
        hK (by simp only [Finset.mem_Ico, POSE_SIZE]; omega)
      have hm6 : off + 6 ≤ i → i ∈ p.idx_to_marg := fun h6 =>
        hM (by simp only [Finset.mem_Ico, POSE_SIZE, POSE_VEL_BIAS_SIZE]; omega)
      constructor
      · constructor
        · intro hin
          by_contra hge
          exact Finset.disjoint_left.1 hd hin (hm6 (by omega))
        · exact hk6
      · constructor
        · intro hin
          by_contra hge
          exact Finset.disjoint_left.1 hd (hk6 (by omega)) hin
        · exact hm6
  · intro hkf
    have hna : k ∈ p.states_to_marg_all := (p4 k).2 ⟨hvis, hne, hkf⟩
    have hnvb : k ∉ p.states_to_marg_vel_bias := fun hh => hkf ((p3 k).1 hh).2.2
    refine ⟨?_, ?_, ?_⟩
    · rw [c1, List.mem_filter]
      simp [hna]
    · rw [c2]
      rintro ⟨h1 | h1, -⟩
      · exact hdisj k h1 hk
      · exact hnvb h1
    · intro i hi1 hi2
      simp only [margPart, h615, hna, if_true, if_false] at hM
      have hin : i ∈ p.idx_to_marg :=
        hM (by simp only [Finset.mem_Ico, POSE_VEL_BIAS_SIZE]; omega)
      exact ⟨hin, fun hk' => Finset.disjoint_left.1 hd hk' hin⟩

/-- The bookkeeping of lines 759-782 is the one `margCommit` applies: a round
that returns has the frame maps of `margFrames`. -/
theorem margCommit_frames (s s' : Estimator) (p : MargPlan) (h : margCommit s p = .ok s') :
    margFrames s p = .ok (s'.frame_states, s'.frame_poses) := by
  unfold margCommit at h
  unfold margFrames
  split at h
  · cases h
  · split at h
    · cases h
    · simp only at h
      split at h
      · simp only [Except.ok.injEq] at h
        subst h
        rfl
      · cases h

/-- C6 (defect): at `exFiveStates` a round is due and its plan has
`last_state_to_marg = 4`. The full state 1 is older and is a keyframe; its
block is `(0, 15)`, its 6 pose indices 0..5 are in `idx_to_keep` and its 9
velocity/bias indices 6..14 in `idx_to_marg`, as the claim says. But the
first selection stage picked keyframe 1 for removal in the same round
(`kfs_to_marg = poses_to_marg = [1]`): lines 764-771 demote it into
`frame_poses` and lines 773-777 erase it from there, so the bookkeeping
leaves `frame_states = {4, 5}` and `frame_poses = {3}`, and frame 1 is in
neither map, where the claim has it in `frame_poses`. The round then ends in
the assertion of line 807. -/
theorem C6_demoted_keyframe_removed :
    exFiveStates.opt_started = true ∧
    exFiveStates.frame_states.length ≥ exFiveStates.max_states ∧
    (1 ∈ mapKeys exFiveStates.frame_states ∧ 1 ∈ exFiveStates.kf_ids) ∧
    (margPlan lineMath [] 1 exFiveStates).map
        (fun p => (p.last_state_to_marg, p.kfs_to_marg, p.poses_to_marg))
      = .ok (4, [1], [1]) ∧
    (margPlan lineMath [] 1 exFiveStates).map
        (fun p => (p.states_to_marg_all, p.states_to_marg_vel_bias,
          mapFind 1 p.aom.abs_order_map))
      = .ok ([2], [1, 3], some (0, 15)) ∧
    (margPlan lineMath [] 1 exFiveStates).map
        (fun p => ((List.range 15).filter (fun i => i ∈ p.idx_to_keep),
          (List.range 15).filter (fun i => i ∈ p.idx_to_marg)))
      = .ok ([0, 1, 2, 3, 4, 5], [6, 7, 8, 9, 10, 11, 12, 13, 14]) ∧
    ((margPlan lineMath [] 1 exFiveStates).bind (margFrames exFiveStates)).map
        (fun m => (mapKeys m.1, mapKeys m.2))
      = .ok ([4, 5], [3]) ∧
    marginalize lineMath [] 1 exFiveStates = .error (.assertion 807) := by
  refine ⟨rfl, by decide, by decide, by decide, by decide, by decide, by decide, by decide⟩

/-- C7: for `max_states >= 2`, a call of `marginalize` with `opt_started` set
and `n = frame_states.size() >= max_states` (the size fitting the `int` it is
converted to) that returns has removed exactly the `n - max_states + 1`
oldest full states: the keys left are the `max_states - 1` newest ones, so
when `last_state_t_ns` is the newest key the lookup of the published state
succeeds. -/
theorem C7_oldest_states_leave (F : MathFns) (npc : List (Int × Int)) (fuel : Nat)
    (s s' : Estimator)
    (hFS : (mapKeys s.frame_states).Sorted (· < ·))
    (hopt : s.opt_started = true) (hms : 2 ≤ s.max_states)
    (hn : s.max_states ≤ s.frame_states.length) (hint : s.frame_states.length < 2 ^ 31)
    (h : marginalize F npc fuel s = .ok s') :
    mapKeys s'.frame_states
      = (mapKeys s.frame_states).drop (s.frame_states.length - s.max_states + 1) ∧
    s'.frame_states.length = s.max_states - 1 ∧
    ((mapKeys s.frame_states).getLast? = some s.last_state_t_ns →
      ∃ st, publishState s' = .ok st) := by
  obtain ⟨p, hp, hc⟩ := marginalize_round F npc fuel s s' hopt (Or.inr hn) h
  obtain ⟨c1, -, -, -, -, -, -, -, -, c10⟩ := margCommit_ok s s' p hc
  obtain ⟨p1, -, p3, p4, -⟩ := margPlan_ok F npc fuel s p hp
  have hlen : (mapKeys s.frame_states).length = s.frame_states.length := by simp [mapKeys]
  have hr : s.frame_states.length - s.max_states + 1 < (mapKeys s.frame_states).length := by
    omega
  rw [statesToRemove_eq _ _ hn hint (by omega)] at p1
  unfold lastStateToMarg at p1
  simp only [Int.toNat_ofNat] at p1
  rw [List.getElem?_eq_getElem hr] at p1
  simp only [Except.ok.injEq] at p1
  have key : mapKeys s'.frame_states
      = (mapKeys s.frame_states).drop (s.frame_states.length - s.max_states + 1) := by
    rw [c1, ← filter_ge_eq_drop _ hFS _ hr, p1]
    apply List.filter_congr
    intro k hk
    have e3 := p3 k
    have e4 := p4 k
    rw [takeWhile_eq_filter_of_sorted _ _ hFS, List.mem_filter] at e3 e4
    simp only [decide_eq_true_eq] at e3 e4
    by_cases hlt : p.last_state_to_marg ≤ k
    · have h3 : k ∉ p.states_to_marg_vel_bias := by
        intro hm
        have := e3.1 hm
        omega
      have h4 : k ∉ p.states_to_marg_all := by
        intro hm
        have := e4.1 hm
        omega
      simp [h3, h4, hlt]
    · have hne : k ≠ p.last_state_to_marg := by omega
      have hle : k ≤ p.last_state_to_marg := by omega
      by_cases hkf : k ∈ s.kf_ids
      · have : k ∈ p.states_to_marg_vel_bias := e3.2 ⟨⟨hk, hle⟩, hne, hkf⟩
        simp [this, hlt]
      · have : k ∈ p.states_to_marg_all := e4.2 ⟨⟨hk, hle⟩, hne, hkf⟩
        simp [this, hlt]
  have hlen' : s'.frame_states.length = s.max_states - 1 := by
    have : (mapKeys s'.frame_states).length = s'.frame_states.length := by simp [mapKeys]
    rw [← this, key, List.length_drop, hlen]
    omega
  refine ⟨key, hlen', ?_⟩
  intro hlast
  have hmem : s.last_state_t_ns ∈ mapKeys s'.frame_states := by
    rw [key]
    have hne : (mapKeys s.frame_states).drop (s.frame_states.length - s.max_states + 1) ≠ [] := by
      intro he
      have := congrArg List.length he
      simp only [List.length_drop, List.length_nil] at this
      omega
    have h1 := List.getLast?_drop (n := s.frame_states.length - s.max_states + 1)
      (l := mapKeys s.frame_states)
    rw [if_neg (by omega), hlast] at h1
    exact List.mem_of_getLast?_eq_some h1
  obtain ⟨st, hst⟩ := (mapFind_isSome_iff _ _).2 hmem
  exact ⟨st, by simp [publishState, mapAt, c10, hst]⟩

/-- Witness of C7: in `exBefore` three states meet `max_states = 3`; the
oldest one, 30, leaves, 31 and 32 stay, and the newest, 32, is published. -/
theorem C7_oldest_states_leave_witness :
    mapKeys exAfter.frame_states
      = (mapKeys exBefore.frame_states).drop
          (exBefore.frame_states.length - exBefore.max_states + 1) ∧
    exAfter.frame_states.length = exBefore.max_states - 1 ∧
    ((mapKeys exBefore.frame_states).getLast? = some exBefore.last_state_t_ns →
      ∃ st, publishState exAfter = .ok st) :=
  C7_oldest_states_leave lineMath [] 1 exBefore exAfter (by decide) (by decide) (by decide)
    (by decide) (by decide) (by decide)

/-- C8: the keyframe cap is an invariant of the `marginalize` step: if before
it `frame_poses.size() <= max_kfs` and every pose-only frame is in `kf_ids`,
then after a call that returns `frame_poses.size() <= max_kfs` and every
pose-only frame is in `kf_ids` again (so the invariant carries over to the
next call, `measure` only adding to `kf_ids` in between). -/
theorem C8_keyframe_cap (F : MathFns) (npc : List (Int × Int)) (fuel : Nat) (s s' : Estimator)
    (hFP : (mapKeys s.frame_poses).Sorted (· < ·))
    (hcap : s.frame_poses.length ≤ s.max_kfs)
    (hkf : ∀ k ∈ mapKeys s.frame_poses, k ∈ s.kf_ids)
    (h : marginalize F npc fuel s = .ok s') :
    s'.frame_poses.length ≤ s'.max_kfs ∧ s'.max_kfs = s.max_kfs ∧
    (∀ k ∈ mapKeys s'.frame_poses, k ∈ s'.kf_ids) := by
  rcases marginalize_cases F npc fuel s s' h with rfl | ⟨p, hp, hc⟩
  · exact ⟨hcap, rfl, hkf⟩
  · obtain ⟨-, c2, c3, -, -, -, c7, c8, -, -⟩ := margCommit_ok s s' p hc
    obtain ⟨-, -, p3, -, ⟨ptm0, hptm0, hsel⟩, -, -⟩ := margPlan_ok F npc fuel s p hp
    obtain ⟨q1, -, q3, -, -, -, q7⟩ := selectLoop_ok _ _ _ _ _ _ _ hsel
    simp only at q1 q3 q7
    have hsub : ∀ k ∈ mapKeys s'.frame_poses, k ∈ s'.kf_ids := by
      intro k hk
      rw [c7]
      rw [c2] at hk
      by_contra hnot
      have hin : k ∈ s.kf_ids := by
        rcases hk.1 with h1 | h1
        · exact hkf k h1
        · exact ((p3 k).1 h1).2.2
      exact hk.2 (q3 k hin hnot)
    refine ⟨?_, c8, hsub⟩
    have hlen : s'.frame_poses.length = (mapKeys s'.frame_poses).length := by simp [mapKeys]
    rw [hlen, c8]
    rcases q1 with hle | hempty
    · have hnd : (mapKeys s'.frame_poses).Nodup := (c3 hFP).nodup
      have : (mapKeys s'.frame_poses).length ≤ p.kf_ids.length :=
        (List.subperm_of_subset hnd (fun k hk => c7 ▸ hsub k hk)).length_le
      omega
    · have hsel0 := q7 hempty
      simp only [KfSelection.mk.injEq] at hsel0
      have hnd : (mapKeys s'.frame_poses).Nodup := (c3 hFP).nodup
      have hss : ∀ k ∈ mapKeys s'.frame_poses, k ∈ mapKeys s.frame_poses := by
        intro k hk
        rw [c2] at hk
        rcases hk.1 with h1 | h1
        · exact h1
        · rw [hempty] at h1
          simp at h1
      have : (mapKeys s'.frame_poses).length ≤ (mapKeys s.frame_poses).length :=
        (List.subperm_of_subset hnd hss).length_le
      have hl2 : (mapKeys s.frame_poses).length = s.frame_poses.length := by simp [mapKeys]
      omega

/-- Witness of C8: `exBefore` holds two pose-only keyframes under the cap 2;
after the round `exAfter` holds two again. -/
theorem C8_keyframe_cap_witness :
    exAfter.frame_poses.length ≤ exAfter.max_kfs ∧ exAfter.max_kfs = exBefore.max_kfs ∧
    (∀ k ∈ mapKeys exAfter.frame_poses, k ∈ exAfter.kf_ids) :=
  C8_keyframe_cap lineMath [] 1 exBefore exAfter (by decide) (by decide) (by decide) (by decide)

/-- C9 (defect): with keyframes 10, 20, 30, keyframe 10 having hosted 10
landmarks of which 5 are connected in the current frame, the fraction is
5/10 = 0.5, not below 0.05, yet the first stage selects keyframe 10: both
counts are `int`, so the quotient compared with 0.05 is the integer 0. -/
theorem C9_stage1_integer_quotient :
    stage1Loop [(10, 5)] [(10, 10), (20, 10), (30, 10)] [10, 20, 30] (candBound 3) = .ok 10 ∧
    ¬ ((5 : ℚ) / 10 < 0.05) := by
  constructor
  · have ht : stage1Test [(10, 5)] [(10, 10), (20, 10), (30, 10)] 10 = .ok true := by
      have := (stage1_quotient_lt 5 10 (by decide) (by decide)).2 (by decide)
      simp [stage1Test, mapFind, this]
    have hb : candBound 3 = 1 := by decide
    rw [hb]
    simp [stage1Loop, ht]
  · norm_num

/-- C10 (counterexample): for the keyframes of `exScorePoses` (`sqrt` exact
at the three distances to the newest keyframe) the second stage chooses
keyframe 1, although keyframe 3 has the strictly smaller score when the sum
is taken over the other candidates only, as the claim words it: the chosen
keyframe does not minimize the claimed score. -/
theorem C10_claimed_score_not_minimized :
    lineMath.sqrt 4 * lineMath.sqrt 4 = 4 ∧
    lineMath.sqrt (441 / 100) * lineMath.sqrt (441 / 100) = 441 / 100 ∧
    lineMath.sqrt 9 * lineMath.sqrt 9 = 9 ∧
    stage2 lineMath exScorePoses exScoreStates [1, 2, 3, 4, 5] = .ok 1 ∧
    claimedScore lineMath exScorePoses exScoreStates 5 [1, 2, 3] 3
      < claimedScore lineMath exScorePoses exScoreStates 5 [1, 2, 3] 1 ∧
    ¬ (∀ r, stage2 lineMath exScorePoses exScoreStates [1, 2, 3, 4, 5] = .ok r →
        ∀ j ∈ [(1 : Int), 2, 3],
          claimedScore lineMath exScorePoses exScoreStates 5 [1, 2, 3] r
            ≤ claimedScore lineMath exScorePoses exScoreStates 5 [1, 2, 3] j) := by
  have hs : stage2 lineMath exScorePoses exScoreStates [1, 2, 3, 4, 5] = .ok 1 := by
    have h := stage2_scan lineMath exScorePoses exScoreStates [1, 2, 3] 4 5 (by decide)
      (fun i hi => (mapFind_isSome_iff i exScorePoses).2 (by revert i; decide))
      ((mapFind_isSome_iff 5 exScoreStates).2 (by decide))
    have e : ([1, 2, 3] ++ [4, 5] : List Int) = [1, 2, 3, 4, 5] := rfl
    rw [e] at h
    rw [h]
    norm_num [List.foldl, scoreStep, codeScore, invDist, posOf, statePosOf, mapFind,
      exScorePoses, exScoreStates, linState, lineMath, vsub, DBL_MAX]
  have hc : claimedScore lineMath exScorePoses exScoreStates 5 [1, 2, 3] 3
      < claimedScore lineMath exScorePoses exScoreStates 5 [1, 2, 3] 1 := by
    norm_num [claimedScore, invDist, posOf, statePosOf, mapFind, exScorePoses, exScoreStates,
      linState, lineMath, vsub, List.filter]
  refine ⟨by norm_num [lineMath], by norm_num [lineMath], by norm_num [lineMath], hs, hc, ?_⟩
  intro hall
  exact absurd (hall 1 hs 3 (by decide)) (not_le.2 hc)

/-- C10 (as amended): in the second stage, with the keyframes other than the
two newest as candidates, every candidate in `frame_poses`, the newest
keyframe in `frame_states` and some candidate scoring below `DBL_MAX`, the
chosen keyframe minimizes
`codeScore i = sqrt(distance(i, newest keyframe)) * Σ_j 1 / (distance(i, j) + 1e-5)`
where `j` ranges over every candidate, `i` itself included, over exact
arithmetic; among several minimizers the earliest in keyframe order is
chosen (every earlier candidate scores strictly higher). -/
theorem C10_stage2_earliest_minimizer (F : MathFns) (fp : List (Int × PoseStateWithLin))
    (fs : List (Int × PoseVelBiasStateWithLin)) (cands : List Int) (second_newest newest : Int)
    (hsize : (cands ++ [second_newest, newest]).length < 2 ^ 64)
    (hfp : ∀ i ∈ cands, i ∈ mapKeys fp)
    (hfs : newest ∈ mapKeys fs)
    (hmin : ∃ i ∈ cands, codeScore F fp fs newest cands i < DBL_MAX) :
    ∃ n, ∃ hn : n < cands.length,
      stage2 F fp fs (cands ++ [second_newest, newest]) = .ok cands[n] ∧
      (∀ j ∈ cands, codeScore F fp fs newest cands cands[n] ≤ codeScore F fp fs newest cands j) ∧
      (∀ m (hm : m < cands.length), m < n →
        codeScore F fp fs newest cands cands[n] < codeScore F fp fs newest cands cands[m]) := by
  rw [stage2_scan F fp fs cands second_newest newest hsize
    (fun i hi => (mapFind_isSome_iff i fp).2 (hfp i hi)) ((mapFind_isSome_iff newest fs).2 hfs)]
  rcases scoreStep_foldl (codeScore F fp fs newest cands) cands (DBL_MAX, -1) with
    ⟨-, h2⟩ | ⟨n, hn, h1, -, h3, h4⟩
  · obtain ⟨i, hi, hlt⟩ := hmin
    exact absurd hlt (not_lt.2 (h2 i hi))
  · exact ⟨n, hn, by rw [h1], h3, h4⟩

/-- Witness of C10: the keyframes of `exScorePoses`; candidate 1 scores below
`DBL_MAX`. -/
theorem C10_stage2_earliest_minimizer_witness :
    ∃ n, ∃ hn : n < [(1 : Int), 2, 3].length,
      stage2 lineMath exScorePoses exScoreStates ([1, 2, 3] ++ [4, 5]) = .ok [(1 : Int), 2, 3][n] ∧
      (∀ j ∈ [(1 : Int), 2, 3],
        codeScore lineMath exScorePoses exScoreStates 5 [1, 2, 3] [(1 : Int), 2, 3][n]
          ≤ codeScore lineMath exScorePoses exScoreStates 5 [1, 2, 3] j) ∧
      (∀ m (hm : m < [(1 : Int), 2, 3].length), m < n →
        codeScore lineMath exScorePoses exScoreStates 5 [1, 2, 3] [(1 : Int), 2, 3][n]
          < codeScore lineMath exScorePoses exScoreStates 5 [1, 2, 3] [(1 : Int), 2, 3][m]) :=
  C10_stage2_earliest_minimizer lineMath exScorePoses exScoreStates [1, 2, 3] 4 5 (by decide)
    (by decide) (by decide)
    ⟨1, by decide, by
      norm_num [codeScore, invDist, posOf, statePosOf, mapFind, exScorePoses, exScoreStates,
        linState, lineMath, vsub, DBL_MAX]⟩


/-! ## Claims C11 to C20 -/

/-- C12: `optimize` and `marginalize` are gated on the window. While
`opt_started` is clear and fewer than 5 full states exist, both return the
estimator unchanged (frame maps, landmark store, prior, lambda and all the
rest). A call of `optimize` that returns with `opt_started` clear and at
least 5 full states sets `opt_started`; neither method clears it; and once
it is set, `optimize` runs its optimization block whatever the number of
full states. -/
theorem C12_gate_on_window (F : MathFns) (N : OptNumerics) (M : MargNumerics)
    (config : VioConfig) (npc : List (Int × Int)) (fuel : Nat) (s : VioState) :
    (s.est.opt_started = false → s.est.frame_states.length < 5 →
      optimize N config s = .ok s ∧ marginalizeAll F M npc fuel s = .ok s) ∧
    (s.est.opt_started = false → marginalizeAll F M npc fuel s = .ok s) ∧
    (∀ s', 5 ≤ s.est.frame_states.length → optimize N config s = .ok s' →
      s'.est.opt_started = true) ∧
    (s.est.opt_started = true →
      optimize N config s = optimizeRun N config s ∧
      (∀ s', optimize N config s = .ok s' → s'.est.opt_started = true) ∧
      (∀ s', marginalizeAll F M npc fuel s = .ok s' → s'.est.opt_started = true)) := by
  refine ⟨?_, ?_, ?_, ?_⟩
  · intro h0 h5
    constructor
    · unfold optimize
      rw [if_neg]
      rw [h0]
      simp only [Bool.false_eq_true, false_or, not_lt]
      omega
    · unfold marginalizeAll
      rw [if_pos h0]
  · intro h0
    unfold marginalizeAll
    rw [if_pos h0]
  · intro s' h5 h
    unfold optimize at h
    rw [if_pos (Or.inr (by omega))] at h
    exact optimizeRun_opt_started N config s s' h
  · intro h1
    have hopt : optimize N config s = optimizeRun N config s := by
      unfold optimize
      rw [if_pos (Or.inl h1)]
    refine ⟨hopt, ?_, ?_⟩
    · intro s' h
      rw [hopt] at h
      exact optimizeRun_opt_started N config s s' h
    · intro s' h
      rw [marginalizeAll_opt_started F M npc fuel s s' h]
      exact h1

/-- Witness of C12: right after `initialize` (one full state) both methods
return `exStarted` as it is; the call of `optimize` at five full states
returns `exFiveOptimized` with `opt_started` set; with `opt_started` set and
one full state, `optimize` runs its block. -/
theorem C12_gate_on_window_witness :
    (optimize (exNumerics 1) exConfig exStarted = .ok exStarted ∧
      marginalizeAll lineMath exMargNumerics [] 1 exStarted = .ok exStarted) ∧
    (optimize (exNumerics 1) exConfig exFiveFull = .ok exFiveOptimized ∧
      exFiveOptimized.est.opt_started = true) ∧
    optimize (exNumerics 1) exConfig exRunning = optimizeRun (exNumerics 1) exConfig exRunning :=
  ⟨(C12_gate_on_window lineMath (exNumerics 1) exMargNumerics exConfig [] 1 exStarted).1
      (by decide) (by decide),
    ⟨optimize_exFiveFull,
      (C12_gate_on_window lineMath (exNumerics 1) exMargNumerics exConfig [] 1 exFiveFull).2.2.1
        exFiveOptimized (by decide) optimize_exFiveFull⟩,
    ((C12_gate_on_window lineMath (exNumerics 1) exMargNumerics exConfig [] 1 exRunning).2.2.2
      (by decide)).1⟩

/-- C13 (counterexample): a trial of `exLoop` whose update leaves the window
`exStepped` at total cost 2, the cost before the step: the cost is not
lower. The claim has the step rejected, `lambda` grown to
`min(100, 2 * 1) = 2` and the window reverted; the trial accepts it: `step`
is set, the window is `exStepped` (the landmark moved from `dir = (0, 0)`,
`id = 1` to `dir = (1, 1)`, `id = 1/2`) and `lambda` is
`max(1, 1 / 3) = 1`. Line 975 rejects only when `f_diff < 0`. -/
theorem C13_equal_cost_accepted :
    lmStepped (exNumerics 2) exAom exWindow 1 exLoop.lambda [.num 4] exLoop.w = .ok exStepped ∧
    (exNumerics 2).after_error_total exAom exStepped = .num 2 ∧
    Flt.lt ((exNumerics 2).after_error_total exAom exStepped) (.num 2) = false ∧
    lmTrial (exNumerics 2) exAom exWindow 1 100 (.num 2) [.num 4] exLoop = .ok
      { w := exStepped, lambda := 1, lambda_vee := 2, step := true, max_iter := 9,
        converged := false } :=
  ⟨lmStepped_exWindow 2, rfl, by simp [exNumerics, exNumericsAt, Flt.lt], lmTrial_exLoop_equal⟩

/-- C13 (amended): a Levenberg-Marquardt trial that returns has applied the
increment to a checkpointed window `stepped`, and it accepts the step
exactly when the double comparison `f_diff < 0` of line 975 is false. With
IEEE 754 subtraction that is exactly when the comparison
`error_total < after_error_total` is false: when neither cost is NaN, the
step is accepted exactly when the cost after it is not higher than the cost
before it (lower or equal); a step one of whose costs is NaN is accepted.
An accepted step sets `lambda = max(min_lambda, lambda / 3)` and keeps
`stepped`; a rejected one sets `lambda = min(max_lambda, lambda_vee * lambda)`
and reverts: frames are the ones before the trial and the landmarks are
`stepped` after `restore`, with the parameters they had before the trial. -/
theorem C13_trial_accepts_unless_higher (N : OptNumerics) (aom : AbsOrderMap) (w0 : Window)
    (min_lambda max_lambda : ℚ) (error_total : Flt) (Hdiag : List Flt) (st st' : LmLoop)
    (hsub : SubSignExact N.sub)
    (hst : st.step = false)
    (h : lmTrial N aom w0 min_lambda max_lambda error_total Hdiag st = .ok st') :
    ∃ stepped, lmStepped N aom w0 min_lambda st.lambda Hdiag st.w = .ok stepped ∧
      (st'.step = true ↔
        Flt.lt (N.sub error_total (N.after_error_total aom stepped)) (.num 0) = false) ∧
      (st'.step = true ↔ Flt.lt error_total (N.after_error_total aom stepped) = false) ∧
      (error_total ≠ .nan → N.after_error_total aom stepped ≠ .nan →
        (st'.step = true ↔ Flt.le (N.after_error_total aom stepped) error_total = true)) ∧
      (error_total = .nan ∨ N.after_error_total aom stepped = .nan → st'.step = true) ∧
      (st'.step = true →
        st'.lambda = max min_lambda (st.lambda / 3) ∧ st'.w = stepped) ∧
      (st'.step = false →
        st'.lambda = min max_lambda (st.lambda_vee * st.lambda) ∧
        st'.w.frame_states = st.w.frame_states ∧ st'.w.frame_poses = st.w.frame_poses ∧
        st'.w.lmdb = stepped.lmdb.restore ∧
        st'.w.lmdb.positions = st.w.lmdb.positions) := by
  obtain ⟨stepped, hs, hc, _⟩ :=
    lmTrial_cases N aom w0 min_lambda max_lambda error_total Hdiag st st' h
  have hraw : st'.step = true ↔
      Flt.lt (N.sub error_total (N.after_error_total aom stepped)) (.num 0) = false := by
    rcases hc with ha | hr
    · exact ⟨fun _ => ha.1, fun _ => ha.2.1⟩
    · constructor
      · intro h1; rw [hr.2.1, hst] at h1; cases h1
      · intro h1; rw [hr.1] at h1; cases h1
  have hcmp : st'.step = true ↔ Flt.lt error_total (N.after_error_total aom stepped) = false := by
    rw [hraw, hsub]
  refine ⟨stepped, hs, hraw, hcmp, ?_, ?_, ?_, ?_⟩
  · intro h1 h2
    rw [hcmp]
    exact ⟨Flt.le_of_not_lt _ _ h1 h2, Flt.not_lt_of_le _ _⟩
  · intro h1
    rw [hcmp]
    rcases h1 with h1 | h1
    · rw [h1]; rfl
    · rw [h1]; cases error_total <;> rfl
  · intro h1
    rcases hc with ha | hr
    · exact ⟨ha.2.2.1, ha.2.2.2.2⟩
    · rw [hr.2.1, hst] at h1; cases h1
  · intro h0
    rcases hc with ha | hr
    · rw [ha.2.1] at h0; cases h0
    · exact ⟨hr.2.2.1, hr.2.2.2.2.1, hr.2.2.2.2.2.1, hr.2.2.2.2.2.2,
        (lmTrial_rejected_positions N aom w0 min_lambda max_lambda error_total Hdiag st st' h h0).1⟩

/-- Witness of C13: the trial of `exLoop` at equal cost returns with the
step accepted, the window `exStepped` and `lambda = max(1, 1 / 3)`. -/
theorem C13_trial_accepts_unless_higher_witness :
    SubSignExact (exNumerics 2).sub ∧
    exLoop.step = false ∧
    lmTrial (exNumerics 2) exAom exWindow 1 100 (.num 2) [.num 4] exLoop = .ok
      { w := exStepped, lambda := 1, lambda_vee := 2, step := true, max_iter := 9,
        converged := false } ∧
    ∃ stepped,
      lmStepped (exNumerics 2) exAom exWindow 1 exLoop.lambda [.num 4] exLoop.w = .ok stepped ∧
      (true = true ↔
        Flt.lt ((exNumerics 2).sub (.num 2) ((exNumerics 2).after_error_total exAom stepped))
          (.num 0) = false) ∧
      (true = true ↔ Flt.lt (.num 2) ((exNumerics 2).after_error_total exAom stepped) = false) ∧
      ((Flt.num 2) ≠ .nan → (exNumerics 2).after_error_total exAom stepped ≠ .nan →
        (true = true ↔
          Flt.le ((exNumerics 2).after_error_total exAom stepped) (.num 2) = true)) ∧
      ((Flt.num 2) = .nan ∨ (exNumerics 2).after_error_total exAom stepped = .nan →
        true = true) ∧
      (true = true → (1 : ℚ) = max 1 (exLoop.lambda / 3) ∧ exStepped = stepped) ∧
      (true = false →
        (1 : ℚ) = min 100 (exLoop.lambda_vee * exLoop.lambda) ∧
        exStepped.frame_states = exLoop.w.frame_states ∧
        exStepped.frame_poses = exLoop.w.frame_poses ∧
        exStepped.lmdb = stepped.lmdb.restore ∧
        exStepped.lmdb.positions = exLoop.w.lmdb.positions) :=
  ⟨exSub_signExact, rfl, lmTrial_exLoop_equal,
    C13_trial_accepts_unless_higher (exNumerics 2) exAom exWindow 1 100 (.num 2) [.num 4] exLoop _
      exSub_signExact rfl lmTrial_exLoop_equal⟩

/-- C14 (counterexample): the trial loop of `exLoop` with the total cost 2
at the linearization and a total cost after the update that is not a number
(NaN). The difference `f_diff` is NaN, the test `f_diff < 0` of line 975 is
false, and the loop ends with the step accepted at the window `exStepped`,
whose cost NaN is not less than or equal to 2. -/
theorem C14_nan_cost_accepted :
    exLoop.step = false ∧
    lmWhile (exNumericsAt [.num 4] .nan) exAom exWindow 1 100 (.num 2) [.num 4] 10 exLoop = .ok
      { w := exStepped, lambda := 1, lambda_vee := 2, step := true, max_iter := 9,
        converged := false } ∧
    (exNumericsAt [.num 4] .nan).after_error_total exAom exStepped = .nan ∧
    (exNumericsAt [.num 4] .nan).sub (.num 2) .nan = .nan ∧
    Flt.le ((exNumericsAt [.num 4] .nan).after_error_total exAom exStepped) (.num 2) = false :=
  ⟨rfl, lmWhile_exLoop_nan, rfl, rfl, rfl⟩

/-- C14 (amended): whenever the trial loop of an iteration ends with an
accepted step, the test `f_diff < 0` of line 975 was false at the window it
leaves; with IEEE 754 subtraction the total cost computed at the
linearization, `error_total`, does not compare below the total cost of that
window (vision, IMU, bias and prior error after the update), and when
neither of the two costs is NaN the cost after the step is less than or
equal to `error_total`. -/
theorem C14_accepted_step_not_higher (N : OptNumerics) (aom : AbsOrderMap) (w0 : Window)
    (min_lambda max_lambda : ℚ) (error_total : Flt) (Hdiag : List Flt) (fuel : Nat)
    (st r : LmLoop)
    (hsub : SubSignExact N.sub)
    (hst : st.step = false)
    (h : lmWhile N aom w0 min_lambda max_lambda error_total Hdiag fuel st = .ok r)
    (hr : r.step = true) :
    Flt.lt (N.sub error_total (N.after_error_total aom r.w)) (.num 0) = false ∧
    Flt.lt error_total (N.after_error_total aom r.w) = false ∧
    (error_total ≠ .nan → N.after_error_total aom r.w ≠ .nan →
      Flt.le (N.after_error_total aom r.w) error_total = true) := by
  have h0 := lmWhile_accepted N aom w0 min_lambda max_lambda error_total Hdiag fuel st r h hst hr
  have h1 : Flt.lt error_total (N.after_error_total aom r.w) = false := by
    rw [← hsub]; exact h0
  exact ⟨h0, h1, fun ha hb => Flt.le_of_not_lt _ _ ha hb h1⟩

/-- Witness of C14: the trial loop of `exLoop` with cost 2 before and 1 after
ends with its first step accepted, at the window `exStepped`. -/
theorem C14_accepted_step_not_higher_witness :
    SubSignExact (exNumerics 1).sub ∧
    exLoop.step = false ∧
    lmWhile (exNumerics 1) exAom exWindow 1 100 (.num 2) [.num 4] 10 exLoop = .ok
      { w := exStepped, lambda := 1, lambda_vee := 2, step := true, max_iter := 9,
        converged := false } ∧
    Flt.lt ((exNumerics 1).sub (.num 2) ((exNumerics 1).after_error_total exAom exStepped))
      (.num 0) = false ∧
    Flt.lt (.num 2) ((exNumerics 1).after_error_total exAom exStepped) = false ∧
    ((Flt.num 2) ≠ .nan → (exNumerics 1).after_error_total exAom exStepped ≠ .nan →
      Flt.le ((exNumerics 1).after_error_total exAom exStepped) (.num 2) = true) :=
  ⟨exSub_signExact, rfl, lmWhile_exLoop_lower,
    C14_accepted_step_not_higher (exNumerics 1) exAom exWindow 1 100 (.num 2) [.num 4] 10 exLoop _
      exSub_signExact rfl lmWhile_exLoop_lower rfl⟩

/-- C15: checkpoint and restore of the landmarks is a round trip. After
`backup`, any rewriting `g` of `dir` and `id` of the stored landmarks, and
`restore`, every landmark has the host, `dir` and `id` it had at `backup`
(the store is the one `backup` left); `restore` twice is `restore` once;
and a rejected trial of `optimize` leaves the parameters of every landmark
as they were before the trial. -/
theorem C15_backup_restore_round_trip (db : LandmarkDatabase)
    (g : Int → KeypointPosition → Vec2 × ℚ) :
    ((db.backup.setPositions g).restore).positions = db.positions ∧
    (db.backup.setPositions g).restore = db.backup ∧
    db.backup.positions = db.positions ∧
    db.restore.restore = db.restore ∧
    (∀ (N : OptNumerics) (aom : AbsOrderMap) (w0 : Window) (min_lambda max_lambda : ℚ)
      (error_total : Flt) (Hdiag : List Flt) (st st' : LmLoop),
      st.w.lmdb = db →
      lmTrial N aom w0 min_lambda max_lambda error_total Hdiag st = .ok st' →
      st'.step = false → st'.w.lmdb.positions = db.positions) := by
  refine ⟨positions_restore_setPositions_backup db g, restore_setPositions_backup db g,
    positions_backup db, restore_restore db, ?_⟩
  intro N aom w0 min_lambda max_lambda error_total Hdiag st st' hdb h hrej
  rw [← hdb]
  exact (lmTrial_rejected_positions N aom w0 min_lambda max_lambda error_total Hdiag st st' h
    hrej).1

/-- Witness of C15: the rejected trial of `exLoop` (cost 2 before, 3 after)
moved the landmark and moved it back: in `exReverted` it has the host, `dir`
and `id` it has in `exWindow`. -/
theorem C15_backup_restore_round_trip_witness :
    lmTrial (exNumerics 3) exAom exWindow 1 100 (.num 2) [.num 4] exLoop = .ok
      { w := exReverted, lambda := 2, lambda_vee := 4, step := false, max_iter := 9,
        converged := false } ∧
    exReverted.lmdb.positions = exWindow.lmdb.positions :=
  ⟨lmTrial_exLoop_higher,
    (C15_backup_restore_round_trip exWindow.lmdb (fun _ p => (p.dir, p.id))).2.2.2.2
      (exNumerics 3) exAom exWindow 1 100 (.num 2) [.num 4] exLoop _ rfl lmTrial_exLoop_higher rfl⟩

/-- C16 (counterexample): a Hessian diagonal whose one entry is not a number
(NaN), with `lambda = 1` and `min_lambda = 1`. The product is NaN, and
`std::max(NaN, min_lambda)` returns its first argument, since `NaN < 1` is
false: the one component of the damping vector is NaN, in the
Levenberg-Marquardt trial and in the Gauss-Newton branch, and it is not at
least `min_lambda`. -/
theorem C16_nan_component_kept :
    (exNumerics 1).mul .nan 1 = .nan ∧
    Flt.stdMax .nan (.num 1) = .nan ∧
    dampingVector (exNumerics 1) 1 1 [.nan] = [.nan] ∧
    lmStepped (exNumerics 1) exAom exWindow 1 1 [.nan] exWindow =
      applyIncrement (exNumerics 1) exAom exWindow
        ((exNumerics 1).solve exAom exWindow [.nan]) { exWindow with lmdb := exWindow.lmdb.backup } ∧
    (∀ x ∈ dampingVector (exNumerics 1) 1 1 [.nan], Flt.le (.num 1) x = false) :=
  ⟨rfl, rfl, rfl, rfl, by intro x hx; simp [dampingVector, exNumerics, exNumericsAt, exMul,
    Flt.stdMax, Flt.lt] at hx; subst hx; rfl⟩

/-- C16 (amended): the damping vector handed to the solver. In a
Levenberg-Marquardt trial it is `dampingVector N lambda min_lambda Hdiag`,
in the Gauss-Newton branch `dampingVector N min_lambda min_lambda Hdiag`; it
has the length of `Hdiag`, and its component `i` is
`std::max(Hdiag[i] * lambda, min_lambda)`, respectively
`std::max(Hdiag[i] * min_lambda, min_lambda)`, with the double product: the
maximum of the product and `min_lambda` where the product is finite, NaN
where and only where the product is NaN. No component compares below
`min_lambda`, and every component that is not NaN is at least
`min_lambda`. -/
theorem C16_damping_vector_clamped (N : OptNumerics) (aom : AbsOrderMap) (w0 w : Window)
    (lambda min_lambda : ℚ) (Hdiag : List Flt) (st : IterState) :
    lmStepped N aom w0 min_lambda lambda Hdiag w =
      applyIncrement N aom w0 (N.solve aom w0 (dampingVector N lambda min_lambda Hdiag))
        { w with lmdb := w.lmdb.backup } ∧
    gaussNewton N aom min_lambda Hdiag st =
      (match applyIncrement N aom st.w
          (N.solve aom st.w (dampingVector N min_lambda min_lambda Hdiag)) st.w with
        | .error f => .error f
        | .ok w' => .ok { st with w := w', converged := decide (maxAbsCoeff
            (N.solve aom st.w (dampingVector N min_lambda min_lambda Hdiag)) < 1 / 10000) }) ∧
    (dampingVector N lambda min_lambda Hdiag).length = Hdiag.length ∧
    (∀ i : Nat, (dampingVector N lambda min_lambda Hdiag)[i]? =
      (Hdiag[i]?).map (fun h => Flt.stdMax (N.mul h lambda) (.num min_lambda))) ∧
    (∀ i : Nat, (dampingVector N min_lambda min_lambda Hdiag)[i]? =
      (Hdiag[i]?).map (fun h => Flt.stdMax (N.mul h min_lambda) (.num min_lambda))) ∧
    (∀ (factor p : ℚ) (h : Flt), N.mul h factor = .num p →
      Flt.stdMax (N.mul h factor) (.num min_lambda) = .num (max p min_lambda)) ∧
    (∀ (factor : ℚ) (h : Flt),
      Flt.stdMax (N.mul h factor) (.num min_lambda) = .nan ↔ N.mul h factor = .nan) ∧
    (∀ x ∈ dampingVector N lambda min_lambda Hdiag,
      Flt.lt x (.num min_lambda) = false ∧ (x ≠ .nan → Flt.le (.num min_lambda) x = true)) ∧
    (∀ x ∈ dampingVector N min_lambda min_lambda Hdiag,
      Flt.lt x (.num min_lambda) = false ∧ (x ≠ .nan → Flt.le (.num min_lambda) x = true)) :=
  ⟨rfl, rfl, by simp [dampingVector], dampingVector_getElem? N lambda min_lambda Hdiag,
    dampingVector_getElem? N min_lambda min_lambda Hdiag,
    fun factor p h hp => by rw [hp]; exact Flt.stdMax_num p min_lambda,
    fun factor h => Flt.stdMax_eq_nan _ _,
    dampingVector_ge N lambda min_lambda Hdiag,
    dampingVector_ge N min_lambda min_lambda Hdiag⟩

/-- C17 (counterexample): the point `p = (1, 0, 0)` and the relative pose
with identity rotation and baseline `(0, 1, 0)` meet the hypotheses of the
claim: `p` and the baseline are non-zero and linearly independent, so no ray
is collinear with the baseline; `f0 = p` and `f1 = T_0_1⁻¹ p = (1, -1, 0)`.
Both bearings have a zero third component (the views do not determine the
point, `ViewsDetermine` fails) and the matrix `A` has the rows
`(0,0,1,0)`, `0`, `(0,0,1,0)`, `(0,0,-1,0)`: its rank is 1. The point
`[p; 1]` is in its null space, but so is the unit vector `(1, 0, 0, 0)`,
which is a last right singular vector of `A`; with it `triangulate` returns
`(1, 0, 0, 0)`, inverse distance 0, and not `[p / |p|; 1 / |p|] = (1, 0, 0, 1)`.
Another last right singular vector is `(0, 0, 0, 1)`, whose first three
components have norm 0, the divisor of the normalization. -/
theorem C17_flat_bearings_not_recovered :
    exFlatPoint ≠ ⟨0, 0, 0⟩ ∧ exFlatPose.t ≠ ⟨0, 0, 0⟩ ∧ ¬ ViewsDetermine exFlatPoint exFlatPose ∧
    Independent exFlatPoint exFlatPose.t ∧ RowsOrthonormal exFlatPose.R ∧
    exFlatPose.inverse.act exFlatPoint = ⟨1, -1, 0⟩ ∧
    triangulateA (V3.smul 1 exFlatPoint) (V3.smul 1 (exFlatPose.inverse.act exFlatPoint))
        exFlatPose.inverse.matrix3x4
      = ⟨⟨0, 0, 1, 0⟩, ⟨0, 0, 0, 0⟩, ⟨0, 0, 1, 0⟩, ⟨0, 0, -1, 0⟩⟩ ∧
    (⟨⟨0, 0, 1, 0⟩, ⟨0, 0, 0, 0⟩, ⟨0, 0, 1, 0⟩, ⟨0, 0, -1, 0⟩⟩ : M44 ℚ).mulVec
      (homogeneous exFlatPoint) = ⟨0, 0, 0, 0⟩ ∧
    IsLastSingularVector (⟨⟨0, 0, 1, 0⟩, ⟨0, 0, 0, 0⟩, ⟨0, 0, 1, 0⟩, ⟨0, 0, -1, 0⟩⟩ : M44 ℚ)
      (exFlatSvd ⟨⟨0, 0, 1, 0⟩, ⟨0, 0, 0, 0⟩, ⟨0, 0, 1, 0⟩, ⟨0, 0, -1, 0⟩⟩) ∧
    exNorm (V4.head3 (⟨1, 0, 0, 0⟩ : V4 ℚ)) = 1 ∧
    IsLastSingularVector (⟨⟨0, 0, 1, 0⟩, ⟨0, 0, 0, 0⟩, ⟨0, 0, 1, 0⟩, ⟨0, 0, -1, 0⟩⟩ : M44 ℚ)
      ⟨0, 0, 0, 1⟩ ∧
    V3.dot (V4.head3 (⟨0, 0, 0, 1⟩ : V4 ℚ)) (V4.head3 (⟨0, 0, 0, 1⟩ : V4 ℚ)) = 0 ∧
    (1 : ℚ) * 1 = V3.dot exFlatPoint exFlatPoint ∧
    triangulate exFlatSvd exNorm (V3.smul 1 exFlatPoint)
      (V3.smul 1 (exFlatPose.inverse.act exFlatPoint)) exFlatPose = ⟨1, 0, 0, 0⟩ ∧
    bearingInvDist exFlatPoint 1 = ⟨1, 0, 0, 1⟩ := by
  refine ⟨by simp [exFlatPoint], by simp [exFlatPose], exFlat_views, exFlat_facts.1, exFlat_facts.2.1,
    exFlat_facts.2.2.1, exFlat_facts.2.2.2, ?_, exFlat_svd, ?_, exFlat_svd_last, ?_, ?_,
    exFlat_triangulate, ?_⟩
  · simp [M44.mulVec, V4.dot, homogeneous, exFlatPoint]
  · simp [exNorm, V4.head3]
  · simp [V3.dot, V4.head3]
  · simp [V3.dot, exFlatPoint]
  · simp [bearingInvDist, exFlatPoint]

/-- C17 (amended): over an ordered field (exact arithmetic), let `p` be a
point off the baseline of the relative pose `T_0_1` (so `p` and the
baseline are non-zero and neither ray is collinear with the baseline),
`f0 = a p` and `f1 = b (T_0_1⁻¹ p)` with `a, b > 0`. Let the library return a
last right singular vector of `A` and the Euclidean norm of its first three
components, and let `np = |p|`. Then `[p; 1]` lies in the null space of `A`;
that null space is the line through `[p; 1]` exactly when the two views
determine the point (`ViewsDetermine`: a bearing with a zero third component
is met by a non-zero third component of the other bearing and by a centre of
the other camera off the plane `z = 0` of its view), and otherwise it holds
a non-zero vector with a zero last component; and when the views determine
the point, `triangulate` returns `[p / |p|; 1 / |p|]`. -/
theorem C17_triangulation_round_trip {K : Type} [LinearOrderedField K]
    (svdLastCol : M44 K → V4 K) (norm : V3 K → K) (p : V3 K) (T_0_1 : SE3 K) (a b np : K)
    (A : M44 K)
    (hA : A = triangulateA (V3.smul a p) (V3.smul b (T_0_1.inverse.act p))
      T_0_1.inverse.matrix3x4)
    (hR : RowsOrthonormal T_0_1.R) (hoff : Independent p T_0_1.t)
    (ha : 0 < a) (hb : 0 < b)
    (hsvd : IsLastSingularVector A (svdLastCol A))
    (hn0 : 0 ≤ norm (svdLastCol A).head3)
    (hn : norm (svdLastCol A).head3 * norm (svdLastCol A).head3
      = V3.dot (svdLastCol A).head3 (svdLastCol A).head3)
    (hnp0 : 0 < np) (hnp : np * np = V3.dot p p) :
    A.mulVec (homogeneous p) = ⟨0, 0, 0, 0⟩ ∧
    ((∀ u, A.mulVec u = ⟨0, 0, 0, 0⟩ → u = V4.smul u.w (homogeneous p)) ↔
      ViewsDetermine p T_0_1) ∧
    (¬ ViewsDetermine p T_0_1 →
      ∃ u, A.mulVec u = ⟨0, 0, 0, 0⟩ ∧ u.w = 0 ∧ u ≠ ⟨0, 0, 0, 0⟩) ∧
    (ViewsDetermine p T_0_1 →
      triangulate svdLastCol norm (V3.smul a p) (V3.smul b (T_0_1.inverse.act p)) T_0_1
        = bearingInvDist p np) := by
  subst hA
  have hX := triangulateA_null p a b T_0_1.inverse.matrix3x4
  rw [inverse_matrix3x4_mulVec] at hX
  have hline : ViewsDetermine p T_0_1 →
      ∀ u, (triangulateA (V3.smul a p) (V3.smul b (T_0_1.inverse.act p))
        T_0_1.inverse.matrix3x4).mulVec u = ⟨0, 0, 0, 0⟩ → u = V4.smul u.w (homogeneous p) :=
    fun hv u hu => null_space_line_of_views p T_0_1 a b u hR hoff ha.ne' hb.ne' hv hu
  refine ⟨hX, ⟨?_, hline⟩, ?_, ?_⟩
  · intro hall
    by_contra hv
    obtain ⟨u, hu, _, hne⟩ := null_space_not_line p T_0_1 a b hoff hv
    exact hne (hall u hu)
  · intro hv
    obtain ⟨u, hu, hw, hne⟩ := null_space_not_line p T_0_1 a b hoff hv
    refine ⟨u, hu, hw, ?_⟩
    intro h0
    apply hne
    rw [h0]
    simp [V4.smul]
  · intro hv
    have hpos : 0 < V4.dot (homogeneous p) (homogeneous p) := by
      have : V4.dot (homogeneous p) (homogeneous p) = V3.dot p p + 1 := by
        simp [V4.dot, V3.dot, homogeneous]
      rw [this, ← hnp]
      positivity
    have hsv := svd_null _ _ _ hsvd hX hpos
    exact triangulate_of_line svdLastCol norm p _ T_0_1 a np ha (hline hv _ hsv) hsvd.1 hn0 hn
      hnp0 hnp

/-- Witness of C17: the point `(3/4, 0, 0)` in the plane `z = 0` of the first
camera, seen from a second camera one unit ahead along the optical axis: the
first bearing has a zero third component, the views determine the point, the
unit null vector is `(3/5, 0, 0, 4/5)` and `triangulate` returns
`(1, 0, 0, 4/3)`. And the point `(0, 0, 3/4)` on the optical axis, seen from
a second camera one unit to the side: the unit null vector is
`(0, 0, 3/5, 4/5)` and `triangulate` returns `(0, 0, 1, 4/3)`. -/
theorem C17_triangulation_round_trip_witness :
    (ViewsDetermine exPlanePoint exAheadPose ∧
      (⟨⟨0, 0, 3 / 4, 0⟩, ⟨0, 0, 0, 0⟩, ⟨1, 0, 3 / 4, -(3 / 4)⟩, ⟨0, 1, 0, 0⟩⟩ : M44 ℚ).mulVec
        (homogeneous exPlanePoint) = ⟨0, 0, 0, 0⟩ ∧
      (∀ u, (⟨⟨0, 0, 3 / 4, 0⟩, ⟨0, 0, 0, 0⟩, ⟨1, 0, 3 / 4, -(3 / 4)⟩,
          ⟨0, 1, 0, 0⟩⟩ : M44 ℚ).mulVec u = ⟨0, 0, 0, 0⟩ →
        u = V4.smul u.w (homogeneous exPlanePoint)) ∧
      triangulate exPlaneSvd exNorm (V3.smul 1 exPlanePoint)
        (V3.smul 1 (exAheadPose.inverse.act exPlanePoint)) exAheadPose
        = bearingInvDist exPlanePoint (3 / 4) ∧
      bearingInvDist exPlanePoint (3 / 4) = ⟨1, 0, 0, 4 / 3⟩) ∧
    (ViewsDetermine exAxisPoint exSidePose ∧
      (⟨⟨-(3 / 4), 0, 0, 0⟩, ⟨0, -(3 / 4), 0, 0⟩, ⟨-(3 / 4), 0, -1, 3 / 4⟩,
          ⟨0, -(3 / 4), 0, 0⟩⟩ : M44 ℚ).mulVec (homogeneous exAxisPoint) = ⟨0, 0, 0, 0⟩ ∧
      (∀ u, (⟨⟨-(3 / 4), 0, 0, 0⟩, ⟨0, -(3 / 4), 0, 0⟩, ⟨-(3 / 4), 0, -1, 3 / 4⟩,
          ⟨0, -(3 / 4), 0, 0⟩⟩ : M44 ℚ).mulVec u = ⟨0, 0, 0, 0⟩ →
        u = V4.smul u.w (homogeneous exAxisPoint)) ∧
      triangulate exAxisSvd exNorm (V3.smul 1 exAxisPoint)
        (V3.smul 1 (exSidePose.inverse.act exAxisPoint)) exSidePose
        = bearingInvDist exAxisPoint (3 / 4) ∧
      bearingInvDist exAxisPoint (3 / 4) = ⟨0, 0, 1, 4 / 3⟩) :=
  have h1 := C17_triangulation_round_trip exPlaneSvd exNorm exPlanePoint exAheadPose 1 1 (3 / 4) _
    exPlane_facts.2.2.2.1.symm exPlane_facts.2.1 exPlane_facts.1 one_pos one_pos
    exPlane_svd
    (by norm_num [exPlaneSvd, exNorm, V4.head3])
    (by norm_num [exPlaneSvd, exNorm, V4.head3, V3.dot])
    (by norm_num) (by norm_num [V3.dot, exPlanePoint])
  have h2 := C17_triangulation_round_trip exAxisSvd exNorm exAxisPoint exSidePose 1 1 (3 / 4) _
    exAxis_facts.2.2.2.symm exAxis_facts.2.1 exAxis_facts.1 one_pos one_pos
    exAxis_svd
    (by norm_num [exAxisSvd, exNorm, V4.head3])
    (by norm_num [exAxisSvd, exNorm, V4.head3, V3.dot])
    (by norm_num) (by norm_num [V3.dot, exAxisPoint])
  ⟨⟨exPlane_facts.2.2.2.2, h1.1, h1.2.1.mpr exPlane_facts.2.2.2.2, h1.2.2.2 exPlane_facts.2.2.2.2,
      by norm_num [bearingInvDist, exPlanePoint]⟩,
    ⟨exAxis_views, h2.1, h2.2.1.mpr exAxis_views, h2.2.2.2 exAxis_views,
      by norm_num [bearingInvDist, exAxisPoint]⟩⟩

/-- C18: in the triangulation loop of `measure` for one new keypoint, a
landmark is created only by the last call of `triangulate`, whose result has
four finite components and a fourth component `w` with `0 < w < 3`; the
landmark's host is camera 0 of the current frame, its inverse distance is
`w` and its direction the projection of the result. Every earlier call
returned a vector that fails the test, and when no landmark is created every
call did. The test fails whenever a component is not finite, or the fourth
component is at most 0 or at least 3. -/
theorem C18_landmark_from_valid_result (T : TriNumerics) (config : VioConfig)
    (frame_states : List (Int × PoseVelBiasStateWithLin))
    (frame_poses : List (Int × PoseStateWithLin))
    (opt_flow_meas : OpticalFlowResult) (prev_opt_flow_res : List (Int × OpticalFlowResult))
    (lm_id : Int) (r : TriResult)
    (h : newLandmark T config frame_states frame_poses opt_flow_meas prev_opt_flow_res lm_id
      = .ok r) :
    (∀ kp, r.created = some kp →
      ∃ pre c, r.calls = pre ++ [c] ∧ (∀ c' ∈ pre, landmarkTest c'.result = false) ∧
        (∃ x y z w : ℚ, c.result = (some x, some y, some z, some w) ∧ 0 < w ∧ w < 3 ∧
          kp.id = w) ∧
        kp.kf_id = { frame_id := opt_flow_meas.t_ns, cam_id := 0 } ∧
        kp.dir = T.project c.result) ∧
    (r.created = none → ∀ c ∈ r.calls, landmarkTest c.result = false) ∧
    (∀ p : Dbl4, landmarkTest p = true ↔
      ∃ x y z w : ℚ, p = (some x, some y, some z, some w) ∧ 0 < w ∧ w < 3) ∧
    (∀ p : Dbl4, (p.1 = none ∨ p.2.1 = none ∨ p.2.2.1 = none ∨ p.2.2.2 = none) →
      landmarkTest p = false) ∧
    (∀ x y z : Dbl, ∀ w : ℚ, (w ≤ 0 ∨ 3 ≤ w) → landmarkTest (x, y, z, some w) = false) := by
  obtain ⟨hnone, hsome⟩ := newLandmark_created T config frame_states frame_poses opt_flow_meas
    prev_opt_flow_res lm_id r h
  have hiff : ∀ p : Dbl4, landmarkTest p = true ↔
      ∃ x y z w : ℚ, p = (some x, some y, some z, some w) ∧ 0 < w ∧ w < 3 := by
    intro p
    rw [landmarkTest_iff]
    constructor
    · rintro ⟨a, b, c, w, hp, h1, h2, _⟩
      exact ⟨a, b, c, w, hp, h1, h2⟩
    · rintro ⟨a, b, c, w, hp, h1, h2⟩
      exact ⟨a, b, c, w, hp, h1, h2, by rw [hp]; rfl⟩
  refine ⟨?_, hnone, hiff, ?_, ?_⟩
  · intro kp hkp
    obtain ⟨pre, c, hcalls, hpre, htest, hk⟩ := hsome kp hkp
    obtain ⟨x, y, z, w, hp, h1, h2, h4⟩ := (landmarkTest_iff c.result).mp htest
    refine ⟨pre, c, hcalls, hpre, ⟨x, y, z, w, hp, h1, h2, ?_⟩, ?_, ?_⟩
    · rw [hk]; exact h4
    · rw [hk]
    · rw [hk]
  · intro p hp
    cases hq : landmarkTest p with
    | false => rfl
    | true =>
      obtain ⟨x, y, z, w, hpe, _, _⟩ := (hiff p).mp hq
      rw [hpe] at hp
      simp at hp
  · intro x y z w hw
    cases hq : landmarkTest (x, y, z, some w) with
    | false => rfl
    | true =>
      obtain ⟨x', y', z', w', hpe, h1, h2⟩ := (hiff _).mp hq
      simp only [Prod.mk.injEq, Option.some.injEq] at hpe
      obtain ⟨_, _, _, rfl⟩ := hpe
      rcases hw with hw | hw
      · exact absurd h1 (not_lt.mpr hw)
      · exact absurd h2 (not_lt.mpr hw)

/-- Witness of C18: for keypoint 7 in the scene of `exPrev` the loop returns
`exTriResult`: the result of the view of frame 4 has inverse distance 5 and
is dropped, the result of the view of camera 1 has inverse distance 1/2 and
makes the landmark hosted by camera 0 of frame 5. -/
theorem C18_landmark_from_valid_result_witness :
    newLandmark (exTri (none, none, none, none)) exConfig exTriStates [] exFlow5 exPrev 7
      = .ok exTriResult ∧
    (∀ kp, exTriResult.created = some kp →
      ∃ pre c, exTriResult.calls = pre ++ [c] ∧ (∀ c' ∈ pre, landmarkTest c'.result = false) ∧
        (∃ x y z w : ℚ, c.result = (some x, some y, some z, some w) ∧ 0 < w ∧ w < 3 ∧
          kp.id = w) ∧
        kp.kf_id = { frame_id := exFlow5.t_ns, cam_id := 0 } ∧
        kp.dir = (exTri (none, none, none, none)).project c.result) :=
  ⟨newLandmark_exPrev,
    (C18_landmark_from_valid_result (exTri (none, none, none, none)) exConfig exTriStates []
      exFlow5 exPrev 7 exTriResult newLandmark_exPrev).1⟩

/-- C19 (counterexample): the current frame 5 alone, seen by both cameras,
is searched for keypoint 7. The first view found is camera 0 of frame 5
itself; its relative translation is zero. With
`vio_min_triangulation_dist = 0` the test `0 < 0 * 0` of line 397 does not
skip it, `triangulate` is called on the zero-baseline pair, and the vector
it returns here (inverse distance 1/2) makes the landmark. The same happens
with the non-zero setting 2^-600: the double product of line 371, 2^-1200
exactly, is rounded to zero, so the test is `0 < 0` again. -/
theorem C19_zero_distance_self_pair :
    (exConfigZeroDist.vio_min_triangulation_dist = 0 ∧
      newLandmark (exTri (some 0, some 0, some 1, some (1 / 2))) exConfigZeroDist
        [(5, freshState)] [] exFlow5 [(5, exFlow5)] 7 = .ok
        { calls := [{ view := { frame_id := 5, cam_id := 0 }, translation := ⟨0, 0, 0⟩
                      result := (some 0, some 0, some 1, some (1 / 2)) }]
          created := some { kf_id := { frame_id := 5, cam_id := 0 }, dir := (0, 0),
                            id := 1 / 2 } }) ∧
    (exConfigTinyDist.vio_min_triangulation_dist = 1 / 2 ^ 600 ∧
      exConfigTinyDist.vio_min_triangulation_dist ≠ 0 ∧
      (exTri (some 0, some 0, some 1, some (1 / 2))).mul
        exConfigTinyDist.vio_min_triangulation_dist exConfigTinyDist.vio_min_triangulation_dist
        = .num 0 ∧
      newLandmark (exTri (some 0, some 0, some 1, some (1 / 2))) exConfigTinyDist
        [(5, freshState)] [] exFlow5 [(5, exFlow5)] 7 = .ok
        { calls := [{ view := { frame_id := 5, cam_id := 0 }, translation := ⟨0, 0, 0⟩
                      result := (some 0, some 0, some 1, some (1 / 2)) }]
          created := some { kf_id := { frame_id := 5, cam_id := 0 }, dir := (0, 0),
                            id := 1 / 2 } }) :=
  ⟨⟨rfl, newLandmark_zero_dist⟩,
    ⟨rfl, by norm_num [exConfigTinyDist], exProduct_tiny, newLandmark_tiny_dist⟩⟩

/-- C19 (amended): in the triangulation loop of `measure` every call of
`triangulate`, and so every landmark created, is for a view found for the
keypoint for which the test of line 397 was false: the squared norm of its
relative camera translation, as computed in double arithmetic, does not
compare below the double product
`vio_min_triangulation_dist * vio_min_triangulation_dist` of line 371. Where
both are computed exactly this says that the norm is not below
`vio_min_triangulation_dist`: no `n ≥ 0` with `n² = |t|²` is below it.
Whenever that double product is positive (the setting is not zero and its
square is not rounded to zero) and the squared norm of the zero vector is
zero, no call is made for a zero translation, and none for the current
camera-0 view paired with itself (whose relative pose is the identity); that
view is always among the views found once the current frame is saved in
`prev_opt_flow_res`. -/
theorem C19_short_baseline_skipped (T : TriNumerics) (config : VioConfig)
    (frame_states : List (Int × PoseVelBiasStateWithLin))
    (frame_poses : List (Int × PoseStateWithLin))
    (opt_flow_meas : OpticalFlowResult) (prev_opt_flow_res : List (Int × OpticalFlowResult))
    (lm_id : Int) (r : TriResult)
    (h : newLandmark T config frame_states frame_poses opt_flow_meas prev_opt_flow_res lm_id
      = .ok r) :
    (∀ c ∈ r.calls,
      Flt.lt (T.squaredNorm c.translation)
        (T.mul config.vio_min_triangulation_dist config.vio_min_triangulation_dist) = false ∧
      (T.squaredNorm c.translation = .num (V3.dot c.translation c.translation) →
        T.mul config.vio_min_triangulation_dist config.vio_min_triangulation_dist
          = .num (config.vio_min_triangulation_dist * config.vio_min_triangulation_dist) →
        ∀ n : ℚ, 0 ≤ n → n * n = V3.dot c.translation c.translation →
          ¬ n < config.vio_min_triangulation_dist) ∧
      (T.squaredNorm ⟨0, 0, 0⟩ = .num 0 →
        Flt.lt (.num 0)
          (T.mul config.vio_min_triangulation_dist config.vio_min_triangulation_dist) = true →
        c.translation ≠ ⟨0, 0, 0⟩) ∧
      (T.squaredNorm ⟨0, 0, 0⟩ = .num 0 →
        Flt.lt (.num 0)
          (T.mul config.vio_min_triangulation_dist config.vio_min_triangulation_dist) = true →
        (∀ p, (T.T_0_1 p p 0).t = ⟨0, 0, 0⟩) →
        c.view ≠ { frame_id := opt_flow_meas.t_ns, cam_id := 0 }) ∧
      c.view ∈ (findObservations prev_opt_flow_res lm_id).map Prod.fst) ∧
    (∀ kp, r.created = some kp → ∃ c ∈ r.calls, kp.id = fourth c.result ∧
      kp.dir = T.project c.result) ∧
    (∀ (obs0 : List (Int × Vec2)) (pos : Vec2),
      mapFind opt_flow_meas.t_ns prev_opt_flow_res = some opt_flow_meas →
      opt_flow_meas.observations[0]? = some obs0 → mapFind lm_id obs0 = some pos →
      ({ frame_id := opt_flow_meas.t_ns, cam_id := 0 } : TimeCamId)
        ∈ (findObservations prev_opt_flow_res lm_id).map Prod.fst) := by
  refine ⟨newLandmark_calls T config frame_states frame_poses opt_flow_meas prev_opt_flow_res
    lm_id r h, ?_, ?_⟩
  · intro kp hkp
    obtain ⟨pre, c, hcalls, _, _, hk⟩ := (newLandmark_created T config frame_states frame_poses
      opt_flow_meas prev_opt_flow_res lm_id r h).2 kp hkp
    refine ⟨c, by rw [hcalls]; simp, ?_, ?_⟩
    · rw [hk]
    · rw [hk]
  · intro obs0 pos hres hobs hp
    rw [List.mem_map]
    exact ⟨_, findObservations_mem prev_opt_flow_res lm_id opt_flow_meas.t_ns opt_flow_meas 0
      obs0 pos hres hobs hp, rfl⟩

/-- Witness of C19: in the scene of `exPrev`, with the minimal distance
1/20, whose computed square is positive, the two calls made have the
baselines `(2, 0, 0)` and `(1, 0, 0)`; the current camera-0 view is among
the views found and no call is made for it. -/
theorem C19_short_baseline_skipped_witness :
    newLandmark (exTri (none, none, none, none)) exConfig exTriStates [] exFlow5 exPrev 7
      = .ok exTriResult ∧
    (exTri (none, none, none, none)).squaredNorm ⟨0, 0, 0⟩ = .num 0 ∧
    Flt.lt (.num 0) ((exTri (none, none, none, none)).mul exConfig.vio_min_triangulation_dist
      exConfig.vio_min_triangulation_dist) = true ∧
    (∀ c ∈ exTriResult.calls,
      c.translation ≠ ⟨0, 0, 0⟩ ∧
      c.view ≠ { frame_id := exFlow5.t_ns, cam_id := 0 } ∧
      c.view ∈ (findObservations exPrev 7).map Prod.fst) ∧
    (({ frame_id := exFlow5.t_ns, cam_id := 0 } : TimeCamId)
        ∈ (findObservations exPrev 7).map Prod.fst) :=
  have hz : (exTri (none, none, none, none)).squaredNorm ⟨0, 0, 0⟩ = .num 0 := by
    simp [exTri, V3.dot]
  have hd : Flt.lt (.num 0) ((exTri (none, none, none, none)).mul
      exConfig.vio_min_triangulation_dist exConfig.vio_min_triangulation_dist) = true := by
    simp [exTri, exConfig, exProduct_twentieth, Flt.lt]
  ⟨newLandmark_exPrev, hz, hd,
    fun c hc =>
      have hcall := (C19_short_baseline_skipped (exTri (none, none, none, none)) exConfig
        exTriStates [] exFlow5 exPrev 7 exTriResult newLandmark_exPrev).1 c hc
      ⟨hcall.2.2.1 hz hd, hcall.2.2.2.1 hz hd (fun p => by simp [exTri]), hcall.2.2.2.2⟩,
    (C19_short_baseline_skipped (exTri (none, none, none, none)) exConfig exTriStates []
      exFlow5 exPrev 7 exTriResult newLandmark_exPrev).2.2 [(7, (0, 0))] (0, 0)
      rfl rfl rfl⟩

/-- C20: after the constructor and `initialize(t_ns, T_w_i, ...)` the prior
matrix `marg_H` has 15 rows of 15 columns and is diagonal, with
`vio_init_pose_weight` at the entries 0, 1, 2 and 5, `vio_init_ba_weight` at
9, 10, 11, `vio_init_bg_weight` at 12, 13, 14 and zero everywhere else (so
zero at the diagonal entries 3, 4, 6, 7, 8); `marg_b` is the zero vector of
length 15; `marg_order` has the single entry `t_ns -> (0, 15)` with
`total_size = 15` and `items = 1`; and `frame_states` holds exactly one
state, at `t_ns`, marked linearized. No pose-only frame exists. -/
theorem C20_initial_prior (config : VioConfig) (t_ns : Int) (T_w_i_translation : Vec3) :
    (initState t_ns T_w_i_translation (construct config)).marg_H.length = 15 ∧
    (initState t_ns T_w_i_translation (construct config)).marg_H.map List.length
      = List.replicate 15 15 ∧
    (∀ i j : Fin 15,
      coeff (initState t_ns T_w_i_translation (construct config)).marg_H i j =
        if i = j then
          (if i.val < 3 ∨ i.val = 5 then config.vio_init_pose_weight
           else if 9 ≤ i.val ∧ i.val < 12 then config.vio_init_ba_weight
           else if 12 ≤ i.val then config.vio_init_bg_weight
           else 0)
        else 0) ∧
    (initState t_ns T_w_i_translation (construct config)).marg_b = List.replicate 15 0 ∧
    (initState t_ns T_w_i_translation (construct config)).est.marg_order =
      { abs_order_map := [(t_ns, (0, 15))], total_size := 15, items := 1 } ∧
    (initState t_ns T_w_i_translation (construct config)).est.marg_order = initMargOrder t_ns ∧
    (initState t_ns T_w_i_translation (construct config)).est.frame_states =
      [(t_ns, { linearized := true, translation := T_w_i_translation })] ∧
    (initState t_ns T_w_i_translation (construct config)).est.frame_poses = [] ∧
    (initState t_ns T_w_i_translation (construct config)).est.last_state_t_ns = t_ns ∧
    (initState t_ns T_w_i_translation (construct config)).est.opt_started = false :=
  ⟨rfl, rfl, initMargH_coeff config, rfl, rfl, rfl, rfl, rfl, rfl, rfl⟩

/-- C21 (defect): a null pointer popped from the IMU queue is read.
(1) Not yet initialized, one sample (time 0) followed by the null pointer,
and a frame at time 10: the loop of lines 141-147 pops the null pointer and
its `break` leaves only that loop; line 152 then reads `data->accel`.
(2) Initialized, the same samples, frames at 10 and 20: for the second frame
the loop of lines 177-182 pops the null pointer, and the loop test of line
184 then reads `data->t_ns`.
(3) Initialized, samples at 5 and 20 followed by the null pointer, frames at
10, 20 and 30: for the frame at 20 the sample at 20 is integrated, the null
pointer is popped, the measurement ends at the frame, so the test of line
192 is false and `measure` is still called for the frame at 20; the next
pass reads `data->t_ns` of the null pointer.
In none of the runs a null pointer reaches an output queue or `finished` is
set. A null frame, by contrast, ends the thread as a finished run. -/
theorem C21_null_sample_is_read :
    procFunc false exIntegrate ⟨true, true, true⟩ false [some ⟨0⟩, none] [some (exFrame 10)]
      = .error (.fault .undefined) ∧
    procFunc false exIntegrate ⟨true, true, true⟩ true [some ⟨0⟩, none]
        [some (exFrame 10), some (exFrame 20)]
      = .error (.fault .undefined) ∧
    procStep false exIntegrate
        { imu_data_queue := [some ⟨20⟩, none]
          vision_data_queue := [some (exFrame 20), some (exFrame 30)]
          data := some ⟨5⟩, prev_frame := some (exFrame 10), meas := none, initialized := true
          measured := [(exFrame 10, none)] }
      = .ok ({ imu_data_queue := []
               vision_data_queue := [some (exFrame 30)]
               data := none, prev_frame := some (exFrame 20)
               meas := some { start_t_ns := 10, dt_ns := 10 }, initialized := true
               measured := [(exFrame 10, none),
                 (exFrame 20, some { start_t_ns := 10, dt_ns := 10 })] }, true) ∧
    procFunc false exIntegrate ⟨true, true, true⟩ true [some ⟨5⟩, some ⟨20⟩, none]
        [some (exFrame 10), some (exFrame 20), some (exFrame 30)]
      = .error (.fault .undefined) ∧
    (∀ (rt : Bool) (outputs : OutputQueues) (initialized : Bool) (data : ImuData)
        (imu_data_queue : List (Option ImuData)),
      procFunc rt exIntegrate outputs initialized (some data :: imu_data_queue) [none] =
        .ok { measured := [], null_pushed := outputs, finished := true }) := by
  refine ⟨by decide, by decide, by decide, by decide, ?_⟩
  intro rt outputs initialized data imu_data_queue
  exact procFunc_null_frame rt exIntegrate outputs initialized data imu_data_queue

/-- C22: with the frames `q1 .. qk` queued (`k >= 1`) and nothing pushed
meanwhile, real-time mode hands the newest frame `qk` to the pass of the
loop and leaves the queue empty; without real-time mode the pass gets `q1`
and `q2 .. qk` stay queued. A pass that goes on has called `measure` with
exactly the frame handed over. -/
theorem C22_realtime_takes_newest (q1 : Option OpticalFlowResult)
    (rest : List (Option OpticalFlowResult))
    (integrate : IntegratedImuMeasurement → ImuData → IntegratedImuMeasurement) :
    popFrame true (q1 :: rest) = some ((q1 :: rest).getLast (List.cons_ne_nil _ _), []) ∧
    popFrame false (q1 :: rest) = some (q1, rest) ∧
    (∀ (rt : Bool) (v v' : ProcVars), v.vision_data_queue = q1 :: rest →
      procStep rt integrate v = .ok (v', true) →
      ∃ frame,
        (if rt = true then (q1 :: rest).getLast (List.cons_ne_nil _ _) else q1) = some frame ∧
        v'.measured = v.measured ++ [(frame, v'.meas)] ∧
        v'.vision_data_queue = if rt = true then [] else rest) := by
  have h1 : popFrame true (q1 :: rest) = some ((q1 :: rest).getLast (List.cons_ne_nil _ _), []) := by
    simp only [popFrame, if_true, drainFrames_eq]
  have h2 : popFrame false (q1 :: rest) = some (q1, rest) := by
    unfold popFrame
    simp
  refine ⟨h1, h2, ?_⟩
  intro rt v v' hq h
  obtain ⟨frame, hpop, hm, _⟩ := procStep_measures rt integrate v v' h
  rw [hq] at hpop
  refine ⟨frame, ?_, hm, ?_⟩
  · cases rt with
    | true =>
      rw [h1] at hpop
      simp only [Option.some.injEq, Prod.mk.injEq] at hpop
      simpa using hpop.1
    | false =>
      rw [h2] at hpop
      simp only [Option.some.injEq, Prod.mk.injEq] at hpop
      simpa using hpop.1
  · cases rt with
    | true =>
      rw [h1] at hpop
      simp only [Option.some.injEq, Prod.mk.injEq] at hpop
      simpa using hpop.2.symm
    | false =>
      rw [h2] at hpop
      simp only [Option.some.injEq, Prod.mk.injEq] at hpop
      simpa using hpop.2.symm

/-- Witness of C22: with the frames at 10, 20 and 30 queued and the estimator
initialized, the first pass in real-time mode calls `measure` for the frame
at 30 and leaves the queue empty. -/
theorem C22_realtime_takes_newest_witness :
    procStep true exIntegrate
        { imu_data_queue := [], vision_data_queue := [some (exFrame 10), some (exFrame 20),
            some (exFrame 30)]
          data := some ⟨0⟩, prev_frame := none, meas := none, initialized := true, measured := [] }
      = .ok ({ imu_data_queue := [], vision_data_queue := []
               data := some ⟨0⟩, prev_frame := some (exFrame 30), meas := none
               initialized := true, measured := [(exFrame 30, none)] }, true) ∧
    (∃ frame,
      (if true = true then
          ([some (exFrame 10), some (exFrame 20), some (exFrame 30)] : List _).getLast
            (List.cons_ne_nil _ _) else some (exFrame 10)) = some frame ∧
      ([(exFrame 30, none)] : List (OpticalFlowResult × Option IntegratedImuMeasurement)) =
        [] ++ [(frame, none)] ∧
      ([] : List (Option OpticalFlowResult)) =
        if true = true then [] else [some (exFrame 20), some (exFrame 30)]) :=
  have hrun : procStep true exIntegrate
        { imu_data_queue := [], vision_data_queue := [some (exFrame 10), some (exFrame 20),
            some (exFrame 30)]
          data := some ⟨0⟩, prev_frame := none, meas := none, initialized := true, measured := [] }
      = .ok ({ imu_data_queue := [], vision_data_queue := []
               data := some ⟨0⟩, prev_frame := some (exFrame 30), meas := none
               initialized := true, measured := [(exFrame 30, none)] }, true) := by decide
  ⟨hrun, (C22_realtime_takes_newest (some (exFrame 10)) [some (exFrame 20), some (exFrame 30)]
    exIntegrate).2.2 true _ _ rfl hrun⟩

/-- C23: a run of `linearizeAbs` that returns has called `addH` exactly with
the blocks of the claim: for every ordered pair (i, j) of entries of
`rld.order`, in loop order, nothing when the target frame of `i` or of `j`
is the host frame, else `d_rel_d_h[i]^T * rel_H(i,j) * d_rel_d_h[j]` at
(host, host), `d_rel_d_t[i]^T * rel_H(i,j) * d_rel_d_h[j]` at (target_i, host),
`d_rel_d_h[i]^T * rel_H(i,j) * d_rel_d_t[j]` at (host, target_j) and
`d_rel_d_t[i]^T * rel_H(i,j) * d_rel_d_t[j]` at (target_i, target_j), the
offsets being those of the order map; so every coefficient of the Hessian it
adds up to is the sum of these blocks there. The run returns when all entries
have one host, their frames are in the order map and each has its pair of
Jacobians. -/
theorem C23_linearizeAbs_adds_chain_rule_blocks (rel_H : Nat → Nat → ℚ) (rel_b : Nat → ℚ)
    (rld : RelLinDataBase) (aom : AbsOrderMap) :
    (∀ calls, linearizeAbs rel_H rel_b rld aom = .ok calls →
      hessianCalls calls = claimedHessian rel_H rld aom ∧
      ∀ r c, hessianOf calls r c =
        ((claimedHessian rel_H rld aom).map (fun t => blockEntry t.1 t.2.1 t.2.2 r c)).sum) ∧
    (RelWellFormed rld aom → ∃ calls, linearizeAbs rel_H rel_b rld aom = .ok calls) := by
  refine ⟨fun calls h => ?_, linearizeAbs_total rel_H rel_b rld aom⟩
  obtain ⟨a1, _⟩ := linearizeAbs_ok _ _ _ _ _ h
  refine ⟨a1, fun r c => ?_⟩
  rw [hessianOf_eq, a1]

/-- C23 on the example: three entries hosted by frame 10, the second with
its target in the host frame; the run returns, the pairs with the second
entry add nothing, the other four pairs add four blocks each, and the
coefficient (6, 6) of the Hessian is 36. -/
theorem C23_linearizeAbs_adds_chain_rule_blocks_witness :
    RelWellFormed exRld exAomRel ∧
    ∃ calls, linearizeAbs exRelH exRelB exRld exAomRel = .ok calls ∧
      (hessianCalls calls).map (fun t => (t.1, t.2.1)) =
        [(0, 0), (6, 0), (0, 6), (6, 6), (0, 0), (6, 0), (0, 12), (6, 12),
         (0, 0), (12, 0), (0, 6), (12, 6), (0, 0), (12, 0), (0, 12), (12, 12)] ∧
      hessianOf calls 6 6 = 36 := by
  refine ⟨exRld_wellFormed, ?_⟩
  obtain ⟨calls, h⟩ :=
    (C23_linearizeAbs_adds_chain_rule_blocks exRelH exRelB exRld exAomRel).2 exRld_wellFormed
  obtain ⟨a1, a2⟩ :=
    (C23_linearizeAbs_adds_chain_rule_blocks exRelH exRelB exRld exAomRel).1 calls h
  refine ⟨calls, h, ?_, ?_⟩
  · rw [a1]; exact exRld_offsets
  · rw [a2]; exact exRld_entry

/-- C24 (defect): with `vio_max_states = 3`, `vio_max_kfs = 2` and
`vio_min_frames_after_kf = 0` the estimator is started at time 1 and given
the frames 1, 2, 3, 4, 5 (strictly increasing, each with one camera-0
keypoint that has no landmark). The first four calls of `measure` return and
make the frames 1 and 3 keyframes. In the fifth call frame 5 becomes the
third keyframe, `optimize` starts, and `marginalize` is entered with
`kf_ids = {1, 3, 5}` and no pose-only frame: the only removal candidate,
keyframe 1, is not in `frame_poses` and is still a full state. The first
selection stage picks it for full removal, and the call ends at the
assertion of line 807. -/
theorem C24_candidate_still_full_state :
    exRun0 = { estimator := initState 1 (0, 0, 0) (construct exConfigKf), flow := [] } ∧
    measure exMeasure exConfigKf false 5 (exKfFrame 1) none exRun0 = .ok exRun1 ∧
    measure exMeasure exConfigKf false 5 (exKfFrame 2) (some ⟨1, 1⟩) exRun1 = .ok exRun2 ∧
    measure exMeasure exConfigKf false 5 (exKfFrame 3) (some ⟨2, 1⟩) exRun2 = .ok exRun3 ∧
    measure exMeasure exConfigKf false 5 (exKfFrame 4) (some ⟨3, 1⟩) exRun3 = .ok exRun4 ∧
    optimize exMeasure.N exConfigKf exRun5Pre = .ok exRun5 ∧
    exRun5.est.kf_ids = [1, 3, 5] ∧
    mapFind 1 exRun5.est.frame_poses = none ∧
    mapFind 1 exRun5.est.frame_states = some linState ∧
    selectKf lineMath [] exRun5.est exRun5.est.kf_ids = .ok 1 ∧
    marginalizeAll exMeasure.F exMeasure.M [] 5 exRun5 = .error (.assertion 807) ∧
    measure exMeasure exConfigKf false 5 (exKfFrame 5) (some ⟨4, 1⟩) exRun4
      = .error (.assertion 807) :=
  ⟨rfl, measure_exRun0, measure_exRun1, measure_exRun2, measure_exRun3, optimize_exRun5, rfl, rfl,
    rfl, selectKf_exRun5, marginalizeAll_fault _ _ _ _ _ _ marginalize_exRun5, measure_exRun4⟩

/-- C25: in the store as the specification describes it, `addLandmark`
fails exactly when the id exists and `addObservation` exactly when the
landmark of the observation does not exist. The association step of
`measure` returns for every frame and every store, so none of its calls of
`addObservation` fails. The keyframe step that follows it never ends with
the fault of a store call: every `addLandmark` is for an id without a
landmark and every `addObservation` for a landmark that exists, in whatever
order the unordered set `unconnected_obs0` is gone through. When the
keyframe step returns, the observations that were in the store are still
there, and every landmark of the store was there before the call or is a
new one hosted by camera 0 of the current frame, whose camera-0 observation
in the current frame stands in the bucket of its own host view. -/
theorem C25_measure_keeps_store_preconditions (X : MeasureNumerics) (config : VioConfig)
    (m : OpticalFlowResult) (flow0 : List (Int × OpticalFlowResult)) (db : LandmarkDatabase) :
    (∀ (d : LandmarkDatabase) id pos, d.addLandmark id pos = none ↔ d.landmarkExists id = true) ∧
    (∀ (d : LandmarkDatabase) t o,
      d.addObservation t o = none ↔ d.landmarkExists o.kpt_id = false) ∧
    (∃ a, associate m db = .ok a) ∧
    ∀ a ids s, associate m db = .ok a → ids.Perm a.unconnected_obs0 → s.lmdb = a.lmdb →
      keyframeStep X config m (mapSet m.t_ns m flow0) ids s ≠ .error (.assertion 0) ∧
      ∀ s', keyframeStep X config m (mapSet m.t_ns m flow0) ids s = .ok s' →
        (∀ h t o, Observed db.obs h t o → Observed s'.lmdb.obs h t o) ∧
        ∀ id p, mapFind id s'.lmdb.kpts = some p →
          mapFind id db.kpts = some p ∨
          (db.landmarkExists id = false ∧ p.kf_id = { frame_id := m.t_ns, cam_id := 0 } ∧
            ∃ pos, mapFind id (camera0 m) = some pos ∧
              Observed s'.lmdb.obs { frame_id := m.t_ns, cam_id := 0 }
                { frame_id := m.t_ns, cam_id := 0 } { kpt_id := id, pos := pos }) := by
  refine ⟨fun d id pos => ?_, fun d t o => ?_, ?_, fun a ids s ha hperm hs => ?_⟩
  · constructor
    · intro h
      by_contra hc
      have hf : d.landmarkExists id = false := by simpa using hc
      obtain ⟨d', h1, _⟩ := addLandmark_some d id pos hf
      rw [h1] at h
      cases h
    · exact addLandmark_none d id pos
  · constructor
    · intro h
      by_contra hc
      have ht : d.landmarkExists o.kpt_id = true := by simpa using hc
      obtain ⟨lm, hlm⟩ := (landmarkExists_iff _ _).1 ht
      obtain ⟨d', h1, _⟩ := addObservation_some d t o lm hlm
      rw [h1] at h
      cases h
    · exact addObservation_none d t o
  · obtain ⟨a, h, _⟩ := associate_raw m db
    exact ⟨a, h⟩
  · exact keyframeStep_spec X config m flow0 db a ids s ha hperm hs

/-- C25 on the frame `exFlow5` after the frame `exFlow4`, with an empty
store: the association step leaves keypoint 7 unconnected, the keyframe step
makes its landmark and adds its three views, the view of camera 0 of frame 5
among them. -/
theorem C25_measure_keeps_store_preconditions_witness :
    associate exFlow5 {} = .ok
      { lmdb := {}, connected0 := 0, num_points_connected := [], unconnected_obs0 := [7] } ∧
    keyframeStep exMeasure exConfig exFlow5 (mapSet exFlow5.t_ns exFlow5 [(4, exFlow4)]) [7]
      exKfState = .ok exKfAfter ∧
    keyframeStep exMeasure exConfig exFlow5 (mapSet exFlow5.t_ns exFlow5 [(4, exFlow4)]) [7]
      exKfState ≠ .error (.assertion 0) ∧
    ∀ id p, mapFind id exKfAfter.lmdb.kpts = some p →
      mapFind id ({} : LandmarkDatabase).kpts = some p ∨
      (({} : LandmarkDatabase).landmarkExists id = false ∧
        p.kf_id = { frame_id := exFlow5.t_ns, cam_id := 0 } ∧
        ∃ pos, mapFind id (camera0 exFlow5) = some pos ∧
          Observed exKfAfter.lmdb.obs { frame_id := exFlow5.t_ns, cam_id := 0 }
            { frame_id := exFlow5.t_ns, cam_id := 0 } { kpt_id := id, pos := pos }) :=
  ⟨associate_exFlow5, keyframeStep_exKfState,
    ((C25_measure_keeps_store_preconditions exMeasure exConfig exFlow5 [(4, exFlow4)] {}).2.2.2
      _ [7] exKfState associate_exFlow5 (List.Perm.refl _) rfl).1,
    (((C25_measure_keeps_store_preconditions exMeasure exConfig exFlow5 [(4, exFlow4)] {}).2.2.2
      _ [7] exKfState associate_exFlow5 (List.Perm.refl _) rfl).2 exKfAfter
      keyframeStep_exKfState).2⟩

/-- C26: for a frame whose camera-0 observations have distinct ids, the
association step of `measure` returns with
`connected0 + |unconnected_obs0| = ` the number of camera-0 observations,
`connected0` the number of camera-0 observations whose id has a landmark in
the store, and `unconnected_obs0` the camera-0 ids that have none. Both are
given by the camera-0 observations alone, so the other cameras change
neither. No landmark is added or removed, every observation of any camera
whose id has a landmark is added to the bucket of that landmark's host view
and the view of the camera (so `num_observations` grows by the number of
such observations), and the observations of the store stay. -/
theorem C26_association_counts_each_once (m : OpticalFlowResult) (db : LandmarkDatabase)
    (hnd : (mapKeys (camera0 m)).Nodup) :
    ∃ a, associate m db = .ok a ∧
      a.connected0 + a.unconnected_obs0.length = (camera0 m).length ∧
      a.connected0 = ((camera0 m).filter (fun kv => db.landmarkExists kv.1)).length ∧
      a.unconnected_obs0 = (mapKeys (camera0 m)).filter (fun id => !db.landmarkExists id) ∧
      a.lmdb.kpts = db.kpts ∧
      a.lmdb.num_observations = db.num_observations +
        (((m.observations.flatMap id).filter (fun kv => db.landmarkExists kv.1)).length : Int) ∧
      (∀ h t o, Observed db.obs h t o → Observed a.lmdb.obs h t o) ∧
      (∀ j (hj : j < m.observations.length), ∀ kv ∈ m.observations[j],
        db.landmarkExists kv.1 = true → ∃ lm, db.getLandmark kv.1 = some lm ∧
          Observed a.lmdb.obs lm.kf_id { frame_id := m.t_ns, cam_id := j }
            { kpt_id := kv.1, pos := kv.2 }) :=
  associate_spec m db hnd

/-- C26 on the stereo frame `exStereo` and a store with the landmark 7:
camera 0 sees 7 and 8, camera 1 sees 7 and 9; one camera-0 observation is
connected, keypoint 8 is unconnected, keypoint 9 of camera 1 is in neither
count, and both views of keypoint 7 are attached. -/
theorem C26_association_counts_each_once_witness :
    associate exStereo exWindow.lmdb = .ok exAssoc ∧
    exAssoc.connected0 = 1 ∧ exAssoc.unconnected_obs0 = [8] ∧ (camera0 exStereo).length = 2 ∧
    ∃ a, associate exStereo exWindow.lmdb = .ok a ∧
      a.connected0 + a.unconnected_obs0.length = (camera0 exStereo).length ∧
      a.connected0
        = ((camera0 exStereo).filter (fun kv => exWindow.lmdb.landmarkExists kv.1)).length ∧
      a.unconnected_obs0
        = (mapKeys (camera0 exStereo)).filter (fun id => !exWindow.lmdb.landmarkExists id) ∧
      a.lmdb.kpts = exWindow.lmdb.kpts ∧
      a.lmdb.num_observations = exWindow.lmdb.num_observations +
        (((exStereo.observations.flatMap id).filter
          (fun kv => exWindow.lmdb.landmarkExists kv.1)).length : Int) ∧
      (∀ h t o, Observed exWindow.lmdb.obs h t o → Observed a.lmdb.obs h t o) ∧
      (∀ j (hj : j < exStereo.observations.length), ∀ kv ∈ exStereo.observations[j],
        exWindow.lmdb.landmarkExists kv.1 = true → ∃ lm, exWindow.lmdb.getLandmark kv.1 = some lm ∧
          Observed a.lmdb.obs lm.kf_id { frame_id := exStereo.t_ns, cam_id := j }
            { kpt_id := kv.1, pos := kv.2 }) :=
  ⟨associate_exStereo, rfl, rfl, rfl,
    C26_association_counts_each_once exStereo exWindow.lmdb (by decide)⟩

/-- C27 (counterexample): in the round of `exBefore` with the store
`exObsStore`, the bucket (host 20, target 30) involves state 30, which is
demoted in this round, and the bucket (host 10, target 32) is hosted by
keyframe 10, which is removed for good; neither is in `obs_to_lin`, which
holds only the buckets (10, 10) and (10, 30). -/
theorem C27_kept_host_bucket_left_out :
    margPlan lineMath [] 1 exBefore = .ok exPlan ∧
    ({ frame_id := 20, cam_id := 0 }, { frame_id := 30, cam_id := 0 },
        [{ kpt_id := 7, pos := (1, 1) }]) ∈ buckets exObsStore.obs ∧
    (30 : Int) ∈ marginalizedFrames exPlan ∧
    ({ frame_id := 10, cam_id := 0 }, { frame_id := 32, cam_id := 0 },
        [{ kpt_id := 8, pos := (2, 0) }]) ∈ buckets exObsStore.obs ∧
    (10 : Int) ∈ marginalizedFrames exPlan ∧
    obsToLin exPlan exObsStore =
      [({ frame_id := 10, cam_id := 0 },
          [({ frame_id := 10, cam_id := 0 }, [{ kpt_id := 8, pos := (0, 0) }]),
           ({ frame_id := 30, cam_id := 0 }, [{ kpt_id := 8, pos := (1, 0) }])])] := by
  refine ⟨rfl, by decide, by decide, by decide, by decide, by decide⟩

/-- C27 (amended): for a landmark store whose maps of observations are
sorted, `obs_to_lin` contains a (host, target) bucket of the store exactly
when the host frame is one of the keyframes removed for good in this round
(`kfs_to_marg`) and the target frame is not newer than
`last_state_to_marg`; the buckets come with their observations unchanged and
in the order of the store. Every bucket of `obs_to_lin` thus involves a frame
being marginalized, but not every bucket that does is in it. -/
theorem C27_obs_to_lin_hosted_by_removed (p : MargPlan) (db : LandmarkDatabase)
    (hs : GraphSorted db.obs) :
    buckets (obsToLin p db) = (buckets db.obs).filter
      (fun b => decide (b.1.frame_id ∈ p.kfs_to_marg) &&
        decide (b.2.1.frame_id ≤ p.last_state_to_marg)) ∧
    (∀ b, b ∈ buckets (obsToLin p db) ↔
      b ∈ buckets db.obs ∧ b.1.frame_id ∈ p.kfs_to_marg ∧
        b.2.1.frame_id ≤ p.last_state_to_marg) ∧
    (∀ b ∈ buckets (obsToLin p db), b.1.frame_id ∈ marginalizedFrames p) := by
  have h := obsToLin_buckets p db hs
  have hiff : ∀ b, b ∈ buckets (obsToLin p db) ↔
      b ∈ buckets db.obs ∧ b.1.frame_id ∈ p.kfs_to_marg ∧
        b.2.1.frame_id ≤ p.last_state_to_marg := by
    intro b
    rw [h, List.mem_filter]
    simp
  refine ⟨h, hiff, ?_⟩
  intro b hb
  have := ((hiff b).mp hb).2.1
  simp [marginalizedFrames, this]

/-- Witness of C27: the store `exObsStore` in the round of `exBefore`. -/
theorem C27_obs_to_lin_hosted_by_removed_witness :
    GraphSorted exObsStore.obs ∧
    buckets (obsToLin exPlan exObsStore) = (buckets exObsStore.obs).filter
      (fun b => decide (b.1.frame_id ∈ exPlan.kfs_to_marg) &&
        decide (b.2.1.frame_id ≤ exPlan.last_state_to_marg)) :=
  have hs : GraphSorted exObsStore.obs := by unfold GraphSorted; decide
  ⟨hs, (C27_obs_to_lin_hosted_by_removed exPlan exObsStore hs).1⟩

/-- C28: the damping members stay within their bounds. If
`0 < min_lambda <= max_lambda`, `min_lambda <= lambda <= max_lambda` and
`lambda_vee >= 2` hold before a Levenberg-Marquardt trial, they hold after
it. An accepted trial leaves `lambda = max(min_lambda, lambda / 3)` and
`lambda_vee = 2`, and after `k` rejected trials that follow it
`lambda_vee = 2^(k+1)`; a rejected trial leaves
`lambda = min(max_lambda, lambda_vee * lambda)`, which is not below the old
`lambda`, and doubles `lambda_vee`. -/
theorem C28_damping_stays_in_bounds (min_lambda max_lambda : ℚ) (accepted : Bool)
    (a b : ℚ × ℚ) (hbounds : DampingInBounds min_lambda max_lambda a)
    (h : TrialUpdate min_lambda max_lambda accepted a b) :
    DampingInBounds min_lambda max_lambda b ∧
    (accepted = true → b = (max min_lambda (a.1 / 3), 2) ∧
      ∀ l : List (ℚ × ℚ), List.Chain (TrialUpdate min_lambda max_lambda false) b l →
        ((b :: l).getLast (List.cons_ne_nil b l)).2 = 2 ^ (l.length + 1)) ∧
    (accepted = false → b = (min max_lambda (a.2 * a.1), a.2 * 2) ∧ a.1 ≤ b.1) := by
  obtain ⟨hb, hacc, hrej⟩ := dampingInBounds_step min_lambda max_lambda accepted a b hbounds h
  refine ⟨hb, ?_, ?_⟩
  · intro ht
    rcases trialUpdate_cases min_lambda max_lambda accepted a b h with ⟨_, hbe⟩ | ⟨hf, _⟩
    · refine ⟨hbe, ?_⟩
      intro l hl
      rw [rejections_chain min_lambda max_lambda l b hl, (hacc ht).1]
      ring
    · rw [ht] at hf; cases hf
  · intro hf
    rcases trialUpdate_cases min_lambda max_lambda accepted a b h with ⟨ht, _⟩ | ⟨_, hbe⟩
    · rw [hf] at ht; cases ht
    · exact ⟨hbe, (hrej hf).2⟩

/-- Witness of C28: with the bounds 1 and 100, the accepted trial of `exLoop`
takes `(lambda, lambda_vee) = (1, 2)` to `(1, 2)`, and the rejected trial
that follows takes it to `(2, 4)`: one rejection, `lambda_vee = 2^2`. -/
theorem C28_damping_stays_in_bounds_witness :
    DampingInBounds 1 100 (1, 2) ∧
    TrialUpdate 1 100 true (1, 2) (1, 2) ∧
    List.Chain (TrialUpdate 1 100 false) (1, 2) [(2, 4)] ∧
    DampingInBounds 1 100 (1, 2) ∧
    (([(1, 2), (2, 4)] : List (ℚ × ℚ)).getLast (List.cons_ne_nil _ _)).2 = 2 ^ (1 + 1) :=
  have hb : DampingInBounds 1 100 ((1, 2) : ℚ × ℚ) := by norm_num [DampingInBounds]
  have hacc : TrialUpdate 1 100 true (1, 2) (1, 2) :=
    ⟨exNumerics 2, exAom, exWindow, .num 2, [.num 4], exLoop, _, rfl, rfl, lmTrial_exLoop_equal, rfl, rfl⟩
  have hrej : List.Chain (TrialUpdate 1 100 false) (1, 2) [(2, 4)] :=
    List.Chain.cons
      ⟨exNumerics 3, exAom, exWindow, .num 2, [.num 4], exLoop, _, rfl, rfl, lmTrial_exLoop_higher, rfl, rfl⟩
      List.Chain.nil
  ⟨hb, hacc, hrej, (C28_damping_stays_in_bounds 1 100 true (1, 2) (1, 2) hb hacc).1,
    ((C28_damping_stays_in_bounds 1 100 true (1, 2) (1, 2) hb hacc).2.1 rfl).2 [(2, 4)] hrej⟩

/-- C30: when `rel_H` is symmetric by blocks (`rel_H(i,j) = rel_H(j,i)^T` for
all entries `i`, `j` of `rld.order`), the Hessian that a returning run of
`linearizeAbs` adds to an accumulator starting at zero is symmetric, for
every order map: its coefficient (r, c) equals its coefficient (c, r). The
run returns when all entries have one host, their frames are in the order
map and each has its pair of Jacobians. -/
theorem C30_linearizeAbs_keeps_symmetry (rel_H : Nat → Nat → ℚ) (rel_b : Nat → ℚ)
    (rld : RelLinDataBase) (aom : AbsOrderMap)
    (hsym : ∀ i j, i < rld.order.length → j < rld.order.length →
      block6 rel_H i j = Matrix.transpose (block6 rel_H j i)) :
    (∀ calls, linearizeAbs rel_H rel_b rld aom = .ok calls →
      ∀ r c, hessianOf calls r c = hessianOf calls c r) ∧
    (RelWellFormed rld aom → ∃ calls, linearizeAbs rel_H rel_b rld aom = .ok calls ∧
      ∀ r c, hessianOf calls r c = hessianOf calls c r) := by
  refine ⟨fun calls h r c => linearizeAbs_symmetric rel_H rel_b rld aom calls h hsym r c,
    fun hw => ?_⟩
  obtain ⟨calls, h⟩ := linearizeAbs_total rel_H rel_b rld aom hw
  exact ⟨calls, h, fun r c => linearizeAbs_symmetric rel_H rel_b rld aom calls h hsym r c⟩

/-- C30 on the example: `rel_H` is symmetric, the run returns and its Hessian
is symmetric; its coefficient (6, 6) is 36. -/
theorem C30_linearizeAbs_keeps_symmetry_witness :
    (∀ i j, i < exRld.order.length → j < exRld.order.length →
      block6 exRelH i j = Matrix.transpose (block6 exRelH j i)) ∧
    RelWellFormed exRld exAomRel ∧
    ∃ calls, linearizeAbs exRelH exRelB exRld exAomRel = .ok calls ∧
      ∀ r c, hessianOf calls r c = hessianOf calls c r :=
  ⟨fun i j _ _ => exRelH_symmetric i j, exRld_wellFormed,
    (C30_linearizeAbs_keeps_symmetry exRelH exRelB exRld exAomRel
      (fun i j _ _ => exRelH_symmetric i j)).2 exRld_wellFormed⟩
end Basalt
